import Mathlib

/-!
# EDM: nearest-neighbour prediction core

A shallow embedding of the distance engine (`distances.cpp`), the neighbour
selector, the Simplex / S-map predictors and the task assembly (`edm.cpp`) and the
manifold generator (`manifold.cpp`) of the EDM repository, with the properties proved
about them.

Numbers: the C++ `double` is modelled by an arbitrary linearly ordered field `K`
(exact arithmetic); the definitions are executable at `K = ℚ` and the theorems
hold at `K = ℝ`.  The library functions `sqrt` and `exp` and the Eigen solver are
passed as parameters.  Row and column indices (`int` in the source) are natural
numbers.
-/

namespace EDM

/-! ## Data model (`common.h`, `edm.h`) -/

/-- The sentinel `#define MISSING 1.0e+100` of `edm.h`. -/
def MISSING {K : Type} [LinearOrderedField K] : K := 10 ^ 100

/-- Return code `#define SUCCESS 0` of `common.h`. -/
def SUCCESS : Int := 0

/-- Return code `#define INSUFFICIENT_UNIQUE 503` of `common.h`. -/
def INSUFFICIENT_UNIQUE : Int := 503

/-- Return code `#define INVALID_ALGORITHM 400` of `common.h`. -/
def INVALID_ALGORITHM : Int := 400

/-- The `enum class Algorithm` of `common.h`. -/
inductive Algorithm where
  | Simplex
  | SMap
  deriving DecidableEq, Repr

/-- The `enum class Distance` of `common.h`. -/
inductive Distance where
  | MeanAbsoluteError
  | Euclidean
  | Wasserstein
  deriving DecidableEq, Repr

/-- The `enum class Metric` of `common.h`. -/
inductive Metric where
  | Diff
  | CheckSame
  deriving DecidableEq, Repr

/-- The `struct DistanceIndexPairs` of `common.h`: parallel index and distance arrays. -/
structure DistanceIndexPairs (K : Type) where
  inds : List Nat
  dists : List K

/-- The fields of `struct Options` (`common.h`) read by the distance engine and the
predictors. -/
structure Options (K : Type) where
  forceCompute : Bool
  saveSMAPCoeffs : Bool
  k : Int
  missingdistance : K
  panelMode : Bool
  idw : K
  thetas : List K
  algorithm : Algorithm
  distance : Distance
  metrics : List Metric
  saveKUsed : Bool

/-- The read interface of `class Manifold` used by the distance engine and the
predictors (its declaration, `manifold.h`, is not among the sources): `nobs()`,
`E_actual()`, the cell accessor `operator()(i, j)`, the target `y(i)` and `panel(i)`. -/
structure Manifold (K : Type) where
  nobs : Nat
  E_actual : Nat
  cell : Nat → Nat → K
  y : Nat → K
  panel : Nat → Int

/-! ## Neighbour selection (`edm.cpp`) -/

/-- The index vector filled by `std::iota(idx.begin(), idx.end(), 0)`. -/
def iota (n : Nat) : List Nat := List.range n

/-- Insertion step of `stable_sort`: `x`, which preceded every element of the sorted
list in the input, goes before the first element that is not strictly less than it. -/
def insertStable {α : Type} (lt : α → α → Bool) (x : α) : List α → List α
  | [] => [x]
  | y :: ys => if lt y x then y :: insertStable lt x ys else x :: y :: ys

/-- The library call `std::stable_sort(first, last, comp)`: sorts by the strict
comparator `lt`, keeping the input order of elements that compare equivalent. -/
def stable_sort {α : Type} (lt : α → α → Bool) : List α → List α
  | [] => []
  | x :: xs => insertStable lt x (stable_sort lt xs)

/-- Smallest element of `x :: l` under `lt`, the first one among equivalent ones. -/
def minBy {α : Type} (lt : α → α → Bool) (x : α) : List α → α
  | [] => x
  | y :: ys => minBy lt (if lt y x then y else x) ys

/-- The library call `std::partial_sort(first, first + k, last, comp)`: afterwards the
first `k` places hold the `k` smallest elements in sorted order; the order of the
remaining elements is unspecified by the standard (here: input order). -/
def partial_sort {α : Type} [DecidableEq α] (lt : α → α → Bool) : Nat → List α → List α
  | 0, l => l
  | _ + 1, [] => []
  | k + 1, x :: xs =>
    let m := minBy lt x xs
    m :: partial_sort lt k ((x :: xs).erase m)

/-- The function `kNearestNeighbours` of `edm.cpp`. -/
def kNearestNeighbours {K : Type} [LinearOrderedField K]
    (potentialNeighbours : DistanceIndexPairs K) (k : Nat) : DistanceIndexPairs K :=
  let idx := iota potentialNeighbours.inds.length
  let dists := fun i => potentialNeighbours.dists.getD i 0
  let idx :=
    if k ≥ idx.length / 2 then
      let comparator := fun i1 i2 => decide (dists i1 < dists i2)
      stable_sort comparator idx
    else
      let stableComparator := fun i1 i2 =>
        if dists i1 ≠ dists i2 then decide (dists i1 < dists i2) else decide (i1 < i2)
      partial_sort stableComparator k idx
  let kNNInds := (List.range k).map fun i => potentialNeighbours.inds.getD (idx.getD i 0) 0
  let kNNDists := (List.range k).map fun i => potentialNeighbours.dists.getD (idx.getD i 0) 0
  { inds := kNNInds, dists := kNNDists }

/-! ## Lp distance engine (`distances.cpp`) -/

/-- One pass of the body of the column loop of `lp_distances` after `dist_ij` is known:
`dist_i += abs(dist_ij) / M.E_actual()` for `MeanAbsoluteError`, otherwise
`dist_i += dist_ij * dist_ij`. -/
def lp_accumulate {K : Type} [LinearOrderedField K] (opts : Options K) (M : Manifold K)
    (dist_i dist_ij : K) : K :=
  if opts.distance = Distance.MeanAbsoluteError then
    dist_i + |dist_ij| / (M.E_actual : K)
  else
    dist_i + dist_ij * dist_ij

/-- The column loop `for (int j = 0; j < M.E_actual(); j++)` of `lp_distances`, run over
the remaining columns `js` with the running value `dist_i`; the `break` returns `MISSING`. -/
def lp_column_loop {K : Type} [LinearOrderedField K] (opts : Options K) (M Mp : Manifold K)
    (i Mp_i : Nat) : List Nat → K → K
  | [], dist_i => dist_i
  | j :: js, dist_i =>
    if M.cell i j = MISSING ∨ Mp.cell Mp_i j = MISSING then
      if opts.missingdistance = 0 then
        MISSING
      else
        lp_column_loop opts M Mp i Mp_i js (lp_accumulate opts M dist_i opts.missingdistance)
    else
      let dist_ij : K :=
        if opts.metrics.getD j Metric.Diff = Metric.Diff then
          M.cell i j - Mp.cell Mp_i j
        else if M.cell i j ≠ Mp.cell Mp_i j then 1 else 0
      lp_column_loop opts M Mp i Mp_i js (lp_accumulate opts M dist_i dist_ij)

/-- The value of `dist_i` at the end of the body of the candidate loop of `lp_distances`
(before the output test): panel penalty first, then the column loop. -/
def lp_dist_i {K : Type} [LinearOrderedField K] (opts : Options K) (M Mp : Manifold K)
    (Mp_i i : Nat) : K :=
  let dist_i : K := 0
  let dist_i : K :=
    if opts.panelMode ∧ opts.idw > 0 then
      dist_i + opts.idw * (if M.panel i ≠ Mp.panel Mp_i then 1 else 0)
    else dist_i
  lp_column_loop opts M Mp i Mp_i (List.range M.E_actual) dist_i

/-- The function `lp_distances` of `distances.cpp`; `sqrt` is the library square root. -/
def lp_distances {K : Type} [LinearOrderedField K] (sqrt : K → K) (Mp_i : Nat)
    (opts : Options K) (M Mp : Manifold K) (inpInds : List Nat) : DistanceIndexPairs K :=
  inpInds.foldl
    (fun out i =>
      let dist_i := lp_dist_i opts M Mp Mp_i i
      if dist_i ≠ 0 ∧ dist_i ≠ MISSING then
        { inds := out.inds ++ [i],
          dists := out.dists ++
            [if opts.distance = Distance.MeanAbsoluteError then dist_i else sqrt dist_i] }
      else out)
    { inds := [], dists := [] }

/-! ## Predictors (`edm.cpp`) -/

/-- The output buffers written by `make_prediction` and the predictors: the prediction
matrix `ystar(t, Mp_i)`, the status matrix `rc(t, Mp_i)`, the coefficient matrix
`coeffs(Mp_i, j)` and the slot `*kUsed` of the query row. -/
structure Buffers (K : Type) where
  ystar : Nat → Nat → K
  rc : Nat → Nat → Int
  coeffs : Nat → Nat → K
  kUsed : Int

/-- Assignment `m(r, c) = v` to one cell of a matrix view. -/
def setCell {β : Type} (m : Nat → Nat → β) (r c : Nat) (v : β) : Nat → Nat → β :=
  fun r' c' => if r' = r ∧ c' = c then v else m r' c'

/-- The library call `*std::min_element(first, last)`: the smallest element (the source
never calls it on an empty range; `0` stands there). -/
def min_element {K : Type} [LinearOrderedField K] : List K → K
  | [] => 0
  | d :: ds => ds.foldl (fun m x => if x < m then x else m) d

/-- The weight `w[j] = exp(-theta * (dists[j] / minDist))` of `simplex_prediction`. -/
def simplex_weight {K : Type} [LinearOrderedField K] (exp : K → K) (theta : K)
    (dists : List K) (j : Nat) : K :=
  exp (-theta * (dists.getD j 0 / min_element dists))

/-- The function `simplex_prediction` of `edm.cpp`; `exp` is the library exponential. -/
def simplex_prediction {K : Type} [LinearOrderedField K] (exp : K → K) (Mp_i t : Nat)
    (opts : Options K) (M : Manifold K) (dists : List K) (kNNInds : List Nat)
    (out : Buffers K) : Buffers K :=
  let k := kNNInds.length
  let theta := opts.thetas.getD t 0
  let w := simplex_weight exp theta dists
  let acc : K × Int := (List.range k).foldl
    (fun acc j => (acc.1 + w j, acc.2 + (if w j > 0 then 1 else 0))) (0, 0)
  let sumw := acc.1
  let numNonZeroWeights := acc.2
  let kUsed := if opts.saveKUsed then numNonZeroWeights else out.kUsed
  let r : K := (List.range k).foldl
    (fun r j => r + M.y (kNNInds.getD j 0) * (w j / sumw)) 0
  { out with
    ystar := setCell out.ystar t Mp_i r
    rc := setCell out.rc t Mp_i SUCCESS
    kUsed := kUsed }

/-- Width of `size_t`: `thetas.size() - 1` is computed modulo this. -/
def SIZE_MOD : Nat := 2 ^ 64

/-- Entry `ics(j)` of a coefficient vector of length `n`, read at a natural index. -/
def icsAt {K : Type} [LinearOrderedField K] {n : Nat} (ics : Fin n → K) (j : Nat) : K :=
  if h : j < n then ics ⟨j, h⟩ else 0

/-- The weighted design matrix `X_ls_cj` of `smap_prediction` after
`X_ls_cj.array().colwise() *= w.array()`: row `r` is `w(r) * [1, M(kNNInds[r], .)]`. -/
def smap_design {K : Type} [LinearOrderedField K] (M : Manifold K) (kNNInds : List Nat)
    (w : Nat → K) : Matrix (Fin kNNInds.length) (Fin (M.E_actual + 1)) K :=
  fun r c => (if c.val = 0 then 1 else M.cell (kNNInds.getD r.val 0) (c.val - 1)) * w r.val

/-- The weight vector `w = exp(-theta * (dists / dists.mean()))` of `smap_prediction`. -/
def smap_weight {K : Type} [LinearOrderedField K] (exp : K → K) (theta : K)
    (dists : List K) (j : Nat) : K :=
  exp (-theta * (dists.getD j 0 / (dists.sum / (dists.length : K))))

/-- The coefficient vector `ics = svd.solve(X^T * y_ls)` of `smap_prediction`, where `svd`
decomposes `X^T * X`; `solve` is the Eigen `BDCSVD` solver. -/
def smap_ics {K : Type} [LinearOrderedField K] (exp : K → K)
    (solve : (n : Nat) → Matrix (Fin n) (Fin n) K → (Fin n → K) → (Fin n → K))
    (t : Nat) (opts : Options K) (M : Manifold K) (dists : List K) (kNNInds : List Nat) :
    Fin (M.E_actual + 1) → K :=
  let w := smap_weight exp (opts.thetas.getD t 0) dists
  let X_ls_cj := smap_design M kNNInds w
  let y_ls : Fin kNNInds.length → K := fun r => M.y (kNNInds.getD r.val 0) * w r.val
  solve (M.E_actual + 1) (X_ls_cj.transpose * X_ls_cj) (X_ls_cj.transpose.mulVec y_ls)

/-- The prediction loop of `smap_prediction`: `r = ics(0)`, then
`r += Mp(Mp_i, j) * ics(j + 1)` for every column whose query cell is not `MISSING`. -/
def smap_predict {K : Type} [LinearOrderedField K] (Mp : Manifold K) (Mp_i : Nat)
    (E_actual : Nat) (ics : Nat → K) : K :=
  (List.range E_actual).foldl
    (fun r j => if Mp.cell Mp_i j ≠ MISSING then r + Mp.cell Mp_i j * ics (j + 1) else r)
    (ics 0)

/-- The coefficient-saving loop of `smap_prediction`:
`coeffs(Mp_i, j) = (ics(j) == 0.) ? MISSING : ics(j)` for `j < M.E_actual() + 1`. -/
def smap_save_coeffs {K : Type} [LinearOrderedField K] (Mp_i : Nat) (E_actual : Nat)
    (ics : Nat → K) (coeffs : Nat → Nat → K) : Nat → Nat → K :=
  (List.range (E_actual + 1)).foldl
    (fun coeffs j =>
      if ics j = 0 then setCell coeffs Mp_i j MISSING else setCell coeffs Mp_i j (ics j))
    coeffs

/-- The function `smap_prediction` of `edm.cpp`; `exp` is the library exponential and
`solve` the Eigen `BDCSVD` solver. -/
def smap_prediction {K : Type} [LinearOrderedField K] (exp : K → K)
    (solve : (n : Nat) → Matrix (Fin n) (Fin n) K → (Fin n → K) → (Fin n → K))
    (Mp_i t : Nat) (opts : Options K) (M Mp : Manifold K) (dists : List K)
    (kNNInds : List Nat) (out : Buffers K) : Buffers K :=
  let k := kNNInds.length
  let w := smap_weight exp (opts.thetas.getD t 0) dists
  let kUsed : Int :=
    if opts.saveKUsed then
      (List.range k).foldl (fun n j => if w j > 0 then n + 1 else n) 0
    else out.kUsed
  let ics := icsAt (smap_ics exp solve t opts M dists kNNInds)
  let r := smap_predict Mp Mp_i M.E_actual ics
  let coeffs :=
    if opts.saveSMAPCoeffs ∧ t % SIZE_MOD = (opts.thetas.length + SIZE_MOD - 1) % SIZE_MOD then
      smap_save_coeffs Mp_i M.E_actual ics out.coeffs
    else out.coeffs
  { ystar := setCell out.ystar t Mp_i r
    rc := setCell out.rc t Mp_i SUCCESS
    coeffs := coeffs
    kUsed := kUsed }

/-! ## Per-point prediction (`edm.cpp`) -/

/-- Modelled from the spec: `Manifold::any_missing(i)`, declared in `manifold.h`, which is
not among the sources: row `i` of the manifold has at least one `MISSING` cell. -/
def Manifold.any_missing {K : Type} [LinearOrderedField K] (M : Manifold K) (i : Nat) : Bool :=
  (List.range M.E_actual).any fun j => decide (M.cell i j = MISSING)

/-- The function `potential_neighbour_indices` of `edm.cpp`. -/
def potential_neighbour_indices {K : Type} [LinearOrderedField K] (Mp_i : Nat)
    (opts : Options K) (M Mp : Manifold K) : List Nat :=
  let skipOtherPanels : Bool := opts.panelMode && decide (opts.idw < 0)
  let skipMissingData : Bool := decide (opts.algorithm = Algorithm.SMap)
  (List.range M.nobs).foldl
    (fun inds i =>
      if skipOtherPanels = true ∧ M.panel i ≠ Mp.panel Mp_i then inds
      else if skipMissingData = true ∧ M.any_missing i = true then inds
      else inds ++ [i])
    []

/-- The buffers as `edm_task` allocates them before the points are predicted: `ystar` and
`coeffs` filled with `MISSING`, `rc` value-initialised by `std::make_unique<retcode[]>`
(all `0`), every `kUsed` slot `-1`. -/
def edm_task_buffers {K : Type} [LinearOrderedField K] : Buffers K :=
  { ystar := fun _ _ => MISSING, rc := fun _ _ => 0, coeffs := fun _ _ => MISSING, kUsed := -1 }

/-- The candidate distances `potentialNN` of `make_prediction`: `wasserstein_distances` for
the Wasserstein distance (passed as a parameter), `lp_distances` otherwise, both run on
`potential_neighbour_indices`. -/
def potentialNN {K : Type} [LinearOrderedField K] (sqrt : K → K)
    (wasserstein_distances :
      Nat → Options K → Manifold K → Manifold K → List Nat → DistanceIndexPairs K)
    (Mp_i : Nat) (opts : Options K) (M Mp : Manifold K) : DistanceIndexPairs K :=
  let tryInds := potential_neighbour_indices Mp_i opts M Mp
  if opts.distance = Distance.Wasserstein then wasserstein_distances Mp_i opts M Mp tryInds
  else lp_distances sqrt Mp_i opts M Mp tryInds

/-- How the first part of `make_prediction` (up to the last `keep_going` poll) ends: it has
returned, leaving the buffers `out`, or it goes on to the predictors with the neighbour
set `kNNs`. -/
inductive Selection (K : Type) where
  | stopped (out : Buffers K)
  | neighbours (kNNs : DistanceIndexPairs K) (out : Buffers K)

/-- The part of `make_prediction` after `k` is final: the `k == 0` return, the choice of
`kNNs` and the last `keep_going` poll. -/
def make_prediction_kNNs {K : Type} [LinearOrderedField K] (Mp_i : Nat) (k : Int)
    (potentialNN : DistanceIndexPairs K) (out : Buffers K) (keep_going : Nat → Bool) :
    Selection K :=
  if k = 0 then
    Selection.stopped { out with rc := setCell out.rc 0 Mp_i SUCCESS }
  else
    let kNNs :=
      if k < 0 ∨ k = (potentialNN.inds.length : Int) then potentialNN
      else kNearestNeighbours potentialNN k.toNat
    if keep_going 2 = false then Selection.stopped out
    else Selection.neighbours kNNs out

/-- The first part of `make_prediction` (`edm.cpp`), up to the call of the predictors.
`keep_going n` is the answer of the `n`-th poll of the cancellation callback (a null
callback never answers `false`). -/
def make_prediction_select {K : Type} [LinearOrderedField K] (sqrt : K → K)
    (wasserstein_distances :
      Nat → Options K → Manifold K → Manifold K → List Nat → DistanceIndexPairs K)
    (Mp_i : Nat) (opts : Options K) (M Mp : Manifold K) (out : Buffers K)
    (keep_going : Nat → Bool) : Selection K :=
  if keep_going 0 = false then Selection.stopped out
  else
    let potentialNN := potentialNN sqrt wasserstein_distances Mp_i opts M Mp
    if keep_going 1 = false then Selection.stopped out
    else
      let numValidDistances : Int := (potentialNN.inds.length : Int)
      let k := opts.k
      let out := { out with kUsed := numValidDistances }
      if k > numValidDistances then
        if opts.forceCompute = true then
          let k := numValidDistances
          if k = 0 then Selection.stopped out
          else make_prediction_kNNs Mp_i k potentialNN out keep_going
        else
          Selection.stopped { out with rc := setCell out.rc 0 Mp_i INSUFFICIENT_UNIQUE }
      else make_prediction_kNNs Mp_i k potentialNN out keep_going

/-- The second part of `make_prediction`: the predictor of the chosen algorithm is called
once per theta, in order (the final `else`, which stores `INVALID_ALGORITHM`, is not
reachable: `Algorithm` has no third value). -/
def make_prediction_predict {K : Type} [LinearOrderedField K] (exp : K → K)
    (solve : (n : Nat) → Matrix (Fin n) (Fin n) K → (Fin n → K) → (Fin n → K))
    (Mp_i : Nat) (opts : Options K) (M Mp : Manifold K) (kNNs : DistanceIndexPairs K)
    (out : Buffers K) : Buffers K :=
  match opts.algorithm with
  | Algorithm.Simplex =>
    (List.range opts.thetas.length).foldl
      (fun out t => simplex_prediction exp Mp_i t opts M kNNs.dists kNNs.inds out) out
  | Algorithm.SMap =>
    (List.range opts.thetas.length).foldl
      (fun out t => smap_prediction exp solve Mp_i t opts M Mp kNNs.dists kNNs.inds out) out

/-- The function `make_prediction` of `edm.cpp`. -/
def make_prediction {K : Type} [LinearOrderedField K] (sqrt exp : K → K)
    (solve : (n : Nat) → Matrix (Fin n) (Fin n) K → (Fin n → K) → (Fin n → K))
    (wasserstein_distances :
      Nat → Options K → Manifold K → Manifold K → List Nat → DistanceIndexPairs K)
    (Mp_i : Nat) (opts : Options K) (M Mp : Manifold K) (out : Buffers K)
    (keep_going : Nat → Bool) : Buffers K :=
  match make_prediction_select sqrt wasserstein_distances Mp_i opts M Mp out keep_going with
  | Selection.stopped out => out
  | Selection.neighbours kNNs out => make_prediction_predict exp solve Mp_i opts M Mp kNNs out

/-! ## Manifold generator (`manifold.cpp`) -/

/-- The members of `class ManifoldGenerator` read by `manifold.cpp` (the class is declared
in `manifold.h`, which is not among the sources).  `_discrete_time` and `_panel_ids` hold
`int`s, the other vectors `double`s; `E_dt` is the method `E_dt(E)`, whose body is not
among the sources. -/
structure ManifoldGenerator (K : Type) where
  _tau : Int
  _p : Int
  _missing : K
  _num_extras : Nat
  _num_extras_lagged : Nat
  _dtWeight : K
  _x : List K
  _y : List K
  _co_x : List K
  _t : List K
  _discrete_time : List Int
  _extras : List (List K)
  _panel_ids : List Int
  E_dt : Nat → Nat

/-- Modelled from the spec: `ManifoldGenerator::numExtrasLagged()`, declared in
`manifold.h`, which is not among the sources: the number of lagged extras. -/
def ManifoldGenerator.numExtrasLagged {K : Type} (g : ManifoldGenerator K) : Nat :=
  g._num_extras_lagged

/-- Modelled from the spec: `ManifoldGenerator::E_extras(E)`, declared in `manifold.h`,
which is not among the sources: `E` columns for every lagged extra and one column for
every unlagged extra. -/
def ManifoldGenerator.E_extras {K : Type} (g : ManifoldGenerator K) (E : Nat) : Nat :=
  E * g._num_extras_lagged + (g._num_extras - g._num_extras_lagged)

/-- Modelled from the spec: `ManifoldGenerator::E_actual(E)`, declared in `manifold.h`,
which is not among the sources: `E_actual = E + E_dt + E_extras`. -/
def ManifoldGenerator.E_actual {K : Type} (g : ManifoldGenerator K) (E : Nat) : Nat :=
  E + g.E_dt E + g.E_extras E

/-- Element `vec[k]` of a vector of `double`s at an `int` index (an index outside the
vector, undefined in the source, reads `0`). -/
def vecAt {K : Type} [LinearOrderedField K] (vec : List K) (k : Int) : K :=
  vec.getD k.toNat 0

/-- Element `vec[k]` of a vector of `int`s at an `int` index (an index outside the vector,
undefined in the source, reads `0`). -/
def intAt (vec : List Int) (k : Int) : Int :=
  vec.getD k.toNat 0

/-- The `while` loop of `search_discrete_time`, run for at most `fuel` iterations from
index `k`: the result is the returned flag and the final value of the reference
parameter `k`. -/
def search_loop {K : Type} [LinearOrderedField K] (g : ManifoldGenerator K)
    (target direction panel : Int) : Nat → Int → Bool × Int
  | 0, k => (false, k)
  | fuel + 1, k =>
    if 0 ≤ k ∧ k < (g._discrete_time.length : Int) then
      if g._panel_ids.length > 0 ∧ panel ≠ intAt g._panel_ids k then (false, k)
      else if ((intAt g._discrete_time k : Int) : K) = g._missing then
        search_loop g target direction panel fuel (k + direction)
      else if intAt g._discrete_time k = target then (true, k)
      else if direction > 0 ∧ intAt g._discrete_time k > target then (false, k)
      else if direction < 0 ∧ intAt g._discrete_time k < target then (false, k)
      else search_loop g target direction panel fuel (k + direction)
    else (false, k)

/-- The function `ManifoldGenerator::search_discrete_time` of `manifold.cpp`.  The loop
leaves the index range after at most `_discrete_time.size()` steps in a direction `1` or
`-1`, so `_discrete_time.size() + 1` iterations are enough. -/
def search_discrete_time {K : Type} [LinearOrderedField K] (g : ManifoldGenerator K)
    (target k direction panel : Int) : Bool × Int :=
  search_loop g target direction panel (g._discrete_time.length + 1) k

/-- The loop `for (int j = 1; j < E; j++)` of `get_lagged_indices` with `n` lags left to
search, `j` the current lag and `k` the carried search index: the entries
`laggedIndices[j], ..., laggedIndices[j + n - 1]` (`-1` where the search failed). -/
def lagged_loop {K : Type} [LinearOrderedField K] (g : ManifoldGenerator K)
    (pointStartDiscreteTime panel : Int) : Nat → Nat → Int → List Int
  | 0, _, _ => []
  | n + 1, j, k =>
    let target := pointStartDiscreteTime - (j : Int) * g._tau
    let found := search_discrete_time g target k (-1) panel
    (if found.1 = true then found.2 else -1) ::
      lagged_loop g pointStartDiscreteTime panel n (j + 1) found.2

/-- The function `ManifoldGenerator::get_lagged_indices` of `manifold.cpp` (for `E = 0` the
source writes `laggedIndices[0]` into an empty vector; the empty list stands there). -/
def get_lagged_indices {K : Type} [LinearOrderedField K] (g : ManifoldGenerator K)
    (_i : Nat) (startIndex : Nat) (E : Nat) (panel : Int) : List Int :=
  match E with
  | 0 => []
  | n + 1 =>
    (startIndex : Int) ::
      lagged_loop g (intAt g._discrete_time startIndex) panel n 1 ((startIndex : Int) - 1)

/-- The lambda `lookup_vec` of `create_manifold`: `missing` for an unresolved lag, else
the element of `vec` at the lagged index (a lag `j` outside `laggedIndices`, undefined in
the source, counts as unresolved). -/
def lookup_vec {K : Type} [LinearOrderedField K] (laggedIndices : List Int) (missing : K)
    (vec : List K) (j : Nat) : K :=
  if laggedIndices.getD j (-1) < 0 then missing else vecAt vec (laggedIndices.getD j (-1))

/-- The first time-lag cell written by `create_manifold` (column `E + 0`). -/
def dt_first {K : Type} [LinearOrderedField K] (g : ManifoldGenerator K)
    (laggedIndices : List Int) (startIndex : Nat) (panel : Int) : K :=
  if g._p = 0 then 0
  else
    let tNow := lookup_vec laggedIndices g._missing g._t 0
    let k : Int := startIndex
    let target := intAt g._discrete_time k + g._p
    let direction : Int := if g._p > 0 then 1 else -1
    let found := search_discrete_time g target k direction panel
    if tNow ≠ g._missing ∧ found.1 = true then
      let tPred := vecAt g._t found.2
      g._dtWeight * (tPred - tNow)
    else g._missing

/-- The time-lag cell written by `create_manifold` in column `E + j` for `j ≥ 1`. -/
def dt_later {K : Type} [LinearOrderedField K] (g : ManifoldGenerator K)
    (laggedIndices : List Int) (j : Nat) : K :=
  let tNext := lookup_vec laggedIndices g._missing g._t (j - 1)
  let tNow := lookup_vec laggedIndices g._missing g._t j
  if tNext ≠ g._missing ∧ tNow ≠ g._missing then g._dtWeight * (tNext - tNow)
  else g._missing

/-- The cells `flat[M_i * E_actual(E) + c]` written by one pass of the row loop of
`create_manifold`, in column order: the lagged embedding of `_x` (or `_co_x`), the
time-lag columns, the extras. -/
def manifold_row {K : Type} [LinearOrderedField K] (g : ManifoldGenerator K) (E : Nat)
    (copredict prediction : Bool) (i startIndex : Nat) (panel : Int) : List K :=
  let laggedIndices := get_lagged_indices g i startIndex E panel
  let xs := (List.range E).map fun j =>
    if prediction = true ∧ copredict = true then lookup_vec laggedIndices g._missing g._co_x j
    else lookup_vec laggedIndices g._missing g._x j
  let dts :=
    if g.E_dt E > 0 then
      dt_first g laggedIndices startIndex panel ::
        (List.range' 1 (g.E_dt E - 1)).map fun j => dt_later g laggedIndices j
    else []
  let extras := (List.range g._num_extras).flatMap fun k =>
    let numLags := if k < g._num_extras_lagged then E else 1
    (List.range numLags).map fun j =>
      lookup_vec laggedIndices g._missing (g._extras.getD k []) j
  xs ++ dts ++ extras

/-- The arguments of the `Manifold` constructor call that ends `create_manifold`; `flat`
is kept row by row (rows `0, ..., nobs - 1`). -/
structure ManifoldData (K : Type) where
  flat : List (List K)
  y : List K
  panelIDs : List Int
  nobs : Nat
  E : Nat
  E_dt : Nat
  E_extras : Nat
  E_lagged_extras : Nat
  E_actual : Nat
  missing : K

/-- The filter loop of `create_manifold`: `pointNumToStartIndex`, `y` and `panelIDs`. -/
def create_manifold_points {K : Type} [LinearOrderedField K] (g : ManifoldGenerator K)
    (filter : List Bool) : List Nat × List K × List Int :=
  (List.range filter.length).foldl
    (fun st i =>
      if filter.getD i false = true then
        (st.1 ++ [i], st.2.1 ++ [g._y.getD i 0],
          if g._panel_ids.length > 0 then st.2.2 ++ [g._panel_ids.getD i 0] else st.2.2)
      else st)
    ([], [], [])

/-- One pass of the row loop of `create_manifold` for point `i`; the state is the rows
written so far (`M_i` of them), `y` and `panelIDs`. -/
def create_manifold_step {K : Type} [LinearOrderedField K] (g : ManifoldGenerator K)
    (E : Nat) (copredict prediction skipMissing : Bool) (pointNumToStartIndex : List Nat)
    (st : List (List K) × List K × List Int) (i : Nat) : List (List K) × List K × List Int :=
  let panelMode := g._panel_ids.length > 0
  let M_i := st.1.length
  let panel : Int := if panelMode then st.2.2.getD i 0 else -1
  let row := manifold_row g E copredict prediction i (pointNumToStartIndex.getD i 0) panel
  let foundMissing := (row.take (g.E_actual E)).any fun c => decide (c = g._missing)
  if skipMissing = true ∧ foundMissing = true then
    (st.1, st.2.1.eraseIdx M_i, if panelMode then st.2.2.eraseIdx M_i else st.2.2)
  else (st.1 ++ [row], st.2.1, st.2.2)

/-- The function `ManifoldGenerator::create_manifold` of `manifold.cpp`. -/
def create_manifold {K : Type} [LinearOrderedField K] (g : ManifoldGenerator K) (E : Nat)
    (filter : List Bool) (copredict prediction skipMissing : Bool) : ManifoldData K :=
  let points := create_manifold_points g filter
  let nobs := points.1.length
  let st := (List.range nobs).foldl
    (create_manifold_step g E copredict prediction skipMissing points.1)
    ([], points.2.1, points.2.2)
  { flat := st.1, y := st.2.1, panelIDs := st.2.2, nobs := st.1.length, E := E,
    E_dt := g.E_dt E, E_extras := g.E_extras E, E_lagged_extras := E * g.numExtrasLagged,
    E_actual := g.E_actual E, missing := g._missing }


/-! ## The unstable neighbour selector (`edm.cpp`) -/

/-- The function `kNearestNeighboursUnstable` of `edm.cpp`.  The library call
`std::nth_element(first, first + k, last, comp)` is the parameter `nth_element`: the
standard fixes the rearrangement it produces only up to its postcondition. -/
def kNearestNeighboursUnstable {K : Type} [LinearOrderedField K]
    (nth_element : (Nat → Nat → Bool) → Nat → List Nat → List Nat)
    (potentialNeighbours : DistanceIndexPairs K) (k : Nat) : DistanceIndexPairs K :=
  let indsToPartition := iota potentialNeighbours.inds.length
  let dists := fun i => potentialNeighbours.dists.getD i 0
  let comparator := fun i1 i2 => decide (dists i1 < dists i2)
  let indsToPartition := nth_element comparator k indsToPartition
  let kNNInds :=
    (List.range k).map fun i => potentialNeighbours.inds.getD (indsToPartition.getD i 0) 0
  let kNNDists :=
    (List.range k).map fun i => potentialNeighbours.dists.getD (indsToPartition.getD i 0) 0
  { inds := kNNInds, dists := kNNDists }

/-! ## Time unit and usable rows (`manifold.cpp`) -/

/-- Conversion of an integer value to `int` (32 bits, two's complement). -/
def toInt32 (x : Int) : Int := (x + 2 ^ 31) % 2 ^ 32 - 2 ^ 31

/-- The conversion `(int)x` of a `double` to the 32-bit `int`: truncation towards zero when
the truncated value lies in the range of `int`.  For a value outside the range the
conversion is undefined in C++; the conversion instruction of x86-64 then gives
`INT_MIN = -2^31`, which is the value taken here. -/
def toInt {K : Type} [LinearOrderedField K] [FloorRing K] (x : K) : Int :=
  let z : Int := if 0 ≤ x then ⌊x⌋ else ⌈x⌉
  if -2 ^ 31 ≤ z ∧ z < 2 ^ 31 then z else -2 ^ 31

/-- The `for` loop of `find_time_unit` over the remaining indices `i`, with the running
value of the `int` variable `unit`; the `break` ends the loop with the current value.
`std::gcd` works on the absolute values of its arguments and its result is converted to
`int`. -/
def find_time_unit_loop {K : Type} [LinearOrderedField K] [FloorRing K]
    (g : ManifoldGenerator K) : List Nat → Int → Int
  | [], unit => unit
  | i :: rest, unit =>
    let timeDiff := g._t.getD i 0 - g._t.getD (i - 1) 0
    if timeDiff ≤ 0 ∨ g._t.getD i 0 = g._missing ∨ g._t.getD (i - 1) 0 = g._missing then
      find_time_unit_loop g rest unit
    else if unit < 0 then
      find_time_unit_loop g rest (toInt timeDiff)
    else
      let unit : Int := toInt32 (Int.gcd (toInt timeDiff) unit)
      if unit = 1 then unit
      else find_time_unit_loop g rest unit

/-- The function `ManifoldGenerator::find_time_unit` of `manifold.cpp`; the result is the
`int` value of `unit` (the source returns it converted to `double`). -/
def find_time_unit {K : Type} [LinearOrderedField K] [FloorRing K]
    (g : ManifoldGenerator K) : Int :=
  find_time_unit_loop g (List.range' 1 (g._t.length - 1)) (-1)

/-- Modelled from the spec: `Manifold::any_missing(i)`, declared in `manifold.h`, which is
not among the sources, on the manifold built from the data of `create_manifold`: row `i`
has at least one cell equal to the missing value. -/
def ManifoldData.any_missing {K : Type} [LinearOrderedField K] (M : ManifoldData K)
    (i : Nat) : Bool :=
  (M.flat.getD i []).any fun c => decide (c = M.missing)

/-- Modelled from the spec: `Manifold::any_not_missing(i)`, declared in `manifold.h`, which
is not among the sources: row `i` has at least one cell that is not the missing value. -/
def ManifoldData.any_not_missing {K : Type} [LinearOrderedField K] (M : ManifoldData K)
    (i : Nat) : Bool :=
  (M.flat.getD i []).any fun c => decide (c ≠ M.missing)

/-- The function `ManifoldGenerator::generate_usable` of `manifold.cpp`. -/
def generate_usable {K : Type} [LinearOrderedField K] (g : ManifoldGenerator K)
    (touse : List Bool) (maxE : Nat) (allowMissing : Bool) : List Bool :=
  let allTrue := List.replicate touse.length true
  let M := create_manifold g maxE allTrue false false false
  (List.range touse.length).map fun i =>
    if allowMissing = true then
      touse.getD i false && M.any_not_missing i && decide (M.y.getD i 0 ≠ g._missing)
    else
      touse.getD i false && !M.any_missing i && decide (M.y.getD i 0 ≠ g._missing)

/-! ## Wasserstein cost matrix (`distances.cpp`) -/

/-- The read interface of `class Manifold` used by `wasserstein_cost_matrix` (its
declaration, `manifold.h`, is not among the sources): `E()`, `E_extras()`,
`E_lagged_extras()`, `missing()`, the unlagged extras `unlagged_extras(i, e)` and the
matrix `laggedObsMap(i)` of the lagged observations of row `i`, which has one row per
lagged variable (`laggedRows` of them) and one column per time point (`E()` of them);
`laggedObs i k n` is its entry `(k, n)`. -/
structure LaggedManifold (K : Type) where
  E : Nat
  E_extras : Nat
  E_lagged_extras : Nat
  missing : K
  laggedRows : Nat
  laggedObs : Nat → Nat → Nat → K
  unlagged_extras : Nat → Nat → K

/-- Entry `nn` of `(M_i.array() == M.missing()).colwise().any()`: some lagged variable
is missing at time point `nn` of row `i`. -/
def LaggedManifold.colMissing {K : Type} [LinearOrderedField K] (M : LaggedManifold K)
    (i nn : Nat) : Bool :=
  (List.range M.laggedRows).any fun k => decide (M.laggedObs i k nn = M.missing)

/-- The value `M_i_missing.sum()`: the number of time points of row `i` at which some
lagged variable is missing. -/
def LaggedManifold.numMissing {K : Type} [LinearOrderedField K] (M : LaggedManifold K)
    (i : Nat) : Nat :=
  ((List.range M.E).filter fun nn => M.colMissing i nn).length

/-- The result of `wasserstein_cost_matrix`: the cost matrix, addressed as
`costMatrix(n, m)`, and the reference parameters `len_i` and `len_j` (its numbers of
rows and columns).  A cell outside `len_i × len_j`, whose access is undefined in the
source, is a cell of its own here. -/
structure CostMatrix (K : Type) where
  cost : Nat → Nat → K
  len_i : Nat
  len_j : Nat

/-- The update `m(r, c) += v` of one cell of a matrix view. -/
def addCell {K : Type} [LinearOrderedField K] (m : Nat → Nat → K) (r c : Nat) (v : K) :
    Nat → Nat → K :=
  fun r' c' => if r' = r ∧ c' = c then m r' c' + v else m r' c'

/-- The value `unlaggedDist` of `wasserstein_cost_matrix`: the loop over the unlagged
extras. -/
def wasserstein_unlagged {K : Type} [LinearOrderedField K] (M Mp : LaggedManifold K)
    (i j : Nat) (opts : Options K) (timeSeriesDim : Nat) : K :=
  (List.range (M.E_extras - M.E_lagged_extras)).foldl
    (fun unlaggedDist e =>
      let x := M.unlagged_extras i e
      let y := Mp.unlagged_extras j e
      if x = M.missing ∨ y = M.missing then unlaggedDist + opts.missingdistance
      else if opts.metrics.getD (timeSeriesDim + e) Metric.Diff = Metric.Diff then
        unlaggedDist + |x - y|
      else unlaggedDist + (if x ≠ y then 1 else 0))
    0

/-- The value `dist` added to the cost matrix for the variable `k` and the time points
`nn` of `M(i, .)` and `mm` of `Mp(j, .)`. -/
def wasserstein_dist {K : Type} [LinearOrderedField K] (M Mp : LaggedManifold K)
    (i j : Nat) (gamma : K) (opts : Options K) (k nn mm : Nat) : K :=
  let dist : K :=
    if M.colMissing i nn = true ∨ Mp.colMissing j mm = true then opts.missingdistance
    else if opts.metrics.getD k Metric.Diff = Metric.Diff then
      |M.laggedObs i k nn - Mp.laggedObs j k mm|
    else if M.laggedObs i k nn ≠ Mp.laggedObs j k mm then 1 else 0
  if k = 0 then dist + gamma * ((Int.natAbs ((nn : Int) - (mm : Int)) : Nat) : K) else dist

/-- The innermost loop `for (int mm = nn; mm < Mp_j.cols(); mm++)` of
`wasserstein_cost_matrix`; the state is the cost matrix and the counter `m`, which
starts at `0`. -/
def wasserstein_inner {K : Type} [LinearOrderedField K] (M Mp : LaggedManifold K)
    (i j : Nat) (gamma : K) (opts : Options K) (skipMissing : Bool) (k n nn : Nat)
    (costMatrix : Nat → Nat → K) : (Nat → Nat → K) × Nat :=
  (List.range' nn (Mp.E - nn)).foldl
    (fun st mm =>
      if skipMissing = true ∧ (M.colMissing i nn = true ∨ Mp.colMissing j mm = true) then st
      else
        let dist := wasserstein_dist M Mp i j gamma opts k nn mm
        let m := st.2
        let costMatrix := addCell st.1 n m dist
        let costMatrix := if n ≠ m then addCell costMatrix m n dist else costMatrix
        (costMatrix, m + 1))
    (costMatrix, 0)

/-- The loop `for (int nn = 0; nn < M_i.cols(); nn++)` of `wasserstein_cost_matrix` for
the variable `k`; the state is the cost matrix and the counter `n`. -/
def wasserstein_middle {K : Type} [LinearOrderedField K] (M Mp : LaggedManifold K)
    (i j : Nat) (gamma : K) (opts : Options K) (skipMissing : Bool) (k : Nat)
    (costMatrix : Nat → Nat → K) : Nat → Nat → K :=
  ((List.range M.E).foldl
    (fun st nn =>
      ((wasserstein_inner M Mp i j gamma opts skipMissing k st.2 nn st.1).1, st.2 + 1))
    (costMatrix, 0)).1

/-- The function `wasserstein_cost_matrix` of `distances.cpp`. -/
def wasserstein_cost_matrix {K : Type} [LinearOrderedField K] (M Mp : LaggedManifold K)
    (i j : Nat) (gamma : K) (opts : Options K) : CostMatrix K :=
  let skipMissing : Bool := decide (opts.missingdistance = 0)
  let len_i := if skipMissing = true then M.E - M.numMissing i else M.E
  let len_j := if skipMissing = true then Mp.E - Mp.numMissing j else Mp.E
  let timeSeriesDim := M.laggedRows
  let unlaggedDist := wasserstein_unlagged M Mp i j opts timeSeriesDim
  let costMatrix : Nat → Nat → K := fun _ _ => unlaggedDist
  let costMatrix := (List.range timeSeriesDim).foldl
    (fun costMatrix k => wasserstein_middle M Mp i j gamma opts skipMissing k costMatrix)
    costMatrix
  { cost := costMatrix, len_i := len_i, len_j := len_j }

/-! ## Task assembly (`edm.cpp`) -/

/-- The `struct PredictionStats` as `edm_task` fills it. -/
structure PredictionStats (K : Type) where
  mae : K
  rho : K
  taskNum : Int
  calcRhoMAE : Bool

/-- The `struct Prediction` of `common.h`; a null `unique_ptr` is `none`. -/
structure Prediction (K : Type) where
  rc : Int
  numThetas : Nat
  numPredictions : Nat
  numCoeffCols : Nat
  ystar : Option (List K)
  coeffs : Option (List K)
  stats : List (PredictionStats K)
  predictionRows : List Bool
  kUsed : List Int
  cmdLine : String
  copredict : Bool
  configNum : Int

/-- The fields of `struct Options` (`common.h`) that only `edm_task` reads, when it
assembles its result. -/
structure TaskOptions where
  copredict : Bool
  savePrediction : Bool
  calcRhoMAE : Bool
  taskNum : Int
  numTasks : Int
  cmdLine : String

/-- The buffers of `edm_task`, addressed through their matrix views: `ystarView(t, i)`,
`rcView(t, i)`, `coeffsView(i, j)`, and the vector `kUsed`. -/
structure TaskBuffers (K : Type) where
  ystar : Nat → Nat → K
  rc : Nat → Nat → Int
  coeffs : Nat → Nat → K
  kUsed : List Int

/-- The buffers as `edm_task` allocates them: `ystar` and `coeffs` filled with `MISSING`,
`rc` value-initialised by `std::make_unique<retcode[]>` (all `0`), `kUsed` holding `-1`
for every query row. -/
def edm_task_init {K : Type} [LinearOrderedField K] (numPredictions : Nat) : TaskBuffers K :=
  { ystar := fun _ _ => MISSING, rc := fun _ _ => 0, coeffs := fun _ _ => MISSING,
    kUsed := List.replicate numPredictions (-1) }

/-- The function `af_make_prediction` of `edm.cpp` as far as the host buffers are
concerned.  `gpuResult` holds the arrays `ystars`, `retcodes`, `kused` and `dcoeffs`
that its ArrayFire pipeline computes; they are copied to the host buffers unless the
`keep_going` poll answers `false` first (the `INVALID_ALGORITHM` branch is not
reachable: `Algorithm` has no third value). -/
def af_make_prediction {K : Type} [LinearOrderedField K] (gpuResult : TaskBuffers K)
    (opts : Options K) (out : TaskBuffers K) (keep_going : Nat → Bool) : TaskBuffers K :=
  if keep_going 0 = false then out
  else
    { ystar := gpuResult.ystar, rc := gpuResult.rc,
      kUsed := if opts.saveKUsed = true then gpuResult.kUsed else out.kUsed,
      coeffs := if opts.saveSMAPCoeffs = true then gpuResult.coeffs else out.coeffs }

/-- Element `idx` of the flat array behind a column-major matrix view with `rows` rows
(the layout of `Eigen::Map<Eigen::MatrixXd>`): the entry `(idx % rows, idx / rows)`. -/
def flatAt {β : Type} (rows : Nat) (view : Nat → Nat → β) (idx : Nat) : β :=
  view (idx % rows) (idx / rows)

/-- The library call `*std::max_element(first, last)` on `retcode`s: the largest element
(an empty range, on which the source reads past the array, gives `0` here). -/
def max_element {β : Type} [LinearOrder β] [Zero β] : List β → β
  | [] => 0
  | d :: ds => ds.foldl (fun m x => if m < x then x else m) d

/-- The buffers of `edm_task` when the prediction phase has ended (`useAF` is the
constant `true`, so the phase is the call of `af_make_prediction`). -/
def edm_task_predict {K : Type} [LinearOrderedField K] (gpuResult : TaskBuffers K)
    (opts : Options K) (Mp : Manifold K) (keep_going : Nat → Bool) : TaskBuffers K :=
  af_make_prediction gpuResult opts (edm_task_init Mp.nobs) keep_going

/-- The statistics loop `for (int t = 0; t < numThetas * opts.calcRhoMAE; t++)` of
`edm_task`; `mean_absolute_error` and `correlation` are the functions of `stats.cpp`,
`ySize` is `Mp.ySize()`. -/
def edm_task_stats {K : Type} [LinearOrderedField K]
    (mean_absolute_error correlation : List K → List K → K) (topts : TaskOptions)
    (Mp : Manifold K) (ySize numThetas : Nat) (b : TaskBuffers K) :
    List (PredictionStats K) :=
  (List.range (numThetas * (if topts.calcRhoMAE = true then 1 else 0))).map fun t =>
    let rows := (List.range ySize).filter fun i =>
      decide (Mp.y i ≠ MISSING) && decide (flatAt numThetas b.ystar i ≠ MISSING)
    let y1 := rows.map fun i => Mp.y i
    let y2 := rows.map fun i => b.ystar t i
    if ¬ (y1.isEmpty = true ∨ y2.isEmpty = true) then
      { mae := mean_absolute_error y1 y2, rho := correlation y1 y2,
        taskNum := topts.taskNum + (t : Int), calcRhoMAE := topts.calcRhoMAE }
    else
      { mae := MISSING, rho := MISSING,
        taskNum := topts.taskNum + (t : Int), calcRhoMAE := topts.calcRhoMAE }

/-- The object `Prediction pred;` after its default-initialisation: the pointers are
null and the containers empty; the scalar members have no initialiser and keep the
indeterminate content `junk` of the storage. -/
def Prediction.defaultInit {K : Type} (junk : Prediction K) : Prediction K :=
  { junk with ystar := none, coeffs := none, stats := [], predictionRows := [], kUsed := [],
              cmdLine := "" }

/-- The block of `edm_task` that stores the results in `pred`, entered when the
`keep_going` poll after the prediction phase does not answer `false` (for an empty
theta list the row `numThetas - 1` read by the source does not exist; row `0` is read
here). -/
def edm_task_store {K : Type} [LinearOrderedField K]
    (mean_absolute_error correlation : List K → List K → K) (opts : Options K)
    (topts : TaskOptions) (M Mp : Manifold K) (ySize : Nat) (predictionRows : List Bool)
    (b : TaskBuffers K) (pred : Prediction K) : Prediction K :=
  let numThetas := opts.thetas.length
  let numPredictions := Mp.nobs
  let numCoeffCols := M.E_actual + 1
  { pred with
    stats := pred.stats ++
      edm_task_stats mean_absolute_error correlation topts Mp ySize numThetas b,
    rc := max_element ((List.range (numThetas * numPredictions)).map (flatAt numThetas b.rc)),
    ystar :=
      if topts.savePrediction = true then
        if numThetas = 1 then
          some ((List.range (numThetas * numPredictions)).map (flatAt numThetas b.ystar))
        else
          some ((List.range numPredictions).map fun i => b.ystar (numThetas - 1) i)
      else none,
    coeffs :=
      if opts.saveSMAPCoeffs = true then
        some ((List.range (numPredictions * numCoeffCols)).map (flatAt numPredictions b.coeffs))
      else none,
    predictionRows :=
      if topts.savePrediction = true ∨ opts.saveSMAPCoeffs = true then predictionRows
      else pred.predictionRows,
    kUsed := if opts.saveKUsed = true then b.kUsed else pred.kUsed,
    cmdLine := topts.cmdLine,
    copredict := topts.copredict,
    numThetas := numThetas,
    numPredictions := numPredictions,
    numCoeffCols := numCoeffCols }

/-- What a call of `edm_task` leaves behind: the returned `Prediction`, the value of the
shared counter `numTasksFinished`, and whether the call site of `all_tasks_finished` was
reached. -/
structure TaskResult (K : Type) where
  pred : Prediction K
  numTasksFinished : Int
  all_tasks_finished : Bool

/-- The function `edm_task` of `edm.cpp` (the progress bar and the timing output are left
out).  `keep_going n` is the answer of the `n`-th poll of the cancellation callback: poll
`0` is made by `af_make_prediction`, poll `1` before the results are stored.
`numTasksFinished` is the value of the shared counter when the task reaches its end. -/
def edm_task {K : Type} [LinearOrderedField K]
    (mean_absolute_error correlation : List K → List K → K) (gpuResult : TaskBuffers K)
    (junk : Prediction K) (opts : Options K) (topts : TaskOptions) (M Mp : Manifold K)
    (ySize : Nat) (predictionRows : List Bool) (keep_going : Nat → Bool)
    (numTasksFinished : Int) : TaskResult K :=
  let numThetas := opts.thetas.length
  let b := edm_task_predict gpuResult opts Mp keep_going
  let pred := Prediction.defaultInit junk
  let pred :=
    if keep_going 1 = true then
      edm_task_store mean_absolute_error correlation opts topts M Mp ySize predictionRows b pred
    else pred
  let numTasksFinished := numTasksFinished + (numThetas : Int)
  { pred := pred, numTasksFinished := numTasksFinished,
    all_tasks_finished := decide (numTasksFinished = topts.numTasks) }

/-! ## Statistics (`stats.cpp`) -/

/-- The function `mean_absolute_error` of `stats.cpp`; the two vectors have the same
length wherever it is called. -/
def mean_absolute_error {K : Type} [LinearOrderedField K] (y1 y2 : List K) : K :=
  let mae := (List.zipWith (fun a b => |a - b|) y1 y2).sum / (y1.length : K)
  if mae < 1 / 10 ^ 8 then 0 else mae

/-- The function `correlation` of `stats.cpp`; `sqrt` is the library square root. -/
def correlation {K : Type} [LinearOrderedField K] (sqrt : K → K) (y1 y2 : List K) : K :=
  let y1Cent := y1.map fun a => a - y1.sum / (y1.length : K)
  let y2Cent := y2.map fun a => a - y2.sum / (y2.length : K)
  (List.zipWith (fun a b => a * b) y1Cent y2Cent).sum /
    (sqrt (y1Cent.map fun a => a * a).sum * sqrt (y2Cent.map fun a => a * a).sum)

/-! ## The status codes of the batched path (`edm.cpp`) -/

/-- The array `retcodes` with which `afSimplexPrediction` and `afSMapPrediction` end,
`af::constant(SUCCESS, npreds, tcount)`, as `af_make_prediction` copies it into the
status buffer: every entry is `SUCCESS`, whatever the candidates of the row are. -/
def af_retcodes : Nat → Nat → Int := fun _ _ => SUCCESS

/-! ## Cells accessed by `wasserstein_cost_matrix` (`distances.cpp`) -/

/-- The cells `(row, column)` of `costMatrix` accessed by the innermost loop of
`wasserstein_cost_matrix`, in order, and the final value of the counter `m`:
`costMatrix(n, m)` and, when `n != m`, `costMatrix(m, n)`. -/
def wasserstein_inner_cells {K : Type} [LinearOrderedField K] (M Mp : LaggedManifold K)
    (i j : Nat) (skipMissing : Bool) (n nn : Nat) : List (Nat × Nat) × Nat :=
  (List.range' nn (Mp.E - nn)).foldl
    (fun st mm =>
      if skipMissing = true ∧ (M.colMissing i nn = true ∨ Mp.colMissing j mm = true) then st
      else
        let m := st.2
        (st.1 ++ [(n, m)] ++ (if n ≠ m then [(m, n)] else []), m + 1))
    ([], 0)

/-- The cells of `costMatrix` accessed by the loop over `nn` for one variable `k`. -/
def wasserstein_middle_cells {K : Type} [LinearOrderedField K] (M Mp : LaggedManifold K)
    (i j : Nat) (skipMissing : Bool) : List (Nat × Nat) :=
  ((List.range M.E).foldl
    (fun st nn => (st.1 ++ (wasserstein_inner_cells M Mp i j skipMissing st.2 nn).1, st.2 + 1))
    (([] : List (Nat × Nat)), 0)).1

/-- The cells of `costMatrix` accessed by the loops of `wasserstein_cost_matrix`. -/
def wasserstein_cells {K : Type} [LinearOrderedField K] (M Mp : LaggedManifold K)
    (i j : Nat) (opts : Options K) : List (Nat × Nat) :=
  let skipMissing : Bool := decide (opts.missingdistance = 0)
  (List.range M.laggedRows).flatMap fun _k => wasserstein_middle_cells M Mp i j skipMissing

/-! ## Thread pool (`thread_pool.h`) -/

/-- Conversion of an integer value to `size_t` (64 bits, unsigned): reduction modulo
`2 ^ 64`. -/
def toSizeT (x : Int) : Nat := (x % (SIZE_MOD : Int)).toNat

/-- The function `ThreadPool::set_num_workers` of `thread_pool.h` on a pool that holds
`workers` threads: the result is the number of threads held afterwards and the number
of threads spawned.  `threads - workers.size()` is computed in `size_t` and converted to
`int`; the loop test `i < numNewThreads` compares in `size_t` (thread creation is taken
never to fail). -/
def set_num_workers (workers : Nat) (threads : Int) : Nat × Nat :=
  let numNewThreads : Int := toInt32 (toSizeT ((toSizeT threads : Int) - (workers : Int)))
  let spawned := toSizeT numNewThreads
  (workers + spawned, spawned)

/-! ## Launching tasks (`edm.cpp`) -/

/-- Modelled from the spec: `ManifoldGenerator::numExtras()`, declared in `manifold.h`,
which is not among the sources: the number of extra variables. -/
def ManifoldGenerator.numExtras {K : Type} (g : ManifoldGenerator K) : Nat :=
  g._num_extras

/-- The vector `metrics` that `launch_edm_task` builds and stores in `opts.metrics`. -/
def launch_edm_task_metrics {K : Type} (g : ManifoldGenerator K) (opts : Options K)
    (E : Nat) : List Metric :=
  if opts.distance = Distance.Wasserstein then
    [Metric.Diff] ++ (if g.E_dt E > 0 then [Metric.Diff] else []) ++
      (List.range g.numExtras).map fun k => opts.metrics.getD k Metric.Diff
  else
    List.replicate (E + g.E_dt E) Metric.Diff ++
      (List.range g.numExtras).flatMap fun k =>
        let numLags := if k < g.numExtrasLagged then E else 1
        List.replicate numLags (opts.metrics.getD k Metric.Diff)

/-- The counters `numTasksStarted` and `numTasksFinished` after the lines
`if (opts.taskNum == 0) { numTasksStarted = 0; numTasksFinished = 0; } numTasksStarted += 1;`
of `launch_edm_task`. -/
def launch_edm_task_counters (taskNum numTasksStarted numTasksFinished : Int) : Int × Int :=
  let numTasksStarted := if taskNum = 0 then 0 else numTasksStarted
  let numTasksFinished := if taskNum = 0 then 0 else numTasksFinished
  (numTasksStarted + 1, numTasksFinished)

/-- The arguments of one call of `launch_edm_task` made by `launch_task_group`: the
`Options` argument as far as `edm_task` reads it when it assembles its result, and
`taskNum`, `E`, `k`, `savePrediction`, `saveSMAPCoeffs` (the training and prediction rows
come from the `TrainPredictSplitter`, whose code is not among the sources, and are left
out). -/
structure LaunchArgs where
  opts : TaskOptions
  taskNum : Int
  E : Int
  k : Int
  savePrediction : Bool
  saveSMAPCoeffs : Bool

/-- The local variables of `launch_task_group` that its loops update: `taskNum`, `E`,
`kAdj` and the vector `futures` (one entry per call of `launch_edm_task`). -/
structure LaunchState where
  taskNum : Int
  E : Int
  kAdj : Int
  futures : List LaunchArgs

/-- The value of `kAdj` chosen in the loop body of `launch_task_group`. -/
def launch_task_group_kAdj (E_actual : Int → Int) (isSMap : Bool) (k E library : Int) : Int :=
  if k > 0 then k
  else if k < 0 then -1
  else
    let defaultK := E_actual E + 1 + (if isSMap = true then 1 else 0)
    if defaultK < library then defaultK else library

/-- The body of the innermost loop of `launch_task_group` for the library index `l`.
`trainSize` is the value of `splitter.next_training_size(iter)`; a read of `libraries[l]`
outside the vector, undefined in the source, gives `0`. -/
def launch_task_group_body {K : Type} (E_actual : Int → Int) (opts : Options K)
    (topts : TaskOptions) (libraries : List Int) (k : Int) (crossfold : Int)
    (explore saveFinalPredictions saveSMAPCoeffs : Bool) (numStandardTasks trainSize E : Int)
    (st : LaunchState) (l : Nat) : LaunchState :=
  let library := if explore = true then trainSize else libraries.getD l 0
  let kAdj := launch_task_group_kAdj E_actual (decide (opts.algorithm = Algorithm.SMap)) k E
    library
  let taskNum := st.taskNum + 1
  let savePrediction : Bool :=
    if explore = true then
      saveFinalPredictions && (decide (crossfold > 0) || decide (taskNum = numStandardTasks))
    else saveFinalPredictions && decide (taskNum = numStandardTasks)
  { taskNum := taskNum, E := E, kAdj := kAdj,
    futures := st.futures ++
      [{ opts := topts, taskNum := taskNum - 1, E := E, k := kAdj,
         savePrediction := savePrediction, saveSMAPCoeffs := saveSMAPCoeffs }] }

/-- The function `launch_task_group` of `edm.cpp`: the calls of `launch_edm_task` it
makes, in order.  `E_actual` is `generator.E_actual`, `next_training_size` the method of
the splitter, `junkE` and `junkK` the indeterminate initial values of the locals `E` and
`kAdj`.  The local `sharedOpts`, which receives `numTasks`, is passed to no call: every
call gets `opts` (or the copy `copredOpts` of `opts`). -/
def launch_task_group {K : Type} (E_actual : Int → Int) (next_training_size : Int → Int)
    (opts : Options K) (topts : TaskOptions) (Es libraries : List Int) (k numReps crossfold : Int)
    (explore saveFinalPredictions saveSMAPCoeffs copredictMode : Bool) (junkE junkK : Int) :
    List LaunchArgs :=
  let numStandardTasks : Int :=
    numReps * (Es.length : Int) * (if explore = true then 1 else (libraries.length : Int))
  let st : LaunchState := { taskNum := 0, E := junkE, kAdj := junkK, futures := [] }
  let st := (List.range numReps.toNat).foldl
    (fun st (iter0 : Nat) =>
      let iter : Int := (iter0 : Int) + 1
      let trainSize := next_training_size iter
      Es.foldl
        (fun st E =>
          (List.range (max 1 libraries.length)).foldl
            (launch_task_group_body E_actual opts topts libraries k crossfold explore
              saveFinalPredictions saveSMAPCoeffs numStandardTasks trainSize E)
            st)
        st)
    st
  if copredictMode = true then
    let copredOpts := { topts with copredict := true, calcRhoMAE := false }
    let taskNum := st.taskNum + 1
    st.futures ++
      [{ opts := copredOpts, taskNum := taskNum - 1, E := st.E, k := st.kAdj,
         savePrediction := true, saveSMAPCoeffs := false }]
  else st.futures

/-! ## Layout of the predictions copied from the device (`edm.cpp`) -/

/-- The host view `ystarView(t, i)` of the prediction buffer after
`ystars.host(ystar.data())` in `af_make_prediction`, for the Simplex algorithm.
`afSimplexPrediction` leaves `ystar = moddims(sum(r4thetas, 0), npreds, tcount)`: an array
with `npreds` rows, stored column by column, whose entry `(p, t)` is the prediction
`r p t` of query row `p` for theta number `t`.  The copy is flat, and `edm_task` reads the
buffer through `ystarView`, a column-major matrix with `numThetas` rows, whose entry
`(t, i)` is element `t + i * numThetas` of the buffer. -/
def afSimplexPrediction_host {K : Type} (npreds numThetas : Nat) (r : Nat → Nat → K) :
    Nat → Nat → K :=
  fun t i => r ((t + i * numThetas) % npreds) ((t + i * numThetas) / npreds)

/-- The host view `ystarView(t, i)` of the prediction buffer after
`ystars.host(ystar.data())` in `af_make_prediction`, for the S-map algorithm.
`afSMapPrediction` leaves `ystar = moddims(r, npreds, tcount).T()`: the transposed array,
with `tcount` rows, whose entry `(t, p)` is the prediction `r p t` of query row `p` for
theta number `t`. -/
def afSMapPrediction_host {K : Type} (tcount numThetas : Nat) (r : Nat → Nat → K) :
    Nat → Nat → K :=
  fun t i => r ((t + i * numThetas) / tcount) ((t + i * numThetas) % tcount)

/-- The host view of the prediction buffer that `af_make_prediction` leaves for the
algorithm of `opts`, when the device has computed the prediction `r p t` for query row
`p` and theta number `t`. -/
def af_ystar_host {K : Type} (opts : Options K) (npreds : Nat) (r : Nat → Nat → K) :
    Nat → Nat → K :=
  match opts.algorithm with
  | Algorithm.Simplex => afSimplexPrediction_host npreds opts.thetas.length r
  | Algorithm.SMap => afSMapPrediction_host opts.thetas.length opts.thetas.length r

/-! ## Specification-side orders -/

/-- The lexicographic order (distance, index) on (index, distance) pairs: smaller
distance first, equal distances by smaller index. -/
def lexLT {K : Type} [LinearOrderedField K] (a b : Nat × K) : Prop :=
  a.2 < b.2 ∨ (a.2 = b.2 ∧ a.1 < b.1)

/-- The order on positions of the candidate arrays induced by a distance function:
smaller distance first, equal distances by smaller position. -/
def posLT {K : Type} [LinearOrderedField K] (d : Nat → K) (a b : Nat) : Prop :=
  d a < d b ∨ (d a = d b ∧ a < b)

/-! ## Specification-side distances -/

/-- Column `j` has a `MISSING` cell in the candidate row `i` or in the query row `q`. -/
def eitherMissing {K : Type} [LinearOrderedField K] (M Mp : Manifold K) (q i j : Nat) : Prop :=
  M.cell i j = MISSING ∨ Mp.cell q j = MISSING

instance {K : Type} [LinearOrderedField K] (M Mp : Manifold K) (q i j : Nat) :
    Decidable (eitherMissing M Mp q i j) := by
  unfold eitherMissing; infer_instance

/-- Reference column cost `c_j`: `missingdistance` when either cell is `MISSING`, the
difference of the cells for the metric `Diff`, the mismatch indicator for `CheckSame`. -/
def columnCost {K : Type} [LinearOrderedField K] (opts : Options K) (M Mp : Manifold K)
    (q i j : Nat) : K :=
  if eitherMissing M Mp q i j then opts.missingdistance
  else if opts.metrics.getD j Metric.Diff = Metric.Diff then M.cell i j - Mp.cell q j
  else if M.cell i j ≠ Mp.cell q j then 1 else 0

/-- Reference panel penalty `P`: `idw` when `panelMode`, `idw > 0` and the panels of the
two rows differ, else `0`. -/
def panelPenalty {K : Type} [LinearOrderedField K] (opts : Options K) (M Mp : Manifold K)
    (q i : Nat) : K :=
  if opts.panelMode ∧ opts.idw > 0 ∧ M.panel i ≠ Mp.panel q then opts.idw else 0

/-- Reference distance of candidate `i` to query `q`:
`P + (1 / E_actual) * Σ_j |c_j|` under `MeanAbsoluteError`, `sqrt (P + Σ_j c_j ^ 2)`
under `Euclidean`. -/
def referenceDistance {K : Type} [LinearOrderedField K] (sqrt : K → K) (opts : Options K)
    (M Mp : Manifold K) (q i : Nat) : K :=
  if opts.distance = Distance.MeanAbsoluteError then
    panelPenalty opts M Mp q i +
      (1 / (M.E_actual : K)) * ∑ j in Finset.range M.E_actual, |columnCost opts M Mp q i j|
  else
    sqrt (panelPenalty opts M Mp q i +
      ∑ j in Finset.range M.E_actual, columnCost opts M Mp q i j ^ 2)

/-- Accumulated distance of candidate `i` with both penalties included, before the
square root: `P + Σ_j |c_j| / E_actual`, respectively `P + Σ_j c_j ^ 2`. -/
def penalisedTotal {K : Type} [LinearOrderedField K] (opts : Options K) (M Mp : Manifold K)
    (q i : Nat) : K :=
  panelPenalty opts M Mp q i +
    ∑ j in Finset.range M.E_actual,
      if opts.distance = Distance.MeanAbsoluteError then
        |columnCost opts M Mp q i j| / (M.E_actual : K)
      else columnCost opts M Mp q i j ^ 2

/-- Raw distance of candidate `i` to query `q`, before the missing-value penalty and the
panel-mismatch penalty are added: the accumulated column costs of the columns in which
both cells are present. -/
def rawDistance {K : Type} [LinearOrderedField K] (opts : Options K) (M Mp : Manifold K)
    (q i : Nat) : K :=
  ∑ j in Finset.range M.E_actual,
    if eitherMissing M Mp q i j then 0
    else if opts.distance = Distance.MeanAbsoluteError then
      |columnCost opts M Mp q i j| / (M.E_actual : K)
    else columnCost opts M Mp q i j ^ 2

/-! ## Specification-side regression rows -/

/-- The augmented row `[1, embedding]` of training row `i`. -/
def augmentedRow {K : Type} [LinearOrderedField K] (M : Manifold K) (i : Nat) :
    Fin (M.E_actual + 1) → K :=
  fun c => if c.val = 0 then 1 else M.cell i (c.val - 1)

/-- The affine function with intercept `c 0` and slopes `c 1, ..., c E` evaluated at the
embedding row `x`. -/
def affineEval {K : Type} [LinearOrderedField K] (E : Nat) (c : Nat → K) (x : Nat → K) : K :=
  c 0 + ∑ j in Finset.range E, c (j + 1) * x j

/-! ## Specification-side notions for the manifold generator -/

/-- Row `k` has no discrete time recorded: its entry of `_discrete_time` compares equal
to the generator's `_missing` value. -/
def timeMissing {K : Type} [LinearOrderedField K] (g : ManifoldGenerator K) (k : Int) : Prop :=
  ((intAt g._discrete_time k : Int) : K) = g._missing

/-- Row `k` belongs to the panel `panel` (always true without panel data). -/
def inPanel {K : Type} (g : ManifoldGenerator K) (panel k : Int) : Prop :=
  g._panel_ids.length > 0 → intAt g._panel_ids k = panel

/-- The original indices selected by a filter, in ascending order. -/
def selected (filter : List Bool) : List Nat :=
  (List.range filter.length).filter fun i => filter.getD i false


/-! ## Reference notions for the neighbour-selection variants -/

/-- The function `kNearestNeighbours` with the test `k >= idx.size() / 2` replaced by the
flag `fullSort`: the full stable sort by distance when it is set, the partial sort by
distance and then position otherwise. -/
def kNearestNeighboursBranch {K : Type} [LinearOrderedField K] (fullSort : Bool)
    (potentialNeighbours : DistanceIndexPairs K) (k : Nat) : DistanceIndexPairs K :=
  let idx := iota potentialNeighbours.inds.length
  let dists := fun i => potentialNeighbours.dists.getD i 0
  let idx :=
    if fullSort = true then
      let comparator := fun i1 i2 => decide (dists i1 < dists i2)
      stable_sort comparator idx
    else
      let stableComparator := fun i1 i2 =>
        if dists i1 ≠ dists i2 then decide (dists i1 < dists i2) else decide (i1 < i2)
      partial_sort stableComparator k idx
  let kNNInds := (List.range k).map fun i => potentialNeighbours.inds.getD (idx.getD i 0) 0
  let kNNDists := (List.range k).map fun i => potentialNeighbours.dists.getD (idx.getD i 0) 0
  { inds := kNNInds, dists := kNNDists }

/-- Postcondition of `std::nth_element(first, first + k, last, comp)`: `output` is a
rearrangement of `input` in which no element of the places from `k` on compares less
than an element of the first `k` places. -/
def nth_element_post (lt : Nat → Nat → Bool) (k : Nat) (input output : List Nat) : Prop :=
  output.Perm input ∧ ∀ a ∈ output.take k, ∀ b ∈ output.drop k, lt b a = false

/-! ## Reference notions for the time unit and the usable rows -/

/-- The differences `t[i] - t[i-1]` of `find_time_unit` that are strictly positive and
taken between two entries that are both not missing, for `i` in the given list. -/
def positiveDiffsOf {K : Type} [LinearOrderedField K] (g : ManifoldGenerator K)
    (is : List Nat) : List K :=
  is.filterMap fun i =>
    if g._t.getD i 0 - g._t.getD (i - 1) 0 ≤ 0 ∨ g._t.getD i 0 = g._missing ∨
        g._t.getD (i - 1) 0 = g._missing then none
    else some (g._t.getD i 0 - g._t.getD (i - 1) 0)

/-- All strictly positive differences between consecutive non-missing times. -/
def positiveDiffs {K : Type} [LinearOrderedField K] (g : ManifoldGenerator K) : List K :=
  positiveDiffsOf g (List.range' 1 (g._t.length - 1))

/-- The loop of `find_time_unit` without its early exit: every positive difference is
folded into the running greatest common divisor, held in the `int` variable `unit`. -/
def timeUnitNoExit {K : Type} [LinearOrderedField K] [FloorRing K]
    (g : ManifoldGenerator K) : Int :=
  (positiveDiffs g).foldl
    (fun unit timeDiff =>
      if unit < 0 then toInt timeDiff else toInt32 (Int.gcd (toInt timeDiff) unit))
    (-1)

/-- Row `i` of the manifold that `generate_usable` builds over all `n` rows at `E = maxE`
(every row selected, no copredict, not a prediction manifold, no row skipped). -/
def worstCaseRow {K : Type} [LinearOrderedField K] (g : ManifoldGenerator K) (n maxE i : Nat) :
    List K :=
  (create_manifold g maxE (List.replicate n true) false false false).flat.getD i []

/-! ## Reference notions for the Wasserstein cost matrix -/

/-- The cost of changing the value `x` of variable `k` into `y`: the absolute difference
for a `Diff` metric, the mismatch indicator otherwise. -/
def metricCost {K : Type} [LinearOrderedField K] (opts : Options K) (k : Nat) (x y : K) : K :=
  if opts.metrics.getD k Metric.Diff = Metric.Diff then |x - y|
  else if x ≠ y then 1 else 0

/-- The cost of turning the time point `n` of `M(i, .)` into the time point `m` of
`Mp(j, .)` when no cell is missing: the cost `U` of the unlagged extras, the time
offset `gamma * |n - m|` and the cost of every lagged variable. -/
def referenceCost {K : Type} [LinearOrderedField K] (M Mp : LaggedManifold K) (i j : Nat)
    (gamma : K) (opts : Options K) (n m : Nat) : K :=
  wasserstein_unlagged M Mp i j opts M.laggedRows +
    gamma * |(n : K) - (m : K)| +
    ((List.range M.laggedRows).map fun k =>
      metricCost opts k (M.laggedObs i k n) (Mp.laggedObs j k m)).sum

/-! ## Reference notions for the batch, the frame and the statistics -/

/-- The arguments of one call of `edm_task` in a batch. -/
structure TaskInput (K : Type) where
  gpuResult : TaskBuffers K
  junk : Prediction K
  opts : Options K
  topts : TaskOptions
  M : Manifold K
  Mp : Manifold K
  ySize : Nat
  predictionRows : List Bool
  keep_going : Nat → Bool

/-- The tasks of a batch run to their end one after another: every call of `edm_task`
finds in `numTasksFinished` the value left by the call before it. -/
def run_tasks {K : Type} [LinearOrderedField K]
    (mean_absolute_error correlation : List K → List K → K) :
    List (TaskInput K) → Int → List (TaskResult K)
  | [], _ => []
  | x :: xs, numTasksFinished =>
    let r := edm_task mean_absolute_error correlation x.gpuResult x.junk x.opts x.topts x.M
      x.Mp x.ySize x.predictionRows x.keep_going numTasksFinished
    r :: run_tasks mean_absolute_error correlation xs r.numTasksFinished

/-- A batch whose first task has `taskNum = 0`: `launch_edm_task` resets the counters
when it launches that task, then the tasks run one after another. -/
def run_batch {K : Type} [LinearOrderedField K]
    (mean_absolute_error correlation : List K → List K → K) (tasks : List (TaskInput K))
    (numTasksStarted numTasksFinished : Int) : List (TaskResult K) :=
  run_tasks mean_absolute_error correlation tasks
    (launch_edm_task_counters 0 numTasksStarted numTasksFinished).2

/-- The total number of thetas swept by the tasks of a batch. -/
def totalThetas {K : Type} (tasks : List (TaskInput K)) : Int :=
  (tasks.map fun x => (x.opts.thetas.length : Int)).sum

/-- The buffers `a` and `b` agree on every entry that belongs to a query row other than
`Mp_i`: the columns `i ≠ Mp_i` of `ystar` and `rc` and the rows `i ≠ Mp_i` of `coeffs`. -/
def agreeOutside {K : Type} (Mp_i : Nat) (a b : Buffers K) : Prop :=
  ∀ i, i ≠ Mp_i →
    (∀ t, a.ystar t i = b.ystar t i) ∧ (∀ t, a.rc t i = b.rc t i) ∧
    ∀ j, a.coeffs i j = b.coeffs i j

/-- The statistics the accuracy loop should report for theta `t`: computed over the
query rows whose target and whose prediction for that theta are both not `MISSING`,
`MISSING` when there is no such row. -/
def referenceStats {K : Type} [LinearOrderedField K]
    (mean_absolute_error correlation : List K → List K → K) (Mp : Manifold K) (ySize : Nat)
    (ystar : Nat → Nat → K) (t : Nat) : K × K :=
  let rows := (List.range ySize).filter fun i =>
    decide (Mp.y i ≠ MISSING) && decide (ystar t i ≠ MISSING)
  let y1 := rows.map fun i => Mp.y i
  let y2 := rows.map fun i => ystar t i
  if rows = [] then (MISSING, MISSING)
  else (mean_absolute_error y1 y2, correlation y1 y2)

/-- The buffers with which the first part of `make_prediction` ends. -/
def Selection.out {K : Type} : Selection K → Buffers K
  | Selection.stopped out => out
  | Selection.neighbours _ out => out

/-- The state of the loops of `launch_task_group` is consistent: `taskNum` is the number
of calls made so far and the `j`-th call carries the task number `j`. -/
def LaunchState.numbered (st : LaunchState) : Prop :=
  (st.futures.length : Int) = st.taskNum ∧
  ∀ j a, st.futures.get? j = some a → a.taskNum = (j : Int)
/-! ## Concrete inputs used to exercise the definitions -/

/-- Options over `ℚ`: Simplex, mean absolute error, one numeric column, `k = 1`,
`theta = 1`; the panel and missing-value settings are given by the arguments. -/
def exOpts (panelMode : Bool) (idw missingdistance : ℚ) : Options ℚ :=
  { forceCompute := false, saveSMAPCoeffs := true, k := 1,
    missingdistance := missingdistance, panelMode := panelMode, idw := idw,
    thetas := [1], algorithm := Algorithm.Simplex,
    distance := Distance.MeanAbsoluteError, metrics := [Metric.Diff], saveKUsed := false }

/-- A training manifold over `ℚ` with three rows and one column: cells `5`, `7`,
`MISSING`; targets `10`, `20`, `30`; panels `1`, `0`, `0`. -/
def exM : Manifold ℚ :=
  { nobs := 3, E_actual := 1,
    cell := fun i _ => if i = 0 then 5 else if i = 1 then 7 else MISSING,
    y := fun i => if i = 0 then 10 else if i = 1 then 20 else 30,
    panel := fun i => if i = 0 then 1 else 0 }

/-- A prediction manifold over `ℚ` with one row and one column: cell `5`, panel `0`. -/
def exMp : Manifold ℚ :=
  { nobs := 1, E_actual := 1, cell := fun _ _ => 5, y := fun _ => 0, panel := fun _ => 0 }

/-- A positive function on `ℚ` standing for the exponential where a definition is
evaluated over `ℚ`; its value at `0` is `1`. -/
def exExp (x : ℚ) : ℚ := 1 / (1 + x ^ 2)

/-- Empty output buffers over `ℚ`: predictions and coefficients `MISSING`, statuses `7`. -/
def exOut : Buffers ℚ :=
  { ystar := fun _ _ => MISSING, rc := fun _ _ => 7, coeffs := fun _ _ => MISSING, kUsed := -1 }

/-- Options over `ℚ` for an S-map run with the single smoothing parameter `theta = 0`,
saving the coefficients. -/
def exOptsSMap : Options ℚ :=
  { forceCompute := false, saveSMAPCoeffs := true, k := 2,
    missingdistance := 0, panelMode := false, idw := 0,
    thetas := [0], algorithm := Algorithm.SMap,
    distance := Distance.MeanAbsoluteError, metrics := [Metric.Diff], saveKUsed := false }

/-- An exact solver over `ℚ` for square systems, by Cramer's rule:
`x = det(A)⁻¹ • adj(A) b`. -/
def exSolve (n : Nat) (A : Matrix (Fin n) (Fin n) ℚ) (b : Fin n → ℚ) : Fin n → ℚ :=
  A.det⁻¹ • A.adjugate.mulVec b

/-- Options over `ℚ` like `exOpts false 0 0` (Simplex, mean absolute error, no panel
mode, `missingdistance = 0`) with the given `forceCompute` flag and neighbour count `k`. -/
def exOptsK (forceCompute : Bool) (k : Int) : Options ℚ :=
  { exOpts false 0 0 with forceCompute := forceCompute, k := k }

/-- A distance engine standing for `wasserstein_distances` where it is not used: it
returns no candidate. -/
def exWasserstein (_Mp_i : Nat) (_opts : Options ℚ) (_M _Mp : Manifold ℚ) (_inds : List Nat) :
    DistanceIndexPairs ℚ :=
  { inds := [], dists := [] }

/-- The training manifold `exM` cut down to its first row, which has the embedding of the
query row of `exMp`. -/
def exM1 : Manifold ℚ := { exM with nobs := 1 }

/-- A generator over `ℚ` with panel data: three observations, the first two in panel `7`,
the last in panel `8`; `tau = 1`, horizon `p = 1`, no time-lag columns, no extras. -/
def exG : ManifoldGenerator ℚ :=
  { _tau := 1, _p := 1, _missing := MISSING, _num_extras := 0, _num_extras_lagged := 0,
    _dtWeight := 1, _x := [1, 2, 3], _y := [10, 20, 30], _co_x := [4, 5, 6], _t := [0, 1, 2],
    _discrete_time := [0, 1, 2], _extras := [], _panel_ids := [7, 7, 8], E_dt := fun _ => 0 }

/-- A generator over `ℚ` without panel data: five observations at the discrete times
`0, 1, 3, 4, 6` (no observation at times `2` and `5`), `tau = 1`. -/
def exGaps : ManifoldGenerator ℚ :=
  { _tau := 1, _p := 1, _missing := MISSING, _num_extras := 0, _num_extras_lagged := 0,
    _dtWeight := 1, _x := [1, 2, 3, 4, 5], _y := [10, 20, 30, 40, 50], _co_x := [],
    _t := [0, 1, 3, 4, 6], _discrete_time := [0, 1, 3, 4, 6], _extras := [],
    _panel_ids := [], E_dt := fun _ => 0 }

/-- A generator over `ℚ` without panel data and with time-lag columns (`E_dt(E) = E`) for
contemporaneous prediction (`p = 0`); the time of the second observation is missing. -/
def exGdt : ManifoldGenerator ℚ :=
  { _tau := 1, _p := 0, _missing := MISSING, _num_extras := 0, _num_extras_lagged := 0,
    _dtWeight := 1, _x := [1, 2, 3], _y := [10, 20, 30], _co_x := [], _t := [0, MISSING, 2],
    _discrete_time := [0, 1, 2], _extras := [], _panel_ids := [], E_dt := fun E => E }


/-! ## Example inputs for the neighbour-selection variants -/

/-- An implementation of `std::nth_element` that sorts the whole range, equivalent
elements in reverse input order. -/
def exNthElement (lt : Nat → Nat → Bool) (_k : Nat) (l : List Nat) : List Nat :=
  stable_sort lt l.reverse

/-- Four candidates, two of them tied at the smallest distance. -/
def exTies : DistanceIndexPairs ℚ := ⟨[0, 1, 2, 3], [3, 1, 2, 1]⟩

/-! ## Example inputs for the time unit and the usable rows -/

/-- Times `0, 1000, 3000, MISSING, 2000, 8000`: the positive differences between
non-missing neighbours are `1000`, `2000` and `6000`. -/
def exTimes : ManifoldGenerator ℚ :=
  { _tau := 1, _p := 1, _missing := MISSING, _num_extras := 0, _num_extras_lagged := 0,
    _dtWeight := 0, _x := [], _y := [], _co_x := [],
    _t := [0, 1000, 3000, MISSING, 2000, 8000],
    _discrete_time := [], _extras := [], _panel_ids := [], E_dt := fun _ => 0 }

/-! ## Example inputs for the Wasserstein cost matrix -/

/-- A manifold over `ℚ` with `E = 2`, one lagged variable and no extras, whose rows all
hold the curve `0, 10`. -/
def exCurveM : LaggedManifold ℚ :=
  { E := 2, E_extras := 0, E_lagged_extras := 0, missing := MISSING, laggedRows := 1,
    laggedObs := fun _ _ n => if n = 0 then 0 else 10, unlagged_extras := fun _ _ => 0 }

/-- A manifold over `ℚ` with `E = 2`, one lagged variable and no extras, whose rows all
hold the curve `0, 13`. -/
def exCurveMp : LaggedManifold ℚ :=
  { E := 2, E_extras := 0, E_lagged_extras := 0, missing := MISSING, laggedRows := 1,
    laggedObs := fun _ _ n => if n = 0 then 0 else 13, unlagged_extras := fun _ _ => 0 }

/-! ## Example inputs for the task assembly -/

/-- A stand-in for the statistics functions of `stats.cpp`. -/
def exStat (_y1 _y2 : List ℚ) : ℚ := 0

/-- Arrays computed by the prediction phase: prediction `10 t + i` for theta `t` and query
row `i`; query row `1` failed with `INSUFFICIENT_UNIQUE`, the others succeeded. -/
def exGpu : TaskBuffers ℚ :=
  { ystar := fun t i => 10 * (t : ℚ) + (i : ℚ),
    rc := fun _ i => if i = 1 then INSUFFICIENT_UNIQUE else SUCCESS,
    coeffs := fun _ _ => 0, kUsed := [1, 1] }

/-- Storage content before `pred` is initialised: the status member happens to hold
`8000` (`UNKNOWN_ERROR` in `common.h`). -/
def exJunk : Prediction ℚ :=
  { rc := 8000, numThetas := 7, numPredictions := 7, numCoeffCols := 7, ystar := none,
    coeffs := none, stats := [], predictionRows := [], kUsed := [], cmdLine := "",
    copredict := true, configNum := 7 }

/-- Task options of the only task of a batch (`taskNum = 0`, `numTasks = 1`), without
statistics. -/
def exTaskOpts (savePrediction : Bool) : TaskOptions :=
  { copredict := false, savePrediction := savePrediction, calcRhoMAE := false, taskNum := 0,
    numTasks := 1, cmdLine := "" }

/-- A prediction manifold over `ℚ` with two query rows. -/
def exMp2 : Manifold ℚ := { exMp with nobs := 2 }

/-- Options over `ℚ` that sweep the two thetas `0` and `1`. -/
def exOpts2 : Options ℚ := { exOpts false 0 0 with thetas := [0, 1] }

/-! ## Example inputs for the statistics, the cost-matrix cells and the batch -/

/-- A prediction manifold over `ℚ` with two query rows whose targets are `5` and `6`. -/
def exMpY : Manifold ℚ :=
  { nobs := 2, E_actual := 1, cell := fun _ _ => 5, y := fun i => if i = 0 then 5 else 6,
    panel := fun _ => 0 }

/-- Buffers after a prediction phase in which query row `0` was predicted as `5` for
every theta and query row `1` was not predicted (its entries are still `MISSING`). -/
def exBufGap : TaskBuffers ℚ :=
  { ystar := fun _ i => if i = 0 then 5 else MISSING, rc := fun _ _ => SUCCESS,
    coeffs := fun _ _ => MISSING, kUsed := [1, 0] }

/-- Task options like `exTaskOpts` that request the statistics. -/
def exTaskOptsStats : TaskOptions := { exTaskOpts true with calcRhoMAE := true }

/-- A manifold over `ℚ` with `E = 2`, one lagged variable and no extras, whose rows hold
the curve `MISSING, 10`: the first time point is missing. -/
def exCurveGap : LaggedManifold ℚ :=
  { E := 2, E_extras := 0, E_lagged_extras := 0, missing := MISSING, laggedRows := 1,
    laggedObs := fun _ _ n => if n = 0 then MISSING else 10, unlagged_extras := fun _ _ => 0 }

/-- One task of a batch: it sweeps the thetas of `opts` and declares `numTasks`. -/
def exTask (opts : Options ℚ) (numTasks : Int) : TaskInput ℚ :=
  { gpuResult := exGpu, junk := exJunk, opts := opts,
    topts := { exTaskOpts true with numTasks := numTasks }, M := exM, Mp := exMp2, ySize := 2,
    predictionRows := [true, true], keep_going := fun _ => true }

/-- A generator over `ℚ` with one time-lag column and two extras, the first of them
lagged; three observations without panel data. -/
def exGx : ManifoldGenerator ℚ :=
  { _tau := 1, _p := 1, _missing := MISSING, _num_extras := 2, _num_extras_lagged := 1,
    _dtWeight := 1, _x := [1, 2, 3], _y := [10, 20, 30], _co_x := [], _t := [0, 1, 2],
    _discrete_time := [0, 1, 2], _extras := [[7, 8, 9], [4, 5, 6]], _panel_ids := [],
    E_dt := fun _ => 1 }

/-- Options over `ℚ` with the user's metrics of two extras: `CheckSame` for the first,
`Diff` for the second. -/
def exOptsX : Options ℚ := { exOpts false 0 0 with metrics := [Metric.CheckSame, Metric.Diff] }

/-- Task options that declare `numTasks = 7`. -/
def exTaskOpts7 : TaskOptions := { exTaskOpts true with numTasks := 7 }

/-! ## Example inputs for the limits of double arithmetic -/

/-- The exponential of double arithmetic where a definition is evaluated over `ℚ`: below
the argument `-746` the result underflows to `0` (the smallest positive `double` is
`2^-1074`, which is more than `e^-745.2`); elsewhere a positive, monotone stand-in with
the value `1` at `0`. -/
def exExpUnderflow (x : ℚ) : ℚ :=
  if x < -746 then 0 else if x ≤ 0 then 1 / (1 - x) else 1 + x

/-- Options over `ℚ` like `exOpts false 0 0` (Simplex) with the single smoothing parameter
`theta`. -/
def exOptsTheta (theta : ℚ) : Options ℚ := { exOpts false 0 0 with thetas := [theta] }

/-- A training manifold over `ℚ` with two rows and one column: cells `10^8` and `-10^8`;
targets `5` and `7`. -/
def exMWide : Manifold ℚ :=
  { nobs := 2, E_actual := 1,
    cell := fun i _ => if i = 0 then 100000000 else -100000000,
    y := fun i => if i = 0 then 5 else 7,
    panel := fun _ => 0 }

/-- A prediction manifold over `ℚ` with one row and one column: cell `0`. -/
def exMpZero : Manifold ℚ :=
  { nobs := 1, E_actual := 1, cell := fun _ _ => 0, y := fun _ => 0, panel := fun _ => 0 }

/-- The least-squares solve of Eigen's SVD classes (`SVDBase::solve`) on a diagonal matrix
with non-negative entries, where a definition is evaluated over `ℚ`.  Such a matrix is its
own singular value decomposition: the singular values are the diagonal entries.  Those
below `n * 2^-52` times the largest one are taken as zero (the default threshold
`diagSize * epsilon` of `SVDBase::rank`), and the solution is `b i / A i i` in the
directions that are kept and `0` in the others.  On a matrix that is not diagonal it is
the exact solver `exSolve`. -/
def exSolveSvd (n : Nat) (A : Matrix (Fin n) (Fin n) ℚ) (b : Fin n → ℚ) : Fin n → ℚ :=
  if ∀ i j, i ≠ j → A i j = 0 then
    fun i => if ∃ j, A i i * 2 ^ 52 < (n : ℚ) * A j j then 0 else b i / A i i
  else exSolve n A b

/-- Times `0, 10^10, 3 * 10^10`: the positive differences `10^10` and `2 * 10^10` do not
fit the 32-bit `int`. -/
def exTimesBig : ManifoldGenerator ℚ :=
  { _tau := 1, _p := 1, _missing := MISSING, _num_extras := 0, _num_extras_lagged := 0,
    _dtWeight := 0, _x := [], _y := [], _co_x := [],
    _t := [0, 10000000000, 30000000000],
    _discrete_time := [], _extras := [], _panel_ids := [], E_dt := fun _ => 0 }

/-- Predictions computed on the device: `10 t + p` for query row `p` and theta
number `t`. -/
def exPred (p t : Nat) : ℚ := 10 * (t : ℚ) + (p : ℚ)

/-- Options over `ℚ` for an S-map run that sweeps the two thetas `0` and `1`. -/
def exOptsSMap2 : Options ℚ := { exOptsSMap with thetas := [0, 1] }

/-! ## Neighbour selection: sorting lemmas -/

section Sorting

variable {K : Type} [LinearOrderedField K]

theorem posLT_trans (d : Nat → K) {a b c : Nat} (h1 : posLT d a b) (h2 : posLT d b c) :
    posLT d a c := by
  unfold posLT at *
  rcases h1 with h1 | ⟨h1, h1'⟩ <;> rcases h2 with h2 | ⟨h2, h2'⟩
  · exact Or.inl (lt_trans h1 h2)
  · exact Or.inl (h2 ▸ h1)
  · exact Or.inl (h1 ▸ h2)
  · exact Or.inr ⟨h1.trans h2, lt_trans h1' h2'⟩

theorem posLT_total (d : Nat → K) {a b : Nat} (h : a ≠ b) : posLT d a b ∨ posLT d b a := by
  unfold posLT
  rcases lt_trichotomy (d a) (d b) with h1 | h1 | h1
  · exact Or.inl (Or.inl h1)
  · rcases Nat.lt_or_gt_of_ne h with h2 | h2
    · exact Or.inl (Or.inr ⟨h1, h2⟩)
    · exact Or.inr (Or.inr ⟨h1.symm, h2⟩)
  · exact Or.inr (Or.inl h1)

theorem mem_insertStable {α : Type} (lt : α → α → Bool) (x z : α) (l : List α) :
    z ∈ insertStable lt x l ↔ z = x ∨ z ∈ l := by
  induction l with
  | nil => simp [insertStable]
  | cons y ys ih =>
    unfold insertStable
    split
    · simp only [List.mem_cons, ih]; tauto
    · simp only [List.mem_cons]

theorem perm_insertStable {α : Type} (lt : α → α → Bool) (x : α) (l : List α) :
    (insertStable lt x l).Perm (x :: l) := by
  induction l with
  | nil => simp [insertStable]
  | cons y ys ih =>
    unfold insertStable
    split
    · exact (List.Perm.cons y ih).trans (List.Perm.swap x y ys)
    · exact List.Perm.refl _

theorem perm_stable_sort {α : Type} (lt : α → α → Bool) (l : List α) :
    (stable_sort lt l).Perm l := by
  induction l with
  | nil => simp [stable_sort]
  | cons x xs ih =>
    unfold stable_sort
    exact (perm_insertStable lt x _).trans (List.Perm.cons x ih)

/-- Inserting a position that precedes all positions of a list sorted by distance and
position keeps the list sorted by distance and position. -/
theorem sorted_insertStable (d : Nat → K) (x : Nat) (l : List Nat)
    (hx : ∀ y ∈ l, x < y) (hs : l.Pairwise (posLT d)) :
    (insertStable (fun i1 i2 => decide (d i1 < d i2)) x l).Pairwise (posLT d) := by
  induction l with
  | nil => simp [insertStable]
  | cons y ys ih =>
    rw [List.pairwise_cons] at hs
    unfold insertStable
    by_cases hlt : d y < d x
    · simp only [hlt, decide_True, if_true]
      rw [List.pairwise_cons]
      refine ⟨?_, ih (fun z hz => hx z (List.mem_cons_of_mem _ hz)) hs.2⟩
      intro z hz
      rcases (mem_insertStable _ x z ys).1 hz with rfl | hz
      · exact Or.inl hlt
      · exact hs.1 z hz
    · simp only [hlt, decide_False, Bool.false_eq_true, if_false]
      have hxy : posLT d x y := by
        rcases lt_or_eq_of_le (not_lt.1 hlt) with h | h
        · exact Or.inl h
        · exact Or.inr ⟨h, hx y (List.mem_cons_self _ _)⟩
      rw [List.pairwise_cons]
      refine ⟨?_, List.pairwise_cons.2 hs⟩
      intro z hz
      rcases List.mem_cons.1 hz with rfl | hz
      · exact hxy
      · exact posLT_trans d hxy (hs.1 z hz)

/-- Stability of `stable_sort`: positions given in ascending order come out sorted by
distance, equal distances by ascending position. -/
theorem sorted_stable_sort (d : Nat → K) (l : List Nat) (hl : l.Pairwise (· < ·)) :
    (stable_sort (fun i1 i2 => decide (d i1 < d i2)) l).Pairwise (posLT d) := by
  induction l with
  | nil => simp [stable_sort]
  | cons x xs ih =>
    rw [List.pairwise_cons] at hl
    unfold stable_sort
    apply sorted_insertStable d x _ _ (ih hl.2)
    intro y hy
    exact hl.1 y ((perm_stable_sort _ xs).mem_iff.1 hy)

theorem stableComparator_iff (d : Nat → K) (a b : Nat) :
    (if d a ≠ d b then decide (d a < d b) else decide (a < b)) = true ↔ posLT d a b := by
  unfold posLT
  by_cases h : d a = d b
  · simp [h]
  · simp [h]

theorem minBy_mem {α : Type} (lt : α → α → Bool) (x : α) (l : List α) :
    minBy lt x l ∈ x :: l := by
  induction l generalizing x with
  | nil => simp [minBy]
  | cons y ys ih =>
    unfold minBy
    have h := ih (if lt y x then y else x)
    rcases List.mem_cons.1 h with h | h
    · rw [h]
      split <;> simp
    · exact List.mem_cons_of_mem _ (List.mem_cons_of_mem _ h)

/-- The element found by `minBy` is below every other element of the list, for a
comparator that is a strict total order. -/
theorem minBy_le {α : Type} (lt : α → α → Bool)
    (htr : ∀ a b c, lt a b = true → lt b c = true → lt a c = true)
    (htot : ∀ a b, a ≠ b → lt a b = true ∨ lt b a = true)
    (x : α) (l : List α) :
    ∀ z ∈ x :: l, z ≠ minBy lt x l → lt (minBy lt x l) z = true := by
  induction l generalizing x with
  | nil =>
    intro z hz hne
    simp [minBy] at hz hne
    exact absurd hz hne
  | cons y ys ih =>
    intro z hz hne
    unfold minBy at hne ⊢
    by_cases hyx : lt y x = true
    · simp only [hyx, if_true] at hne ⊢
      rcases List.mem_cons.1 hz with rfl | hz
      · by_cases hm : y = minBy lt y ys
        · rw [← hm]; exact hyx
        · exact htr _ _ _ (ih y y (List.mem_cons_self _ _) hm) hyx
      · exact ih y z hz hne
    · simp only [hyx, Bool.false_eq_true, if_false] at hne ⊢
      rcases List.mem_cons.1 hz with rfl | hz
      · exact ih z z (List.mem_cons_self _ _) hne
      · rcases List.mem_cons.1 hz with rfl | hz
        · by_cases hm : x = minBy lt x ys
          · rw [← hm] at hne ⊢
            rcases htot z x hne with h | h
            · exact absurd h hyx
            · exact h
          · have h1 := ih x x (List.mem_cons_self _ _) hm
            by_cases hzx : z = x
            · rw [hzx]; exact h1
            · rcases htot z x hzx with h | h
              · exact absurd h hyx
              · exact htr _ _ _ h1 h
        · exact ih x z (List.mem_cons_of_mem _ hz) hne

theorem perm_partial_sort {α : Type} [DecidableEq α] (lt : α → α → Bool) (k : Nat)
    (l : List α) : (partial_sort lt k l).Perm l := by
  induction k generalizing l with
  | zero => simp [partial_sort]
  | succ k ih =>
    cases l with
    | nil => simp [partial_sort]
    | cons x xs =>
      simp only [partial_sort]
      exact (List.Perm.cons _ (ih _)).trans (List.perm_cons_erase (minBy_mem lt x xs)).symm

/-- Contract of `partial_sort` for a strict total order on a list without repetitions:
the first `k` places are sorted and lie below everything behind them. -/
theorem partial_sort_spec {α : Type} [DecidableEq α] (lt : α → α → Bool)
    (htr : ∀ a b c, lt a b = true → lt b c = true → lt a c = true)
    (htot : ∀ a b, a ≠ b → lt a b = true ∨ lt b a = true)
    (k : Nat) (l : List α) (hnd : l.Nodup) :
    ((partial_sort lt k l).take k).Pairwise (fun a b => lt a b = true) ∧
    ∀ a ∈ (partial_sort lt k l).take k, ∀ b ∈ (partial_sort lt k l).drop k,
      lt a b = true := by
  induction k generalizing l with
  | zero => simp [partial_sort]
  | succ k ih =>
    cases l with
    | nil => simp [partial_sort]
    | cons x xs =>
      simp only [partial_sort, List.take_succ_cons, List.drop_succ_cons]
      have hnd' : ((x :: xs).erase (minBy lt x xs)).Nodup := hnd.erase _
      obtain ⟨ih1, ih2⟩ := ih _ hnd'
      have hbelow : ∀ z ∈ partial_sort lt k ((x :: xs).erase (minBy lt x xs)),
          lt (minBy lt x xs) z = true := by
        intro z hz
        have hz' : z ∈ (x :: xs).erase (minBy lt x xs) := (perm_partial_sort lt k _).mem_iff.1 hz
        have hne : z ≠ minBy lt x xs := fun h => by
          rw [h] at hz'
          exact (List.Nodup.not_mem_erase hnd) hz'
        exact minBy_le lt htr htot x xs z (List.mem_of_mem_erase hz') hne
      refine ⟨List.pairwise_cons.2 ⟨fun z hz => hbelow z (List.mem_of_mem_take hz), ih1⟩, ?_⟩
      intro a ha b hb
      rcases List.mem_cons.1 ha with rfl | ha
      · exact hbelow b (List.mem_of_mem_drop hb)
      · exact ih2 a ha b hb

end Sorting

/-! ## Neighbour selection: `kNearestNeighbours` -/

section KNN

variable {K : Type} [LinearOrderedField K]

theorem map_range_getD {β : Type} (f : Nat → β) (L : List Nat) (k : Nat) (hk : k ≤ L.length) :
    (List.range k).map (fun i => f (L.getD i 0)) = (L.take k).map f := by
  apply List.ext_getElem
  · simp [hk]
  · intro i h1 h2
    simp only [List.length_map, List.length_range] at h1
    have hi : i < L.length := lt_of_lt_of_le h1 hk
    simp [List.getD_eq_getElem?_getD, List.getElem?_eq_getElem hi]

theorem map_range_pairs (inds : List Nat) (dists : List K) (h : inds.length = dists.length) :
    (List.range inds.length).map (fun j => (inds.getD j 0, dists.getD j 0)) =
      inds.zip dists := by
  apply List.ext_getElem
  · simp [h]
  · intro i h1 h2
    simp only [List.length_map, List.length_range] at h1
    have hi : i < dists.length := h ▸ h1
    simp [List.getD_eq_getElem?_getD, List.getElem?_eq_getElem h1, List.getElem?_eq_getElem hi]

/-- What `kNearestNeighbours` returns, given what the sorting step guarantees about the
index vector `L`. -/
theorem knn_core (p : DistanceIndexPairs K) (k : Nat) (L : List Nat)
    (hlen : p.inds.length = p.dists.length) (hasc : p.inds.Pairwise (· < ·))
    (hk : k ≤ p.inds.length)
    (hperm : L.Perm (List.range p.inds.length))
    (hs : (L.take k).Pairwise (posLT (fun i => p.dists.getD i 0)))
    (hb : ∀ a ∈ L.take k, ∀ b ∈ L.drop k, posLT (fun i => p.dists.getD i 0) a b) :
    let inds := (List.range k).map fun i => p.inds.getD (L.getD i 0) 0
    let dists := (List.range k).map fun i => p.dists.getD (L.getD i 0) 0
    inds.length = k ∧ dists.length = k ∧
    (inds.zip dists).Pairwise lexLT ∧
    ∃ rest, (inds.zip dists ++ rest).Perm (p.inds.zip p.dists) ∧
      ∀ x ∈ inds.zip dists, ∀ y ∈ rest, lexLT x y := by
  intro inds dists
  have hL : L.length = p.inds.length := by simpa using hperm.length_eq
  have hkL : k ≤ L.length := hL ▸ hk
  have hmemL : ∀ a ∈ L, a < p.inds.length := fun a ha => by
    simpa using hperm.mem_iff.1 ha
  have hzip : inds.zip dists =
      (L.take k).map (fun j => (p.inds.getD j 0, p.dists.getD j 0)) := by
    show ((List.range k).map fun i => p.inds.getD (L.getD i 0) 0).zip
      ((List.range k).map fun i => p.dists.getD (L.getD i 0) 0) = _
    rw [map_range_getD (fun j => p.inds.getD j 0) L k hkL,
      map_range_getD (fun j => p.dists.getD j 0) L k hkL, List.zip_map']
  have hmono : ∀ a b, a < p.inds.length → b < p.inds.length →
      posLT (fun i => p.dists.getD i 0) a b →
      lexLT (p.inds.getD a 0, p.dists.getD a 0) (p.inds.getD b 0, p.dists.getD b 0) := by
    intro a b ha hb hab
    rcases hab with h | ⟨h1, h2⟩
    · exact Or.inl h
    · refine Or.inr ⟨h1, ?_⟩
      have := List.pairwise_iff_getElem.1 hasc a b ha hb h2
      simpa [List.getD_eq_getElem?_getD, List.getElem?_eq_getElem ha,
        List.getElem?_eq_getElem hb] using this
  refine ⟨by simp [inds], by simp [dists], ?_, ?_⟩
  · rw [hzip, List.pairwise_map]
    refine List.Pairwise.imp_of_mem ?_ hs
    intro a b ha hb hab
    exact hmono a b (hmemL a (List.mem_of_mem_take ha)) (hmemL b (List.mem_of_mem_take hb)) hab
  · refine ⟨(L.drop k).map (fun j => (p.inds.getD j 0, p.dists.getD j 0)), ?_, ?_⟩
    · rw [hzip, ← List.map_append, List.take_append_drop, ← map_range_pairs p.inds p.dists hlen]
      exact hperm.map _
    · rw [hzip]
      intro x hx y hy
      obtain ⟨a, ha, rfl⟩ := List.mem_map.1 hx
      obtain ⟨b, hb', rfl⟩ := List.mem_map.1 hy
      exact hmono a b (hmemL a (List.mem_of_mem_take ha)) (hmemL b (List.mem_of_mem_drop hb'))
        (hb a ha b hb')

/-- C1: for a candidate list of `n` parallel (index, distance) pairs with ascending
indices and `0 ≤ k ≤ n`, `kNearestNeighbours` returns exactly `k` pairs; they are listed
in non-decreasing distance with equal distances in ascending index order (sorted by
the lexicographic order on (distance, index)); together with a remainder they make up
the input pairs, and each returned pair lies below each remaining pair in that order,
so they are the `k` smallest candidates. -/
theorem kNearestNeighbours_k_smallest (p : DistanceIndexPairs K) (k : Nat)
    (hlen : p.inds.length = p.dists.length) (hasc : p.inds.Sorted (· < ·))
    (hk : k ≤ p.inds.length) :
    (kNearestNeighbours p k).inds.length = k ∧
    (kNearestNeighbours p k).dists.length = k ∧
    ((kNearestNeighbours p k).inds.zip (kNearestNeighbours p k).dists).Sorted lexLT ∧
    ∃ rest,
      ((kNearestNeighbours p k).inds.zip (kNearestNeighbours p k).dists ++ rest).Perm
        (p.inds.zip p.dists) ∧
      ∀ x ∈ (kNearestNeighbours p k).inds.zip (kNearestNeighbours p k).dists,
        ∀ y ∈ rest, lexLT x y := by
  unfold kNearestNeighbours iota
  by_cases hbr : k ≥ (List.range p.inds.length).length / 2
  · simp only [hbr, if_true]
    have hsorted := sorted_stable_sort (fun i => p.dists.getD i 0) (List.range p.inds.length)
      (List.pairwise_lt_range _)
    exact knn_core p k _ hlen hasc hk (perm_stable_sort _ _)
      (hsorted.sublist (List.take_sublist _ _))
      (fun a ha b hb => List.Sorted.rel_of_mem_take_of_mem_drop hsorted ha hb)
  · simp only [hbr, if_false]
    have hspec := partial_sort_spec
      (fun i1 i2 => if p.dists.getD i1 0 ≠ p.dists.getD i2 0
        then decide (p.dists.getD i1 0 < p.dists.getD i2 0) else decide (i1 < i2))
      (fun a b c h1 h2 => (stableComparator_iff (fun i => p.dists.getD i 0) a c).2
        (posLT_trans _ ((stableComparator_iff (fun i => p.dists.getD i 0) a b).1 h1)
          ((stableComparator_iff (fun i => p.dists.getD i 0) b c).1 h2)))
      (fun a b hab => (posLT_total (fun i => p.dists.getD i 0) hab).imp
        (stableComparator_iff (fun i => p.dists.getD i 0) a b).2
        (stableComparator_iff (fun i => p.dists.getD i 0) b a).2)
      k (List.range p.inds.length) (List.nodup_range _)
    refine knn_core p k _ hlen hasc hk (perm_partial_sort _ _ _) ?_ ?_
    · exact hspec.1.imp (fun {a b} h => (stableComparator_iff (fun i => p.dists.getD i 0) a b).1 h)
    · intro a ha b hb
      exact (stableComparator_iff (fun i => p.dists.getD i 0) a b).1 (hspec.2 a ha b hb)

/-- Witness for C1: four candidates with a tie, `k = 2` (stable-sort branch). -/
theorem kNearestNeighbours_k_smallest_witness :
    (kNearestNeighbours (⟨[0, 1, 2, 3], [3, 1, 2, 1]⟩ : DistanceIndexPairs ℚ) 2).inds.length = 2 ∧
    (kNearestNeighbours (⟨[0, 1, 2, 3], [3, 1, 2, 1]⟩ : DistanceIndexPairs ℚ) 2).dists.length = 2 ∧
    ((kNearestNeighbours (⟨[0, 1, 2, 3], [3, 1, 2, 1]⟩ : DistanceIndexPairs ℚ) 2).inds.zip
      (kNearestNeighbours (⟨[0, 1, 2, 3], [3, 1, 2, 1]⟩ : DistanceIndexPairs ℚ) 2).dists).Sorted
        lexLT ∧
    ∃ rest,
      ((kNearestNeighbours (⟨[0, 1, 2, 3], [3, 1, 2, 1]⟩ : DistanceIndexPairs ℚ) 2).inds.zip
        (kNearestNeighbours (⟨[0, 1, 2, 3], [3, 1, 2, 1]⟩ : DistanceIndexPairs ℚ) 2).dists
          ++ rest).Perm
        (([0, 1, 2, 3] : List Nat).zip ([3, 1, 2, 1] : List ℚ)) ∧
      ∀ x ∈ (kNearestNeighbours (⟨[0, 1, 2, 3], [3, 1, 2, 1]⟩ : DistanceIndexPairs ℚ) 2).inds.zip
          (kNearestNeighbours (⟨[0, 1, 2, 3], [3, 1, 2, 1]⟩ : DistanceIndexPairs ℚ) 2).dists,
        ∀ y ∈ rest, lexLT x y :=
  kNearestNeighbours_k_smallest ⟨[0, 1, 2, 3], [3, 1, 2, 1]⟩ 2 rfl (by decide) (by decide)

end KNN

/-! ## Lp distance engine: what the loops compute -/

section Lp

variable {K : Type} [LinearOrderedField K]

theorem MISSING_pos : (0 : K) < MISSING := by
  unfold MISSING; positivity

theorem sum_map_range (f : Nat → K) (n : Nat) :
    ((List.range n).map f).sum = ∑ j in Finset.range n, f j := by
  induction n with
  | zero => simp
  | succ n ih => simp [List.range_succ, Finset.sum_range_succ, ih]

/-- The amount one column adds to `dist_i`. -/
theorem lp_accumulate_eq (opts : Options K) (M : Manifold K) (a c : K) :
    lp_accumulate opts M a c =
      a + (if opts.distance = Distance.MeanAbsoluteError then |c| / (M.E_actual : K)
        else c ^ 2) := by
  unfold lp_accumulate
  split <;> simp [sq]

/-- The column loop either hits the `break` (some column has a `MISSING` cell and
`missingdistance` is `0`) and yields `MISSING`, or adds up the column terms. -/
theorem lp_column_loop_eq (opts : Options K) (M Mp : Manifold K) (i q : Nat)
    (js : List Nat) (a : K) :
    lp_column_loop opts M Mp i q js a =
      if opts.missingdistance = 0 ∧ ∃ j ∈ js, eitherMissing M Mp q i j then MISSING
      else a + (js.map fun j =>
        if opts.distance = Distance.MeanAbsoluteError then
          |columnCost opts M Mp q i j| / (M.E_actual : K)
        else columnCost opts M Mp q i j ^ 2).sum := by
  induction js generalizing a with
  | nil => simp [lp_column_loop]
  | cons j js ih =>
    unfold lp_column_loop
    by_cases hm : M.cell i j = MISSING ∨ Mp.cell q j = MISSING
    · have hm' : eitherMissing M Mp q i j := hm
      by_cases h0 : opts.missingdistance = 0
      · have : opts.missingdistance = 0 ∧ ∃ j' ∈ j :: js, eitherMissing M Mp q i j' :=
          ⟨h0, j, List.mem_cons_self _ _, hm'⟩
        rw [if_pos hm, if_pos h0, if_pos this]
      · rw [if_pos hm, if_neg h0, ih, lp_accumulate_eq]
        have hc : columnCost opts M Mp q i j = opts.missingdistance := by
          unfold columnCost; rw [if_pos hm']
        simp only [h0, false_and, if_false, List.map_cons, List.sum_cons, hc]
        ring
    · have hm' : ¬ eitherMissing M Mp q i j := hm
      rw [if_neg hm]
      simp only
      rw [ih, lp_accumulate_eq]
      have hc : columnCost opts M Mp q i j =
          (if opts.metrics.getD j Metric.Diff = Metric.Diff then M.cell i j - Mp.cell q j
            else if M.cell i j ≠ Mp.cell q j then 1 else 0) := by
        unfold columnCost; rw [if_neg hm']
      by_cases h0 : opts.missingdistance = 0
      · have hiff : (opts.missingdistance = 0 ∧ ∃ j' ∈ j :: js, eitherMissing M Mp q i j') ↔
            (opts.missingdistance = 0 ∧ ∃ j' ∈ js, eitherMissing M Mp q i j') := by
          simp [hm']
        simp only [hiff, List.map_cons, List.sum_cons, hc]
        split
        · rfl
        · ring
      · simp only [h0, false_and, if_false, List.map_cons, List.sum_cons, hc]
        ring

theorem lp_panel_eq (opts : Options K) (M Mp : Manifold K) (q i : Nat) :
    (if opts.panelMode = true ∧ opts.idw > 0 then
      (0 : K) + opts.idw * (if M.panel i ≠ Mp.panel q then 1 else 0) else 0) =
      panelPenalty opts M Mp q i := by
  unfold panelPenalty
  by_cases h1 : opts.panelMode = true ∧ opts.idw > 0
  · by_cases h2 : M.panel i ≠ Mp.panel q
    · have : opts.panelMode = true ∧ opts.idw > 0 ∧ M.panel i ≠ Mp.panel q := ⟨h1.1, h1.2, h2⟩
      rw [if_pos h1, if_pos h2, if_pos this]; ring
    · have : ¬ (opts.panelMode = true ∧ opts.idw > 0 ∧ M.panel i ≠ Mp.panel q) :=
        fun h => h2 h.2.2
      rw [if_pos h1, if_neg h2, if_neg this]; ring
  · have : ¬ (opts.panelMode = true ∧ opts.idw > 0 ∧ M.panel i ≠ Mp.panel q) :=
      fun h => h1 ⟨h.1, h.2.1⟩
    rw [if_neg h1, if_neg this]

/-- The value of `dist_i` before the output test: `MISSING` after a `break`, otherwise
the penalised total. -/
theorem lp_dist_i_eq (opts : Options K) (M Mp : Manifold K) (q i : Nat) :
    lp_dist_i opts M Mp q i =
      if opts.missingdistance = 0 ∧ ∃ j, j < M.E_actual ∧ eitherMissing M Mp q i j then MISSING
      else penalisedTotal opts M Mp q i := by
  unfold lp_dist_i penalisedTotal
  simp only
  rw [lp_column_loop_eq, lp_panel_eq, sum_map_range]
  simp only [List.mem_range]

theorem panelPenalty_nonneg (opts : Options K) (M Mp : Manifold K) (q i : Nat) :
    0 ≤ panelPenalty opts M Mp q i := by
  unfold panelPenalty
  split
  · rename_i h; exact le_of_lt h.2.1
  · exact le_refl _

theorem penalisedTotal_nonneg (opts : Options K) (M Mp : Manifold K) (q i : Nat) :
    0 ≤ penalisedTotal opts M Mp q i := by
  unfold penalisedTotal
  apply add_nonneg (panelPenalty_nonneg opts M Mp q i)
  apply Finset.sum_nonneg
  intro j _
  split
  · positivity
  · positivity

theorem lp_dist_i_nonneg (opts : Options K) (M Mp : Manifold K) (q i : Nat) :
    0 ≤ lp_dist_i opts M Mp q i := by
  rw [lp_dist_i_eq]
  split
  · exact le_of_lt MISSING_pos
  · exact penalisedTotal_nonneg opts M Mp q i

/-- The candidate loop of `lp_distances` started from any partial output. -/
theorem lp_fold_eq (sqrt : K → K) (q : Nat) (opts : Options K) (M Mp : Manifold K)
    (l : List Nat) (out : DistanceIndexPairs K) :
    l.foldl
      (fun out i =>
        let dist_i := lp_dist_i opts M Mp q i
        if dist_i ≠ 0 ∧ dist_i ≠ MISSING then
          { inds := out.inds ++ [i],
            dists := out.dists ++
              [if opts.distance = Distance.MeanAbsoluteError then dist_i else sqrt dist_i] }
        else out) out =
    { inds := out.inds ++ l.filter (fun i =>
        decide (lp_dist_i opts M Mp q i ≠ 0 ∧ lp_dist_i opts M Mp q i ≠ MISSING)),
      dists := out.dists ++ (l.filter (fun i =>
        decide (lp_dist_i opts M Mp q i ≠ 0 ∧ lp_dist_i opts M Mp q i ≠ MISSING))).map
        (fun i => if opts.distance = Distance.MeanAbsoluteError then lp_dist_i opts M Mp q i
          else sqrt (lp_dist_i opts M Mp q i)) } := by
  induction l generalizing out with
  | nil => simp
  | cons i l ih =>
    rw [List.foldl_cons, ih]
    by_cases h : lp_dist_i opts M Mp q i ≠ 0 ∧ lp_dist_i opts M Mp q i ≠ MISSING
    · simp [List.filter_cons, h]
    · simp [List.filter_cons, h]

/-- The index output of `lp_distances`: the candidates whose `dist_i` passes the test. -/
theorem lp_distances_inds (sqrt : K → K) (q : Nat) (opts : Options K) (M Mp : Manifold K)
    (inpInds : List Nat) :
    (lp_distances sqrt q opts M Mp inpInds).inds = inpInds.filter (fun i =>
        decide (lp_dist_i opts M Mp q i ≠ 0 ∧ lp_dist_i opts M Mp q i ≠ MISSING)) := by
  unfold lp_distances
  rw [lp_fold_eq]
  simp

/-- The distance output of `lp_distances`, parallel to the index output. -/
theorem lp_distances_dists (sqrt : K → K) (q : Nat) (opts : Options K) (M Mp : Manifold K)
    (inpInds : List Nat) :
    (lp_distances sqrt q opts M Mp inpInds).dists =
      (lp_distances sqrt q opts M Mp inpInds).inds.map
        (fun i => if opts.distance = Distance.MeanAbsoluteError then lp_dist_i opts M Mp q i
          else sqrt (lp_dist_i opts M Mp q i)) := by
  rw [lp_distances_inds]
  unfold lp_distances
  rw [lp_fold_eq]
  simp

end Lp

/-! ## Lp distance engine: the claims -/

section LpClaims

variable {K : Type} [LinearOrderedField K]

theorem mem_zip_map_self {β : Type} (f : Nat → β) (l : List Nat) (x : Nat × β)
    (hx : x ∈ l.zip (l.map f)) : x.1 ∈ l ∧ x.2 = f x.1 := by
  induction l with
  | nil => simp at hx
  | cons a l ih =>
    simp only [List.map_cons, List.zip_cons_cons, List.mem_cons] at hx
    rcases hx with rfl | hx
    · simp
    · exact ⟨List.mem_cons_of_mem _ (ih hx).1, (ih hx).2⟩

/-- A candidate is emitted exactly when it is in the candidate list and its `dist_i`
is neither `0` nor `MISSING`. -/
theorem mem_lp_distances_inds (sqrt : K → K) (q : Nat) (opts : Options K) (M Mp : Manifold K)
    (inpInds : List Nat) (i : Nat) :
    i ∈ (lp_distances sqrt q opts M Mp inpInds).inds ↔
      i ∈ inpInds ∧ lp_dist_i opts M Mp q i ≠ 0 ∧ lp_dist_i opts M Mp q i ≠ MISSING := by
  rw [lp_distances_inds]
  simp [List.mem_filter]

theorem penalisedTotal_eq_raw (opts : Options K) (M Mp : Manifold K) (q i : Nat)
    (hno : ∀ j, j < M.E_actual → ¬ eitherMissing M Mp q i j) :
    penalisedTotal opts M Mp q i = panelPenalty opts M Mp q i + rawDistance opts M Mp q i := by
  unfold penalisedTotal rawDistance
  congr 1
  apply Finset.sum_congr rfl
  intro j hj
  rw [if_neg (hno j (Finset.mem_range.1 hj))]

/-- C2 (as stated) fails: with panel mode on and panel penalty `idw = 1`, the candidate
row `0` has the same embedding as the query row (raw distance `0`) but lies in another
panel; it is emitted, with distance `1`. -/
theorem lp_distances_raw_zero_emitted :
    rawDistance (exOpts true 1 0) exM exMp 0 0 = 0 ∧
    ((0 : Nat), (1 : ℚ)) ∈ (lp_distances id 0 (exOpts true 1 0) exM exMp [0, 1, 2]).inds.zip
      (lp_distances id 0 (exOpts true 1 0) exM exMp [0, 1, 2]).dists := by
  constructor
  · simp [rawDistance, eitherMissing, columnCost, exOpts, exM, exMp]
  · simp [lp_distances, lp_dist_i, lp_column_loop, lp_accumulate, exOpts, exM, exMp, MISSING]
    norm_num

/-- C2 (amended): a candidate whose raw distance is exactly zero never appears in the
output of `lp_distances` when no penalty is added to it, that is when the panel penalty
of the pair is `0` and no missing-value penalty applies (`missingdistance` is `0`, or no
column has a `MISSING` cell). -/
theorem lp_distances_raw_zero_excluded (sqrt : K → K) (q : Nat) (opts : Options K)
    (M Mp : Manifold K) (inpInds : List Nat) (i : Nat)
    (hraw : rawDistance opts M Mp q i = 0)
    (hpanel : panelPenalty opts M Mp q i = 0)
    (hmiss : opts.missingdistance = 0 ∨ ∀ j, j < M.E_actual → ¬ eitherMissing M Mp q i j) :
    i ∉ (lp_distances sqrt q opts M Mp inpInds).inds := by
  intro hin
  obtain ⟨_, h0, hM⟩ := (mem_lp_distances_inds sqrt q opts M Mp inpInds i).1 hin
  rw [lp_dist_i_eq] at h0 hM
  by_cases hbr : opts.missingdistance = 0 ∧ ∃ j, j < M.E_actual ∧ eitherMissing M Mp q i j
  · rw [if_pos hbr] at hM
    exact hM rfl
  · rw [if_neg hbr] at h0
    have hno : ∀ j, j < M.E_actual → ¬ eitherMissing M Mp q i j := by
      rcases hmiss with h | h
      · intro j hj hm
        exact hbr ⟨h, j, hj, hm⟩
      · exact h
    rw [penalisedTotal_eq_raw opts M Mp q i hno, hraw, hpanel] at h0
    exact h0 (by ring)

/-- Witness for C2 (amended): the candidate row with the embedding of the query row,
panel mode off. -/
theorem lp_distances_raw_zero_excluded_witness :
    0 ∉ (lp_distances id 0 (exOpts false 1 0) exM exMp [0, 1, 2]).inds :=
  lp_distances_raw_zero_excluded id 0 (exOpts false 1 0) exM exMp [0, 1, 2] 0
    (by simp [rawDistance, eitherMissing, columnCost, exOpts, exM, exMp])
    (by simp [panelPenalty, exOpts])
    (Or.inl rfl)

/-- C3: every emitted pair `(i, d)` of `lp_distances` carries the reference distance:
with column cost `c_j` (`missingdistance` on a `MISSING` cell, the difference for `Diff`,
the mismatch indicator for `CheckSame`) and panel penalty `P`, `d` is
`P + (1 / E_actual) * Σ_j |c_j|` under `MeanAbsoluteError` and `sqrt (P + Σ_j c_j ^ 2)`
under `Euclidean`. -/
theorem lp_distances_reference (sqrt : K → K) (q : Nat) (opts : Options K)
    (M Mp : Manifold K) (inpInds : List Nat) (x : Nat × K)
    (hx : x ∈ (lp_distances sqrt q opts M Mp inpInds).inds.zip
      (lp_distances sqrt q opts M Mp inpInds).dists) :
    x.2 = referenceDistance sqrt opts M Mp q x.1 := by
  rw [lp_distances_dists] at hx
  obtain ⟨hin, hval⟩ := mem_zip_map_self _ _ x hx
  obtain ⟨_, _, hM⟩ := (mem_lp_distances_inds sqrt q opts M Mp inpInds x.1).1 hin
  have htot : lp_dist_i opts M Mp q x.1 = penalisedTotal opts M Mp q x.1 := by
    rw [lp_dist_i_eq] at hM ⊢
    by_cases hbr : opts.missingdistance = 0 ∧ ∃ j, j < M.E_actual ∧ eitherMissing M Mp q x.1 j
    · rw [if_pos hbr] at hM
      exact absurd rfl hM
    · rw [if_neg hbr]
  rw [hval, htot]
  unfold referenceDistance penalisedTotal
  by_cases hd : opts.distance = Distance.MeanAbsoluteError
  · simp only [hd, if_true]
    rw [Finset.mul_sum]
    congr 1
    apply Finset.sum_congr rfl
    intro j _
    ring
  · simp only [hd, if_false]

/-- Witness for C3: the candidate of another panel is emitted with distance
`1 + (1 / 1) * |5 - 5|`. -/
theorem lp_distances_reference_witness :
    ((0 : Nat), (1 : ℚ)).2 = referenceDistance id (exOpts true 1 0) exM exMp 0 ((0 : Nat), (1 : ℚ)).1 :=
  lp_distances_reference id 0 (exOpts true 1 0) exM exMp [0, 1, 2] (0, 1)
    (by
      simp [lp_distances, lp_dist_i, lp_column_loop, lp_accumulate, exOpts, exM, exMp, MISSING]
      norm_num)

/-- C4: a candidate with a column in which its cell or the query cell is `MISSING` is
omitted from the output when `missingdistance` is `0`; when `missingdistance` is nonzero
the column does not disqualify it: the column loop runs to the end, `dist_i` is the
penalised total (the column counting `missingdistance`), which is nonzero, and the
candidate is subject only to the output test applied to every candidate
(`dist_i != MISSING`). -/
theorem lp_distances_missing_policy (sqrt : K → K) (q : Nat) (opts : Options K)
    (M Mp : Manifold K) (inpInds : List Nat) (i : Nat) (hi : i ∈ inpInds)
    (hmiss : ∃ j, j < M.E_actual ∧ eitherMissing M Mp q i j) :
    (opts.missingdistance = 0 → i ∉ (lp_distances sqrt q opts M Mp inpInds).inds) ∧
    (opts.missingdistance ≠ 0 →
      lp_dist_i opts M Mp q i = penalisedTotal opts M Mp q i ∧
      penalisedTotal opts M Mp q i ≠ 0 ∧
      (i ∈ (lp_distances sqrt q opts M Mp inpInds).inds ↔
        penalisedTotal opts M Mp q i ≠ MISSING)) := by
  constructor
  · intro h0 hin
    obtain ⟨_, _, hM⟩ := (mem_lp_distances_inds sqrt q opts M Mp inpInds i).1 hin
    rw [lp_dist_i_eq, if_pos ⟨h0, hmiss⟩] at hM
    exact hM rfl
  · intro h0
    have htot : lp_dist_i opts M Mp q i = penalisedTotal opts M Mp q i := by
      rw [lp_dist_i_eq, if_neg (fun h => h0 h.1)]
    have hpos : 0 < penalisedTotal opts M Mp q i := by
      obtain ⟨j, hj, hm⟩ := hmiss
      have hc : columnCost opts M Mp q i j = opts.missingdistance := by
        unfold columnCost; rw [if_pos hm]
      have hE : (0 : K) < (M.E_actual : K) := by
        exact_mod_cast Nat.lt_of_le_of_lt (Nat.zero_le j) hj
      unfold penalisedTotal
      apply add_pos_of_nonneg_of_pos (panelPenalty_nonneg opts M Mp q i)
      apply Finset.sum_pos'
      · intro j' _
        split <;> positivity
      · refine ⟨j, Finset.mem_range.2 hj, ?_⟩
        rw [hc]
        split
        · exact div_pos (abs_pos.2 h0) hE
        · positivity
    refine ⟨htot, ne_of_gt hpos, ?_⟩
    rw [mem_lp_distances_inds, htot]
    constructor
    · intro h; exact h.2.2
    · intro h; exact ⟨hi, ne_of_gt hpos, h⟩

/-- Witness for C4: row `2` of the training manifold has a `MISSING` cell; with
`missingdistance = 0` it is omitted, with `missingdistance = 2` it is emitted. -/
theorem lp_distances_missing_policy_witness :
    2 ∉ (lp_distances id 0 (exOpts false 0 0) exM exMp [0, 1, 2]).inds ∧
    2 ∈ (lp_distances id 0 (exOpts false 0 2) exM exMp [0, 1, 2]).inds :=
  ⟨(lp_distances_missing_policy id 0 (exOpts false 0 0) exM exMp [0, 1, 2] 2 (by decide)
      ⟨0, by decide, Or.inl (by simp [exM])⟩).1 rfl,
   ((lp_distances_missing_policy id 0 (exOpts false 0 2) exM exMp [0, 1, 2] 2 (by decide)
      ⟨0, by decide, Or.inl (by simp [exM])⟩).2 (by simp [exOpts])).2.2.2
      (by
        simp [penalisedTotal, panelPenalty, columnCost, eitherMissing, exOpts, exM, exMp, MISSING]
        norm_num)⟩

theorem foldl_min_mem (d : K) (ds : List K) :
    ds.foldl (fun m x => if x < m then x else m) d ∈ d :: ds := by
  induction ds generalizing d with
  | nil => simp
  | cons x xs ih =>
    rw [List.foldl_cons]
    have h := ih (if x < d then x else d)
    rcases List.mem_cons.1 h with h | h
    · rw [h]
      split <;> simp
    · exact List.mem_cons_of_mem _ (List.mem_cons_of_mem _ h)

theorem min_element_mem (d : K) (ds : List K) : min_element (d :: ds) ∈ d :: ds :=
  foldl_min_mem d ds

/-- C5: the index and distance outputs of `lp_distances` have the same length, the
indices are an order-preserving subsequence of the candidate list, every emitted
distance is strictly positive, and so the minimum over any non-empty list of emitted
distances is nonzero.  (`sqrt` maps positive numbers to positive numbers.) -/
theorem lp_distances_positive (sqrt : K → K) (hsqrt : ∀ x, 0 < x → 0 < sqrt x) (q : Nat)
    (opts : Options K) (M Mp : Manifold K) (inpInds : List Nat) :
    (lp_distances sqrt q opts M Mp inpInds).inds.length =
      (lp_distances sqrt q opts M Mp inpInds).dists.length ∧
    (lp_distances sqrt q opts M Mp inpInds).inds.Sublist inpInds ∧
    (∀ d ∈ (lp_distances sqrt q opts M Mp inpInds).dists, 0 < d) ∧
    ∀ ds : List K, ds ≠ [] →
      (∀ d ∈ ds, d ∈ (lp_distances sqrt q opts M Mp inpInds).dists) → min_element ds ≠ 0 := by
  have hpos : ∀ d ∈ (lp_distances sqrt q opts M Mp inpInds).dists, 0 < d := by
    intro d hd
    rw [lp_distances_dists] at hd
    obtain ⟨i, hi, rfl⟩ := List.mem_map.1 hd
    obtain ⟨_, h0, _⟩ := (mem_lp_distances_inds sqrt q opts M Mp inpInds i).1 hi
    have hp : 0 < lp_dist_i opts M Mp q i :=
      lt_of_le_of_ne (lp_dist_i_nonneg opts M Mp q i) (Ne.symm h0)
    split
    · exact hp
    · exact hsqrt _ hp
  refine ⟨?_, ?_, hpos, ?_⟩
  · rw [lp_distances_dists]; simp
  · rw [lp_distances_inds]; exact List.filter_sublist _
  · intro ds hne hds
    cases ds with
    | nil => exact absurd rfl hne
    | cons d ds => exact ne_of_gt (hpos _ (hds _ (min_element_mem d ds)))

/-- Witness for C5: the example manifolds with the identity as a positivity-preserving
stand-in for `sqrt` (not used under `MeanAbsoluteError`). -/
theorem lp_distances_positive_witness :
    (lp_distances id 0 (exOpts true 1 2) exM exMp [0, 1, 2]).inds.length =
      (lp_distances id 0 (exOpts true 1 2) exM exMp [0, 1, 2]).dists.length ∧
    (lp_distances id 0 (exOpts true 1 2) exM exMp [0, 1, 2]).inds.Sublist [0, 1, 2] ∧
    (∀ d ∈ (lp_distances id 0 (exOpts true 1 2) exM exMp [0, 1, 2]).dists, 0 < d) ∧
    ∀ ds : List ℚ, ds ≠ [] →
      (∀ d ∈ ds, d ∈ (lp_distances id 0 (exOpts true 1 2) exM exMp [0, 1, 2]).dists) →
      min_element ds ≠ 0 :=
  lp_distances_positive id (fun _ h => h) 0 (exOpts true 1 2) exM exMp [0, 1, 2]

end LpClaims

/-! ## Simplex predictor -/

section Simplex

variable {K : Type} [LinearOrderedField K]

theorem foldl_min_le (d : K) (ds : List K) :
    ∀ x ∈ d :: ds, ds.foldl (fun m x => if x < m then x else m) d ≤ x := by
  induction ds generalizing d with
  | nil => simp
  | cons y ys ih =>
    intro x hx
    rw [List.foldl_cons]
    have hle : (if y < d then y else d) ≤ d ∧ (if y < d then y else d) ≤ y := by
      split
      · rename_i h; exact ⟨le_of_lt h, le_refl _⟩
      · rename_i h; exact ⟨le_refl _, not_lt.1 h⟩
    have h0 := ih (if y < d then y else d) _ (List.mem_cons_self _ _)
    rcases List.mem_cons.1 hx with rfl | hx
    · exact le_trans h0 hle.1
    · rcases List.mem_cons.1 hx with rfl | hx
      · exact le_trans h0 hle.2
      · exact ih _ x (List.mem_cons_of_mem _ hx)

/-- The value returned by `min_element` on a non-empty list is its minimum. -/
theorem min_element_eq (ds : List K) (m : K) (hm : m ∈ ds) (hle : ∀ d ∈ ds, m ≤ d) :
    min_element ds = m := by
  cases ds with
  | nil => simp at hm
  | cons d ds =>
    apply le_antisymm
    · exact foldl_min_le d ds m hm
    · exact hle _ (min_element_mem d ds)

theorem foldl_add_range (f : Nat → K) (a : K) (k : Nat) :
    (List.range k).foldl (fun r j => r + f j) a = a + ∑ j in Finset.range k, f j := by
  induction k with
  | zero => simp
  | succ k ih =>
    rw [List.range_succ, List.foldl_append, ih, Finset.sum_range_succ]
    simp [add_assoc]

theorem foldl_pair_fst (w : Nat → K) (g : Nat → Int) (a : K) (b : Int) (k : Nat) :
    ((List.range k).foldl (fun (acc : K × Int) j => (acc.1 + w j, acc.2 + g j)) (a, b)).1 =
      a + ∑ j in Finset.range k, w j := by
  induction k with
  | zero => simp
  | succ k ih =>
    rw [List.range_succ, List.foldl_append, Finset.sum_range_succ]
    simp only [List.foldl_cons, List.foldl_nil, ih]
    ring

/-- The value `simplex_prediction` stores, in terms of the weights it computes. -/
theorem simplex_prediction_ystar (exp : K → K) (Mp_i t : Nat) (opts : Options K)
    (M : Manifold K) (dists : List K) (kNNInds : List Nat) (out : Buffers K) :
    (simplex_prediction exp Mp_i t opts M dists kNNInds out).ystar t Mp_i =
      (∑ j in Finset.range kNNInds.length,
        simplex_weight exp (opts.thetas.getD t 0) dists j * M.y (kNNInds.getD j 0)) /
      (∑ j in Finset.range kNNInds.length,
        simplex_weight exp (opts.thetas.getD t 0) dists j) := by
  unfold simplex_prediction
  simp only [setCell, and_self, if_true]
  rw [foldl_pair_fst, foldl_add_range, zero_add, zero_add, Finset.sum_div]
  apply Finset.sum_congr rfl
  intro j _
  ring

/-- C6: for a non-empty neighbour list with nonzero distances `d_j`, targets `y_j` and
smoothing parameter `theta`, `simplex_prediction` stores in `ystar(t, Mp_i)` the value
`(Σ_j w_j * y_j) / (Σ_j w_j)` with `w_j = exp (-theta * d_j / m)`, `m` the minimum of the
distances, and stores `SUCCESS` in `rc(t, Mp_i)`. -/
theorem simplex_prediction_weighted_mean (exp : K → K) (Mp_i t : Nat) (opts : Options K)
    (M : Manifold K) (dists : List K) (kNNInds : List Nat) (out : Buffers K) (m : K)
    (_hne : kNNInds ≠ []) (_hlen : dists.length = kNNInds.length)
    (_hnz : ∀ d ∈ dists, d ≠ 0) (hm : m ∈ dists) (hmin : ∀ d ∈ dists, m ≤ d) :
    (simplex_prediction exp Mp_i t opts M dists kNNInds out).ystar t Mp_i =
      (∑ j in Finset.range kNNInds.length,
        exp (-(opts.thetas.getD t 0) * dists.getD j 0 / m) * M.y (kNNInds.getD j 0)) /
      (∑ j in Finset.range kNNInds.length,
        exp (-(opts.thetas.getD t 0) * dists.getD j 0 / m)) ∧
    (simplex_prediction exp Mp_i t opts M dists kNNInds out).rc t Mp_i = SUCCESS := by
  constructor
  · rw [simplex_prediction_ystar]
    have hw : ∀ j, simplex_weight exp (opts.thetas.getD t 0) dists j =
        exp (-(opts.thetas.getD t 0) * dists.getD j 0 / m) := by
      intro j
      unfold simplex_weight
      rw [min_element_eq dists m hm hmin, mul_div_assoc]
    simp only [hw]
  · simp [simplex_prediction, setCell]

/-- Witness for C6: two neighbours at distances `2` and `3`. -/
theorem simplex_prediction_weighted_mean_witness :
    (simplex_prediction exExp 0 0 (exOpts false 0 0) exM [2, 3] [0, 1] exOut).ystar 0 0 =
      (∑ j in Finset.range ([0, 1] : List Nat).length,
        exExp (-((exOpts false 0 0).thetas.getD 0 0) * ([2, 3] : List ℚ).getD j 0 / 2) *
          exM.y (([0, 1] : List Nat).getD j 0)) /
      (∑ j in Finset.range ([0, 1] : List Nat).length,
        exExp (-((exOpts false 0 0).thetas.getD 0 0) * ([2, 3] : List ℚ).getD j 0 / 2)) ∧
    (simplex_prediction exExp 0 0 (exOpts false 0 0) exM [2, 3] [0, 1] exOut).rc 0 0 = SUCCESS :=
  simplex_prediction_weighted_mean exExp 0 0 (exOpts false 0 0) exM [2, 3] [0, 1] exOut 2
    (by decide) rfl (by decide) (by decide) (by decide)

/-- The weight of a single neighbour at a nonzero distance is `exp(-theta)`. -/
theorem simplex_weight_single (exp : K → K) (theta d : K) (hd : d ≠ 0) :
    simplex_weight exp theta [d] 0 = exp (-theta) := by
  unfold simplex_weight min_element
  simp only [List.getD_cons_zero, List.foldl_nil]
  rw [div_self hd, mul_one]

/-- C7 (counterexample): one neighbour, row `1` of `exM` with target `20`, at distance
`3`, and `theta = 10^6`.  The weight `exp(-10^6 * (3 / 3))` underflows to `0`, so the sum
of the weights is `0` and the value stored is `20 * (0 / 0)`, which is not the target
(the quotient `0 / 0` is NaN in double arithmetic and `0` in a field). -/
theorem simplex_prediction_single_underflow :
    simplex_weight exExpUnderflow 1000000 [3] 0 = 0 ∧
    (simplex_prediction exExpUnderflow 0 0 (exOptsTheta 1000000) exM [3] [1] exOut).ystar 0 0 ≠
      exM.y 1 := by
  have hw : simplex_weight exExpUnderflow 1000000 [3] 0 = 0 := by
    rw [simplex_weight_single exExpUnderflow 1000000 3 (by norm_num)]
    unfold exExpUnderflow
    norm_num
  refine ⟨hw, ?_⟩
  rw [simplex_prediction_ystar]
  simp only [List.length_singleton, Finset.sum_range_one, List.getD_cons_zero]
  have hth : (exOptsTheta 1000000).thetas.getD 0 0 = 1000000 := rfl
  rw [hth, hw]
  simp [exM]

/-- C7 (amended): with exactly one neighbour (at a nonzero distance) `simplex_prediction`
stores that neighbour's target as the prediction, for every `theta` for which the
weight `exp(-theta)` of the neighbour is not zero (a weight is an element of the field,
so it is finite: `exp` has neither underflowed nor overflowed). -/
theorem simplex_prediction_single (exp : K → K) (Mp_i t : Nat)
    (opts : Options K) (M : Manifold K) (d : K) (i : Nat) (out : Buffers K) (hd : d ≠ 0)
    (hw : exp (-(opts.thetas.getD t 0)) ≠ 0) :
    (simplex_prediction exp Mp_i t opts M [d] [i] out).ystar t Mp_i = M.y i := by
  rw [simplex_prediction_ystar]
  simp only [List.length_singleton, Finset.sum_range_one, List.getD_cons_zero]
  have hw2 : simplex_weight exp (opts.thetas.getD t 0) [d] 0 ≠ 0 := by
    rw [simplex_weight_single exp _ d hd]
    exact hw
  rw [mul_comm, mul_div_assoc, div_self hw2, mul_one]

/-- Witness for C7: one neighbour, row `1`, at distance `3`, with `theta = 1`; the weight
is `exExpUnderflow (-1) = 1 / 2`. -/
theorem simplex_prediction_single_witness :
    exExpUnderflow (-((exOptsTheta 1).thetas.getD 0 0)) ≠ 0 ∧
    (simplex_prediction exExpUnderflow 0 0 (exOptsTheta 1) exM [3] [1] exOut).ystar 0 0 =
      exM.y 1 :=
  ⟨by simp [exOptsTheta, exExpUnderflow],
    simplex_prediction_single exExpUnderflow 0 0 (exOptsTheta 1) exM 3 1 exOut (by norm_num)
      (by simp [exOptsTheta, exExpUnderflow])⟩

end Simplex

/-! ## S-map predictor: prediction and saved coefficients -/

section SMap

variable {K : Type} [LinearOrderedField K]

/-- The prediction loop adds the products of the columns whose query cell is present. -/
theorem smap_predict_eq (Mp : Manifold K) (Mp_i E_actual : Nat) (ics : Nat → K) :
    smap_predict Mp Mp_i E_actual ics =
      ics 0 + ∑ j in (Finset.range E_actual).filter (fun j => Mp.cell Mp_i j ≠ MISSING),
        ics (j + 1) * Mp.cell Mp_i j := by
  unfold smap_predict
  induction E_actual with
  | zero => simp
  | succ n ih =>
    rw [List.range_succ, List.foldl_append, ih, Finset.range_succ, Finset.filter_insert]
    by_cases h : Mp.cell Mp_i n ≠ MISSING
    · rw [if_pos h, Finset.sum_insert (by simp)]
      simp only [List.foldl_cons, List.foldl_nil, if_pos h]
      ring
    · rw [if_neg h]
      simp only [List.foldl_cons, List.foldl_nil, if_neg h]

/-- C9: for every solver (so for every solved coefficient vector `ics`, `ics 0` the
intercept) and every query row, the prediction stored by `smap_prediction` is
`ics 0 + Σ ics (j + 1) * Mp(Mp_i, j)` over exactly the columns `j < E_actual` whose query
cell is not `MISSING`. -/
theorem smap_prediction_value (exp : K → K)
    (solve : (n : Nat) → Matrix (Fin n) (Fin n) K → (Fin n → K) → (Fin n → K))
    (Mp_i t : Nat) (opts : Options K) (M Mp : Manifold K) (dists : List K)
    (kNNInds : List Nat) (out : Buffers K) :
    (smap_prediction exp solve Mp_i t opts M Mp dists kNNInds out).ystar t Mp_i =
      icsAt (smap_ics exp solve t opts M dists kNNInds) 0 +
        ∑ j in (Finset.range M.E_actual).filter (fun j => Mp.cell Mp_i j ≠ MISSING),
          icsAt (smap_ics exp solve t opts M dists kNNInds) (j + 1) * Mp.cell Mp_i j := by
  unfold smap_prediction
  simp only [setCell, and_self, if_true]
  exact smap_predict_eq Mp Mp_i M.E_actual _

/-- The coefficient-saving loop run over the first `n` columns. -/
theorem smap_save_fold (Mp_i : Nat) (ics : Nat → K) (coeffs : Nat → Nat → K) (n : Nat)
    (r c : Nat) :
    (List.range n).foldl
      (fun coeffs j =>
        if ics j = 0 then setCell coeffs Mp_i j MISSING else setCell coeffs Mp_i j (ics j))
      coeffs r c =
    if r = Mp_i ∧ c < n then (if ics c = 0 then MISSING else ics c) else coeffs r c := by
  induction n with
  | zero => simp
  | succ n ih =>
    rw [List.range_succ, List.foldl_append]
    simp only [List.foldl_cons, List.foldl_nil]
    by_cases hrc : r = Mp_i ∧ c = n
    · obtain ⟨rfl, rfl⟩ := hrc
      split <;> simp [setCell]
    · have hset : ∀ (m : Nat → Nat → K) (v : K), setCell m Mp_i n v r c = m r c := by
        intro m v
        unfold setCell
        rw [if_neg hrc]
      have hiff : (r = Mp_i ∧ c < n + 1) ↔ (r = Mp_i ∧ c < n) := by
        constructor
        · rintro ⟨h1, h2⟩
          refine ⟨h1, ?_⟩
          rcases Nat.lt_succ_iff_lt_or_eq.1 h2 with h | h
          · exact h
          · exact absurd ⟨h1, h⟩ hrc
        · rintro ⟨h1, h2⟩
          exact ⟨h1, Nat.lt_succ_of_lt h2⟩
      have : (if ics n = 0 then setCell ((List.range n).foldl
            (fun coeffs j =>
              if ics j = 0 then setCell coeffs Mp_i j MISSING else setCell coeffs Mp_i j (ics j))
            coeffs) Mp_i n MISSING
          else setCell ((List.range n).foldl
            (fun coeffs j =>
              if ics j = 0 then setCell coeffs Mp_i j MISSING else setCell coeffs Mp_i j (ics j))
            coeffs) Mp_i n (ics n)) r c =
          (List.range n).foldl
            (fun coeffs j =>
              if ics j = 0 then setCell coeffs Mp_i j MISSING else setCell coeffs Mp_i j (ics j))
            coeffs r c := by
        split <;> exact hset _ _
      rw [this, ih]
      simp only [hiff]

/-- C10: in a sweep over the thetas (`t` an index of `thetas`), `smap_prediction` writes
the coefficient row `coeffs(Mp_i, .)` only when `saveSMAPCoeffs` is set and `t` is the
index of the last theta; then entry `j` in `0..E_actual` is `MISSING` if `ics j` is exactly
`0` and `ics j` otherwise, and all other cells keep their value; for every other `t`, or
with `saveSMAPCoeffs` off, the coefficient matrix is unchanged. -/
theorem smap_prediction_coeffs (exp : K → K)
    (solve : (n : Nat) → Matrix (Fin n) (Fin n) K → (Fin n → K) → (Fin n → K))
    (Mp_i t : Nat) (opts : Options K) (M Mp : Manifold K) (dists : List K)
    (kNNInds : List Nat) (out : Buffers K)
    (ht : t < opts.thetas.length) (hsize : opts.thetas.length < SIZE_MOD) :
    ((opts.saveSMAPCoeffs = true ∧ t + 1 = opts.thetas.length) →
      (∀ j, j ≤ M.E_actual →
        (smap_prediction exp solve Mp_i t opts M Mp dists kNNInds out).coeffs Mp_i j =
          if icsAt (smap_ics exp solve t opts M dists kNNInds) j = 0 then MISSING
          else icsAt (smap_ics exp solve t opts M dists kNNInds) j) ∧
      (∀ r c, (r ≠ Mp_i ∨ M.E_actual < c) →
        (smap_prediction exp solve Mp_i t opts M Mp dists kNNInds out).coeffs r c =
          out.coeffs r c)) ∧
    (¬ (opts.saveSMAPCoeffs = true ∧ t + 1 = opts.thetas.length) →
      (smap_prediction exp solve Mp_i t opts M Mp dists kNNInds out).coeffs = out.coeffs) := by
  have hlast : t % SIZE_MOD = (opts.thetas.length + SIZE_MOD - 1) % SIZE_MOD ↔
      t + 1 = opts.thetas.length := by
    unfold SIZE_MOD at hsize ⊢
    norm_num at hsize ⊢
    omega
  constructor
  · intro h
    have hc : (smap_prediction exp solve Mp_i t opts M Mp dists kNNInds out).coeffs =
        smap_save_coeffs Mp_i M.E_actual (icsAt (smap_ics exp solve t opts M dists kNNInds))
          out.coeffs := by
      unfold smap_prediction
      simp only
      rw [if_pos ⟨h.1, hlast.2 h.2⟩]
    rw [hc]
    unfold smap_save_coeffs
    constructor
    · intro j hj
      rw [smap_save_fold, if_pos ⟨rfl, Nat.lt_succ_of_le hj⟩]
    · intro r c hrc
      rw [smap_save_fold, if_neg]
      rintro ⟨h1, h2⟩
      rcases hrc with h | h
      · exact h h1
      · exact absurd (Nat.lt_succ_iff.1 h2) (not_le.2 h)
  · intro h
    unfold smap_prediction
    simp only
    rw [if_neg]
    rintro ⟨h1, h2⟩
    exact h ⟨h1, hlast.1 h2⟩

end SMap

/-! ## S-map predictor: exact interpolation -/

section SMapInterpolation

variable {K : Type} [LinearOrderedField K]

open Matrix

/-- A matrix with as many rows as columns and linearly independent rows has trivial
kernels on both sides. -/
theorem rows_independent_kernels {n m : Nat} (h : n = m) (X : Matrix (Fin n) (Fin m) K)
    (hrow : LinearIndependent K (fun r => X r)) :
    (∀ c, X *ᵥ c = 0 → c = 0) ∧ (∀ v, v ᵥ* X = 0 → v = 0) := by
  subst h
  have hu : IsUnit X := linearIndependent_rows_iff_isUnit.1 hrow
  constructor
  · intro c hc
    exact mulVec_injective_iff_isUnit.2 hu (hc.trans (mulVec_zero X).symm)
  · intro v hv
    exact vecMul_injective_iff_isUnit.2 hu (hv.trans (zero_vecMul X).symm)

/-- The matrix of the normal equations is invertible when the design matrix has a
trivial kernel. -/
theorem normal_matrix_isUnit_det {n m : Nat} (X : Matrix (Fin n) (Fin m) K)
    (hker : ∀ c, X *ᵥ c = 0 → c = 0) : IsUnit (Xᵀ * X).det := by
  rw [← isUnit_iff_isUnit_det, ← mulVec_injective_iff_isUnit]
  intro a b hab
  have h0 : (Xᵀ * X) *ᵥ (a - b) = 0 := by
    rw [mulVec_sub, hab, sub_self]
  have h1 : (X *ᵥ (a - b)) ⬝ᵥ (X *ᵥ (a - b)) = 0 := by
    rw [← mulVec_mulVec, mulVec_transpose] at h0
    rw [dotProduct_mulVec, h0, zero_dotProduct]
  have h2 : X *ᵥ (a - b) = 0 := dotProduct_self_eq_zero.1 h1
  exact sub_eq_zero.1 (hker _ h2)

/-- Entry `r` of the product of an augmented row with a coefficient vector is the
affine function of the coefficients at the embedding of the row. -/
theorem augmentedRow_dot (M : Manifold K) (i : Nat) (c : Fin (M.E_actual + 1) → K) :
    (augmentedRow M i) ⬝ᵥ c = affineEval M.E_actual (icsAt c) (M.cell i) := by
  unfold affineEval dotProduct
  rw [Fin.sum_univ_succ, Finset.sum_range]
  congr 1
  · simp [augmentedRow, icsAt]
  · apply Finset.sum_congr rfl
    intro j _
    have hj : (j : Nat) + 1 < M.E_actual + 1 := Nat.succ_lt_succ j.isLt
    simp [augmentedRow, icsAt, hj, mul_comm]
    exact Or.inl rfl

/-- With all weights equal to `1` the rows of the design matrix are the augmented rows. -/
theorem smap_design_one (M : Manifold K) (kNNInds : List Nat) (w : Nat → K)
    (hw : ∀ j, w j = 1) (r : Fin kNNInds.length) :
    smap_design M kNNInds w r = augmentedRow M (kNNInds.getD r.val 0) := by
  funext c
  simp [smap_design, augmentedRow, hw]

/-- A solver that solves every system with an invertible matrix exactly returns an exact
solution of the normal equations of `smap_prediction` when `theta = 0` and the
`E_actual + 1` augmented rows of the neighbours are linearly independent. -/
theorem smap_ics_normal_equations (exp : K → K) (hexp : exp 0 = 1)
    (solve : (n : Nat) → Matrix (Fin n) (Fin n) K → (Fin n → K) → (Fin n → K))
    (hsolve : ∀ (n : Nat) (A : Matrix (Fin n) (Fin n) K) (b : Fin n → K),
      IsUnit A.det → A *ᵥ solve n A b = b)
    (t : Nat) (opts : Options K) (M : Manifold K) (dists : List K) (kNNInds : List Nat)
    (htheta : opts.thetas.getD t 0 = 0)
    (hk : kNNInds.length = M.E_actual + 1)
    (hind : LinearIndependent K
      (fun r : Fin kNNInds.length => augmentedRow M (kNNInds.getD r.val 0))) :
    ((smap_design M kNNInds (smap_weight exp (opts.thetas.getD t 0) dists))ᵀ *
      smap_design M kNNInds (smap_weight exp (opts.thetas.getD t 0) dists)) *ᵥ
      smap_ics exp solve t opts M dists kNNInds =
    (smap_design M kNNInds (smap_weight exp (opts.thetas.getD t 0) dists))ᵀ *ᵥ
      fun r : Fin kNNInds.length => M.y (kNNInds.getD r.val 0) *
        smap_weight exp (opts.thetas.getD t 0) dists r.val := by
  have hw : ∀ j, smap_weight exp (opts.thetas.getD t 0) dists j = 1 := by
    intro j
    unfold smap_weight
    rw [htheta, neg_zero, zero_mul, hexp]
  have hrows : (fun r => smap_design M kNNInds (smap_weight exp (opts.thetas.getD t 0) dists) r) =
      fun r : Fin kNNInds.length => augmentedRow M (kNNInds.getD r.val 0) :=
    funext (smap_design_one M kNNInds _ hw)
  have hker := rows_independent_kernels hk
    (smap_design M kNNInds (smap_weight exp (opts.thetas.getD t 0) dists))
    (by rw [hrows]; exact hind)
  exact hsolve _ _ _ (normal_matrix_isUnit_det _ hker.1)

/-- C8 (amended): with `theta = 0` and exactly `E_actual + 1` neighbours whose augmented
rows `[1, embedding]` are linearly independent, whenever the coefficient vector `ics`
that the solver returns is an exact solution of the normal equations
`(X^T X) ics = X^T y` that `smap_prediction` hands to it (the solver has dropped no
singular value of `X^T X`), `ics` is the unique affine function through all
`E_actual + 1` (embedding, target) pairs; for a query row without `MISSING` cell the
stored prediction is that affine function at the query, and a query at the embedding of
a neighbour gets that neighbour's target.  (`exp 0 = 1`.) -/
theorem smap_prediction_interpolates (exp : K → K) (hexp : exp 0 = 1)
    (solve : (n : Nat) → Matrix (Fin n) (Fin n) K → (Fin n → K) → (Fin n → K))
    (Mp_i t : Nat) (opts : Options K) (M Mp : Manifold K) (dists : List K)
    (kNNInds : List Nat) (out : Buffers K)
    (htheta : opts.thetas.getD t 0 = 0)
    (hk : kNNInds.length = M.E_actual + 1)
    (hind : LinearIndependent K
      (fun r : Fin kNNInds.length => augmentedRow M (kNNInds.getD r.val 0)))
    (hsolve :
      ((smap_design M kNNInds (smap_weight exp (opts.thetas.getD t 0) dists))ᵀ *
        smap_design M kNNInds (smap_weight exp (opts.thetas.getD t 0) dists)) *ᵥ
        smap_ics exp solve t opts M dists kNNInds =
      (smap_design M kNNInds (smap_weight exp (opts.thetas.getD t 0) dists))ᵀ *ᵥ
        fun r : Fin kNNInds.length => M.y (kNNInds.getD r.val 0) *
          smap_weight exp (opts.thetas.getD t 0) dists r.val) :
    (∀ r, r < kNNInds.length →
      affineEval M.E_actual (icsAt (smap_ics exp solve t opts M dists kNNInds))
        (M.cell (kNNInds.getD r 0)) = M.y (kNNInds.getD r 0)) ∧
    (∀ c : Nat → K,
      (∀ r, r < kNNInds.length →
        affineEval M.E_actual c (M.cell (kNNInds.getD r 0)) = M.y (kNNInds.getD r 0)) →
      ∀ j, j ≤ M.E_actual → c j = icsAt (smap_ics exp solve t opts M dists kNNInds) j) ∧
    ((∀ j, j < M.E_actual → Mp.cell Mp_i j ≠ MISSING) →
      (smap_prediction exp solve Mp_i t opts M Mp dists kNNInds out).ystar t Mp_i =
        affineEval M.E_actual (icsAt (smap_ics exp solve t opts M dists kNNInds))
          (Mp.cell Mp_i) ∧
      ∀ r, r < kNNInds.length →
        (∀ j, j < M.E_actual → Mp.cell Mp_i j = M.cell (kNNInds.getD r 0) j) →
        (smap_prediction exp solve Mp_i t opts M Mp dists kNNInds out).ystar t Mp_i =
          M.y (kNNInds.getD r 0)) := by
  -- the weights are all `1`
  have hw : ∀ j, smap_weight exp (opts.thetas.getD t 0) dists j = 1 := by
    intro j
    unfold smap_weight
    rw [htheta, neg_zero, zero_mul, hexp]
  -- the design matrix and its kernels
  have hrows : (fun r => smap_design M kNNInds (smap_weight exp (opts.thetas.getD t 0) dists) r) =
      fun r : Fin kNNInds.length => augmentedRow M (kNNInds.getD r.val 0) :=
    funext (smap_design_one M kNNInds _ hw)
  have hker := rows_independent_kernels hk
    (smap_design M kNNInds (smap_weight exp (opts.thetas.getD t 0) dists))
    (by rw [hrows]; exact hind)
  -- the solved system
  have hnormal := hsolve
  have hXics : smap_design M kNNInds (smap_weight exp (opts.thetas.getD t 0) dists) *ᵥ
      smap_ics exp solve t opts M dists kNNInds =
      fun r : Fin kNNInds.length => M.y (kNNInds.getD r.val 0) := by
    have hy : (fun r : Fin kNNInds.length => M.y (kNNInds.getD r.val 0) *
        smap_weight exp (opts.thetas.getD t 0) dists r.val) =
        fun r : Fin kNNInds.length => M.y (kNNInds.getD r.val 0) := by
      funext r; rw [hw, mul_one]
    rw [hy] at hnormal
    have h0 : (smap_design M kNNInds (smap_weight exp (opts.thetas.getD t 0) dists) *ᵥ
        smap_ics exp solve t opts M dists kNNInds -
        fun r : Fin kNNInds.length => M.y (kNNInds.getD r.val 0)) ᵥ*
        smap_design M kNNInds (smap_weight exp (opts.thetas.getD t 0) dists) = 0 := by
      rw [← mulVec_transpose, mulVec_sub, mulVec_mulVec, hnormal, sub_self]
    exact sub_eq_zero.1 (hker.2 _ h0)
  -- interpolation
  have hinterp : ∀ r, r < kNNInds.length →
      affineEval M.E_actual (icsAt (smap_ics exp solve t opts M dists kNNInds))
        (M.cell (kNNInds.getD r 0)) = M.y (kNNInds.getD r 0) := by
    intro r hr
    have := congrFun hXics ⟨r, hr⟩
    rw [← augmentedRow_dot]
    rw [← this]
    show _ = (fun c => smap_design M kNNInds (smap_weight exp (opts.thetas.getD t 0) dists)
      ⟨r, hr⟩ c) ⬝ᵥ _
    rw [show (fun c => smap_design M kNNInds (smap_weight exp (opts.thetas.getD t 0) dists)
      ⟨r, hr⟩ c) = augmentedRow M (kNNInds.getD r 0) from smap_design_one M kNNInds _ hw ⟨r, hr⟩]
  refine ⟨hinterp, ?_, ?_⟩
  · intro c hc j hj
    have hXc : smap_design M kNNInds (smap_weight exp (opts.thetas.getD t 0) dists) *ᵥ
        (fun i : Fin (M.E_actual + 1) => c i.val) =
        fun r : Fin kNNInds.length => M.y (kNNInds.getD r.val 0) := by
      funext r
      show (fun c' => smap_design M kNNInds (smap_weight exp (opts.thetas.getD t 0) dists)
        r c') ⬝ᵥ _ = _
      rw [show (fun c' => smap_design M kNNInds (smap_weight exp (opts.thetas.getD t 0) dists)
        r c') = augmentedRow M (kNNInds.getD r.val 0) from smap_design_one M kNNInds _ hw r,
        augmentedRow_dot, ← hc r.val r.isLt]
      unfold affineEval
      congr 1
      · simp [icsAt]
      · apply Finset.sum_congr rfl
        intro j hj
        have : j + 1 < M.E_actual + 1 := Nat.succ_lt_succ (Finset.mem_range.1 hj)
        simp [icsAt, this]
    have hdiff : (fun i : Fin (M.E_actual + 1) => c i.val) -
        smap_ics exp solve t opts M dists kNNInds = 0 := by
      apply hker.1
      rw [mulVec_sub, hXc, hXics, sub_self]
    have := congrFun (sub_eq_zero.1 hdiff) ⟨j, Nat.lt_succ_of_le hj⟩
    simp only at this
    rw [this]
    simp [icsAt, Nat.lt_succ_of_le hj]
  · intro hq
    have hval : (smap_prediction exp solve Mp_i t opts M Mp dists kNNInds out).ystar t Mp_i =
        affineEval M.E_actual (icsAt (smap_ics exp solve t opts M dists kNNInds))
          (Mp.cell Mp_i) := by
      unfold smap_prediction
      simp only [setCell, and_self, if_true]
      rw [smap_predict_eq]
      unfold affineEval
      rw [Finset.filter_true_of_mem (fun j hj => hq j (Finset.mem_range.1 hj))]
    refine ⟨hval, ?_⟩
    intro r hr hsame
    rw [hval, ← hinterp r hr]
    unfold affineEval
    congr 1
    apply Finset.sum_congr rfl
    intro j hj
    rw [hsame j (Finset.mem_range.1 hj)]

end SMapInterpolation

/-! ## S-map predictor: concrete instances -/

section SMapWitness

open Matrix

/-- The solver `exSolve` solves every system with an invertible matrix. -/
theorem exSolve_spec (n : Nat) (A : Matrix (Fin n) (Fin n) ℚ) (b : Fin n → ℚ)
    (h : IsUnit A.det) : A *ᵥ exSolve n A b = b := by
  unfold exSolve
  rw [mulVec_smul, mulVec_mulVec, mul_adjugate, smul_mulVec_assoc, one_mulVec, smul_smul,
    inv_mul_cancel₀ h.ne_zero, one_smul]

/-- The augmented rows `[1, 5]` and `[1, 7]` of the first two training rows of `exM`
are linearly independent. -/
theorem exM_rows_independent :
    LinearIndependent ℚ
      (fun r : Fin ([0, 1] : List Nat).length => augmentedRow exM (([0, 1] : List Nat).getD r.val 0)) := by
  have hu : IsUnit ((Matrix.of (fun r : Fin 2 =>
      augmentedRow exM (([0, 1] : List Nat).getD r.val 0)) : Matrix (Fin 2) (Fin 2) ℚ)) := by
    rw [isUnit_iff_isUnit_det, det_fin_two]
    simp [augmentedRow, exM]
    norm_num
  exact linearIndependent_rows_iff_isUnit.2 hu

/-- Witness for C8: the two training rows `(5, 10)` and `(7, 20)` of `exM`, `theta = 0`,
with the exact solver `exSolve`; the query row of `exMp` has the embedding `5` of the
first neighbour and gets its target. -/
theorem smap_prediction_interpolates_witness :
    (smap_prediction exExp exSolve 0 0 exOptsSMap exM exMp [2, 2] [0, 1] exOut).ystar 0 0 =
      exM.y (([0, 1] : List Nat).getD 0 0) :=
  ((smap_prediction_interpolates exExp (by simp [exExp]) exSolve 0 0 exOptsSMap
    exM exMp [2, 2] [0, 1] exOut rfl rfl exM_rows_independent
    (smap_ics_normal_equations exExp (by simp [exExp]) exSolve exSolve_spec 0 exOptsSMap exM
      [2, 2] [0, 1] rfl rfl exM_rows_independent)).2.2
      (fun j _ => by simp only [exMp, MISSING]; norm_num)).2 0 (by decide)
      (fun j _ => by simp [exM, exMp])

/-- Witness for C10: a sweep with the single theta of `exOptsSMap`, `t = 0`. -/
theorem smap_prediction_coeffs_witness :
    ((exOptsSMap.saveSMAPCoeffs = true ∧ 0 + 1 = exOptsSMap.thetas.length) →
      (∀ j, j ≤ exM.E_actual →
        (smap_prediction exExp exSolve 0 0 exOptsSMap exM exMp [2, 2] [0, 1] exOut).coeffs 0 j =
          if icsAt (smap_ics exExp exSolve 0 exOptsSMap exM [2, 2] [0, 1]) j = 0 then MISSING
          else icsAt (smap_ics exExp exSolve 0 exOptsSMap exM [2, 2] [0, 1]) j) ∧
      (∀ r c, (r ≠ 0 ∨ exM.E_actual < c) →
        (smap_prediction exExp exSolve 0 0 exOptsSMap exM exMp [2, 2] [0, 1] exOut).coeffs r c =
          exOut.coeffs r c)) ∧
    (¬ (exOptsSMap.saveSMAPCoeffs = true ∧ 0 + 1 = exOptsSMap.thetas.length) →
      (smap_prediction exExp exSolve 0 0 exOptsSMap exM exMp [2, 2] [0, 1] exOut).coeffs =
        exOut.coeffs) :=
  smap_prediction_coeffs exExp exSolve 0 0 exOptsSMap exM exMp [2, 2] [0, 1] exOut
    (by decide) (by unfold SIZE_MOD; decide)

end SMapWitness

/-! ## S-map predictor: the rank threshold of the solver -/

section SMapTruncation

open Matrix

/-- The matrix `X^T X` of the normal equations for the two rows of `exMWide` with unit
weights. -/
theorem exMWide_normal :
    ((smap_design exMWide [0, 1] (smap_weight exExp 0 [100000000, 100000000]))ᵀ *
      smap_design exMWide [0, 1] (smap_weight exExp 0 [100000000, 100000000]) :
        Matrix (Fin 2) (Fin 2) ℚ) = !![2, 0; 0, 20000000000000000] := by
  ext i j
  fin_cases i <;> fin_cases j <;>
    (simp [Matrix.mul_apply, Fin.sum_univ_two, smap_design, smap_weight, exExp, exMWide]
     try norm_num)

/-- The right-hand side `X^T y` of the normal equations for the two rows of `exMWide`. -/
theorem exMWide_rhs :
    ((smap_design exMWide [0, 1] (smap_weight exExp 0 [100000000, 100000000]))ᵀ *ᵥ
      (fun r : Fin ([0, 1] : List Nat).length => exMWide.y (([0, 1] : List Nat).getD r.val 0) *
        smap_weight exExp 0 [100000000, 100000000] r.val) : Fin 2 → ℚ) =
      ![12, -200000000] := by
  ext i
  fin_cases i <;>
    simp [Matrix.mulVec, Matrix.dotProduct, Fin.sum_univ_two, smap_design, smap_weight, exExp,
      exMWide] <;>
    norm_num

/-- The coefficients the solver with the rank threshold returns for `exMWide`. -/
theorem exMWide_ics :
    (smap_ics exExp exSolveSvd 0 exOptsSMap exMWide [100000000, 100000000] [0, 1] :
      Fin 2 → ℚ) = ![0, -1 / 100000000] := by
  unfold smap_ics
  have hth : exOptsSMap.thetas.getD 0 0 = 0 := rfl
  simp only [hth]
  show exSolveSvd 2
    ((smap_design exMWide [0, 1] (smap_weight exExp 0 [100000000, 100000000]))ᵀ *
      smap_design exMWide [0, 1] (smap_weight exExp 0 [100000000, 100000000]))
    ((smap_design exMWide [0, 1] (smap_weight exExp 0 [100000000, 100000000]))ᵀ *ᵥ
      (fun r : Fin ([0, 1] : List Nat).length => exMWide.y (([0, 1] : List Nat).getD r.val 0) *
        smap_weight exExp 0 [100000000, 100000000] r.val)) = _
  rw [exMWide_normal, exMWide_rhs]
  unfold exSolveSvd
  have hdiag : ∀ i j : Fin 2, i ≠ j →
      (!![2, 0; 0, 20000000000000000] : Matrix (Fin 2) (Fin 2) ℚ) i j = 0 := by
    intro i j hij
    fin_cases i <;> fin_cases j <;> simp at hij ⊢
  rw [if_pos hdiag]
  ext i
  fin_cases i
  · have h : ∃ j : Fin 2, (!![2, 0; 0, 20000000000000000] : Matrix (Fin 2) (Fin 2) ℚ) 0 0 *
        2 ^ 52 < ((2 : Nat) : ℚ) * (!![2, 0; 0, 20000000000000000] : Matrix (Fin 2) (Fin 2) ℚ) j j :=
      ⟨1, by simp; norm_num⟩
    simp only [Fin.zero_eta, if_pos h]
    simp
  · have h : ¬ ∃ j : Fin 2, (!![2, 0; 0, 20000000000000000] : Matrix (Fin 2) (Fin 2) ℚ) 1 1 *
        2 ^ 52 < ((2 : Nat) : ℚ) * (!![2, 0; 0, 20000000000000000] : Matrix (Fin 2) (Fin 2) ℚ) j j := by
      rintro ⟨j, hj⟩
      fin_cases j <;> simp at hj <;> norm_num at hj
    simp only [Fin.mk_one, if_neg h]
    simp
    norm_num

/-- The two augmented rows `[1, 10^8]` and `[1, -10^8]` of `exMWide` are linearly
independent. -/
theorem exMWide_rows_independent :
    LinearIndependent ℚ
      (fun r : Fin ([0, 1] : List Nat).length =>
        augmentedRow exMWide (([0, 1] : List Nat).getD r.val 0)) := by
  have hu : IsUnit ((Matrix.of (fun r : Fin 2 =>
      augmentedRow exMWide (([0, 1] : List Nat).getD r.val 0)) : Matrix (Fin 2) (Fin 2) ℚ)) := by
    rw [isUnit_iff_isUnit_det, det_fin_two]
    simp [augmentedRow, exMWide]
    norm_num
  exact linearIndependent_rows_iff_isUnit.2 hu

/-- C8 (counterexample): `theta = 0` and the two neighbours of `exMWide`, with the
embeddings `10^8` and `-10^8` and the targets `5` and `7`; the query row has the
embedding `0`, at distance `10^8` from both.  The augmented rows are linearly
independent and hold no `MISSING` cell, and the affine function `6 - x / 10^8` passes
through both pairs.  The matrix `X^T X` is the diagonal matrix of `2` and `2 * 10^16`,
whose smaller singular value lies below the rank threshold of the solver: the
coefficients returned are `0` and `-1 / 10^8`, an affine function with the value `-1`
instead of the target `5` at the first neighbour, and the stored prediction is `0`
instead of `6`. -/
theorem smap_prediction_rank_truncated :
    LinearIndependent ℚ
      (fun r : Fin ([0, 1] : List Nat).length =>
        augmentedRow exMWide (([0, 1] : List Nat).getD r.val 0)) ∧
    (∀ r j, exMWide.cell r j ≠ MISSING) ∧ (∀ j, exMpZero.cell 0 j ≠ MISSING) ∧
    affineEval exMWide.E_actual (fun j => if j = 0 then 6 else -1 / 100000000)
      (exMWide.cell 0) = exMWide.y 0 ∧
    affineEval exMWide.E_actual (fun j => if j = 0 then 6 else -1 / 100000000)
      (exMWide.cell 1) = exMWide.y 1 ∧
    affineEval exMWide.E_actual (fun j => if j = 0 then 6 else -1 / 100000000)
      (exMpZero.cell 0) = 6 ∧
    icsAt (smap_ics exExp exSolveSvd 0 exOptsSMap exMWide [100000000, 100000000] [0, 1]) 0 = 0 ∧
    icsAt (smap_ics exExp exSolveSvd 0 exOptsSMap exMWide [100000000, 100000000] [0, 1]) 1 =
      -1 / 100000000 ∧
    affineEval exMWide.E_actual
      (icsAt (smap_ics exExp exSolveSvd 0 exOptsSMap exMWide [100000000, 100000000] [0, 1]))
      (exMWide.cell 0) = -1 ∧
    exMWide.y 0 = 5 ∧
    (smap_prediction exExp exSolveSvd 0 0 exOptsSMap exMWide exMpZero [100000000, 100000000]
      [0, 1] exOut).ystar 0 0 = 0 := by
  have h0 : icsAt (smap_ics exExp exSolveSvd 0 exOptsSMap exMWide [100000000, 100000000]
      [0, 1]) 0 = 0 := by
    have := congrFun exMWide_ics 0
    simpa [icsAt, exMWide] using this
  have h1 : icsAt (smap_ics exExp exSolveSvd 0 exOptsSMap exMWide [100000000, 100000000]
      [0, 1]) 1 = -1 / 100000000 := by
    have := congrFun exMWide_ics 1
    simpa [icsAt, exMWide] using this
  refine ⟨exMWide_rows_independent, ?_, ?_, ?_, ?_, ?_, h0, h1, ?_, ?_, ?_⟩
  · intro r j
    simp only [exMWide, MISSING]
    split_ifs <;> norm_num
  · intro j
    simp only [exMpZero, MISSING]
    norm_num
  · simp [affineEval, exMWide]
    norm_num
  · simp [affineEval, exMWide]
    norm_num
  · simp [affineEval, exMWide, exMpZero]
  · have hr : Finset.range exMWide.E_actual = Finset.range 1 := rfl
    rw [affineEval, hr, Finset.sum_range_one, h0, h1]
    simp [exMWide]
  · simp [exMWide]
  · unfold smap_prediction
    simp only [setCell, and_self, if_true]
    show smap_predict exMpZero 0 1 _ = 0
    simp [smap_predict, List.range_succ, h0, exMpZero]

end SMapTruncation

/-! ## Per-point prediction: candidate gathering and the neighbour count -/

section MakePrediction

variable {K : Type} [LinearOrderedField K]

theorem foldl_push_filter (keep : Nat → Prop) [DecidablePred keep] (l init : List Nat) :
    l.foldl (fun inds i => if keep i then inds ++ [i] else inds) init =
      init ++ l.filter (fun i => decide (keep i)) := by
  induction l generalizing init with
  | nil => simp
  | cons a l ih =>
    rw [List.foldl_cons, ih]
    by_cases h : keep a
    · simp [List.filter_cons, h]
    · simp [List.filter_cons, h]

theorem any_missing_iff (M : Manifold K) (i : Nat) :
    M.any_missing i = true ↔ ∃ j, j < M.E_actual ∧ M.cell i j = MISSING := by
  unfold Manifold.any_missing
  simp [List.any_eq_true]

/-- The result of `potential_neighbour_indices` as a filter of `0..nobs-1`. -/
theorem potential_neighbour_indices_eq (Mp_i : Nat) (opts : Options K) (M Mp : Manifold K) :
    potential_neighbour_indices Mp_i opts M Mp =
      (List.range M.nobs).filter (fun i => decide
        (¬ (opts.panelMode = true ∧ opts.idw < 0 ∧ M.panel i ≠ Mp.panel Mp_i) ∧
         ¬ (opts.algorithm = Algorithm.SMap ∧ M.any_missing i = true))) := by
  unfold potential_neighbour_indices
  have h := foldl_push_filter
    (fun i => ¬ (opts.panelMode = true ∧ opts.idw < 0 ∧ M.panel i ≠ Mp.panel Mp_i) ∧
      ¬ (opts.algorithm = Algorithm.SMap ∧ M.any_missing i = true)) (List.range M.nobs) []
  rw [List.nil_append] at h
  rw [← h]
  dsimp only
  congr 1
  funext inds i
  by_cases h1 : opts.panelMode = true ∧ opts.idw < 0 ∧ M.panel i ≠ Mp.panel Mp_i
  · have h1' : ((opts.panelMode && decide (opts.idw < 0)) = true ∧ M.panel i ≠ Mp.panel Mp_i) := by
      simp [h1.1, h1.2.1, h1.2.2]
    rw [if_pos h1', if_neg (fun h => h.1 h1)]
  · have h1' : ¬ ((opts.panelMode && decide (opts.idw < 0)) = true ∧
        M.panel i ≠ Mp.panel Mp_i) := by
      intro h
      apply h1
      simp only [Bool.and_eq_true, decide_eq_true_eq] at h
      exact ⟨h.1.1, h.1.2, h.2⟩
    rw [if_neg h1']
    by_cases h2 : opts.algorithm = Algorithm.SMap ∧ M.any_missing i = true
    · have h2' : decide (opts.algorithm = Algorithm.SMap) = true ∧ M.any_missing i = true := by
        simp [h2.1, h2.2]
      rw [if_pos h2', if_neg (fun h => h.2 h2)]
    · have h2' : ¬ (decide (opts.algorithm = Algorithm.SMap) = true ∧ M.any_missing i = true) := by
        intro h
        apply h2
        simp only [decide_eq_true_eq] at h
        exact h
      rw [if_neg h2', if_pos ⟨h1, h2⟩]

/-- C14: `potential_neighbour_indices` returns, in strictly ascending order, exactly the
training rows `i < M.nobs` to which neither exclusion applies: (a) `panelMode` is on,
`idw < 0` and the panel of row `i` differs from the panel of the query row; (b) the
algorithm is S-map and row `i` has a `MISSING` cell.  For Simplex without panel
exclusion the result is `0, ..., nobs - 1`. -/
theorem potential_neighbour_indices_spec (Mp_i : Nat) (opts : Options K) (M Mp : Manifold K) :
    (potential_neighbour_indices Mp_i opts M Mp).Sorted (· < ·) ∧
    (∀ i, i ∈ potential_neighbour_indices Mp_i opts M Mp ↔
      i < M.nobs ∧
      ¬ (opts.panelMode = true ∧ opts.idw < 0 ∧ M.panel i ≠ Mp.panel Mp_i) ∧
      ¬ (opts.algorithm = Algorithm.SMap ∧ ∃ j, j < M.E_actual ∧ M.cell i j = MISSING)) ∧
    (opts.algorithm = Algorithm.Simplex → ¬ (opts.panelMode = true ∧ opts.idw < 0) →
      potential_neighbour_indices Mp_i opts M Mp = List.range M.nobs) := by
  rw [potential_neighbour_indices_eq]
  refine ⟨List.Pairwise.filter _ (List.pairwise_lt_range _), ?_, ?_⟩
  · intro i
    rw [List.mem_filter, List.mem_range, decide_eq_true_eq, any_missing_iff]
  · intro halg hpan
    apply List.filter_eq_self.2
    intro i _
    rw [decide_eq_true_eq]
    refine ⟨fun h => hpan ⟨h.1, h.2.1⟩, fun h => ?_⟩
    rw [halg] at h
    exact absurd h.1 (by decide)

/-- Witness for C14: Simplex without panel mode on the three-row manifold `exM`. -/
theorem potential_neighbour_indices_spec_witness :
    potential_neighbour_indices 0 (exOpts false 0 0) exM exMp = List.range exM.nobs :=
  (potential_neighbour_indices_spec 0 (exOpts false 0 0) exM exMp).2.2 rfl (by simp [exOpts])

/-- C11: in strict mode (`forceCompute` off), when the distance engine yields fewer valid
candidates than the requested `k > 0` (and the call is not cancelled before), the first
part of `make_prediction` returns without reaching the predictors; the status
`rc(0, Mp_i)` is `INSUFFICIENT_UNIQUE`, and the prediction and coefficient matrices are
left as they were, so predictions that were `MISSING` for every theta remain `MISSING`. -/
theorem make_prediction_strict_insufficient (sqrt exp : K → K)
    (solve : (n : Nat) → Matrix (Fin n) (Fin n) K → (Fin n → K) → (Fin n → K))
    (wasserstein_distances :
      Nat → Options K → Manifold K → Manifold K → List Nat → DistanceIndexPairs K)
    (Mp_i : Nat) (opts : Options K) (M Mp : Manifold K) (out : Buffers K)
    (keep_going : Nat → Bool)
    (hgo0 : keep_going 0 = true) (hgo1 : keep_going 1 = true)
    (hstrict : opts.forceCompute = false) (_hk : 0 < opts.k)
    (hfew : ((potentialNN sqrt wasserstein_distances Mp_i opts M Mp).inds.length : Int) < opts.k) :
    (∃ out', make_prediction_select sqrt wasserstein_distances Mp_i opts M Mp out keep_going =
      Selection.stopped out') ∧
    (make_prediction sqrt exp solve wasserstein_distances Mp_i opts M Mp out keep_going).rc
      0 Mp_i = INSUFFICIENT_UNIQUE ∧
    (make_prediction sqrt exp solve wasserstein_distances Mp_i opts M Mp out keep_going).ystar =
      out.ystar ∧
    (make_prediction sqrt exp solve wasserstein_distances Mp_i opts M Mp out keep_going).coeffs =
      out.coeffs ∧
    ((∀ t, out.ystar t Mp_i = MISSING) →
      ∀ t, (make_prediction sqrt exp solve wasserstein_distances Mp_i opts M Mp out
        keep_going).ystar t Mp_i = MISSING) := by
  have hsel : make_prediction_select sqrt wasserstein_distances Mp_i opts M Mp out keep_going =
      Selection.stopped { out with
        kUsed := ((potentialNN sqrt wasserstein_distances Mp_i opts M Mp).inds.length : Int)
        rc := setCell out.rc 0 Mp_i INSUFFICIENT_UNIQUE } := by
    unfold make_prediction_select
    simp only [hgo0, hgo1, Bool.true_eq_false, if_false, gt_iff_lt, hfew, if_true, hstrict,
      Bool.false_eq_true]
  have hmp : make_prediction sqrt exp solve wasserstein_distances Mp_i opts M Mp out keep_going =
      { out with
        kUsed := ((potentialNN sqrt wasserstein_distances Mp_i opts M Mp).inds.length : Int)
        rc := setCell out.rc 0 Mp_i INSUFFICIENT_UNIQUE } := by
    unfold make_prediction
    rw [hsel]
  refine ⟨⟨_, hsel⟩, ?_, ?_, ?_, ?_⟩
  · rw [hmp]; simp [setCell]
  · rw [hmp]
  · rw [hmp]
  · intro h t
    rw [hmp]; exact h t

/-- The candidates of the query row of `exMp` in `exM`: row `0` is at distance `0`, row `2`
has a `MISSING` cell, row `1` is at distance `2`. -/
theorem exPotentialNN (forceCompute : Bool) (k : Int) :
    potentialNN id exWasserstein 0 (exOptsK forceCompute k) exM exMp =
      { inds := [1], dists := [2] } := by
  simp [potentialNN, potential_neighbour_indices, Manifold.any_missing, lp_distances,
    lp_dist_i, lp_column_loop, lp_accumulate, exOptsK, exOpts, exM, exMp, MISSING,
    List.range_succ]
  norm_num

/-- The only row of `exM1` is at distance `0` from the query row: no candidate. -/
theorem exPotentialNN1 (forceCompute : Bool) (k : Int) :
    potentialNN id exWasserstein 0 (exOptsK forceCompute k) exM1 exMp =
      { inds := [], dists := [] } := by
  simp [potentialNN, potential_neighbour_indices, Manifold.any_missing, lp_distances,
    lp_dist_i, lp_column_loop, lp_accumulate, exOptsK, exOpts, exM1, exM, exMp, MISSING,
    List.range_succ]
  norm_num

/-- Witness for C11: Simplex on `exM` with `k = 5` requested and one valid candidate,
starting from the buffers of `edm_task`. -/
theorem make_prediction_strict_insufficient_witness :
    (make_prediction id exExp exSolve exWasserstein 0 (exOptsK false 5) exM exMp
      edm_task_buffers (fun _ => true)).rc 0 0 = INSUFFICIENT_UNIQUE :=
  (make_prediction_strict_insufficient id exExp exSolve exWasserstein 0 (exOptsK false 5)
    exM exMp edm_task_buffers (fun _ => true) rfl rfl rfl (by decide)
    (by rw [exPotentialNN]; decide)).2.1

/-- What `make_prediction` does once the first part has chosen the neighbour set. -/
theorem make_prediction_of_neighbours (sqrt exp : K → K)
    (solve : (n : Nat) → Matrix (Fin n) (Fin n) K → (Fin n → K) → (Fin n → K))
    (wasserstein_distances :
      Nat → Options K → Manifold K → Manifold K → List Nat → DistanceIndexPairs K)
    (Mp_i : Nat) (opts : Options K) (M Mp : Manifold K) (out : Buffers K)
    (keep_going : Nat → Bool) (kNNs : DistanceIndexPairs K) (out' : Buffers K)
    (h : make_prediction_select sqrt wasserstein_distances Mp_i opts M Mp out keep_going =
      Selection.neighbours kNNs out') :
    make_prediction sqrt exp solve wasserstein_distances Mp_i opts M Mp out keep_going =
      make_prediction_predict exp solve Mp_i opts M Mp kNNs out' := by
  unfold make_prediction
  rw [h]

/-- What `make_prediction` returns when the first part has returned. -/
theorem make_prediction_of_stopped (sqrt exp : K → K)
    (solve : (n : Nat) → Matrix (Fin n) (Fin n) K → (Fin n → K) → (Fin n → K))
    (wasserstein_distances :
      Nat → Options K → Manifold K → Manifold K → List Nat → DistanceIndexPairs K)
    (Mp_i : Nat) (opts : Options K) (M Mp : Manifold K) (out : Buffers K)
    (keep_going : Nat → Bool) (out' : Buffers K)
    (h : make_prediction_select sqrt wasserstein_distances Mp_i opts M Mp out keep_going =
      Selection.stopped out') :
    make_prediction sqrt exp solve wasserstein_distances Mp_i opts M Mp out keep_going = out' := by
  unfold make_prediction
  rw [h]

/-- C12: with `forceCompute` on, when the distance engine yields fewer valid candidates
than the requested `k > 0` (and the call is not cancelled): if at least one candidate is
available, the predictors are run on exactly the full candidate list (`k` is degraded to
the available count); if none is available, the call returns before the predictors and
leaves the prediction, status and coefficient matrices untouched, so a prediction that
was `MISSING` stays `MISSING` and a status that was `SUCCESS` (the value `edm_task`
initialises it to) stays `SUCCESS`. -/
theorem make_prediction_force_degrades (sqrt exp : K → K)
    (solve : (n : Nat) → Matrix (Fin n) (Fin n) K → (Fin n → K) → (Fin n → K))
    (wasserstein_distances :
      Nat → Options K → Manifold K → Manifold K → List Nat → DistanceIndexPairs K)
    (Mp_i : Nat) (opts : Options K) (M Mp : Manifold K) (out : Buffers K)
    (keep_going : Nat → Bool)
    (hgo0 : keep_going 0 = true) (hgo1 : keep_going 1 = true)
    (hforce : opts.forceCompute = true) (hk : 0 < opts.k)
    (hfew : ((potentialNN sqrt wasserstein_distances Mp_i opts M Mp).inds.length : Int) < opts.k) :
    (0 < (potentialNN sqrt wasserstein_distances Mp_i opts M Mp).inds.length →
      keep_going 2 = true →
      make_prediction_select sqrt wasserstein_distances Mp_i opts M Mp out keep_going =
        Selection.neighbours (potentialNN sqrt wasserstein_distances Mp_i opts M Mp)
          { out with kUsed :=
              ((potentialNN sqrt wasserstein_distances Mp_i opts M Mp).inds.length : Int) } ∧
      make_prediction sqrt exp solve wasserstein_distances Mp_i opts M Mp out keep_going =
        make_prediction_predict exp solve Mp_i opts M Mp
          (potentialNN sqrt wasserstein_distances Mp_i opts M Mp)
          { out with kUsed :=
              ((potentialNN sqrt wasserstein_distances Mp_i opts M Mp).inds.length : Int) }) ∧
    ((potentialNN sqrt wasserstein_distances Mp_i opts M Mp).inds.length = 0 →
      (∃ out', make_prediction_select sqrt wasserstein_distances Mp_i opts M Mp out keep_going =
        Selection.stopped out') ∧
      (make_prediction sqrt exp solve wasserstein_distances Mp_i opts M Mp out
        keep_going).ystar = out.ystar ∧
      (make_prediction sqrt exp solve wasserstein_distances Mp_i opts M Mp out
        keep_going).rc = out.rc ∧
      (make_prediction sqrt exp solve wasserstein_distances Mp_i opts M Mp out
        keep_going).coeffs = out.coeffs ∧
      ((∀ t, out.ystar t Mp_i = MISSING ∧ out.rc t Mp_i = SUCCESS) →
        ∀ t, (make_prediction sqrt exp solve wasserstein_distances Mp_i opts M Mp out
            keep_going).ystar t Mp_i = MISSING ∧
          (make_prediction sqrt exp solve wasserstein_distances Mp_i opts M Mp out
            keep_going).rc t Mp_i = SUCCESS)) := by
  constructor
  · intro hpos hgo2
    have hne : ((potentialNN sqrt wasserstein_distances Mp_i opts M Mp).inds.length : Int) ≠ 0 := by
      omega
    have hsel : make_prediction_select sqrt wasserstein_distances Mp_i opts M Mp out keep_going =
        Selection.neighbours (potentialNN sqrt wasserstein_distances Mp_i opts M Mp)
          { out with kUsed :=
              ((potentialNN sqrt wasserstein_distances Mp_i opts M Mp).inds.length : Int) } := by
      unfold make_prediction_select make_prediction_kNNs
      simp only [hgo0, hgo1, hgo2, Bool.true_eq_false, if_false, gt_iff_lt, hfew, if_true,
        hforce, hne, or_true]
    exact ⟨hsel, make_prediction_of_neighbours _ _ _ _ _ _ _ _ _ _ _ _ hsel⟩
  · intro hzero
    have hz : ((potentialNN sqrt wasserstein_distances Mp_i opts M Mp).inds.length : Int) = 0 := by
      omega
    have hsel : make_prediction_select sqrt wasserstein_distances Mp_i opts M Mp out keep_going =
        Selection.stopped { out with kUsed :=
          ((potentialNN sqrt wasserstein_distances Mp_i opts M Mp).inds.length : Int) } := by
      unfold make_prediction_select
      simp only [hgo0, hgo1, Bool.true_eq_false, if_false, gt_iff_lt, hfew, if_true, hforce, hz,
        hk]
    have hmp := make_prediction_of_stopped sqrt exp solve _ _ _ _ _ _ _ _ hsel
    refine ⟨⟨_, hsel⟩, ?_, ?_, ?_, ?_⟩
    · rw [hmp]
    · rw [hmp]
    · rw [hmp]
    · intro h t
      rw [hmp]
      exact h t

/-- Witness for C12: `k = 5` requested with `forceCompute`; on `exM` the single valid
candidate is handed to the predictor, on `exM1` there is no candidate and the status of
the point stays `SUCCESS`. -/
theorem make_prediction_force_degrades_witness :
    make_prediction_select id exWasserstein 0 (exOptsK true 5) exM exMp edm_task_buffers
        (fun _ => true) =
      Selection.neighbours (potentialNN id exWasserstein 0 (exOptsK true 5) exM exMp)
        { edm_task_buffers with kUsed :=
            ((potentialNN id exWasserstein 0 (exOptsK true 5) exM exMp).inds.length : Int) } ∧
    (make_prediction id exExp exSolve exWasserstein 0 (exOptsK true 5) exM1 exMp
      edm_task_buffers (fun _ => true)).rc 0 0 = SUCCESS :=
  ⟨((make_prediction_force_degrades id exExp exSolve exWasserstein 0 (exOptsK true 5)
      exM exMp edm_task_buffers (fun _ => true) rfl rfl rfl (by decide)
      (by rw [exPotentialNN]; decide)).1 (by rw [exPotentialNN]; decide) rfl).1,
   (((make_prediction_force_degrades id exExp exSolve exWasserstein 0 (exOptsK true 5)
      exM1 exMp edm_task_buffers (fun _ => true) rfl rfl rfl (by decide)
      (by rw [exPotentialNN1]; decide)).2 (by rw [exPotentialNN1]; rfl)).2.2.2.2
      (fun _ => ⟨rfl, rfl⟩) 0).2⟩

/-- C13: with a negative `k`, for a query row with at least one valid candidate (and no
cancellation), the neighbour set handed to the predictors is exactly the full list of
(index, distance) pairs returned by the distance engine; no selection is applied. -/
theorem make_prediction_negative_k (sqrt exp : K → K)
    (solve : (n : Nat) → Matrix (Fin n) (Fin n) K → (Fin n → K) → (Fin n → K))
    (wasserstein_distances :
      Nat → Options K → Manifold K → Manifold K → List Nat → DistanceIndexPairs K)
    (Mp_i : Nat) (opts : Options K) (M Mp : Manifold K) (out : Buffers K)
    (keep_going : Nat → Bool)
    (hgo0 : keep_going 0 = true) (hgo1 : keep_going 1 = true) (hgo2 : keep_going 2 = true)
    (hneg : opts.k < 0)
    (_hpos : 0 < (potentialNN sqrt wasserstein_distances Mp_i opts M Mp).inds.length) :
    make_prediction_select sqrt wasserstein_distances Mp_i opts M Mp out keep_going =
      Selection.neighbours (potentialNN sqrt wasserstein_distances Mp_i opts M Mp)
        { out with kUsed :=
            ((potentialNN sqrt wasserstein_distances Mp_i opts M Mp).inds.length : Int) } ∧
    make_prediction sqrt exp solve wasserstein_distances Mp_i opts M Mp out keep_going =
      make_prediction_predict exp solve Mp_i opts M Mp
        (potentialNN sqrt wasserstein_distances Mp_i opts M Mp)
        { out with kUsed :=
            ((potentialNN sqrt wasserstein_distances Mp_i opts M Mp).inds.length : Int) } := by
  have hnot : ¬ (opts.k >
      ((potentialNN sqrt wasserstein_distances Mp_i opts M Mp).inds.length : Int)) := by
    omega
  have hk0 : opts.k ≠ 0 := by omega
  have hsel : make_prediction_select sqrt wasserstein_distances Mp_i opts M Mp out keep_going =
      Selection.neighbours (potentialNN sqrt wasserstein_distances Mp_i opts M Mp)
        { out with kUsed :=
            ((potentialNN sqrt wasserstein_distances Mp_i opts M Mp).inds.length : Int) } := by
    unfold make_prediction_select make_prediction_kNNs
    simp only [hgo0, hgo1, hgo2, Bool.true_eq_false, if_false, hnot, hk0, hneg, true_or,
      if_true]
  exact ⟨hsel, make_prediction_of_neighbours _ _ _ _ _ _ _ _ _ _ _ _ hsel⟩

/-- Witness for C13: `k = -1` on `exM`, where the query row has one valid candidate. -/
theorem make_prediction_negative_k_witness :
    make_prediction_select id exWasserstein 0 (exOptsK false (-1)) exM exMp edm_task_buffers
        (fun _ => true) =
      Selection.neighbours (potentialNN id exWasserstein 0 (exOptsK false (-1)) exM exMp)
        { edm_task_buffers with kUsed :=
            ((potentialNN id exWasserstein 0 (exOptsK false (-1)) exM exMp).inds.length : Int) } :=
  (make_prediction_negative_k id exExp exSolve exWasserstein 0 (exOptsK false (-1)) exM exMp
    edm_task_buffers (fun _ => true) rfl rfl rfl (by decide)
    (by rw [exPotentialNN]; decide)).1

end MakePrediction

/-! ## Manifold generator: the lag search -/

section LagSearch

variable {K : Type} [LinearOrderedField K]

/-- A successful search stops at a row of the index range with the searched discrete
time, a recorded time and the requested panel. -/
theorem search_loop_found (g : ManifoldGenerator K) (target direction panel : Int)
    (fuel : Nat) (k : Int) (h : (search_loop g target direction panel fuel k).1 = true) :
    0 ≤ (search_loop g target direction panel fuel k).2 ∧
    (search_loop g target direction panel fuel k).2 < (g._discrete_time.length : Int) ∧
    intAt g._discrete_time (search_loop g target direction panel fuel k).2 = target ∧
    ¬ timeMissing g (search_loop g target direction panel fuel k).2 ∧
    inPanel g panel (search_loop g target direction panel fuel k).2 := by
  induction fuel generalizing k with
  | zero => simp [search_loop] at h
  | succ fuel ih =>
    unfold search_loop at h ⊢
    by_cases hr : 0 ≤ k ∧ k < (g._discrete_time.length : Int)
    · rw [if_pos hr] at h ⊢
      by_cases hp : g._panel_ids.length > 0 ∧ panel ≠ intAt g._panel_ids k
      · rw [if_pos hp] at h; simp at h
      · rw [if_neg hp] at h ⊢
        by_cases hm : ((intAt g._discrete_time k : Int) : K) = g._missing
        · rw [if_pos hm] at h ⊢
          exact ih _ h
        · rw [if_neg hm] at h ⊢
          by_cases ht : intAt g._discrete_time k = target
          · rw [if_pos ht]
            refine ⟨hr.1, hr.2, ht, hm, ?_⟩
            intro hpm
            by_contra hne
            exact hp ⟨hpm, fun h' => hne h'.symm⟩
          · rw [if_neg ht] at h ⊢
            by_cases h1 : direction > 0 ∧ intAt g._discrete_time k > target
            · rw [if_pos h1] at h; simp at h
            · rw [if_neg h1] at h ⊢
              by_cases h2 : direction < 0 ∧ intAt g._discrete_time k < target
              · rw [if_pos h2] at h; simp at h
              · rw [if_neg h2] at h ⊢
                exact ih _ h
    · rw [if_neg hr] at h; simp at h

/-- A backward search only moves down, and every row it has passed lies in the index
range, belongs to the requested panel and has no recorded time or a discrete time above
the target. -/
theorem search_loop_back (g : ManifoldGenerator K) (target panel : Int) (fuel : Nat) (k : Int) :
    (search_loop g target (-1) panel fuel k).2 ≤ k ∧
    ∀ m, (search_loop g target (-1) panel fuel k).2 < m → m ≤ k →
      (0 ≤ m ∧ m < (g._discrete_time.length : Int)) ∧ inPanel g panel m ∧
      (timeMissing g m ∨ intAt g._discrete_time m > target) := by
  induction fuel generalizing k with
  | zero =>
    simp only [search_loop]
    exact ⟨le_refl _, fun m h1 h2 => absurd (lt_of_lt_of_le h1 h2) (lt_irrefl _)⟩
  | succ fuel ih =>
    have hstay : ∀ b : Bool, ((b, k) : Bool × Int).2 ≤ k ∧
        ∀ m, ((b, k) : Bool × Int).2 < m → m ≤ k →
          (0 ≤ m ∧ m < (g._discrete_time.length : Int)) ∧ inPanel g panel m ∧
          (timeMissing g m ∨ intAt g._discrete_time m > target) :=
      fun b => ⟨le_refl _, fun m h1 h2 => absurd (lt_of_lt_of_le h1 h2) (lt_irrefl _)⟩
    unfold search_loop
    by_cases hr : 0 ≤ k ∧ k < (g._discrete_time.length : Int)
    · rw [if_pos hr]
      by_cases hp : g._panel_ids.length > 0 ∧ panel ≠ intAt g._panel_ids k
      · rw [if_pos hp]; exact hstay false
      · rw [if_neg hp]
        have hin : inPanel g panel k := by
          intro hpm
          by_contra hne
          exact hp ⟨hpm, fun h' => hne h'.symm⟩
        have hstep : ∀ (hrow : timeMissing g k ∨ intAt g._discrete_time k > target),
            (search_loop g target (-1) panel fuel (k + -1)).2 ≤ k ∧
            ∀ m, (search_loop g target (-1) panel fuel (k + -1)).2 < m → m ≤ k →
              (0 ≤ m ∧ m < (g._discrete_time.length : Int)) ∧ inPanel g panel m ∧
              (timeMissing g m ∨ intAt g._discrete_time m > target) := by
          intro hrow
          obtain ⟨ih1, ih2⟩ := ih (k + -1)
          refine ⟨by omega, ?_⟩
          intro m h1 h2
          by_cases hmk : m = k
          · rw [hmk]; exact ⟨hr, hin, hrow⟩
          · exact ih2 m h1 (by omega)
        by_cases hm : ((intAt g._discrete_time k : Int) : K) = g._missing
        · rw [if_pos hm]
          exact hstep (Or.inl hm)
        · rw [if_neg hm]
          by_cases ht : intAt g._discrete_time k = target
          · rw [if_pos ht]; exact hstay true
          · rw [if_neg ht]
            have h1 : ¬ ((-1 : Int) > 0 ∧ intAt g._discrete_time k > target) := by omega
            rw [if_neg h1]
            by_cases h2 : (-1 : Int) < 0 ∧ intAt g._discrete_time k < target
            · rw [if_pos h2]; exact hstay false
            · rw [if_neg h2]
              exact hstep (Or.inr (by omega))
    · rw [if_neg hr]; exact hstay false

/-- A backward search with enough iterations finds the target when a row `m` at or below
the start has it, the rows from `m` up to the start belong to the requested panel and
none of them with a recorded time lies below the target. -/
theorem search_loop_complete (g : ManifoldGenerator K) (target panel : Int) (fuel : Nat)
    (k m : Int) (hm0 : 0 ≤ m) (hmk : m ≤ k) (hk : k < (g._discrete_time.length : Int))
    (htime : intAt g._discrete_time m = target) (hrec : ¬ timeMissing g m)
    (hpan : ∀ r, m ≤ r → r ≤ k → inPanel g panel r)
    (hmono : ∀ r, m ≤ r → r ≤ k → ¬ timeMissing g r → target ≤ intAt g._discrete_time r)
    (hfuel : (k - m).toNat + 1 ≤ fuel) :
    (search_loop g target (-1) panel fuel k).1 = true ∧
    m ≤ (search_loop g target (-1) panel fuel k).2 := by
  induction fuel generalizing k with
  | zero => omega
  | succ fuel ih =>
    unfold search_loop
    have hr : 0 ≤ k ∧ k < (g._discrete_time.length : Int) := ⟨by omega, hk⟩
    rw [if_pos hr]
    have hp : ¬ (g._panel_ids.length > 0 ∧ panel ≠ intAt g._panel_ids k) := by
      rintro ⟨h1, h2⟩
      exact h2 (hpan k hmk (le_refl _) h1).symm
    rw [if_neg hp]
    have hrec_step : k ≠ m → (search_loop g target (-1) panel fuel (k + -1)).1 = true ∧
        m ≤ (search_loop g target (-1) panel fuel (k + -1)).2 := by
      intro hne
      apply ih (k + -1) (by omega) (by omega)
      · intro r h1 h2; exact hpan r h1 (by omega)
      · intro r h1 h2; exact hmono r h1 (by omega)
      · omega
    by_cases hmiss : ((intAt g._discrete_time k : Int) : K) = g._missing
    · rw [if_pos hmiss]
      apply hrec_step
      intro hkm
      rw [hkm] at hmiss
      exact hrec hmiss
    · rw [if_neg hmiss]
      by_cases ht : intAt g._discrete_time k = target
      · rw [if_pos ht]
        exact ⟨rfl, hmk⟩
      · rw [if_neg ht]
        have h1 : ¬ ((-1 : Int) > 0 ∧ intAt g._discrete_time k > target) := by omega
        rw [if_neg h1]
        have h2 : ¬ ((-1 : Int) < 0 ∧ intAt g._discrete_time k < target) := by
          rintro ⟨_, hlt⟩
          have := hmono k hmk (le_refl _) hmiss
          omega
        rw [if_neg h2]
        apply hrec_step
        intro hkm
        rw [hkm] at ht
        exact ht htime

end LagSearch

/-! ## Manifold generator: `get_lagged_indices` -/

section LaggedIndices

variable {K : Type} [LinearOrderedField K]

/-- Soundness of the lag loop, given that the rows between the carried index and the
start row lie in the index range and in the requested panel. -/
theorem lagged_loop_sound (g : ManifoldGenerator K) (t0 panel start : Int) (n j : Nat)
    (k : Int) (hk : k < start)
    (hinv : ∀ m, k < m → m < start →
      (0 ≤ m ∧ m < (g._discrete_time.length : Int)) ∧ inPanel g panel m) :
    (lagged_loop g t0 panel n j k).length = n ∧
    ∀ idx, idx < n →
      (lagged_loop g t0 panel n j k).getD idx (-1) = -1 ∨
      (0 ≤ (lagged_loop g t0 panel n j k).getD idx (-1) ∧
       (lagged_loop g t0 panel n j k).getD idx (-1) < start ∧
       intAt g._discrete_time ((lagged_loop g t0 panel n j k).getD idx (-1)) =
         t0 - ((j + idx : Nat) : Int) * g._tau ∧
       ¬ timeMissing g ((lagged_loop g t0 panel n j k).getD idx (-1)) ∧
       ∀ m, (lagged_loop g t0 panel n j k).getD idx (-1) ≤ m → m < start →
         inPanel g panel m) := by
  induction n generalizing j k with
  | zero => simp [lagged_loop]
  | succ n ih =>
    unfold lagged_loop
    simp only
    have hback := search_loop_back g (t0 - (j : Int) * g._tau) panel
      (g._discrete_time.length + 1) k
    have hinv' : ∀ m,
        (search_discrete_time g (t0 - (j : Int) * g._tau) k (-1) panel).2 < m → m < start →
        (0 ≤ m ∧ m < (g._discrete_time.length : Int)) ∧ inPanel g panel m := by
      intro m h1 h2
      by_cases hmk : m ≤ k
      · exact ⟨(hback.2 m h1 hmk).1, (hback.2 m h1 hmk).2.1⟩
      · exact hinv m (by omega) h2
    have hk' : (search_discrete_time g (t0 - (j : Int) * g._tau) k (-1) panel).2 < start :=
      lt_of_le_of_lt hback.1 hk
    obtain ⟨ihlen, ihall⟩ := ih (j + 1) _ hk' hinv'
    refine ⟨by rw [List.length_cons, ihlen], ?_⟩
    intro idx hidx
    cases idx with
    | zero =>
      rw [List.getD_cons_zero]
      by_cases hf : (search_discrete_time g (t0 - (j : Int) * g._tau) k (-1) panel).1 = true
      · rw [if_pos hf]
        right
        obtain ⟨f1, _, f3, f4, f5⟩ := search_loop_found g _ _ _ _ _ hf
        refine ⟨f1, hk', ?_, f4, ?_⟩
        · rw [Nat.add_zero]; exact f3
        · intro m h1 h2
          by_cases hme : m = (search_discrete_time g (t0 - (j : Int) * g._tau) k (-1) panel).2
          · rw [hme]; exact f5
          · exact (hinv' m (lt_of_le_of_ne h1 (Ne.symm hme)) h2).2
      · rw [if_neg hf]
        left; rfl
    | succ idx =>
      rw [List.getD_cons_succ]
      have := ihall idx (Nat.lt_of_succ_lt_succ hidx)
      rw [show j + 1 + idx = j + (idx + 1) by omega] at this
      exact this

theorem intAt_nil_of_length (l : List Int) (h : ¬ l.length > 0) (k : Int) : intAt l k = 0 := by
  have : l = [] := List.length_eq_zero.1 (by omega)
  rw [this]
  simp [intAt]

/-- Completeness of the lag loop: with a positive `tau`, contiguous panels and discrete
times that do not decrease within a panel, a lag whose row exists is resolved, whatever
happened to the earlier lags. -/
theorem lagged_loop_complete (g : ManifoldGenerator K) (t0 panel start : Int)
    (htau : 0 < g._tau) (hstart : start < (g._discrete_time.length : Int))
    (hpanel : inPanel g panel start)
    (hcontig : ∀ a m b : Int, 0 ≤ a → a ≤ m → m ≤ b → b < (g._discrete_time.length : Int) →
      intAt g._panel_ids a = intAt g._panel_ids b → intAt g._panel_ids m = intAt g._panel_ids a)
    (hmono : ∀ a b : Int, 0 ≤ a → a ≤ b → b < (g._discrete_time.length : Int) →
      intAt g._panel_ids a = intAt g._panel_ids b → ¬ timeMissing g a → ¬ timeMissing g b →
      intAt g._discrete_time a ≤ intAt g._discrete_time b)
    (n j : Nat) (k : Int) (hk : k < start)
    (hinv : ∀ r, k < r → r < start →
      timeMissing g r ∨ intAt g._discrete_time r > t0 - (j : Int) * g._tau) :
    ∀ idx, idx < n →
      (∃ m : Int, 0 ≤ m ∧ m < start ∧ inPanel g panel m ∧
        intAt g._discrete_time m = t0 - ((j + idx : Nat) : Int) * g._tau ∧ ¬ timeMissing g m) →
      (lagged_loop g t0 panel n j k).getD idx (-1) ≠ -1 := by
  induction n generalizing j k with
  | zero => intro idx h; omega
  | succ n ih =>
    intro idx hidx hex
    unfold lagged_loop
    simp only
    have hback := search_loop_back g (t0 - (j : Int) * g._tau) panel
      (g._discrete_time.length + 1) k
    have hk' : (search_discrete_time g (t0 - (j : Int) * g._tau) k (-1) panel).2 < start :=
      lt_of_le_of_lt hback.1 hk
    cases idx with
    | zero =>
      rw [List.getD_cons_zero]
      obtain ⟨m, hm0, hms, hmp, hmt, hmr⟩ := hex
      rw [Nat.add_zero] at hmt
      have hmk : m ≤ k := by
        by_contra hgt
        rcases hinv m (by omega) hms with h | h
        · exact hmr h
        · omega
      have hsame : ∀ r, m ≤ r → r ≤ k → inPanel g panel r := by
        intro r h1 h2 hpm
        have h3 := hcontig m r start hm0 h1 (by omega) hstart
          ((hmp hpm).trans (hpanel hpm).symm)
        rw [h3]; exact hmp hpm
      have hcomp := search_loop_complete g (t0 - (j : Int) * g._tau) panel
        (g._discrete_time.length + 1) k m hm0 hmk (by omega) hmt hmr hsame
        (by
          intro r h1 h2 hr
          rw [← hmt]
          apply hmono m r hm0 h1 (by omega) _ hmr hr
          by_cases hpm : g._panel_ids.length > 0
          · rw [hmp hpm, hsame r h1 h2 hpm]
          · rw [intAt_nil_of_length _ hpm, intAt_nil_of_length _ hpm])
        (by omega)
      have hf : (search_discrete_time g (t0 - (j : Int) * g._tau) k (-1) panel).1 = true :=
        hcomp.1
      rw [if_pos hf]
      have : m ≤ (search_discrete_time g (t0 - (j : Int) * g._tau) k (-1) panel).2 := hcomp.2
      omega
    | succ idx =>
      rw [List.getD_cons_succ]
      apply ih (j + 1) _ hk'
      · intro r h1 h2
        have hcast : ((j + 1 : Nat) : Int) = (j : Int) + 1 := by push_cast; ring
        by_cases hrk : r ≤ k
        · rcases (hback.2 r h1 hrk).2.2 with h | h
          · exact Or.inl h
          · right
            rw [hcast]
            have : (t0 - ((j : Int) + 1) * g._tau) < t0 - (j : Int) * g._tau := by
              have : ((j : Int) + 1) * g._tau = (j : Int) * g._tau + g._tau := by ring
              omega
            omega
        · rcases hinv r (by omega) h2 with h | h
          · exact Or.inl h
          · right
            rw [hcast]
            have : ((j : Int) + 1) * g._tau = (j : Int) * g._tau + g._tau := by ring
            omega
      · exact Nat.lt_of_succ_lt_succ hidx
      · rw [show j + 1 + idx = j + (idx + 1) by omega]
        exact hex

/-- C15: `get_lagged_indices` returns `E` entries; entry `0` is the start index, and every
entry `j ≥ 1` is either `-1` (unresolved) or an index `k` with `0 ≤ k < start` whose
discrete time is recorded and equals `discrete_time[start] - j * tau`, such that row `k`
and every row between `k` and the start belong to the requested panel (in panel mode):
a lag is never resolved to a row of another panel or with a different time. -/
theorem get_lagged_indices_sound (g : ManifoldGenerator K) (i start E : Nat) (panel : Int)
    (hE : 0 < E) :
    (get_lagged_indices g i start E panel).length = E ∧
    (get_lagged_indices g i start E panel).getD 0 (-1) = (start : Int) ∧
    ∀ j, 1 ≤ j → j < E →
      (get_lagged_indices g i start E panel).getD j (-1) = -1 ∨
      (0 ≤ (get_lagged_indices g i start E panel).getD j (-1) ∧
       (get_lagged_indices g i start E panel).getD j (-1) < (start : Int) ∧
       intAt g._discrete_time ((get_lagged_indices g i start E panel).getD j (-1)) =
         intAt g._discrete_time start - (j : Int) * g._tau ∧
       ¬ timeMissing g ((get_lagged_indices g i start E panel).getD j (-1)) ∧
       ∀ m, (get_lagged_indices g i start E panel).getD j (-1) ≤ m → m < (start : Int) →
         inPanel g panel m) := by
  cases E with
  | zero => omega
  | succ n =>
    unfold get_lagged_indices
    simp only
    obtain ⟨hlen, hall⟩ := lagged_loop_sound g (intAt g._discrete_time start) panel
      (start : Int) n 1 ((start : Int) - 1) (by omega) (fun m h1 h2 => by omega)
    refine ⟨by rw [List.length_cons, hlen], List.getD_cons_zero, ?_⟩
    intro j hj1 hjE
    obtain ⟨j', rfl⟩ : ∃ j', j = j' + 1 := ⟨j - 1, by omega⟩
    rw [List.getD_cons_succ]
    have := hall j' (by omega)
    rw [show 1 + j' = j' + 1 by omega] at this
    exact this

end LaggedIndices

section LaggedIndicesComplete

variable {K : Type} [LinearOrderedField K]

/-- Witness for C15: the panel generator `exG`, start row `2`, `E = 2`. -/
theorem get_lagged_indices_sound_witness :
    (get_lagged_indices exG 2 2 2 8).length = 2 ∧
    (get_lagged_indices exG 2 2 2 8).getD 0 (-1) = ((2 : Nat) : Int) :=
  ⟨(get_lagged_indices_sound exG 2 2 2 8 (by decide)).1,
   (get_lagged_indices_sound exG 2 2 2 8 (by decide)).2.1⟩

/-- C16: if `tau > 0`, the rows of a panel are contiguous and the recorded discrete times
do not decrease with the row index within a panel, then for every start row (in the
requested panel) and every lag `j` in `1..E-1`, whenever some row before the start row in
the same panel has the recorded discrete time `discrete_time[start] - j * tau`, entry `j`
of the result of `get_lagged_indices` is resolved (not `-1`), also when earlier lags were
unresolved. -/
theorem get_lagged_indices_complete (g : ManifoldGenerator K) (i start E : Nat) (panel : Int)
    (htau : 0 < g._tau) (hstart : (start : Int) < (g._discrete_time.length : Int))
    (hpanel : inPanel g panel start)
    (hcontig : ∀ a m b : Int, 0 ≤ a → a ≤ m → m ≤ b → b < (g._discrete_time.length : Int) →
      intAt g._panel_ids a = intAt g._panel_ids b → intAt g._panel_ids m = intAt g._panel_ids a)
    (hmono : ∀ a b : Int, 0 ≤ a → a ≤ b → b < (g._discrete_time.length : Int) →
      intAt g._panel_ids a = intAt g._panel_ids b → ¬ timeMissing g a → ¬ timeMissing g b →
      intAt g._discrete_time a ≤ intAt g._discrete_time b)
    (j : Nat) (hj1 : 1 ≤ j) (hjE : j < E)
    (hex : ∃ m : Int, 0 ≤ m ∧ m < (start : Int) ∧ inPanel g panel m ∧
      intAt g._discrete_time m = intAt g._discrete_time start - (j : Int) * g._tau ∧
      ¬ timeMissing g m) :
    (get_lagged_indices g i start E panel).getD j (-1) ≠ -1 := by
  cases E with
  | zero => omega
  | succ n =>
    unfold get_lagged_indices
    simp only
    obtain ⟨j', rfl⟩ : ∃ j', j = j' + 1 := ⟨j - 1, by omega⟩
    rw [List.getD_cons_succ]
    apply lagged_loop_complete g (intAt g._discrete_time start) panel (start : Int) htau hstart
      hpanel hcontig hmono n 1 ((start : Int) - 1) (by omega) (fun r h1 h2 => by omega) j'
      (by omega)
    rw [show 1 + j' = j' + 1 by omega]
    exact hex

/-- Witness for C16: in `exGaps` the row `4` (time `6`) has no row at time `5`, so lag `1`
is unresolved, but lag `2` (time `4`, row `3`) is resolved. -/
theorem get_lagged_indices_complete_witness :
    (get_lagged_indices exGaps 0 4 4 (-1)).getD 2 (-1) ≠ -1 :=
  get_lagged_indices_complete exGaps 0 4 4 (-1) (by decide) (by decide)
    (fun h => absurd h (by decide))
    (fun a m b _ _ _ _ _ => by simp [exGaps, intAt])
    (fun a b ha hab hb _ _ _ => by
      have hb' : b < 5 := hb
      have hb0 : 0 ≤ b := le_trans ha hab
      interval_cases b <;> interval_cases a <;> simp [exGaps, intAt])
    2 (by decide) (by decide)
    ⟨3, by decide, by decide, fun h => absurd h (by decide), by decide, by
      simp only [timeMissing, intAt, exGaps, MISSING]
      norm_num [Int.toNat]⟩

end LaggedIndicesComplete

/-! ## Manifold generator: `create_manifold` -/

section CreateManifold

variable {K : Type} [LinearOrderedField K]

/-- The filter loop of `create_manifold` started from any state. -/
theorem create_manifold_points_fold (g : ManifoldGenerator K) (filter : List Bool)
    (l : List Nat) (st : List Nat × List K × List Int) :
    l.foldl
      (fun st i =>
        if filter.getD i false = true then
          (st.1 ++ [i], st.2.1 ++ [g._y.getD i 0],
            if g._panel_ids.length > 0 then st.2.2 ++ [g._panel_ids.getD i 0] else st.2.2)
        else st) st =
    (st.1 ++ l.filter (fun i => filter.getD i false),
     st.2.1 ++ (l.filter (fun i => filter.getD i false)).map (fun i => g._y.getD i 0),
     if g._panel_ids.length > 0 then
       st.2.2 ++ (l.filter (fun i => filter.getD i false)).map (fun i => g._panel_ids.getD i 0)
     else st.2.2) := by
  induction l generalizing st with
  | nil => simp
  | cons a l ih =>
    rw [List.foldl_cons, ih]
    by_cases h : filter.getD a false = true
    · by_cases hp : g._panel_ids.length > 0
      · simp only [List.filter_cons, h, if_true, hp, List.map_cons, List.append_assoc,
          List.singleton_append]
      · simp only [List.filter_cons, h, if_true, hp, if_false, List.map_cons,
          List.append_assoc, List.singleton_append]
    · simp only [List.filter_cons, h, if_false, Bool.false_eq_true]

/-- The selected original indices, their targets and their panel ids. -/
theorem create_manifold_points_eq (g : ManifoldGenerator K) (filter : List Bool) :
    create_manifold_points g filter =
      ((List.range filter.length).filter (fun i => filter.getD i false),
       ((List.range filter.length).filter (fun i => filter.getD i false)).map
         (fun i => g._y.getD i 0),
       if g._panel_ids.length > 0 then
         ((List.range filter.length).filter (fun i => filter.getD i false)).map
           (fun i => g._panel_ids.getD i 0)
       else []) := by
  unfold create_manifold_points
  rw [create_manifold_points_fold]
  simp

theorem map_range_getD_self {β : Type} (l : List β) (d : β) :
    (List.range l.length).map (fun i => l.getD i d) = l := by
  apply List.ext_getElem
  · simp
  · intro i h1 h2
    simp [List.getD_eq_getElem?_getD, List.getElem?_eq_getElem h2]

/-- The number of selected indices is the number of `true` entries of the filter. -/
theorem selected_length (filter : List Bool) :
    ((List.range filter.length).filter (fun i => filter.getD i false)).length =
      filter.count true := by
  rw [← List.countP_eq_length_filter]
  have h := List.countP_map (fun b : Bool => b) (fun i => filter.getD i false)
    (List.range filter.length)
  rw [map_range_getD_self] at h
  have h1 : filter.count true = List.countP (fun b => b) filter := by
    unfold List.count
    apply List.countP_congr
    intro b _
    cases b <;> simp
  rw [h1, h]
  rfl

/-- Without `skipMissing` the row loop appends the row of every point and leaves `y` and
`panelIDs` alone. -/
theorem create_manifold_fold_noskip (g : ManifoldGenerator K) (E : Nat)
    (copredict prediction : Bool) (points : List Nat) (l : List Nat)
    (st : List (List K) × List K × List Int) :
    l.foldl (create_manifold_step g E copredict prediction false points) st =
      (st.1 ++ l.map (fun i => manifold_row g E copredict prediction i (points.getD i 0)
          (if g._panel_ids.length > 0 then st.2.2.getD i 0 else -1)),
       st.2.1, st.2.2) := by
  induction l generalizing st with
  | nil => simp
  | cons a l ih =>
    rw [List.foldl_cons, ih]
    simp [create_manifold_step]

/-- The cells of the lagged embedding are the first `E` cells of a row. -/
theorem manifold_row_x (g : ManifoldGenerator K) (E : Nat) (copredict prediction : Bool)
    (i startIndex : Nat) (panel : Int) (j : Nat) (hj : j < E) :
    (manifold_row g E copredict prediction i startIndex panel).getD j 0 =
      lookup_vec (get_lagged_indices g i startIndex E panel) g._missing
        (if prediction = true ∧ copredict = true then g._co_x else g._x) j := by
  unfold manifold_row
  simp only
  rw [List.append_assoc, List.getD_append _ _ _ _ (by simpa using hj)]
  rw [List.getD_eq_getElem _ _ (by simpa using hj)]
  simp only [List.getElem_map, List.getElem_range]
  split <;> rfl

end CreateManifold

section CreateManifoldRows

variable {K : Type} [LinearOrderedField K]

/-- The manifold data built without `skipMissing`. -/
theorem create_manifold_noskip_eq (g : ManifoldGenerator K) (E : Nat) (filter : List Bool)
    (copredict prediction : Bool) :
    (create_manifold g E filter copredict prediction false).flat =
      (List.range (selected filter).length).map (fun r =>
        manifold_row g E copredict prediction r ((selected filter).getD r 0)
          (if g._panel_ids.length > 0 then
            (if g._panel_ids.length > 0 then
              (selected filter).map (fun i => g._panel_ids.getD i 0) else []).getD r 0
           else -1)) ∧
    (create_manifold g E filter copredict prediction false).y =
      (selected filter).map (fun i => g._y.getD i 0) ∧
    (create_manifold g E filter copredict prediction false).panelIDs =
      (if g._panel_ids.length > 0 then (selected filter).map (fun i => g._panel_ids.getD i 0)
       else []) ∧
    (create_manifold g E filter copredict prediction false).nobs = (selected filter).length := by
  unfold create_manifold
  simp only
  rw [create_manifold_fold_noskip, create_manifold_points_eq]
  simp [selected]

/-- C17: `create_manifold` without `skipMissing` builds one row per `true` entry of the
filter; row `r` belongs to the `r`-th selected original index `i_r` (ascending), its
target is `_y[i_r]`, its panel id (panel mode) is `_panel_ids[i_r]`, and its cell for lag
`j < E` is the primary series at the `j`-th lagged index of `i_r`, or `_missing` when that
lag is unresolved; the primary series is `_co_x` when both the prediction and the
copredict flag are set and `_x` otherwise. -/
theorem create_manifold_rows (g : ManifoldGenerator K) (E : Nat) (filter : List Bool)
    (copredict prediction : Bool) :
    (create_manifold g E filter copredict prediction false).nobs = filter.count true ∧
    (create_manifold g E filter copredict prediction false).flat.length = filter.count true ∧
    (selected filter).Sorted (· < ·) ∧
    (selected filter).length = filter.count true ∧
    (∀ i, i ∈ selected filter ↔ i < filter.length ∧ filter.getD i false = true) ∧
    (create_manifold g E filter copredict prediction false).y =
      (selected filter).map (fun i => g._y.getD i 0) ∧
    (g._panel_ids.length > 0 →
      (create_manifold g E filter copredict prediction false).panelIDs =
        (selected filter).map (fun i => g._panel_ids.getD i 0)) ∧
    ∀ r, r < filter.count true → ∀ j, j < E →
      ((create_manifold g E filter copredict prediction false).flat.getD r []).getD j 0 =
        if (get_lagged_indices g r ((selected filter).getD r 0) E
            (if g._panel_ids.length > 0 then g._panel_ids.getD ((selected filter).getD r 0) 0
             else -1)).getD j (-1) < 0
        then g._missing
        else vecAt (if prediction = true ∧ copredict = true then g._co_x else g._x)
          ((get_lagged_indices g r ((selected filter).getD r 0) E
            (if g._panel_ids.length > 0 then g._panel_ids.getD ((selected filter).getD r 0) 0
             else -1)).getD j (-1)) := by
  obtain ⟨hflat, hy, hp, hn⟩ := create_manifold_noskip_eq g E filter copredict prediction
  have hsel : (selected filter).length = filter.count true := selected_length filter
  refine ⟨by rw [hn, hsel], by rw [hflat]; simp [hsel], ?_, hsel, ?_, hy, ?_, ?_⟩
  · exact List.Pairwise.filter _ (List.pairwise_lt_range _)
  · intro i
    simp [selected, List.mem_filter]
  · intro hpm
    rw [hp, if_pos hpm]
  · intro r hr j hj
    have hr' : r < (selected filter).length := by rw [hsel]; exact hr
    have hrow : ((List.range (selected filter).length).map (fun r =>
        manifold_row g E copredict prediction r ((selected filter).getD r 0)
          (if g._panel_ids.length > 0 then
            (if g._panel_ids.length > 0 then
              (selected filter).map (fun i => g._panel_ids.getD i 0) else []).getD r 0
           else -1))).getD r [] =
        manifold_row g E copredict prediction r ((selected filter).getD r 0)
          (if g._panel_ids.length > 0 then
            (if g._panel_ids.length > 0 then
              (selected filter).map (fun i => g._panel_ids.getD i 0) else []).getD r 0
           else -1) := by
      rw [List.getD_eq_getElem _ _ (by simpa using hr')]
      simp only [List.getElem_map, List.getElem_range]
    rw [hflat, hrow, manifold_row_x g E copredict prediction _ _ _ j hj]
    have hpanel : (if g._panel_ids.length > 0 then
          (if g._panel_ids.length > 0 then
            (selected filter).map (fun i => g._panel_ids.getD i 0) else []).getD r 0
         else (-1 : Int)) =
        (if g._panel_ids.length > 0 then g._panel_ids.getD ((selected filter).getD r 0) 0
         else -1) := by
      by_cases hpm : g._panel_ids.length > 0
      · rw [if_pos hpm, if_pos hpm, if_pos hpm]
        rw [List.getD_eq_getElem _ _ (by simpa using hr'),
          List.getD_eq_getElem _ _ hr']
        simp
      · rw [if_neg hpm, if_neg hpm]
    rw [hpanel]
    rfl

end CreateManifoldRows

/-! ## Manifold generator: the columns of a row -/

section Columns

variable {K : Type} [LinearOrderedField K]

/-- Length of the blocks of the first `n` indices laid end to end. -/
theorem flatMap_range_succ {β : Type} (f : Nat → List β) (n : Nat) :
    (List.range (n + 1)).flatMap f = (List.range n).flatMap f ++ f n := by
  rw [List.range_succ, List.flatMap_append, List.flatMap_singleton]

theorem flatMap_prefix_le {β : Type} (f : Nat → List β) (N k : Nat) (hk : k < N) :
    ((List.range k).flatMap f).length + (f k).length ≤ ((List.range N).flatMap f).length := by
  induction N with
  | zero => omega
  | succ N ih =>
    rw [flatMap_range_succ f N, List.length_append]
    by_cases h : k = N
    · rw [h]
    · have := ih (by omega)
      omega

/-- Block `k` starts where the blocks of the indices below `k` end. -/
theorem getD_flatMap_range {β : Type} (f : Nat → List β) (d : β) (N k j : Nat) (hk : k < N)
    (hj : j < (f k).length) :
    ((List.range N).flatMap f).getD (((List.range k).flatMap f).length + j) d =
      (f k).getD j d := by
  induction N with
  | zero => omega
  | succ N ih =>
    rw [flatMap_range_succ f N]
    by_cases h : k = N
    · rw [h, List.getD_append_right _ _ _ _ (by omega)]
      congr 1
      omega
    · have hle := flatMap_prefix_le f N k (by omega)
      rw [List.getD_append _ _ _ _ (by omega)]
      exact ih (by omega)

/-- The blocks of the extras: `E` cells for each of the first `L` extras, one cell for
each other one. -/
theorem extras_prefix_length {β : Type} (f : Nat → List β) (E L : Nat)
    (hf : ∀ k, (f k).length = if k < L then E else 1) (n : Nat) :
    ((List.range n).flatMap f).length = E * min L n + (n - L) := by
  induction n with
  | zero => simp
  | succ n ih =>
    rw [flatMap_range_succ f n, List.length_append, ih, hf n]
    by_cases h : n < L
    · rw [if_pos h, Nat.min_eq_right (by omega), Nat.min_eq_right (by omega), Nat.mul_succ]
      omega
    · rw [if_neg h, Nat.min_eq_left (by omega), Nat.min_eq_left (by omega)]
      omega

/-- The three blocks of a row. -/
theorem manifold_row_blocks (g : ManifoldGenerator K) (E : Nat) (copredict prediction : Bool)
    (i startIndex : Nat) (panel : Int) :
    ∃ xs dts extras : List K,
      manifold_row g E copredict prediction i startIndex panel = xs ++ dts ++ extras ∧
      xs.length = E ∧ dts.length = g.E_dt E ∧
      (∀ j, j < g.E_dt E → dts.getD j 0 =
        if j = 0 then dt_first g (get_lagged_indices g i startIndex E panel) startIndex panel
        else dt_later g (get_lagged_indices g i startIndex E panel) j) ∧
      extras = (List.range g._num_extras).flatMap (fun k =>
        (List.range (if k < g._num_extras_lagged then E else 1)).map fun j =>
          lookup_vec (get_lagged_indices g i startIndex E panel) g._missing
            (g._extras.getD k []) j) := by
  refine ⟨_, _, _, rfl, by simp, ?_, ?_, rfl⟩
  · by_cases h : g.E_dt E > 0
    · rw [if_pos h]
      simp only [List.length_cons, List.length_map, List.length_range']
      omega
    · rw [if_neg h]
      simp only [List.length_nil]
      omega
  · intro j hj
    have h : g.E_dt E > 0 := by omega
    rw [if_pos h]
    cases j with
    | zero => simp
    | succ j =>
      rw [List.getD_cons_succ, List.getD_eq_getElem _ _ (by
        simp only [List.length_map, List.length_range']; omega)]
      simp only [List.getElem_map, List.getElem_range', Nat.add_eq_zero, one_ne_zero,
        and_false, if_false]
      congr 1
      omega

/-- The number of cells of a row. -/
theorem manifold_row_length (g : ManifoldGenerator K) (E : Nat) (copredict prediction : Bool)
    (i startIndex : Nat) (panel : Int) (hL : g._num_extras_lagged ≤ g._num_extras) :
    (manifold_row g E copredict prediction i startIndex panel).length = g.E_actual E := by
  obtain ⟨xs, dts, extras, hrow, hxs, hdts, _, hex⟩ :=
    manifold_row_blocks g E copredict prediction i startIndex panel
  rw [hrow, List.length_append, List.length_append, hxs, hdts, hex,
    extras_prefix_length _ E g._num_extras_lagged (fun k => by simp) g._num_extras,
    Nat.min_eq_left hL]
  rfl

end Columns

section ColumnsClaim

variable {K : Type} [LinearOrderedField K]

/-- Every row kept by the row loop of `create_manifold` is the row written for some
point. -/
theorem create_manifold_fold_rows (g : ManifoldGenerator K) (E : Nat)
    (copredict prediction skipMissing : Bool) (points : List Nat) (l : List Nat)
    (st : List (List K) × List K × List Int)
    (hst : ∀ row ∈ st.1, ∃ i startIndex panel,
      row = manifold_row g E copredict prediction i startIndex panel) :
    ∀ row ∈ (l.foldl (create_manifold_step g E copredict prediction skipMissing points) st).1,
      ∃ i startIndex panel, row = manifold_row g E copredict prediction i startIndex panel := by
  induction l generalizing st with
  | nil => exact hst
  | cons a l ih =>
    rw [List.foldl_cons]
    apply ih
    have hstep : (create_manifold_step g E copredict prediction skipMissing points st a).1 =
          st.1 ∨
        ∃ panel, (create_manifold_step g E copredict prediction skipMissing points st a).1 =
          st.1 ++ [manifold_row g E copredict prediction a (points.getD a 0) panel] := by
      unfold create_manifold_step
      simp only
      split_ifs
      · exact Or.inl rfl
      · exact Or.inr ⟨_, rfl⟩
      · exact Or.inl rfl
      · exact Or.inr ⟨_, rfl⟩
    rcases hstep with h | ⟨panel, h⟩
    · rw [h]; exact hst
    · rw [h]
      intro row hrow
      rcases List.mem_append.1 hrow with h' | h'
      · exact hst row h'
      · rw [List.mem_singleton] at h'
        exact ⟨_, _, _, h'⟩

theorem create_manifold_flat_rows (g : ManifoldGenerator K) (E : Nat) (filter : List Bool)
    (copredict prediction skipMissing : Bool) :
    ∀ row ∈ (create_manifold g E filter copredict prediction skipMissing).flat,
      ∃ i startIndex panel, row = manifold_row g E copredict prediction i startIndex panel := by
  unfold create_manifold
  simp only
  apply create_manifold_fold_rows
  intro row hrow
  simp at hrow

/-- The cells of the extras in a row: extra `k` of the lagged ones fills the `E` columns
from `E + E_dt + k * E`, extra `k` of the others the column `E + E_dt + L * E + (k - L)`. -/
theorem manifold_row_extras (g : ManifoldGenerator K) (E : Nat) (copredict prediction : Bool)
    (i startIndex : Nat) (panel : Int) (hL : g._num_extras_lagged ≤ g._num_extras) :
    (∀ k, k < g._num_extras_lagged → ∀ j, j < E →
      (manifold_row g E copredict prediction i startIndex panel).getD
        (E + g.E_dt E + k * E + j) 0 =
      lookup_vec (get_lagged_indices g i startIndex E panel) g._missing
        (g._extras.getD k []) j) ∧
    (∀ k, g._num_extras_lagged ≤ k → k < g._num_extras →
      (manifold_row g E copredict prediction i startIndex panel).getD
        (E + g.E_dt E + g._num_extras_lagged * E + (k - g._num_extras_lagged)) 0 =
      lookup_vec (get_lagged_indices g i startIndex E panel) g._missing
        (g._extras.getD k []) 0) := by
  obtain ⟨xs, dts, extras, hrow, hxs, hdts, _, hex⟩ :=
    manifold_row_blocks g E copredict prediction i startIndex panel
  have hblock : ∀ k, k < g._num_extras → ∀ j,
      j < (if k < g._num_extras_lagged then E else 1) →
      (manifold_row g E copredict prediction i startIndex panel).getD
        (E + g.E_dt E + (E * min g._num_extras_lagged k + (k - g._num_extras_lagged)) + j) 0 =
      lookup_vec (get_lagged_indices g i startIndex E panel) g._missing
        (g._extras.getD k []) j := by
    intro k hk j hj
    rw [hrow, List.getD_append_right _ _ _ _ (by rw [List.length_append, hxs, hdts]; omega),
      List.length_append, hxs, hdts, hex]
    have hidx : E + g.E_dt E + (E * min g._num_extras_lagged k + (k - g._num_extras_lagged)) + j
        - (E + g.E_dt E) =
        ((List.range k).flatMap (fun k =>
          (List.range (if k < g._num_extras_lagged then E else 1)).map fun j =>
            lookup_vec (get_lagged_indices g i startIndex E panel) g._missing
              (g._extras.getD k []) j)).length + j := by
      rw [extras_prefix_length _ E g._num_extras_lagged (fun k => by simp) k]
      omega
    rw [hidx, getD_flatMap_range _ _ _ _ _ hk (by simpa using hj),
      List.getD_eq_getElem _ _ (by simpa using hj)]
    simp
  constructor
  · intro k hk j hj
    have := hblock k (by omega) j (by rw [if_pos hk]; exact hj)
    rw [Nat.min_eq_right (by omega), Nat.sub_eq_zero_of_le (by omega), Nat.add_zero,
      Nat.mul_comm E k] at this
    exact this
  · intro k hk1 hk2
    have := hblock k hk2 0 (by rw [if_neg (by omega)]; exact Nat.one_pos)
    rw [Nat.min_eq_left hk1, Nat.add_zero, Nat.mul_comm E _, ← Nat.add_assoc] at this
    exact this

/-- C18: for every `E` and filter (with or without `skipMissing`), the manifold reports
`E_actual = E + E_dt + E_extras` columns with
`E_extras = E * (number of lagged extras) + (number of unlagged extras)`, and that is the
number of cells written for each row; without `skipMissing` there is one row for every
`true` entry of the filter.  Each row is the row of some point: its first `E` cells, the
`E` consecutive cells of each lagged extra and the single cell of each unlagged extra
are all looked up through the same lagged indices, the unlagged extra at lag `0` (the
start index itself). -/
theorem create_manifold_columns (g : ManifoldGenerator K) (E : Nat) (filter : List Bool)
    (copredict prediction skipMissing : Bool)
    (hL : g._num_extras_lagged ≤ g._num_extras) :
    (create_manifold g E filter copredict prediction skipMissing).E_actual =
      E + (create_manifold g E filter copredict prediction skipMissing).E_dt +
        (create_manifold g E filter copredict prediction skipMissing).E_extras ∧
    (create_manifold g E filter copredict prediction skipMissing).E_extras =
      E * g._num_extras_lagged + (g._num_extras - g._num_extras_lagged) ∧
    (skipMissing = false →
      (create_manifold g E filter copredict prediction skipMissing).flat.length =
        filter.count true) ∧
    ∀ row ∈ (create_manifold g E filter copredict prediction skipMissing).flat,
      row.length = E + g.E_dt E + (E * g._num_extras_lagged +
        (g._num_extras - g._num_extras_lagged)) ∧
      row.length = (create_manifold g E filter copredict prediction skipMissing).E_actual ∧
      ∃ (i startIndex : Nat) (panel : Int),
        (∀ j, j < E → row.getD j 0 =
          lookup_vec (get_lagged_indices g i startIndex E panel) g._missing
            (if prediction = true ∧ copredict = true then g._co_x else g._x) j) ∧
        (∀ k, k < g._num_extras_lagged → ∀ j, j < E →
          row.getD (E + g.E_dt E + k * E + j) 0 =
            lookup_vec (get_lagged_indices g i startIndex E panel) g._missing
              (g._extras.getD k []) j) ∧
        (∀ k, g._num_extras_lagged ≤ k → k < g._num_extras →
          row.getD (E + g.E_dt E + g._num_extras_lagged * E + (k - g._num_extras_lagged)) 0 =
            lookup_vec (get_lagged_indices g i startIndex E panel) g._missing
              (g._extras.getD k []) 0 ∧
          (0 < E →
            row.getD (E + g.E_dt E + g._num_extras_lagged * E + (k - g._num_extras_lagged)) 0 =
              vecAt (g._extras.getD k []) startIndex)) := by
  refine ⟨rfl, rfl, ?_, ?_⟩
  · intro hs
    subst hs
    rw [(create_manifold_noskip_eq g E filter copredict prediction).1, List.length_map,
      List.length_range]
    exact selected_length filter
  intro row hrow
  obtain ⟨i, startIndex, panel, rfl⟩ :=
    create_manifold_flat_rows g E filter copredict prediction skipMissing row hrow
  refine ⟨manifold_row_length g E copredict prediction i startIndex panel hL,
    manifold_row_length g E copredict prediction i startIndex panel hL,
    i, startIndex, panel, ?_, ?_, ?_⟩
  · intro j hj
    exact manifold_row_x g E copredict prediction i startIndex panel j hj
  · exact (manifold_row_extras g E copredict prediction i startIndex panel hL).1
  · intro k hk1 hk2
    have h := (manifold_row_extras g E copredict prediction i startIndex panel hL).2 k hk1 hk2
    refine ⟨h, ?_⟩
    intro hE
    rw [h]
    cases E with
    | zero => omega
    | succ n =>
      unfold lookup_vec get_lagged_indices
      simp only [List.getD_cons_zero]
      rw [if_neg (by omega)]

set_option maxRecDepth 20000 in
/-- The rows of the manifold of `exGx` for `E = 2`: two cells of the primary series, one
time-lag cell, two cells of the lagged extra and one cell of the unlagged extra. -/
theorem exGx_flat :
    (create_manifold exGx 2 [true, true, true] false false false).flat =
      [[1, MISSING, 1, 7, MISSING, 4], [2, 1, 1, 8, 7, 5], [3, 2, MISSING, 9, 8, 6]] := by
  simp [create_manifold, create_manifold_points, create_manifold_step, manifold_row,
    get_lagged_indices, lagged_loop, search_discrete_time, search_loop, lookup_vec, vecAt,
    intAt, dt_first, dt_later, exGx, MISSING, ManifoldGenerator.E_actual,
    ManifoldGenerator.E_extras, List.range_succ, List.flatMap]
  norm_num [Int.toNat]

/-- Witness for C18: the generator `exGx` with one time-lag column, a lagged and an
unlagged extra, `E = 2`, all three observations selected: three rows of six cells. -/
theorem create_manifold_columns_witness :
    exGx._num_extras_lagged ≤ exGx._num_extras ∧
    (create_manifold exGx 2 [true, true, true] false false false).flat =
      [[1, MISSING, 1, 7, MISSING, 4], [2, 1, 1, 8, 7, 5], [3, 2, MISSING, 9, 8, 6]] ∧
    (create_manifold exGx 2 [true, true, true] false false false).E_actual =
      2 + (create_manifold exGx 2 [true, true, true] false false false).E_dt +
        (create_manifold exGx 2 [true, true, true] false false false).E_extras ∧
    (create_manifold exGx 2 [true, true, true] false false false).E_extras =
      2 * exGx._num_extras_lagged + (exGx._num_extras - exGx._num_extras_lagged) ∧
    (false = false →
      (create_manifold exGx 2 [true, true, true] false false false).flat.length =
        ([true, true, true] : List Bool).count true) ∧
    ∀ row ∈ (create_manifold exGx 2 [true, true, true] false false false).flat,
      row.length = 2 + exGx.E_dt 2 + (2 * exGx._num_extras_lagged +
        (exGx._num_extras - exGx._num_extras_lagged)) ∧
      row.length = (create_manifold exGx 2 [true, true, true] false false false).E_actual ∧
      ∃ (i startIndex : Nat) (panel : Int),
        (∀ j, j < 2 → row.getD j 0 =
          lookup_vec (get_lagged_indices exGx i startIndex 2 panel) exGx._missing
            (if false = true ∧ false = true then exGx._co_x else exGx._x) j) ∧
        (∀ k, k < exGx._num_extras_lagged → ∀ j, j < 2 →
          row.getD (2 + exGx.E_dt 2 + k * 2 + j) 0 =
            lookup_vec (get_lagged_indices exGx i startIndex 2 panel) exGx._missing
              (exGx._extras.getD k []) j) ∧
        (∀ k, exGx._num_extras_lagged ≤ k → k < exGx._num_extras →
          row.getD (2 + exGx.E_dt 2 + exGx._num_extras_lagged * 2 + (k - exGx._num_extras_lagged)) 0 =
            lookup_vec (get_lagged_indices exGx i startIndex 2 panel) exGx._missing
              (exGx._extras.getD k []) 0 ∧
          (0 < 2 →
            row.getD (2 + exGx.E_dt 2 + exGx._num_extras_lagged * 2 + (k - exGx._num_extras_lagged)) 0 =
              vecAt (exGx._extras.getD k []) startIndex)) :=
  ⟨by decide, exGx_flat,
    create_manifold_columns exGx 2 [true, true, true] false false false (by decide)⟩

end ColumnsClaim

/-! ## Manifold generator: time-lag columns and `skipMissing` -/

section DtAndSkip

variable {K : Type} [LinearOrderedField K]

/-- Row `r` of the manifold data built without `skipMissing` is the row written for the
`r`-th selected index, searched in the panel of that index. -/
theorem create_manifold_noskip_row (g : ManifoldGenerator K) (E : Nat) (filter : List Bool)
    (copredict prediction : Bool) (r : Nat) (hr : r < filter.count true) :
    (create_manifold g E filter copredict prediction false).flat.getD r [] =
      manifold_row g E copredict prediction r ((selected filter).getD r 0)
        (if g._panel_ids.length > 0 then g._panel_ids.getD ((selected filter).getD r 0) 0
         else -1) := by
  have hr' : r < (selected filter).length := by
    rw [selected, selected_length]; exact hr
  rw [(create_manifold_noskip_eq g E filter copredict prediction).1,
    List.getD_eq_getElem _ _ (by simpa using hr')]
  simp only [List.getElem_map, List.getElem_range]
  congr 1
  by_cases hpm : g._panel_ids.length > 0
  · rw [if_pos hpm, if_pos hpm, if_pos hpm, List.getD_eq_getElem _ _ (by simpa using hr'),
      List.getD_eq_getElem _ _ hr']
    simp
  · rw [if_neg hpm, if_neg hpm]

/-- The time-lag cells are the cells `E, ..., E + E_dt - 1` of a row. -/
theorem manifold_row_dt (g : ManifoldGenerator K) (E : Nat) (copredict prediction : Bool)
    (i startIndex : Nat) (panel : Int) (j : Nat) (hj : j < g.E_dt E) :
    (manifold_row g E copredict prediction i startIndex panel).getD (E + j) 0 =
      if j = 0 then dt_first g (get_lagged_indices g i startIndex E panel) startIndex panel
      else dt_later g (get_lagged_indices g i startIndex E panel) j := by
  obtain ⟨xs, dts, extras, hrow, hxs, hdts, hcells, _⟩ :=
    manifold_row_blocks g E copredict prediction i startIndex panel
  rw [hrow, List.append_assoc, List.getD_append_right _ _ _ _ (by omega), hxs,
    Nat.add_sub_cancel_left, List.getD_append _ _ _ _ (by omega)]
  exact hcells j hj

/-- The value looked up for a lag is present exactly when the lag is resolved and the
vector holds a value other than `missing` there. -/
theorem lookup_vec_ne_missing (lagged : List Int) (missing : K) (vec : List K) (j : Nat) :
    lookup_vec lagged missing vec j ≠ missing ↔
      0 ≤ lagged.getD j (-1) ∧ vecAt vec (lagged.getD j (-1)) ≠ missing := by
  unfold lookup_vec
  by_cases h : lagged.getD j (-1) < 0
  · rw [if_pos h]
    constructor
    · intro h'; exact absurd rfl h'
    · intro h'; omega
  · rw [if_neg h]
    constructor
    · intro h'; exact ⟨by omega, h'⟩
    · intro h'; exact h'.2

/-- The first time-lag cell of a row. -/
theorem manifold_row_dt_first (g : ManifoldGenerator K) (E : Nat) (copredict prediction : Bool)
    (i startIndex : Nat) (panel : Int) (hdt : 0 < g.E_dt E) :
    (manifold_row g E copredict prediction i startIndex panel).getD E 0 =
      dt_first g (get_lagged_indices g i startIndex E panel) startIndex panel := by
  have h := manifold_row_dt g E copredict prediction i startIndex panel 0 hdt
  rw [Nat.add_zero] at h
  rw [h]
  exact if_pos rfl

/-- The later time-lag cells of a row, in terms of the lagged indices. -/
theorem manifold_row_dt_later (g : ManifoldGenerator K) (E : Nat) (copredict prediction : Bool)
    (i startIndex : Nat) (panel : Int) (lagged : List Int)
    (hlag : get_lagged_indices g i startIndex E panel = lagged)
    (j : Nat) (hj1 : 1 ≤ j) (hj : j < g.E_dt E) :
    (manifold_row g E copredict prediction i startIndex panel).getD (E + j) 0 =
      if (0 ≤ lagged.getD (j - 1) (-1) ∧ vecAt g._t (lagged.getD (j - 1) (-1)) ≠ g._missing) ∧
         (0 ≤ lagged.getD j (-1) ∧ vecAt g._t (lagged.getD j (-1)) ≠ g._missing)
      then g._dtWeight * (vecAt g._t (lagged.getD (j - 1) (-1)) - vecAt g._t (lagged.getD j (-1)))
      else g._missing := by
  have hj0 : ¬ j = 0 := by omega
  rw [manifold_row_dt g E copredict prediction i startIndex panel j hj, hlag]
  have hite : (if j = 0 then dt_first g lagged startIndex panel else dt_later g lagged j) =
      dt_later g lagged j := if_neg hj0
  rw [hite]
  unfold dt_later
  simp only
  by_cases h1 : lookup_vec lagged g._missing g._t (j - 1) ≠ g._missing
  · by_cases h2 : lookup_vec lagged g._missing g._t j ≠ g._missing
    · have h1' := (lookup_vec_ne_missing _ _ _ _).1 h1
      have h2' := (lookup_vec_ne_missing _ _ _ _).1 h2
      have e1 : lookup_vec lagged g._missing g._t (j - 1) =
          vecAt g._t (lagged.getD (j - 1) (-1)) := by
        unfold lookup_vec
        exact if_neg (by omega)
      have e2 : lookup_vec lagged g._missing g._t j = vecAt g._t (lagged.getD j (-1)) := by
        unfold lookup_vec
        exact if_neg (by omega)
      rw [if_pos (show _ ∧ _ from ⟨h1, h2⟩), if_pos (show _ ∧ _ from ⟨h1', h2'⟩), e1, e2]
    · have hn : ¬ ((0 ≤ lagged.getD (j - 1) (-1) ∧
            vecAt g._t (lagged.getD (j - 1) (-1)) ≠ g._missing) ∧
          (0 ≤ lagged.getD j (-1) ∧ vecAt g._t (lagged.getD j (-1)) ≠ g._missing)) :=
        fun h => h2 ((lookup_vec_ne_missing _ _ _ _).2 h.2)
      have hn' : ¬ (lookup_vec lagged g._missing g._t (j - 1) ≠ g._missing ∧
          lookup_vec lagged g._missing g._t j ≠ g._missing) := fun h => h2 h.2
      rw [if_neg hn', if_neg hn]
  · have hn : ¬ ((0 ≤ lagged.getD (j - 1) (-1) ∧
          vecAt g._t (lagged.getD (j - 1) (-1)) ≠ g._missing) ∧
        (0 ≤ lagged.getD j (-1) ∧ vecAt g._t (lagged.getD j (-1)) ≠ g._missing)) :=
      fun h => h1 ((lookup_vec_ne_missing _ _ _ _).2 h.1)
    have hn' : ¬ (lookup_vec lagged g._missing g._t (j - 1) ≠ g._missing ∧
        lookup_vec lagged g._missing g._t j ≠ g._missing) := fun h => h1 h.1
    rw [if_neg hn', if_neg hn]

/-- C20 (as stated) fails for `p = 0`: in `exGdt` the second observation has a `MISSING`
time, yet the first time-lag cell of its row (column `E = 2`) is `0`, not `MISSING`. -/
theorem create_manifold_dt0_not_missing :
    vecAt exGdt._t 1 = exGdt._missing ∧
    (selected [true, true, true]).getD 1 0 = 1 ∧
    ((create_manifold exGdt 2 [true, true, true] false false false).flat.getD 1 []).getD 2 0
      = 0 ∧
    (0 : ℚ) ≠ exGdt._missing := by
  refine ⟨by simp [vecAt, exGdt], by simp [selected, List.range_succ], ?_, ?_⟩
  · rw [create_manifold_noskip_row exGdt 2 [true, true, true] false false 1 (by decide)]
    rw [show (2 : Nat) = 2 + 0 from rfl, manifold_row_dt exGdt 2 false false _ _ _ 0 (by decide)]
    simp [dt_first, exGdt]
  · simp only [exGdt, MISSING]
    norm_num

/-- C20 (amended): in a manifold built without `skipMissing`, with `E_dt > 0`, the first
time-lag cell of the row of start index `start` is `0` when the horizon `p` is `0`
(whether or not the row's own time is `MISSING`); when `p` is not `0` it is
`dtWeight * (t_pred - t_now)` if the row's own time `t_now` is not `MISSING` and the
search from the start row in the direction of `p` finds a row with discrete time
`discrete_time[start] + p` in the same panel (`t_pred` the time of that row), and
`MISSING` otherwise.  Every later time-lag cell `j` is `dtWeight * (t[lag j-1] - t[lag j])`
when both lags are resolved with times other than `MISSING`, and `MISSING` otherwise. -/
theorem create_manifold_dt_columns (g : ManifoldGenerator K) (E : Nat) (filter : List Bool)
    (copredict prediction : Bool) (r : Nat) (hE : 0 < E) (hr : r < filter.count true)
    (hdt : 0 < g.E_dt E) :
    (g._p = 0 →
      ((create_manifold g E filter copredict prediction false).flat.getD r []).getD E 0 = 0) ∧
    (g._p ≠ 0 →
      ((create_manifold g E filter copredict prediction false).flat.getD r []).getD E 0 =
        (if vecAt g._t ((selected filter).getD r 0) ≠ g._missing ∧
            (search_discrete_time g
              (intAt g._discrete_time ((selected filter).getD r 0) + g._p)
              ((selected filter).getD r 0) (if g._p > 0 then 1 else -1)
              (if g._panel_ids.length > 0 then g._panel_ids.getD ((selected filter).getD r 0) 0
               else -1)).1 = true
         then g._dtWeight *
           (vecAt g._t (search_discrete_time g
              (intAt g._discrete_time ((selected filter).getD r 0) + g._p)
              ((selected filter).getD r 0) (if g._p > 0 then 1 else -1)
              (if g._panel_ids.length > 0 then g._panel_ids.getD ((selected filter).getD r 0) 0
               else -1)).2 - vecAt g._t ((selected filter).getD r 0))
         else g._missing) ∧
      ((search_discrete_time g
          (intAt g._discrete_time ((selected filter).getD r 0) + g._p)
          ((selected filter).getD r 0) (if g._p > 0 then 1 else -1)
          (if g._panel_ids.length > 0 then g._panel_ids.getD ((selected filter).getD r 0) 0
           else -1)).1 = true →
        intAt g._discrete_time (search_discrete_time g
          (intAt g._discrete_time ((selected filter).getD r 0) + g._p)
          ((selected filter).getD r 0) (if g._p > 0 then 1 else -1)
          (if g._panel_ids.length > 0 then g._panel_ids.getD ((selected filter).getD r 0) 0
           else -1)).2 = intAt g._discrete_time ((selected filter).getD r 0) + g._p ∧
        inPanel g
          (if g._panel_ids.length > 0 then g._panel_ids.getD ((selected filter).getD r 0) 0
           else -1)
          (search_discrete_time g
            (intAt g._discrete_time ((selected filter).getD r 0) + g._p)
            ((selected filter).getD r 0) (if g._p > 0 then 1 else -1)
            (if g._panel_ids.length > 0 then g._panel_ids.getD ((selected filter).getD r 0) 0
             else -1)).2)) ∧
    (∀ j, 1 ≤ j → j < g.E_dt E →
      ((create_manifold g E filter copredict prediction false).flat.getD r []).getD (E + j) 0 =
        if (0 ≤ (get_lagged_indices g r ((selected filter).getD r 0) E
              (if g._panel_ids.length > 0 then
                g._panel_ids.getD ((selected filter).getD r 0) 0 else -1)).getD (j - 1) (-1) ∧
            vecAt g._t ((get_lagged_indices g r ((selected filter).getD r 0) E
              (if g._panel_ids.length > 0 then
                g._panel_ids.getD ((selected filter).getD r 0) 0 else -1)).getD (j - 1) (-1))
              ≠ g._missing) ∧
           (0 ≤ (get_lagged_indices g r ((selected filter).getD r 0) E
              (if g._panel_ids.length > 0 then
                g._panel_ids.getD ((selected filter).getD r 0) 0 else -1)).getD j (-1) ∧
            vecAt g._t ((get_lagged_indices g r ((selected filter).getD r 0) E
              (if g._panel_ids.length > 0 then
                g._panel_ids.getD ((selected filter).getD r 0) 0 else -1)).getD j (-1))
              ≠ g._missing)
        then g._dtWeight *
          (vecAt g._t ((get_lagged_indices g r ((selected filter).getD r 0) E
              (if g._panel_ids.length > 0 then
                g._panel_ids.getD ((selected filter).getD r 0) 0 else -1)).getD (j - 1) (-1)) -
           vecAt g._t ((get_lagged_indices g r ((selected filter).getD r 0) E
              (if g._panel_ids.length > 0 then
                g._panel_ids.getD ((selected filter).getD r 0) 0 else -1)).getD j (-1)))
        else g._missing) := by
  rw [create_manifold_noskip_row g E filter copredict prediction r hr]
  have hfirst := manifold_row_dt_first g E copredict prediction r ((selected filter).getD r 0)
    (if g._panel_ids.length > 0 then g._panel_ids.getD ((selected filter).getD r 0) 0 else -1)
    hdt
  have hlag0 : lookup_vec (get_lagged_indices g r ((selected filter).getD r 0) E
      (if g._panel_ids.length > 0 then g._panel_ids.getD ((selected filter).getD r 0) 0
       else -1)) g._missing g._t 0 = vecAt g._t ((selected filter).getD r 0) := by
    cases E with
    | zero => omega
    | succ n =>
      unfold lookup_vec get_lagged_indices
      simp only [List.getD_cons_zero]
      exact if_neg (by omega)
  refine ⟨?_, ?_, ?_⟩
  · intro hp
    rw [hfirst]
    unfold dt_first
    exact if_pos hp
  · intro hp
    constructor
    · rw [hfirst]
      unfold dt_first
      have hite : ∀ a b : K, (if g._p = 0 then a else b) = b := fun a b => if_neg hp
      rw [hite]
      simp only
      rw [hlag0]
    · intro hfound
      obtain ⟨_, _, f3, _, f5⟩ := search_loop_found g _ _ _ _ _ hfound
      exact ⟨f3, f5⟩
  · intro j hj1 hj
    exact manifold_row_dt_later g E copredict prediction _ _ _ _ rfl j hj1 hj

/-- Witness for C20 (amended): row `2` of `exGdt` with `E = 2`, where `p = 0`. -/
theorem create_manifold_dt_columns_witness :
    ((create_manifold exGdt 2 [true, true, true] false false false).flat.getD 2 []).getD 2 0
      = 0 :=
  (create_manifold_dt_columns exGdt 2 [true, true, true] false false 2 (by decide) (by decide)
    (by decide)).1 rfl

set_option maxRecDepth 20000 in
/-- C19 fails on the code in panel mode: in `exG` (panels `7, 7, 8`, `E = 2`) the manifold
built without `skipMissing` has exactly one row without `MISSING` cell, the row `[2, 1]` of
observation `1`; with `skipMissing` observation `0` is erased first, after which
`panelIDs[1]` is the panel of observation `2`, the lag of observation `1` is searched in
the wrong panel and its row is dropped as well: no row is left. -/
theorem create_manifold_skip_panel_drops :
    (create_manifold exG 2 [true, true, true] false false true).flat = [] ∧
    (create_manifold exG 2 [true, true, true] false false false).flat.filter
      (fun row => !(row.any fun c => decide (c = exG._missing))) = [[2, 1]] := by
  constructor
  · simp [create_manifold, create_manifold_points, create_manifold_step, manifold_row,
      get_lagged_indices, lagged_loop, search_discrete_time, search_loop, lookup_vec, vecAt,
      intAt, exG, MISSING, ManifoldGenerator.E_actual, ManifoldGenerator.E_extras,
      List.range_succ]
  · simp [create_manifold, create_manifold_points, create_manifold_step, manifold_row,
      get_lagged_indices, lagged_loop, search_discrete_time, search_loop, lookup_vec, vecAt,
      intAt, exG, MISSING, ManifoldGenerator.E_actual, ManifoldGenerator.E_extras,
      List.range_succ, List.filter_cons]
    norm_num

end DtAndSkip

section SkipNoPanel

variable {K : Type} [LinearOrderedField K]

/-- Without panel data the row loop with `skipMissing` keeps exactly the rows without
`_missing` among their first `E_actual` cells, together with their targets. -/
theorem create_manifold_fold_skip_nopanel (g : ManifoldGenerator K) (E : Nat)
    (copredict prediction : Bool) (hnp : ¬ g._panel_ids.length > 0) (points : List Nat)
    (yf : Nat → K) (l : List Nat) (rows : List (List K)) (keptY : List K) (ps : List Int)
    (hlen : keptY.length = rows.length) :
    l.foldl (create_manifold_step g E copredict prediction true points)
        (rows, keptY ++ l.map yf, ps) =
      (rows ++ (l.filter (fun i =>
          !((manifold_row g E copredict prediction i (points.getD i 0) (-1)).take
            (g.E_actual E)).any fun c => decide (c = g._missing))).map
          (fun i => manifold_row g E copredict prediction i (points.getD i 0) (-1)),
       keptY ++ (l.filter (fun i =>
          !((manifold_row g E copredict prediction i (points.getD i 0) (-1)).take
            (g.E_actual E)).any fun c => decide (c = g._missing))).map yf,
       ps) := by
  induction l generalizing rows keptY with
  | nil => simp
  | cons a l ih =>
    rw [List.foldl_cons]
    by_cases hm : ((manifold_row g E copredict prediction a (points.getD a 0) (-1)).take
        (g.E_actual E)).any (fun c => decide (c = g._missing)) = true
    · have hstep : create_manifold_step g E copredict prediction true points
          (rows, keptY ++ (a :: l).map yf, ps) a = (rows, keptY ++ l.map yf, ps) := by
        unfold create_manifold_step
        simp only [if_neg hnp, hm, and_self, if_true, List.map_cons]
        rw [List.eraseIdx_append_of_length_le (by omega), ← hlen, Nat.sub_self,
          List.eraseIdx_cons_zero]
      rw [hstep, ih rows keptY hlen, List.filter_cons]
      simp only [hm, Bool.not_true, Bool.false_eq_true, if_false]
    · have hstep : create_manifold_step g E copredict prediction true points
          (rows, keptY ++ (a :: l).map yf, ps) a =
          (rows ++ [manifold_row g E copredict prediction a (points.getD a 0) (-1)],
            (keptY ++ [yf a]) ++ l.map yf, ps) := by
        unfold create_manifold_step
        simp only [if_neg hnp, hm, and_false, if_false, List.map_cons, Bool.false_eq_true,
          List.append_assoc, List.singleton_append]
      rw [hstep, ih _ _ (by simp [hlen]), List.filter_cons]
      have hm' : ((manifold_row g E copredict prediction a (points.getD a 0) (-1)).take
        (g.E_actual E)).any (fun c => decide (c = g._missing)) = false :=
        Bool.eq_false_iff.2 hm
      simp only [hm', Bool.not_false, if_true, List.map_cons, List.append_assoc,
        List.singleton_append]

/-- Without panel data `create_manifold` with `skipMissing` returns exactly the rows of
the manifold built without `skipMissing` that contain no `_missing` cell, in the same
order, each with the target of its own original index. -/
theorem create_manifold_skip_no_panel (g : ManifoldGenerator K) (E : Nat) (filter : List Bool)
    (copredict prediction : Bool) (hnp : ¬ g._panel_ids.length > 0)
    (hL : g._num_extras_lagged ≤ g._num_extras) :
    (create_manifold g E filter copredict prediction true).flat =
      (create_manifold g E filter copredict prediction false).flat.filter
        (fun row => !(row.any fun c => decide (c = g._missing))) ∧
    (create_manifold g E filter copredict prediction true).y =
      ((List.range (selected filter).length).filter (fun r =>
        !((create_manifold g E filter copredict prediction false).flat.getD r []).any
          fun c => decide (c = g._missing))).map
        (fun r => g._y.getD ((selected filter).getD r 0) 0) ∧
    (create_manifold g E filter copredict prediction true).panelIDs = [] := by
  have htake : ∀ i startIndex panel,
      (manifold_row g E copredict prediction i startIndex panel).take (g.E_actual E) =
        manifold_row g E copredict prediction i startIndex panel := by
    intro i startIndex panel
    apply List.take_of_length_le
    rw [manifold_row_length g E copredict prediction i startIndex panel hL]
  have hy : (selected filter).map (fun i => g._y.getD i 0) =
      (List.range (selected filter).length).map
        (fun r => g._y.getD ((selected filter).getD r 0) 0) := by
    apply List.ext_getElem
    · simp
    · intro n h1 h2
      simp only [List.length_map] at h1
      simp [List.getD_eq_getElem?_getD, List.getElem?_eq_getElem h1]
  have hfold := create_manifold_fold_skip_nopanel g E copredict prediction hnp
    (selected filter) (fun r => g._y.getD ((selected filter).getD r 0) 0)
    (List.range (selected filter).length) [] [] [] rfl
  have hflat0 := (create_manifold_noskip_eq g E filter copredict prediction).1
  simp only [if_neg hnp] at hflat0
  have hrow0 : ∀ r, r ∈ List.range (selected filter).length →
      (create_manifold g E filter copredict prediction false).flat.getD r [] =
        manifold_row g E copredict prediction r ((selected filter).getD r 0) (-1) := by
    intro r hr
    rw [hflat0, List.getD_eq_getElem _ _ (by simpa using hr)]
    simp
  have hmain : (List.range (selected filter).length).foldl
      (create_manifold_step g E copredict prediction true (create_manifold_points g filter).1)
      ([], (create_manifold_points g filter).2.1, (create_manifold_points g filter).2.2) =
      ((List.filter (fun i =>
          !((manifold_row g E copredict prediction i ((selected filter).getD i 0) (-1)).take
            (g.E_actual E)).any fun c => decide (c = g._missing))
          (List.range (selected filter).length)).map
          (fun i => manifold_row g E copredict prediction i ((selected filter).getD i 0) (-1)),
       (List.filter (fun i =>
          !((manifold_row g E copredict prediction i ((selected filter).getD i 0) (-1)).take
            (g.E_actual E)).any fun c => decide (c = g._missing))
          (List.range (selected filter).length)).map
          (fun r => g._y.getD ((selected filter).getD r 0) 0),
       []) := by
    rw [create_manifold_points_eq]
    simp only [if_neg hnp]
    have := hfold
    simp only [List.nil_append] at this
    rw [← hy] at this
    exact this
  have hnobs : (create_manifold_points g filter).1.length = (selected filter).length := by
    rw [create_manifold_points_eq]; rfl
  unfold create_manifold
  simp only
  rw [hnobs, hmain]
  simp only
  refine ⟨?_, ?_, trivial⟩
  · have hf0 : (List.range (selected filter).length).foldl
        (create_manifold_step g E copredict prediction false (create_manifold_points g filter).1)
        ([], (create_manifold_points g filter).2.1, (create_manifold_points g filter).2.2) =
        ((List.range (selected filter).length).map
          (fun r => manifold_row g E copredict prediction r ((selected filter).getD r 0) (-1)),
         (create_manifold_points g filter).2.1, (create_manifold_points g filter).2.2) := by
      rw [create_manifold_fold_noskip]
      simp only [if_neg hnp, List.nil_append]
      rw [create_manifold_points_eq]
      rfl
    rw [hf0]
    simp only
    rw [List.filter_map]
    congr 1
    apply List.filter_congr
    intro r _
    simp only [Function.comp, htake]
  · congr 1
    apply List.filter_congr
    intro r hr
    rw [htake]
    have := hrow0 r hr
    unfold create_manifold at this
    simp only at this
    rw [hnobs] at this
    rw [this]

end SkipNoPanel

/-! ## Manifold generator: `generate_usable` -/

section Usable

variable {K : Type} [LinearOrderedField K]

theorem selected_replicate (n : Nat) : selected (List.replicate n true) = List.range n := by
  unfold selected
  rw [List.length_replicate]
  apply List.filter_eq_self.2
  intro i hi
  have hi' : i < n := List.mem_range.1 hi
  rw [List.getD_eq_getElem _ _ (by simpa using hi')]
  simp

/-- Row `i` of the worst-case manifold is the row written for observation `i`, searched
in the panel of that observation. -/
theorem worstCaseRow_eq (g : ManifoldGenerator K) (n maxE i : Nat) (hi : i < n) :
    worstCaseRow g n maxE i =
      manifold_row g maxE false false i i
        (if g._panel_ids.length > 0 then g._panel_ids.getD i 0 else -1) := by
  unfold worstCaseRow
  rw [create_manifold_noskip_row g maxE _ false false i (by simpa using hi),
    selected_replicate, List.getD_eq_getElem _ _ (by simpa using hi)]
  simp

theorem worstCaseRow_ne_nil (g : ManifoldGenerator K) (n maxE i : Nat) (hi : i < n)
    (hE : 0 < maxE) : worstCaseRow g n maxE i ≠ [] := by
  rw [worstCaseRow_eq g n maxE i hi]
  obtain ⟨xs, dts, extras, hrow, hxs, _⟩ := manifold_row_blocks g maxE false false i i
    (if g._panel_ids.length > 0 then g._panel_ids.getD i 0 else -1)
  rw [hrow]
  intro h
  have := congrArg List.length h
  simp only [List.length_append, List.length_nil] at this
  omega

theorem worstCase_y (g : ManifoldGenerator K) (n maxE i : Nat) (hi : i < n) :
    (create_manifold g maxE (List.replicate n true) false false false).y.getD i 0 =
      g._y.getD i 0 := by
  rw [(create_manifold_noskip_eq g maxE _ false false).2.1, selected_replicate,
    List.getD_eq_getElem _ _ (by simpa using hi)]
  simp

/-- Entry `i` of the mask returned by `generate_usable`. -/
theorem generate_usable_getD (g : ManifoldGenerator K) (touse : List Bool) (maxE : Nat)
    (allowMissing : Bool) (i : Nat) (hi : i < touse.length) :
    (generate_usable g touse maxE allowMissing).getD i false =
      if allowMissing = true then
        (touse.getD i false &&
          (worstCaseRow g touse.length maxE i).any (fun c => decide (c ≠ g._missing)) &&
          decide (g._y.getD i 0 ≠ g._missing))
      else
        (touse.getD i false &&
          !(worstCaseRow g touse.length maxE i).any (fun c => decide (c = g._missing)) &&
          decide (g._y.getD i 0 ≠ g._missing)) := by
  unfold generate_usable
  rw [List.getD_eq_getElem _ _ (by simpa using hi)]
  simp only [List.getElem_map, List.getElem_range]
  rw [worstCase_y g touse.length maxE i hi]
  rfl

/-- C21: `generate_usable` returns a mask of the length of `touse`; entry `i` is set
exactly when `touse[i]` is set, the target `_y[i]` is not the missing value, and row `i`
of the manifold built over all rows at `E = maxE` has no missing cell (`allowMissing`
off) or has at least one cell that is not missing (`allowMissing` on).  So a usable row
is a row of `touse`, and a row usable with `allowMissing` off is usable with it on. -/
theorem generate_usable_spec (g : ManifoldGenerator K) (touse : List Bool) (maxE : Nat)
    (hE : 0 < maxE) :
    (∀ allowMissing, (generate_usable g touse maxE allowMissing).length = touse.length) ∧
    (∀ i, i < touse.length →
      ((generate_usable g touse maxE false).getD i false = true ↔
        touse.getD i false = true ∧ g._y.getD i 0 ≠ g._missing ∧
          ∀ c ∈ worstCaseRow g touse.length maxE i, c ≠ g._missing) ∧
      ((generate_usable g touse maxE true).getD i false = true ↔
        touse.getD i false = true ∧ g._y.getD i 0 ≠ g._missing ∧
          ∃ c ∈ worstCaseRow g touse.length maxE i, c ≠ g._missing)) ∧
    (∀ allowMissing i, (generate_usable g touse maxE allowMissing).getD i false = true →
      touse.getD i false = true) ∧
    (∀ i, (generate_usable g touse maxE false).getD i false = true →
      (generate_usable g touse maxE true).getD i false = true) := by
  have hlen : ∀ allowMissing,
      (generate_usable g touse maxE allowMissing).length = touse.length := by
    intro a
    simp [generate_usable]
  have hoff : ∀ i, i < touse.length →
      ((generate_usable g touse maxE false).getD i false = true ↔
        touse.getD i false = true ∧ g._y.getD i 0 ≠ g._missing ∧
          ∀ c ∈ worstCaseRow g touse.length maxE i, c ≠ g._missing) := by
    intro i hi
    rw [generate_usable_getD g touse maxE false i hi]
    simp only [Bool.false_eq_true, if_false, Bool.and_eq_true, Bool.not_eq_true',
      decide_eq_true_eq, List.any_eq_false]
    constructor
    · rintro ⟨⟨h1, h2⟩, h3⟩
      exact ⟨h1, h3, fun c hc => h2 c hc⟩
    · rintro ⟨h1, h3, h2⟩
      exact ⟨⟨h1, fun c hc => h2 c hc⟩, h3⟩
  have hon : ∀ i, i < touse.length →
      ((generate_usable g touse maxE true).getD i false = true ↔
        touse.getD i false = true ∧ g._y.getD i 0 ≠ g._missing ∧
          ∃ c ∈ worstCaseRow g touse.length maxE i, c ≠ g._missing) := by
    intro i hi
    rw [generate_usable_getD g touse maxE true i hi]
    simp only [if_true, Bool.and_eq_true, decide_eq_true_eq, List.any_eq_true]
    constructor
    · rintro ⟨⟨h1, h2⟩, h3⟩
      exact ⟨h1, h3, h2⟩
    · rintro ⟨h1, h3, h2⟩
      exact ⟨⟨h1, h2⟩, h3⟩
  have hin : ∀ allowMissing i,
      (generate_usable g touse maxE allowMissing).getD i false = true → i < touse.length := by
    intro a i h
    by_contra hi
    rw [List.getD_eq_default _ _ (by rw [hlen]; omega)] at h
    exact Bool.false_ne_true h
  refine ⟨hlen, fun i hi => ⟨hoff i hi, hon i hi⟩, ?_, ?_⟩
  · intro a i h
    have hi := hin a i h
    cases a with
    | false => exact ((hoff i hi).1 h).1
    | true => exact ((hon i hi).1 h).1
  · intro i h
    have hi := hin false i h
    obtain ⟨h1, h2, h3⟩ := (hoff i hi).1 h
    obtain ⟨c, hc⟩ := List.exists_mem_of_ne_nil _ (worstCaseRow_ne_nil g touse.length maxE i hi hE)
    exact (hon i hi).2 ⟨h1, h2, c, hc, h3 c hc⟩

set_option maxRecDepth 20000 in
theorem exGaps_row3 : worstCaseRow exGaps 5 2 3 = [4, 3] := by
  rw [worstCaseRow_eq exGaps 5 2 3 (by decide)]
  simp [manifold_row, get_lagged_indices, lagged_loop, search_discrete_time, search_loop,
    lookup_vec, exGaps, intAt, vecAt, MISSING, List.range_succ, ManifoldGenerator.E_actual,
    ManifoldGenerator.E_extras]
  norm_num [Int.toNat]

set_option maxRecDepth 20000 in
theorem exGaps_row0 : worstCaseRow exGaps 5 2 0 = [1, MISSING] := by
  rw [worstCaseRow_eq exGaps 5 2 0 (by decide)]
  simp [manifold_row, get_lagged_indices, lagged_loop, search_discrete_time, search_loop,
    lookup_vec, exGaps, intAt, vecAt, MISSING, List.range_succ, ManifoldGenerator.E_actual,
    ManifoldGenerator.E_extras]

theorem exGaps_usable :
    (generate_usable exGaps [true, false, true, true, true] 2 false).getD 3 false = true ∧
    (generate_usable exGaps [true, false, true, true, true] 2 false).getD 0 false = false ∧
    (generate_usable exGaps [true, false, true, true, true] 2 true).getD 0 false = true := by
  have h5 : ([true, false, true, true, true] : List Bool).length = 5 := rfl
  refine ⟨?_, ?_, ?_⟩
  · rw [generate_usable_getD _ _ _ _ _ (by decide)]
    rw [h5, exGaps_row3]
    simp [exGaps, MISSING]
    norm_num
  · rw [generate_usable_getD _ _ _ _ _ (by decide)]
    rw [h5, exGaps_row0]
    simp [exGaps, MISSING]
  · rw [generate_usable_getD _ _ _ _ _ (by decide)]
    rw [h5, exGaps_row0]
    simp [exGaps, MISSING]
    norm_num

/-- Witness for C21: the generator `exGaps` (times `0, 1, 3, 4, 6`) at `maxE = 2` with the
second row not in `touse`: row `3` (lags at times `4` and `3`) is usable either way, row
`0` (no observation one step back) is usable only with `allowMissing` on. -/
theorem generate_usable_spec_witness :
    (generate_usable exGaps [true, false, true, true, true] 2 false).length = 5 ∧
    ((generate_usable exGaps [true, false, true, true, true] 2 false).getD 3 false = true ∧
      (generate_usable exGaps [true, false, true, true, true] 2 false).getD 0 false = false ∧
      (generate_usable exGaps [true, false, true, true, true] 2 true).getD 0 false = true) ∧
    (∀ i, (generate_usable exGaps [true, false, true, true, true] 2 false).getD i false = true →
      (generate_usable exGaps [true, false, true, true, true] 2 true).getD i false = true) :=
  ⟨(generate_usable_spec exGaps [true, false, true, true, true] 2 (by decide)).1 false,
    exGaps_usable,
    (generate_usable_spec exGaps [true, false, true, true, true] 2 (by decide)).2.2.2⟩

end Usable

/-! ## Manifold generator: `find_time_unit` -/

section TimeUnit

variable {K : Type} [LinearOrderedField K] [FloorRing K]

/-- An integer in the range of `int` is converted to itself. -/
theorem toInt_intCast (z : Int) (h1 : -2 ^ 31 ≤ z) (h2 : z < 2 ^ 31) : toInt (z : K) = z := by
  unfold toInt
  have hz : (if (0 : K) ≤ (z : K) then ⌊(z : K)⌋ else ⌈(z : K)⌉) = z := by
    split_ifs <;> simp
  simp only [hz]
  rw [if_pos ⟨h1, h2⟩]

/-- A positive value below `2^31` is truncated to an `int` in the same range. -/
theorem toInt_of_pos_lt {x : K} (hx : 0 < x) (hlt : x < 2 ^ 31) :
    0 ≤ toInt x ∧ toInt x < 2 ^ 31 := by
  unfold toInt
  have h0 : (0 : Int) ≤ ⌊x⌋ := Int.floor_nonneg.2 (le_of_lt hx)
  have h1 : ⌊x⌋ < 2 ^ 31 := by
    rw [Int.floor_lt]
    exact_mod_cast hlt
  simp only [if_pos (le_of_lt hx)]
  rw [if_pos ⟨by omega, h1⟩]
  exact ⟨h0, h1⟩

/-- The greatest common divisor of two non-negative `int` values is an `int` value
that is not larger than both. -/
theorem toInt32_gcd (a u : Int) (ha0 : 0 ≤ a) (ha : a < 2 ^ 31) (hu0 : 0 ≤ u)
    (hu : u < 2 ^ 31) :
    toInt32 (Int.gcd a u) = Int.gcd a u ∧ ((Int.gcd a u : Nat) : Int) < 2 ^ 31 := by
  have hlt : ((Int.gcd a u : Nat) : Int) < 2 ^ 31 := by
    by_cases h : a = 0
    · subst h
      rw [Int.gcd_zero_left, Int.natCast_natAbs, abs_of_nonneg hu0]
      exact hu
    · have hle : Int.gcd a u ≤ a.natAbs := by
        unfold Int.gcd
        exact Nat.gcd_le_left _ (Int.natAbs_pos.2 h)
      have : ((Int.gcd a u : Nat) : Int) ≤ a := by
        have h2 : ((a.natAbs : Nat) : Int) = a := by
          rw [Int.natCast_natAbs, abs_of_nonneg ha0]
        calc ((Int.gcd a u : Nat) : Int) ≤ ((a.natAbs : Nat) : Int) := by exact_mod_cast hle
          _ = a := h2
      omega
  refine ⟨?_, hlt⟩
  have h0 : (0 : Int) ≤ ((Int.gcd a u : Nat) : Int) := Int.natCast_nonneg _
  unfold toInt32
  norm_num at hlt ⊢
  omega

/-- The value `find_time_unit_loop` ends with, started from a non-negative `unit`, when
the positive differences that remain are below `2^31`: it is non-negative and its
divisors are the common divisors of `unit` and of the truncated positive differences. -/
theorem find_time_unit_loop_dvd (g : ManifoldGenerator K) (rest : List Nat) :
    ∀ unit : Int, 0 ≤ unit → unit < 2 ^ 31 →
      (∀ x ∈ positiveDiffsOf g rest, x < 2 ^ 31) →
      0 ≤ find_time_unit_loop g rest unit ∧
      ∀ c : Int, c ∣ find_time_unit_loop g rest unit ↔
        (c ∣ unit ∧ ∀ x ∈ positiveDiffsOf g rest, c ∣ toInt x) := by
  induction rest with
  | nil =>
    intro unit hu _ _
    simp [find_time_unit_loop, positiveDiffsOf, hu]
  | cons i rest ih =>
    intro unit hu hu2 hr
    unfold find_time_unit_loop
    unfold positiveDiffsOf at hr ⊢
    rw [List.filterMap_cons] at hr ⊢
    by_cases hc : g._t.getD i 0 - g._t.getD (i - 1) 0 ≤ 0 ∨ g._t.getD i 0 = g._missing ∨
        g._t.getD (i - 1) 0 = g._missing
    · simp only [hc, if_true] at hr ⊢
      exact ih unit hu hu2 hr
    · simp only [hc, if_false] at hr ⊢
      rw [if_neg (not_lt.2 hu)]
      have hpos : 0 < g._t.getD i 0 - g._t.getD (i - 1) 0 := by
        push_neg at hc
        exact hc.1
      obtain ⟨hd0, hd1⟩ := toInt_of_pos_lt hpos (hr _ (List.mem_cons_self _ _))
      obtain ⟨hg32, hglt⟩ := toInt32_gcd _ unit hd0 hd1 hu hu2
      rw [hg32]
      have hg : ∀ c : Int, c ∣ (Int.gcd (toInt (g._t.getD i 0 - g._t.getD (i - 1) 0)) unit : Int)
          ↔ (c ∣ toInt (g._t.getD i 0 - g._t.getD (i - 1) 0) ∧ c ∣ unit) := fun c =>
        ⟨fun h => ⟨h.trans (Int.gcd_dvd_left), h.trans (Int.gcd_dvd_right)⟩,
          fun h => Int.dvd_gcd h.1 h.2⟩
      by_cases h1 : (Int.gcd (toInt (g._t.getD i 0 - g._t.getD (i - 1) 0)) unit : Int) = 1
      · simp only [h1, if_true]
        refine ⟨by norm_num, fun c => ⟨fun h => ?_, fun h => ?_⟩⟩
        · exact ⟨h.trans (one_dvd _), fun x _ => h.trans (one_dvd _)⟩
        · rw [← h1]
          exact (hg c).2 ⟨h.2 _ (List.mem_cons_self _ _), h.1⟩
      · simp only [h1, if_false]
        obtain ⟨ih1, ih2⟩ := ih (Int.gcd (toInt (g._t.getD i 0 - g._t.getD (i - 1) 0)) unit)
          (Int.natCast_nonneg _) hglt (fun x hx => hr x (List.mem_cons_of_mem _ hx))
        refine ⟨ih1, fun c => ?_⟩
        rw [ih2 c, hg c]
        constructor
        · rintro ⟨⟨h1, h2⟩, h3⟩
          refine ⟨h2, fun x hx => ?_⟩
          rcases List.mem_cons.1 hx with rfl | hx
          · exact h1
          · exact h3 x hx
        · rintro ⟨h1, h2⟩
          exact ⟨⟨h2 _ (List.mem_cons_self _ _), h1⟩,
            fun x hx => h2 x (List.mem_cons_of_mem _ hx)⟩

omit [FloorRing K] in
theorem positiveDiffsOf_pos (g : ManifoldGenerator K) (is : List Nat) :
    ∀ x ∈ positiveDiffsOf g is, 0 < x := by
  intro x hx
  unfold positiveDiffsOf at hx
  obtain ⟨i, _, hi⟩ := List.mem_filterMap.1 hx
  split_ifs at hi with hc
  push_neg at hc
  simp only [Option.some.injEq] at hi
  exact hi ▸ hc.1

/-- The loop of `find_time_unit` started from the sentinel `-1`, when the positive
differences are below `2^31`: `-1` remains when no positive difference is met; otherwise
the result is non-negative and its divisors are the common divisors of the truncated
positive differences. -/
theorem find_time_unit_loop_init (g : ManifoldGenerator K) (rest : List Nat)
    (hr : ∀ x ∈ positiveDiffsOf g rest, x < 2 ^ 31) :
    (positiveDiffsOf g rest = [] → find_time_unit_loop g rest (-1) = -1) ∧
    (positiveDiffsOf g rest ≠ [] →
      0 ≤ find_time_unit_loop g rest (-1) ∧
      ∀ c : Int, c ∣ find_time_unit_loop g rest (-1) ↔
        ∀ x ∈ positiveDiffsOf g rest, c ∣ toInt x) := by
  induction rest with
  | nil => simp [find_time_unit_loop, positiveDiffsOf]
  | cons i rest ih =>
    unfold find_time_unit_loop
    unfold positiveDiffsOf at hr ⊢
    rw [List.filterMap_cons] at hr ⊢
    by_cases hc : g._t.getD i 0 - g._t.getD (i - 1) 0 ≤ 0 ∨ g._t.getD i 0 = g._missing ∨
        g._t.getD (i - 1) 0 = g._missing
    · simp only [hc, if_true] at hr ⊢
      exact ih hr
    · simp only [hc, if_false] at hr ⊢
      rw [if_pos (by norm_num : (-1 : Int) < 0)]
      refine ⟨fun h => by simp at h, fun _ => ?_⟩
      push_neg at hc
      obtain ⟨hd0, hd1⟩ := toInt_of_pos_lt hc.1 (hr _ (List.mem_cons_self _ _))
      obtain ⟨h1, h2⟩ := find_time_unit_loop_dvd g rest
        (toInt (g._t.getD i 0 - g._t.getD (i - 1) 0)) hd0 hd1
        (fun x hx => hr x (List.mem_cons_of_mem _ hx))
      refine ⟨h1, fun c => ?_⟩
      rw [h2 c]
      constructor
      · rintro ⟨h3, h4⟩ x hx
        rcases List.mem_cons.1 hx with rfl | hx
        · exact h3
        · exact h4 x hx
      · intro h
        exact ⟨h _ (List.mem_cons_self _ _), fun x hx => h x (List.mem_cons_of_mem _ hx)⟩

/-- The fold without early exit, from a non-negative `unit`. -/
theorem noExit_fold_dvd (ds : List K) (hpos : ∀ x ∈ ds, 0 < x) :
    ∀ unit : Int, 0 ≤ unit → unit < 2 ^ 31 → (∀ x ∈ ds, x < 2 ^ 31) →
      0 ≤ ds.foldl (fun unit timeDiff =>
        if unit < 0 then toInt timeDiff
        else toInt32 (Int.gcd (toInt timeDiff) unit : Int)) unit ∧
      ∀ c : Int, c ∣ ds.foldl (fun unit timeDiff =>
          if unit < 0 then toInt timeDiff
          else toInt32 (Int.gcd (toInt timeDiff) unit : Int)) unit ↔
        (c ∣ unit ∧ ∀ x ∈ ds, c ∣ toInt x) := by
  induction ds with
  | nil =>
    intro unit hu _ _
    simp [hu]
  | cons d ds ih =>
    intro unit hu hu2 hr
    rw [List.foldl_cons, if_neg (not_lt.2 hu)]
    obtain ⟨hd0, hd1⟩ := toInt_of_pos_lt (hpos d (List.mem_cons_self _ _))
      (hr d (List.mem_cons_self _ _))
    obtain ⟨hg32, hglt⟩ := toInt32_gcd _ unit hd0 hd1 hu hu2
    rw [hg32]
    obtain ⟨ih1, ih2⟩ := ih (fun x hx => hpos x (List.mem_cons_of_mem _ hx))
      (Int.gcd (toInt d) unit) (Int.natCast_nonneg _) hglt
      (fun x hx => hr x (List.mem_cons_of_mem _ hx))
    refine ⟨ih1, fun c => ?_⟩
    rw [ih2 c]
    constructor
    · rintro ⟨h1, h3⟩
      refine ⟨h1.trans Int.gcd_dvd_right, fun x hx => ?_⟩
      rcases List.mem_cons.1 hx with rfl | hx
      · exact h1.trans Int.gcd_dvd_left
      · exact h3 x hx
    · rintro ⟨h1, h2⟩
      exact ⟨Int.dvd_gcd (h2 _ (List.mem_cons_self _ _)) h1,
        fun x hx => h2 x (List.mem_cons_of_mem _ hx)⟩

theorem timeUnitNoExit_spec (g : ManifoldGenerator K)
    (hr : ∀ x ∈ positiveDiffs g, x < 2 ^ 31) :
    (positiveDiffs g = [] → timeUnitNoExit g = -1) ∧
    (positiveDiffs g ≠ [] →
      0 ≤ timeUnitNoExit g ∧
      ∀ c : Int, c ∣ timeUnitNoExit g ↔ ∀ x ∈ positiveDiffs g, c ∣ toInt x) := by
  unfold timeUnitNoExit
  have hpos : ∀ x ∈ positiveDiffs g, 0 < x := positiveDiffsOf_pos g _
  cases hds : positiveDiffs g with
  | nil => simp
  | cons d ds =>
    rw [hds] at hpos hr
    refine ⟨fun h => by simp at h, fun _ => ?_⟩
    rw [List.foldl_cons, if_pos (by norm_num : (-1 : Int) < 0)]
    obtain ⟨hd0, hd1⟩ := toInt_of_pos_lt (hpos d (List.mem_cons_self _ _))
      (hr d (List.mem_cons_self _ _))
    obtain ⟨h1, h2⟩ := noExit_fold_dvd ds (fun x hx => hpos x (List.mem_cons_of_mem _ hx))
      (toInt d) hd0 hd1 (fun x hx => hr x (List.mem_cons_of_mem _ hx))
    refine ⟨h1, fun c => ?_⟩
    rw [h2 c]
    constructor
    · rintro ⟨h3, h4⟩ x hx
      rcases List.mem_cons.1 hx with rfl | hx
      · exact h3
      · exact h4 x hx
    · intro h
      exact ⟨h _ (List.mem_cons_self _ _), fun x hx => h x (List.mem_cons_of_mem _ hx)⟩

/-- The early exit of `find_time_unit` does not change its result. -/
theorem find_time_unit_eq_noExit (g : ManifoldGenerator K)
    (hr : ∀ x ∈ positiveDiffs g, x < 2 ^ 31) :
    find_time_unit g = timeUnitNoExit g := by
  have h1 := find_time_unit_loop_init g (List.range' 1 (g._t.length - 1)) hr
  have h2 := timeUnitNoExit_spec g hr
  by_cases hds : positiveDiffs g = []
  · rw [h2.1 hds]
    exact h1.1 hds
  · obtain ⟨a1, a2⟩ := h1.2 hds
    obtain ⟨b1, b2⟩ := h2.2 hds
    unfold find_time_unit
    exact Int.dvd_antisymm a1 b1 ((b2 _).2 ((a2 _).1 dvd_rfl)) ((a2 _).2 ((b2 _).1 dvd_rfl))

/-- In an integer-valued time vector every positive difference between non-missing
entries that is below `2^31` is the image of its conversion to `int`. -/
theorem positiveDiffs_int (g : ManifoldGenerator K)
    (hint : ∀ i, i < g._t.length → g._t.getD i 0 ≠ g._missing →
      ∃ z : Int, g._t.getD i 0 = (z : K))
    (hr : ∀ x ∈ positiveDiffs g, x < 2 ^ 31) :
    ∀ x ∈ positiveDiffs g, ((toInt x : Int) : K) = x := by
  intro x hx
  have hlt := hr x hx
  have hpos := positiveDiffsOf_pos g _ x hx
  unfold positiveDiffs positiveDiffsOf at hx
  obtain ⟨i, hi, hx⟩ := List.mem_filterMap.1 hx
  split_ifs at hx with hc
  push_neg at hc
  simp only [Option.some.injEq] at hx
  have hi' := List.mem_range'.1 hi
  obtain ⟨a, ha⟩ := hint i (by omega) hc.2.1
  obtain ⟨b, hb⟩ := hint (i - 1) (by omega) hc.2.2
  rw [← hx, ha, hb, ← Int.cast_sub] at hlt hpos ⊢
  have h1 : (0 : Int) < a - b := by exact_mod_cast hpos
  have h2 : a - b < 2 ^ 31 := by exact_mod_cast hlt
  rw [toInt_intCast (a - b) (by omega) h2]

/-- C22 (counterexample): times `0, 10^10, 3 * 10^10`.  The positive differences are
`10^10` and `2 * 10^10`, with the greatest common divisor `10^10`; their conversion to
the 32-bit `int` gives `-2^31` both times (`unit` stays negative, so the second
difference replaces the first), and `find_time_unit` returns `-2147483648`. -/
theorem find_time_unit_overflow :
    positiveDiffs exTimesBig = [10000000000, 20000000000] ∧
    find_time_unit exTimesBig = -2147483648 := by
  constructor
  · simp [positiveDiffs, positiveDiffsOf, exTimesBig, MISSING, List.range', List.filterMap_cons]
    norm_num
  · simp [find_time_unit, find_time_unit_loop, exTimesBig, MISSING, List.range', toInt]
    norm_num

/-- C22 (amended): for an integer-valued time vector whose strictly positive differences
`t[i] - t[i-1]` between consecutive entries that are both not missing are all below
`2^31` (they fit the `int` they are converted to), `find_time_unit` returns `-1` when
there is no such difference; otherwise it returns their greatest common divisor: a
positive integer that divides every such difference and is divided by every integer
dividing them all.  The early exit at `unit == 1` does not change the result: it is
that of the loop run without the exit. -/
theorem find_time_unit_gcd (g : ManifoldGenerator K)
    (hint : ∀ i, i < g._t.length → g._t.getD i 0 ≠ g._missing →
      ∃ z : Int, g._t.getD i 0 = (z : K))
    (hr : ∀ x ∈ positiveDiffs g, x < 2 ^ 31) :
    (positiveDiffs g = [] → find_time_unit g = -1) ∧
    (positiveDiffs g ≠ [] →
      0 < find_time_unit g ∧
      (∀ x ∈ positiveDiffs g, ∃ q : Int, x = ((find_time_unit g : Int) : K) * (q : K)) ∧
      ∀ c : Int, (∀ x ∈ positiveDiffs g, ∃ q : Int, x = (c : K) * (q : K)) →
        c ∣ find_time_unit g) ∧
    find_time_unit g = timeUnitNoExit g := by
  have h1 := find_time_unit_loop_init g (List.range' 1 (g._t.length - 1)) hr
  have hcast := positiveDiffs_int g hint hr
  refine ⟨h1.1, fun hds => ?_, find_time_unit_eq_noExit g hr⟩
  obtain ⟨a1, a2⟩ := h1.2 hds
  have hdiv : ∀ x ∈ positiveDiffs g, find_time_unit g ∣ toInt x := (a2 _).1 dvd_rfl
  refine ⟨?_, ?_, ?_⟩
  · rcases lt_or_eq_of_le a1 with h | h
    · exact h
    · exfalso
      obtain ⟨d, hd⟩ := List.exists_mem_of_ne_nil _ hds
      have h0 : toInt d = 0 := by
        have := hdiv d hd
        unfold find_time_unit at this
        rw [← h] at this
        exact zero_dvd_iff.1 this
      have hpos := positiveDiffsOf_pos g _ d hd
      have := hcast d hd
      rw [h0] at this
      simp at this
      exact (ne_of_gt hpos) this.symm
  · intro x hx
    obtain ⟨q, hq⟩ := hdiv x hx
    refine ⟨q, ?_⟩
    rw [← hcast x hx, hq, Int.cast_mul]
  · intro c hc
    refine (a2 c).2 (fun x hx => ?_)
    obtain ⟨q, hq⟩ := hc x hx
    refine ⟨q, ?_⟩
    have : ((toInt x : Int) : K) = ((c * q : Int) : K) := by
      rw [hcast x hx, hq, Int.cast_mul]
    exact Int.cast_injective this

theorem exTimes_int : ∀ i, i < exTimes._t.length → exTimes._t.getD i 0 ≠ exTimes._missing →
    ∃ z : Int, exTimes._t.getD i 0 = (z : ℚ) := by
  intro i hi hne
  have hi' : i < 6 := hi
  interval_cases i
  · exact ⟨0, by simp [exTimes]⟩
  · exact ⟨1000, by simp [exTimes]⟩
  · exact ⟨3000, by simp [exTimes]⟩
  · exact absurd rfl hne
  · exact ⟨2000, by simp [exTimes]⟩
  · exact ⟨8000, by simp [exTimes]⟩

theorem exTimes_positiveDiffs : positiveDiffs exTimes = [1000, 2000, 6000] := by
  simp [positiveDiffs, positiveDiffsOf, exTimes, MISSING, List.range', List.filterMap_cons]
  norm_num

theorem exTimes_range : ∀ x ∈ positiveDiffs exTimes, x < 2 ^ 31 := by
  intro x hx
  rw [exTimes_positiveDiffs] at hx
  simp at hx
  rcases hx with rfl | rfl | rfl <;> norm_num

/-- Witness for C22: times `0, 1000, 3000, MISSING, 2000, 8000`; the positive
differences are `1000, 2000, 6000` and the unit found is `1000`. -/
theorem find_time_unit_gcd_witness :
    positiveDiffs exTimes = [1000, 2000, 6000] ∧ find_time_unit exTimes = 1000 ∧
    (0 < find_time_unit exTimes ∧
      (∀ x ∈ positiveDiffs exTimes,
        ∃ q : Int, x = ((find_time_unit exTimes : Int) : ℚ) * (q : ℚ)) ∧
      ∀ c : Int, (∀ x ∈ positiveDiffs exTimes, ∃ q : Int, x = (c : ℚ) * (q : ℚ)) →
        c ∣ find_time_unit exTimes) ∧
    find_time_unit exTimes = timeUnitNoExit exTimes :=
  ⟨exTimes_positiveDiffs,
    by
      simp [find_time_unit, find_time_unit_loop, exTimes, MISSING, List.range', toInt, toInt32]
      norm_num,
    (find_time_unit_gcd exTimes exTimes_int exTimes_range).2.1
      (by rw [exTimes_positiveDiffs]; simp),
    (find_time_unit_gcd exTimes exTimes_int exTimes_range).2.2⟩

end TimeUnit

/-! ## Neighbour selection: the two branches of `kNearestNeighbours` -/

section KNNBranches

variable {K : Type} [LinearOrderedField K]

theorem posLT_asymm (d : Nat → K) {a b : Nat} (h1 : posLT d a b) : ¬ posLT d b a := by
  unfold posLT at *
  rintro (h2 | ⟨h2, h2'⟩)
  · rcases h1 with h1 | ⟨h1, _⟩
    · exact lt_asymm h1 h2
    · exact absurd h1.symm (ne_of_lt h2)
  · rcases h1 with h1 | ⟨_, h1'⟩
    · exact absurd h2.symm (ne_of_lt h1)
    · exact lt_asymm h1' h2'

/-- A sorted prefix that lies below the rest of the list is determined by the elements
of the list and its length. -/
theorem sorted_prefix_unique (r : Nat → Nat → Prop) (hasym : ∀ a b, r a b → ¬ r b a)
    (A : List Nat) : ∀ (B A' B' : List Nat), A.length = B.length →
    (A ++ A').Perm (B ++ B') → (A ++ A').Nodup →
    A.Pairwise r → B.Pairwise r →
    (∀ a ∈ A, ∀ b ∈ A', r a b) → (∀ a ∈ B, ∀ b ∈ B', r a b) → A = B := by
  induction A with
  | nil =>
    intro B A' B' hlen _ _ _ _ _ _
    cases B with
    | nil => rfl
    | cons b Bs => simp at hlen
  | cons a As ih =>
    intro B A' B' hlen hperm hnd hA hB hAb hBb
    cases B with
    | nil => simp at hlen
    | cons b Bs =>
      have hab : a = b := by
        by_contra hne
        have ha : a ∈ b :: (Bs ++ B') := hperm.mem_iff.1 (by simp)
        have hb : b ∈ a :: (As ++ A') := hperm.mem_iff.2 (by simp)
        have h1 : r b a := by
          rcases List.mem_cons.1 ha with h | h
          · exact absurd h hne
          · rcases List.mem_append.1 h with h | h
            · exact (List.pairwise_cons.1 hB).1 a h
            · exact hBb b (List.mem_cons_self _ _) a h
        have h2 : r a b := by
          rcases List.mem_cons.1 hb with h | h
          · exact absurd h.symm hne
          · rcases List.mem_append.1 h with h | h
            · exact (List.pairwise_cons.1 hA).1 b h
            · exact hAb a (List.mem_cons_self _ _) b h
        exact hasym _ _ h1 h2
      subst hab
      have hperm' : (As ++ A').Perm (Bs ++ B') := List.Perm.cons_inv hperm
      have hnd' : (As ++ A').Nodup := (List.nodup_cons.1 hnd).2
      rw [ih Bs A' B' (by simpa using hlen) hperm' hnd' (List.pairwise_cons.1 hA).2
        (List.pairwise_cons.1 hB).2
        (fun x hx y hy => hAb x (List.mem_cons_of_mem _ hx) y hy)
        (fun x hx y hy => hBb x (List.mem_cons_of_mem _ hx) y hy)]

/-- The first `k` places of the stably sorted position vector: sorted by distance and
then position, and below every later place. -/
theorem stable_sort_first_k (d : Nat → K) (n k : Nat) :
    ((stable_sort (fun i1 i2 => decide (d i1 < d i2)) (List.range n)).take k).Pairwise
      (posLT d) ∧
    ∀ a ∈ (stable_sort (fun i1 i2 => decide (d i1 < d i2)) (List.range n)).take k,
      ∀ b ∈ (stable_sort (fun i1 i2 => decide (d i1 < d i2)) (List.range n)).drop k,
        posLT d a b := by
  have hsorted := sorted_stable_sort d (List.range n) (List.pairwise_lt_range _)
  exact ⟨hsorted.sublist (List.take_sublist _ _),
    fun a ha b hb => List.Sorted.rel_of_mem_take_of_mem_drop hsorted ha hb⟩

/-- The first `k` places after the partial sort: sorted by distance and then position,
and below every later place. -/
theorem partial_sort_first_k (d : Nat → K) (n k : Nat) :
    ((partial_sort (fun i1 i2 => if d i1 ≠ d i2 then decide (d i1 < d i2)
      else decide (i1 < i2)) k (List.range n)).take k).Pairwise (posLT d) ∧
    ∀ a ∈ (partial_sort (fun i1 i2 => if d i1 ≠ d i2 then decide (d i1 < d i2)
        else decide (i1 < i2)) k (List.range n)).take k,
      ∀ b ∈ (partial_sort (fun i1 i2 => if d i1 ≠ d i2 then decide (d i1 < d i2)
        else decide (i1 < i2)) k (List.range n)).drop k, posLT d a b := by
  have hspec := partial_sort_spec
    (fun i1 i2 => if d i1 ≠ d i2 then decide (d i1 < d i2) else decide (i1 < i2))
    (fun a b c h1 h2 => (stableComparator_iff d a c).2
      (posLT_trans _ ((stableComparator_iff d a b).1 h1) ((stableComparator_iff d b c).1 h2)))
    (fun a b hab => (posLT_total d hab).imp (stableComparator_iff d a b).2
      (stableComparator_iff d b a).2)
    k (List.range n) (List.nodup_range _)
  exact ⟨hspec.1.imp (fun {a b} h => (stableComparator_iff d a b).1 h),
    fun a ha b hb => (stableComparator_iff d a b).1 (hspec.2 a ha b hb)⟩

/-- Both sorting steps of `kNearestNeighbours` leave the same positions, in the same
order, in the first `k` places. -/
theorem sort_prefixes_agree (d : Nat → K) (n k : Nat) :
    (stable_sort (fun i1 i2 => decide (d i1 < d i2)) (List.range n)).take k =
    (partial_sort (fun i1 i2 => if d i1 ≠ d i2 then decide (d i1 < d i2)
      else decide (i1 < i2)) k (List.range n)).take k := by
  have h1 := stable_sort_first_k d n k
  have h2 := partial_sort_first_k d n k
  have hp1 := perm_stable_sort (fun i1 i2 => decide (d i1 < d i2)) (List.range n)
  have hp2 := perm_partial_sort (fun i1 i2 => if d i1 ≠ d i2 then decide (d i1 < d i2)
      else decide (i1 < i2)) k (List.range n)
  refine sorted_prefix_unique (posLT d) (fun a b h => posLT_asymm d h) _ _
    ((stable_sort (fun i1 i2 => decide (d i1 < d i2)) (List.range n)).drop k)
    ((partial_sort (fun i1 i2 => if d i1 ≠ d i2 then decide (d i1 < d i2)
      else decide (i1 < i2)) k (List.range n)).drop k) ?_ ?_ ?_ h1.1 h2.1 h1.2 h2.2
  · rw [List.length_take, List.length_take, hp1.length_eq, hp2.length_eq]
  · rw [List.take_append_drop, List.take_append_drop]
    exact hp1.trans hp2.symm
  · rw [List.take_append_drop]
    exact hp1.nodup_iff.2 (List.nodup_range _)

theorem kNearestNeighboursBranch_eq (fullSort : Bool) (p : DistanceIndexPairs K) (k : Nat)
    (hk : k ≤ p.inds.length) :
    kNearestNeighboursBranch fullSort p k =
      { inds := ((stable_sort (fun i1 i2 => decide (p.dists.getD i1 0 < p.dists.getD i2 0))
            (List.range p.inds.length)).take k).map fun j => p.inds.getD j 0,
        dists := ((stable_sort (fun i1 i2 => decide (p.dists.getD i1 0 < p.dists.getD i2 0))
            (List.range p.inds.length)).take k).map fun j => p.dists.getD j 0 } := by
  unfold kNearestNeighboursBranch iota
  cases fullSort with
  | true =>
    simp only [if_true]
    have hL : k ≤ (stable_sort (fun i1 i2 => decide (p.dists.getD i1 0 < p.dists.getD i2 0))
        (List.range p.inds.length)).length := by
      rw [(perm_stable_sort _ _).length_eq]; simpa using hk
    rw [map_range_getD (fun j => p.inds.getD j 0) _ k hL,
      map_range_getD (fun j => p.dists.getD j 0) _ k hL]
  | false =>
    simp only [Bool.false_eq_true, if_false]
    have hL : k ≤ (partial_sort (fun i1 i2 =>
        if p.dists.getD i1 0 ≠ p.dists.getD i2 0
        then decide (p.dists.getD i1 0 < p.dists.getD i2 0) else decide (i1 < i2)) k
        (List.range p.inds.length)).length := by
      rw [(perm_partial_sort _ _ _).length_eq]; simpa using hk
    rw [map_range_getD (fun j => p.inds.getD j 0) _ k hL,
      map_range_getD (fun j => p.dists.getD j 0) _ k hL,
      ← sort_prefixes_agree (fun i => p.dists.getD i 0) p.inds.length k]

theorem kNearestNeighbours_eq_branch (p : DistanceIndexPairs K) (k : Nat) :
    kNearestNeighbours p k =
      kNearestNeighboursBranch (decide (k ≥ (iota p.inds.length).length / 2)) p k := by
  unfold kNearestNeighbours kNearestNeighboursBranch
  simp only [decide_eq_true_eq]

/-- C23: for every candidate list and every `k` with `0 ≤ k ≤ n`, the full-stable-sort
branch of `kNearestNeighbours` and its partial-sort branch compute the same list of `k`
(index, distance) pairs, so `kNearestNeighbours` returns the result of either branch
whichever one its test `k >= n / 2` selects. -/
theorem kNearestNeighbours_branches_agree (p : DistanceIndexPairs K) (k : Nat)
    (hk : k ≤ p.inds.length) :
    kNearestNeighboursBranch true p k = kNearestNeighboursBranch false p k ∧
    kNearestNeighbours p k = kNearestNeighboursBranch true p k ∧
    kNearestNeighbours p k = kNearestNeighboursBranch false p k := by
  have h1 := kNearestNeighboursBranch_eq true p k hk
  have h2 := kNearestNeighboursBranch_eq false p k hk
  have h3 := kNearestNeighbours_eq_branch p k
  have h4 := kNearestNeighboursBranch_eq (decide (k ≥ (iota p.inds.length).length / 2)) p k hk
  exact ⟨h1.trans h2.symm, (h3.trans h4).trans h1.symm, (h3.trans h4).trans h2.symm⟩

/-- Witness for C23: four candidates with a tie and `k = 1`, where the source takes the
partial-sort branch (`1 < 4 / 2`). -/
theorem kNearestNeighbours_branches_agree_witness :
    kNearestNeighboursBranch true (⟨[0, 1, 2, 3], [3, 1, 2, 1]⟩ : DistanceIndexPairs ℚ) 1 =
      kNearestNeighboursBranch false (⟨[0, 1, 2, 3], [3, 1, 2, 1]⟩ : DistanceIndexPairs ℚ) 1 ∧
    kNearestNeighbours (⟨[0, 1, 2, 3], [3, 1, 2, 1]⟩ : DistanceIndexPairs ℚ) 1 =
      kNearestNeighboursBranch true (⟨[0, 1, 2, 3], [3, 1, 2, 1]⟩ : DistanceIndexPairs ℚ) 1 ∧
    kNearestNeighbours (⟨[0, 1, 2, 3], [3, 1, 2, 1]⟩ : DistanceIndexPairs ℚ) 1 =
      kNearestNeighboursBranch false (⟨[0, 1, 2, 3], [3, 1, 2, 1]⟩ : DistanceIndexPairs ℚ) 1 :=
  kNearestNeighbours_branches_agree _ 1 (by decide)

end KNNBranches

/-! ## Neighbour selection: `kNearestNeighboursUnstable` -/

section KNNUnstable

variable {K : Type} [LinearOrderedField K]

theorem posLT_le (d : Nat → K) {a b : Nat} (h : posLT d a b) : d a ≤ d b := by
  rcases h with h | ⟨h, _⟩
  · exact le_of_lt h
  · exact le_of_eq h

/-- Positions chosen by only one of the two selectors are tied in distance. -/
theorem nth_prefix_ties (d : Nat → K) (n k : Nat) (L : List Nat)
    (hpost : nth_element_post (fun i1 i2 => decide (d i1 < d i2)) k (List.range n) L)
    (x y : Nat) (hx : x ∈ L.take k)
    (hxS : x ∉ (stable_sort (fun i1 i2 => decide (d i1 < d i2)) (List.range n)).take k)
    (hy : y ∈ (stable_sort (fun i1 i2 => decide (d i1 < d i2)) (List.range n)).take k)
    (hyL : y ∉ L.take k) : d x = d y := by
  have hpS := perm_stable_sort (fun i1 i2 => decide (d i1 < d i2)) (List.range n)
  have hxn : x ∈ List.range n := hpost.1.mem_iff.1 (List.mem_of_mem_take hx)
  have hyn : y ∈ List.range n := hpS.mem_iff.1 (List.mem_of_mem_take hy)
  have hxd : x ∈ (stable_sort (fun i1 i2 => decide (d i1 < d i2)) (List.range n)).drop k := by
    have := hpS.mem_iff.2 hxn
    rw [← List.take_append_drop k (stable_sort _ _), List.mem_append] at this
    exact this.resolve_left hxS
  have hyd : y ∈ L.drop k := by
    have := hpost.1.mem_iff.2 hyn
    rw [← List.take_append_drop k L, List.mem_append] at this
    exact this.resolve_left hyL
  have h1 : d y ≤ d x := posLT_le d ((stable_sort_first_k d n k).2 y hy x hxd)
  have h2 : ¬ d y < d x := by simpa using hpost.2 x hx y hyd
  exact le_antisymm (not_lt.1 h2) h1

/-- Without a tie across the `k`-th place the unstable selector chooses the same
positions as the stable one. -/
theorem nth_prefix_perm (d : Nat → K) (n k : Nat) (L : List Nat) (hk : k ≤ n)
    (hpost : nth_element_post (fun i1 i2 => decide (d i1 < d i2)) k (List.range n) L)
    (hno : ∀ a ∈ (stable_sort (fun i1 i2 => decide (d i1 < d i2)) (List.range n)).take k,
      ∀ b ∈ (stable_sort (fun i1 i2 => decide (d i1 < d i2)) (List.range n)).drop k,
        d a ≠ d b) :
    (L.take k).Perm ((stable_sort (fun i1 i2 => decide (d i1 < d i2)) (List.range n)).take k) := by
  have hpS := perm_stable_sort (fun i1 i2 => decide (d i1 < d i2)) (List.range n)
  have hndL : (L.take k).Nodup :=
    (hpost.1.nodup_iff.2 (List.nodup_range n)).sublist (List.take_sublist _ _)
  have hndS : ((stable_sort (fun i1 i2 => decide (d i1 < d i2)) (List.range n)).take k).Nodup :=
    (hpS.nodup_iff.2 (List.nodup_range n)).sublist (List.take_sublist _ _)
  have hlenL : (L.take k).length = k := by
    rw [List.length_take, hpost.1.length_eq, List.length_range]; exact min_eq_left hk
  have hlenS : ((stable_sort (fun i1 i2 => decide (d i1 < d i2)) (List.range n)).take k).length
      = k := by
    rw [List.length_take, hpS.length_eq, List.length_range]; exact min_eq_left hk
  have hsub : L.take k ⊆ (stable_sort (fun i1 i2 => decide (d i1 < d i2)) (List.range n)).take k := by
    intro x hx
    by_contra hxS
    have hex : ∃ y ∈ (stable_sort (fun i1 i2 => decide (d i1 < d i2)) (List.range n)).take k,
        y ∉ L.take k := by
      by_contra hall
      push_neg at hall
      have hp := (List.subperm_of_subset hndS hall).perm_of_length_le (by rw [hlenL, hlenS])
      exact hxS (hp.mem_iff.2 hx)
    obtain ⟨y, hy, hyL⟩ := hex
    have hxy := nth_prefix_ties d n k L hpost x y hx hxS hy hyL
    have hxn : x ∈ List.range n := hpost.1.mem_iff.1 (List.mem_of_mem_take hx)
    have hxd : x ∈ (stable_sort (fun i1 i2 => decide (d i1 < d i2)) (List.range n)).drop k := by
      have := hpS.mem_iff.2 hxn
      rw [← List.take_append_drop k (stable_sort _ _), List.mem_append] at this
      exact this.resolve_left hxS
    exact hno y hy x hxd hxy.symm
  exact (List.subperm_of_subset hndL hsub).perm_of_length_le (by rw [hlenL, hlenS])

theorem kNearestNeighboursUnstable_eq
    (nth_element : (Nat → Nat → Bool) → Nat → List Nat → List Nat)
    (p : DistanceIndexPairs K) (k : Nat) (hk : k ≤ p.inds.length)
    (hpost : nth_element_post (fun i1 i2 => decide (p.dists.getD i1 0 < p.dists.getD i2 0)) k
      (iota p.inds.length)
      (nth_element (fun i1 i2 => decide (p.dists.getD i1 0 < p.dists.getD i2 0)) k
        (iota p.inds.length))) :
    kNearestNeighboursUnstable nth_element p k =
      { inds := ((nth_element (fun i1 i2 => decide (p.dists.getD i1 0 < p.dists.getD i2 0)) k
            (iota p.inds.length)).take k).map fun j => p.inds.getD j 0,
        dists := ((nth_element (fun i1 i2 => decide (p.dists.getD i1 0 < p.dists.getD i2 0)) k
            (iota p.inds.length)).take k).map fun j => p.dists.getD j 0 } := by
  unfold kNearestNeighboursUnstable
  have hL : k ≤ (nth_element (fun i1 i2 => decide (p.dists.getD i1 0 < p.dists.getD i2 0)) k
      (iota p.inds.length)).length := by
    rw [hpost.1.length_eq]; simpa [iota] using hk
  simp only
  rw [map_range_getD (fun j => p.inds.getD j 0) _ k hL,
    map_range_getD (fun j => p.dists.getD j 0) _ k hL]

theorem getD_injOn_of_nodup (l : List Nat) (hnd : l.Nodup) (a b : Nat) (ha : a < l.length)
    (hb : b < l.length) (h : l.getD a 0 = l.getD b 0) : a = b := by
  rw [List.getD_eq_getElem _ _ ha, List.getD_eq_getElem _ _ hb] at h
  exact (List.Nodup.getElem_inj_iff hnd).1 h

theorem mem_map_getD_iff (l : List Nat) (hnd : l.Nodup) (P : List Nat)
    (hP : ∀ a ∈ P, a < l.length) (j : Nat) (hj : j < l.length) :
    l.getD j 0 ∈ P.map (fun i => l.getD i 0) ↔ j ∈ P := by
  constructor
  · intro h
    obtain ⟨a, ha, hEq⟩ := List.mem_map.1 h
    have := getD_injOn_of_nodup l hnd a j (hP a ha) hj hEq
    exact this ▸ ha
  · intro h
    exact List.mem_map.2 ⟨j, h, rfl⟩

/-- C24 (counterexample): two candidates at the same distance, `k = 1`.  Sorting the
whole range with tied elements in reverse order is a rearrangement that `nth_element`
is permitted to produce; with it `kNearestNeighboursUnstable` returns candidate `1`,
while `kNearestNeighbours` returns candidate `0`. -/
theorem kNearestNeighboursUnstable_tie_differs :
    nth_element_post
      (fun i1 i2 => decide (([1, 1] : List ℚ).getD i1 0 < ([1, 1] : List ℚ).getD i2 0)) 1
      (iota 2)
      (exNthElement
        (fun i1 i2 => decide (([1, 1] : List ℚ).getD i1 0 < ([1, 1] : List ℚ).getD i2 0)) 1
        (iota 2)) ∧
    (kNearestNeighboursUnstable exNthElement (⟨[0, 1], [1, 1]⟩ : DistanceIndexPairs ℚ) 1).inds
      = [1] ∧
    (kNearestNeighbours (⟨[0, 1], [1, 1]⟩ : DistanceIndexPairs ℚ) 1).inds = [0] := by
  refine ⟨⟨?_, ?_⟩, ?_, ?_⟩
  · decide
  · decide
  · decide
  · decide

/-- C24 (amended): for a candidate list with distinct indices, `0 ≤ k ≤ n` and any
rearrangement that `nth_element` is permitted to produce, `kNearestNeighboursUnstable`
returns `k` candidates; it returns the same set of `k` candidate indices (and the same
distances) as `kNearestNeighbours` whenever no candidate left out by `kNearestNeighbours`
has the same distance as a returned one; in general a candidate returned by only one of
the two functions has the same distance as every candidate returned only by the other. -/
theorem kNearestNeighboursUnstable_same_set
    (nth_element : (Nat → Nat → Bool) → Nat → List Nat → List Nat)
    (p : DistanceIndexPairs K) (k : Nat) (hk : k ≤ p.inds.length) (hnd : p.inds.Nodup)
    (hpost : nth_element_post (fun i1 i2 => decide (p.dists.getD i1 0 < p.dists.getD i2 0)) k
      (iota p.inds.length)
      (nth_element (fun i1 i2 => decide (p.dists.getD i1 0 < p.dists.getD i2 0)) k
        (iota p.inds.length))) :
    (kNearestNeighboursUnstable nth_element p k).inds.length = k ∧
    (kNearestNeighboursUnstable nth_element p k).dists.length = k ∧
    ((∀ j, j < p.inds.length → p.inds.getD j 0 ∉ (kNearestNeighbours p k).inds →
        p.dists.getD j 0 ∉ (kNearestNeighbours p k).dists) →
      (kNearestNeighboursUnstable nth_element p k).inds.Perm (kNearestNeighbours p k).inds ∧
      (kNearestNeighboursUnstable nth_element p k).dists.Perm (kNearestNeighbours p k).dists) ∧
    (∀ j j2, j < p.inds.length → j2 < p.inds.length →
      p.inds.getD j 0 ∈ (kNearestNeighboursUnstable nth_element p k).inds →
      p.inds.getD j 0 ∉ (kNearestNeighbours p k).inds →
      p.inds.getD j2 0 ∈ (kNearestNeighbours p k).inds →
      p.inds.getD j2 0 ∉ (kNearestNeighboursUnstable nth_element p k).inds →
      p.dists.getD j 0 = p.dists.getD j2 0) := by
  have hU := kNearestNeighboursUnstable_eq nth_element p k hk hpost
  have hS : kNearestNeighbours p k = _ :=
    (kNearestNeighbours_eq_branch p k).trans (kNearestNeighboursBranch_eq _ p k hk)
  rw [hU, hS]
  simp only [iota] at hpost ⊢
  have hpS := perm_stable_sort (fun i1 i2 => decide (p.dists.getD i1 0 < p.dists.getD i2 0))
    (List.range p.inds.length)
  have hPU : ∀ a ∈ (nth_element (fun i1 i2 => decide (p.dists.getD i1 0 < p.dists.getD i2 0)) k
      (List.range p.inds.length)).take k, a < p.inds.length := fun a ha => by
    simpa using hpost.1.mem_iff.1 (List.mem_of_mem_take ha)
  have hPS : ∀ a ∈ (stable_sort (fun i1 i2 => decide (p.dists.getD i1 0 < p.dists.getD i2 0))
      (List.range p.inds.length)).take k, a < p.inds.length := fun a ha => by
    simpa using hpS.mem_iff.1 (List.mem_of_mem_take ha)
  have hlenU : ((nth_element (fun i1 i2 => decide (p.dists.getD i1 0 < p.dists.getD i2 0)) k
      (List.range p.inds.length)).take k).length = k := by
    rw [List.length_take, hpost.1.length_eq, List.length_range]; exact min_eq_left hk
  refine ⟨by simpa using hlenU, by simpa using hlenU, ?_, ?_⟩
  · intro hno
    have hperm := nth_prefix_perm (fun i => p.dists.getD i 0) p.inds.length k _ hk hpost
      (by
        intro a ha b hb hab
        have hbn : b < p.inds.length := by
          simpa using hpS.mem_iff.1 (List.mem_of_mem_drop hb)
        have hbS : b ∉ (stable_sort
            (fun i1 i2 => decide (p.dists.getD i1 0 < p.dists.getD i2 0))
            (List.range p.inds.length)).take k := by
          intro hbt
          have hnd2 := hpS.nodup_iff.2 (List.nodup_range p.inds.length)
          rw [← List.take_append_drop k (stable_sort _ _)] at hnd2
          exact (List.nodup_append.1 hnd2).2.2 hbt hb
        have h1 := hno b hbn (fun h => hbS ((mem_map_getD_iff p.inds hnd _ hPS b hbn).1 h))
        exact h1 (List.mem_map.2 ⟨a, ha, hab⟩))
    exact ⟨hperm.map _, hperm.map _⟩
  · intro j j2 hj hj2 h1 h2 h3 h4
    exact nth_prefix_ties (fun i => p.dists.getD i 0) p.inds.length k _ hpost j j2
      ((mem_map_getD_iff p.inds hnd _ hPU j hj).1 h1)
      (fun h => h2 ((mem_map_getD_iff p.inds hnd _ hPS j hj).2 h))
      ((mem_map_getD_iff p.inds hnd _ hPS j2 hj2).1 h3)
      (fun h => h4 ((mem_map_getD_iff p.inds hnd _ hPU j2 hj2).2 h))

/-- Witness for C24 (amended): four candidates, the two nearest tied with each other but
not with a candidate that is left out, `k = 2`, `nth_element` sorting ties in reverse. -/
theorem kNearestNeighboursUnstable_same_set_witness :
    nth_element_post (fun i1 i2 => decide (exTies.dists.getD i1 0 < exTies.dists.getD i2 0)) 2
      (iota exTies.inds.length)
      (exNthElement (fun i1 i2 => decide (exTies.dists.getD i1 0 < exTies.dists.getD i2 0)) 2
        (iota exTies.inds.length)) ∧
    (kNearestNeighboursUnstable exNthElement exTies 2).inds.length = 2 ∧
    (kNearestNeighboursUnstable exNthElement exTies 2).inds.Perm
      (kNearestNeighbours exTies 2).inds ∧
    (kNearestNeighboursUnstable exNthElement exTies 2).inds = [3, 1] ∧
    (kNearestNeighbours exTies 2).inds = [1, 3] :=
  ⟨⟨by decide, by decide⟩,
    (kNearestNeighboursUnstable_same_set exNthElement exTies 2 (by decide) (by decide)
      ⟨by decide, by decide⟩).1,
    ((kNearestNeighboursUnstable_same_set exNthElement exTies 2 (by decide) (by decide)
      ⟨by decide, by decide⟩).2.2.1 (by decide)).1,
    by decide, by decide⟩

end KNNUnstable

/-! ## Wasserstein cost matrix -/

section Wasserstein

variable {K : Type} [LinearOrderedField K]

/-- One pass of the innermost loop keeps the cost matrix symmetric. -/
theorem addCell_mirror_symm (C : Nat → Nat → K) (hC : ∀ a b, C a b = C b a) (n m : Nat)
    (dist : K) :
    ∀ a b, (if n ≠ m then addCell (addCell C n m dist) m n dist else addCell C n m dist) a b =
      (if n ≠ m then addCell (addCell C n m dist) m n dist else addCell C n m dist) b a := by
  intro a b
  by_cases hnm : n = m
  · subst hnm
    simp only [ne_eq, not_true_eq_false, if_false, addCell]
    by_cases h1 : a = n ∧ b = n
    · rw [if_pos h1, if_pos ⟨h1.2, h1.1⟩, hC a b]
    · rw [if_neg h1, if_neg (fun h => h1 ⟨h.2, h.1⟩), hC a b]
  · simp only [ne_eq, hnm, not_false_eq_true, if_true, addCell]
    split_ifs <;> first | (exfalso; omega) | rw [hC a b]

theorem wasserstein_inner_symm (M Mp : LaggedManifold K) (i j : Nat) (gamma : K)
    (opts : Options K) (skipMissing : Bool) (k n nn : Nat) (C : Nat → Nat → K)
    (hC : ∀ a b, C a b = C b a) :
    ∀ a b, (wasserstein_inner M Mp i j gamma opts skipMissing k n nn C).1 a b =
      (wasserstein_inner M Mp i j gamma opts skipMissing k n nn C).1 b a := by
  unfold wasserstein_inner
  generalize List.range' nn (Mp.E - nn) = l
  have key : ∀ (st : (Nat → Nat → K) × Nat), (∀ a b, st.1 a b = st.1 b a) →
      ∀ a b, (l.foldl
        (fun st mm =>
          if skipMissing = true ∧ (M.colMissing i nn = true ∨ Mp.colMissing j mm = true) then st
          else
            let dist := wasserstein_dist M Mp i j gamma opts k nn mm
            let m := st.2
            let costMatrix := addCell st.1 n m dist
            let costMatrix := if n ≠ m then addCell costMatrix m n dist else costMatrix
            (costMatrix, m + 1)) st).1 a b =
        (l.foldl
        (fun st mm =>
          if skipMissing = true ∧ (M.colMissing i nn = true ∨ Mp.colMissing j mm = true) then st
          else
            let dist := wasserstein_dist M Mp i j gamma opts k nn mm
            let m := st.2
            let costMatrix := addCell st.1 n m dist
            let costMatrix := if n ≠ m then addCell costMatrix m n dist else costMatrix
            (costMatrix, m + 1)) st).1 b a := by
    induction l with
    | nil => intro st hst; simpa using hst
    | cons mm l ih =>
      intro st hst
      rw [List.foldl_cons]
      apply ih
      by_cases hs : skipMissing = true ∧ (M.colMissing i nn = true ∨ Mp.colMissing j mm = true)
      · rw [if_pos hs]; exact hst
      · rw [if_neg hs]
        exact addCell_mirror_symm st.1 hst n st.2 _
  exact key (C, 0) hC

theorem wasserstein_middle_symm (M Mp : LaggedManifold K) (i j : Nat) (gamma : K)
    (opts : Options K) (skipMissing : Bool) (k : Nat) (C : Nat → Nat → K)
    (hC : ∀ a b, C a b = C b a) :
    ∀ a b, wasserstein_middle M Mp i j gamma opts skipMissing k C a b =
      wasserstein_middle M Mp i j gamma opts skipMissing k C b a := by
  unfold wasserstein_middle
  generalize List.range M.E = l
  have key : ∀ (st : (Nat → Nat → K) × Nat), (∀ a b, st.1 a b = st.1 b a) →
      ∀ a b, (l.foldl
        (fun st nn =>
          ((wasserstein_inner M Mp i j gamma opts skipMissing k st.2 nn st.1).1, st.2 + 1))
        st).1 a b =
        (l.foldl
        (fun st nn =>
          ((wasserstein_inner M Mp i j gamma opts skipMissing k st.2 nn st.1).1, st.2 + 1))
        st).1 b a := by
    induction l with
    | nil => intro st hst; simpa using hst
    | cons nn l ih =>
      intro st hst
      rw [List.foldl_cons]
      apply ih
      exact wasserstein_inner_symm M Mp i j gamma opts skipMissing k st.2 nn st.1 hst
  exact key (C, 0) hC

/-- C25: under the penalise-missing policy (`missingdistance != 0`) and for two manifolds
with the same `E`, the matrix returned by `wasserstein_cost_matrix` for any pair of rows
has `E` rows and `E` columns and is symmetric: `C(n, m) = C(m, n)` for all `n`, `m`. -/
theorem wasserstein_cost_matrix_symmetric (M Mp : LaggedManifold K) (i j : Nat) (gamma : K)
    (opts : Options K) (hmd : opts.missingdistance ≠ 0) (hE : Mp.E = M.E) :
    (wasserstein_cost_matrix M Mp i j gamma opts).len_i = M.E ∧
    (wasserstein_cost_matrix M Mp i j gamma opts).len_j = M.E ∧
    ∀ n m, (wasserstein_cost_matrix M Mp i j gamma opts).cost n m =
      (wasserstein_cost_matrix M Mp i j gamma opts).cost m n := by
  unfold wasserstein_cost_matrix
  simp only [hmd, decide_False, Bool.false_eq_true, if_false, hE, true_and]
  generalize List.range M.laggedRows = l
  have key : ∀ (C : Nat → Nat → K), (∀ a b, C a b = C b a) →
      ∀ a b, (l.foldl (fun costMatrix k =>
          wasserstein_middle M Mp i j gamma opts false k costMatrix) C) a b =
        (l.foldl (fun costMatrix k =>
          wasserstein_middle M Mp i j gamma opts false k costMatrix) C) b a := by
    induction l with
    | nil => intro C hC; simpa using hC
    | cons k l ih =>
      intro C hC
      rw [List.foldl_cons]
      exact ih _ (wasserstein_middle_symm M Mp i j gamma opts false k C hC)
  exact key _ (fun _ _ => rfl)

/-- Witness for C25: the curves `0, 10` and `0, 13` with `missingdistance = 1`. -/
theorem wasserstein_cost_matrix_symmetric_witness :
    (wasserstein_cost_matrix exCurveM exCurveMp 0 0 1 (exOpts false 0 1)).len_i = 2 ∧
    (wasserstein_cost_matrix exCurveM exCurveMp 0 0 1 (exOpts false 0 1)).len_j = 2 ∧
    ∀ n m, (wasserstein_cost_matrix exCurveM exCurveMp 0 0 1 (exOpts false 0 1)).cost n m =
      (wasserstein_cost_matrix exCurveM exCurveMp 0 0 1 (exOpts false 0 1)).cost m n :=
  wasserstein_cost_matrix_symmetric exCurveM exCurveMp 0 0 1 (exOpts false 0 1)
    (by simp [exOpts]) rfl

/-- C26 (evaluation): the curves `0, 10` and `0, 13` (one lagged variable with a `Diff`
metric, `E = 2`, no missing cell, no extras, `gamma = 1`).  The cost of turning point `1`
of the first curve into point `1` of the second is `|10 - 13| = 3`, and that of turning
point `0` into point `1` is `|0 - 13| + gamma = 14`; the matrix returned by
`wasserstein_cost_matrix` holds `0` at `(1, 1)` and `17` at `(0, 1)`: the counter `m` of
the inner loop restarts at `0` while its time point `mm` starts at `nn`, so the cost of
the pair `(nn, mm)` is added to the cells `(nn, mm - nn)` and `(mm - nn, nn)`. -/
theorem wasserstein_cost_matrix_entry_mismatch :
    (∀ n, exCurveM.colMissing 0 n = false ∧ exCurveMp.colMissing 0 n = false) ∧
    referenceCost exCurveM exCurveMp 0 0 1 (exOpts false 0 1) 1 1 = 3 ∧
    (wasserstein_cost_matrix exCurveM exCurveMp 0 0 1 (exOpts false 0 1)).cost 1 1 = 0 ∧
    referenceCost exCurveM exCurveMp 0 0 1 (exOpts false 0 1) 0 1 = 14 ∧
    (wasserstein_cost_matrix exCurveM exCurveMp 0 0 1 (exOpts false 0 1)).cost 0 1 = 17 := by
  refine ⟨?_, ?_, ?_, ?_, ?_⟩
  · intro n
    constructor
    · simp only [LaggedManifold.colMissing, exCurveM, MISSING, List.range_succ]
      by_cases h : n = 0 <;> simp [h] <;> norm_num
    · simp only [LaggedManifold.colMissing, exCurveMp, MISSING, List.range_succ]
      by_cases h : n = 0 <;> simp [h] <;> norm_num
  · simp [referenceCost, metricCost, wasserstein_unlagged, exCurveM, exCurveMp, exOpts,
      List.range_succ]
    norm_num
  · simp [wasserstein_cost_matrix, wasserstein_middle, wasserstein_inner, wasserstein_dist,
      wasserstein_unlagged, LaggedManifold.colMissing, addCell, exCurveM, exCurveMp, exOpts,
      MISSING, List.range_succ, List.range']
  · simp [referenceCost, metricCost, wasserstein_unlagged, exCurveM, exCurveMp, exOpts,
      List.range_succ]
    norm_num
  · simp [wasserstein_cost_matrix, wasserstein_middle, wasserstein_inner, wasserstein_dist,
      wasserstein_unlagged, LaggedManifold.colMissing, addCell, exCurveM, exCurveMp, exOpts,
      MISSING, List.range_succ, List.range']
    norm_num

end Wasserstein

/-! ## Task assembly: `edm_task` -/

section Task

variable {K : Type} [LinearOrderedField K]

theorem foldl_max_spec (ds : List Int) : ∀ d : Int,
    ds.foldl (fun m x => if m < x then x else m) d ∈ d :: ds ∧
    ∀ x ∈ d :: ds, x ≤ ds.foldl (fun m x => if m < x then x else m) d := by
  induction ds with
  | nil => intro d; simp
  | cons y ys ih =>
    intro d
    rw [List.foldl_cons]
    obtain ⟨h1, h2⟩ := ih (if d < y then y else d)
    constructor
    · rcases List.mem_cons.1 h1 with h | h
      · rw [h]
        split_ifs
        · exact List.mem_cons_of_mem _ (List.mem_cons_self _ _)
        · exact List.mem_cons_self _ _
      · exact List.mem_cons_of_mem _ (List.mem_cons_of_mem _ h)
    · intro x hx
      have hm := h2 _ (List.mem_cons_self _ _)
      rcases List.mem_cons.1 hx with rfl | hx
      · refine le_trans ?_ hm
        split_ifs with h
        · exact le_of_lt h
        · exact le_refl _
      · rcases List.mem_cons.1 hx with rfl | hx
        · refine le_trans ?_ hm
          split_ifs with h
          · exact le_refl _
          · exact not_lt.1 h
        · exact h2 x (List.mem_cons_of_mem _ hx)

/-- On a non-empty range `max_element` returns an element that no element exceeds. -/
theorem max_element_spec (l : List Int) (hl : l ≠ []) :
    max_element l ∈ l ∧ ∀ x ∈ l, x ≤ max_element l := by
  cases l with
  | nil => exact absurd rfl hl
  | cons d ds => exact foldl_max_spec ds d

/-- The flat status array holds the entries `(t, i)` of its view. -/
theorem mem_flat_iff {β : Type} (view : Nat → Nat → β) (nT nP : Nat) (hT : 0 < nT) (x : β) :
    x ∈ (List.range (nT * nP)).map (flatAt nT view) ↔
      ∃ t i, t < nT ∧ i < nP ∧ view t i = x := by
  rw [List.mem_map]
  constructor
  · rintro ⟨idx, hidx, rfl⟩
    have hidx' := List.mem_range.1 hidx
    exact ⟨idx % nT, idx / nT, Nat.mod_lt _ hT, Nat.div_lt_of_lt_mul hidx', rfl⟩
  · rintro ⟨t, i, ht, hi, rfl⟩
    refine ⟨t + nT * i, List.mem_range.2 ?_, ?_⟩
    · calc t + nT * i < nT + nT * i := by omega
        _ = nT * (i + 1) := by ring
        _ ≤ nT * nP := Nat.mul_le_mul_left _ hi
    · unfold flatAt
      rw [Nat.add_mul_mod_self_left, Nat.mod_eq_of_lt ht, Nat.add_mul_div_left _ _ hT,
        Nat.div_eq_of_lt ht, Nat.zero_add]

/-- The result of `edm_task` when the poll before the results are stored does not
answer `false`. -/
theorem edm_task_pred_of_keep (mean_absolute_error correlation : List K → List K → K)
    (gpuResult : TaskBuffers K) (junk : Prediction K) (opts : Options K) (topts : TaskOptions)
    (M Mp : Manifold K) (ySize : Nat) (predictionRows : List Bool) (keep_going : Nat → Bool)
    (numTasksFinished : Int) (hkeep : keep_going 1 = true) :
    (edm_task mean_absolute_error correlation gpuResult junk opts topts M Mp ySize
      predictionRows keep_going numTasksFinished).pred =
      edm_task_store mean_absolute_error correlation opts topts M Mp ySize predictionRows
        (edm_task_predict gpuResult opts Mp keep_going) (Prediction.defaultInit junk) := by
  unfold edm_task
  simp only [hkeep, if_true]

/-- The result of `edm_task` when the poll before the results are stored answers
`false`. -/
theorem edm_task_pred_of_stop (mean_absolute_error correlation : List K → List K → K)
    (gpuResult : TaskBuffers K) (junk : Prediction K) (opts : Options K) (topts : TaskOptions)
    (M Mp : Manifold K) (ySize : Nat) (predictionRows : List Bool) (keep_going : Nat → Bool)
    (numTasksFinished : Int) (hstop : keep_going 1 = false) :
    (edm_task mean_absolute_error correlation gpuResult junk opts topts M Mp ySize
      predictionRows keep_going numTasksFinished).pred = Prediction.defaultInit junk := by
  unfold edm_task
  simp only [hstop, Bool.false_eq_true, if_false]

/-- C27: when `edm_task` is not cancelled and there is at least one theta and one query
row, the task status `pred.rc` is the maximum of the statuses `rc(t, i)` of the points:
no point's status exceeds it and some point has it.  So, the statuses being at least
`SUCCESS`, it is `SUCCESS` exactly when every point's status is `SUCCESS`, and it is at
least `INSUFFICIENT_UNIQUE` as soon as one point has that status. -/
theorem edm_task_rc_max (mean_absolute_error correlation : List K → List K → K)
    (gpuResult : TaskBuffers K) (junk : Prediction K) (opts : Options K) (topts : TaskOptions)
    (M Mp : Manifold K) (ySize : Nat) (predictionRows : List Bool) (keep_going : Nat → Bool)
    (numTasksFinished : Int) (hkeep : keep_going 1 = true) (hT : 0 < opts.thetas.length)
    (hP : 0 < Mp.nobs) :
    (∀ t i, t < opts.thetas.length → i < Mp.nobs →
      (edm_task_predict gpuResult opts Mp keep_going).rc t i ≤
        (edm_task mean_absolute_error correlation gpuResult junk opts topts M Mp ySize
          predictionRows keep_going numTasksFinished).pred.rc) ∧
    (∃ t i, t < opts.thetas.length ∧ i < Mp.nobs ∧
      (edm_task_predict gpuResult opts Mp keep_going).rc t i =
        (edm_task mean_absolute_error correlation gpuResult junk opts topts M Mp ySize
          predictionRows keep_going numTasksFinished).pred.rc) ∧
    ((∀ t i, t < opts.thetas.length → i < Mp.nobs →
        SUCCESS ≤ (edm_task_predict gpuResult opts Mp keep_going).rc t i) →
      ((edm_task mean_absolute_error correlation gpuResult junk opts topts M Mp ySize
          predictionRows keep_going numTasksFinished).pred.rc = SUCCESS ↔
        ∀ t i, t < opts.thetas.length → i < Mp.nobs →
          (edm_task_predict gpuResult opts Mp keep_going).rc t i = SUCCESS)) ∧
    ((∃ t i, t < opts.thetas.length ∧ i < Mp.nobs ∧
        (edm_task_predict gpuResult opts Mp keep_going).rc t i = INSUFFICIENT_UNIQUE) →
      INSUFFICIENT_UNIQUE ≤
        (edm_task mean_absolute_error correlation gpuResult junk opts topts M Mp ySize
          predictionRows keep_going numTasksFinished).pred.rc) := by
  rw [edm_task_pred_of_keep mean_absolute_error correlation gpuResult junk opts topts M Mp ySize
    predictionRows keep_going numTasksFinished hkeep]
  have hrc : (edm_task_store mean_absolute_error correlation opts topts M Mp ySize
      predictionRows (edm_task_predict gpuResult opts Mp keep_going)
      (Prediction.defaultInit junk)).rc =
      max_element ((List.range (opts.thetas.length * Mp.nobs)).map
        (flatAt opts.thetas.length (edm_task_predict gpuResult opts Mp keep_going).rc)) := rfl
  rw [hrc]
  have hne : (List.range (opts.thetas.length * Mp.nobs)).map
      (flatAt opts.thetas.length (edm_task_predict gpuResult opts Mp keep_going).rc) ≠ [] := by
    intro h
    have := congrArg List.length h
    simp only [List.length_map, List.length_range, List.length_nil] at this
    have := Nat.mul_pos hT hP
    omega
  obtain ⟨hmem, hle⟩ := max_element_spec _ hne
  have hupper : ∀ t i, t < opts.thetas.length → i < Mp.nobs →
      (edm_task_predict gpuResult opts Mp keep_going).rc t i ≤
        max_element ((List.range (opts.thetas.length * Mp.nobs)).map
          (flatAt opts.thetas.length (edm_task_predict gpuResult opts Mp keep_going).rc)) :=
    fun t i ht hi => hle _ ((mem_flat_iff _ _ _ hT _).2 ⟨t, i, ht, hi, rfl⟩)
  have hattained := (mem_flat_iff _ _ _ hT _).1 hmem
  refine ⟨hupper, hattained, ?_, ?_⟩
  · intro hnonneg
    constructor
    · intro h t i ht hi
      exact le_antisymm (h ▸ hupper t i ht hi) (hnonneg t i ht hi)
    · intro h
      obtain ⟨t, i, ht, hi, heq⟩ := hattained
      rw [← heq]
      exact h t i ht hi
  · rintro ⟨t, i, ht, hi, heq⟩
    rw [← heq]
    exact hupper t i ht hi

/-- Witness for C27: one theta, two query rows, the second one failed with
`INSUFFICIENT_UNIQUE`; the task status is `INSUFFICIENT_UNIQUE`. -/
theorem edm_task_rc_max_witness :
    (edm_task exStat exStat exGpu exJunk (exOpts false 0 0) (exTaskOpts true) exM exMp2 2
      [true, true] (fun _ => true) 0).pred.rc = INSUFFICIENT_UNIQUE ∧
    INSUFFICIENT_UNIQUE ≤
      (edm_task exStat exStat exGpu exJunk (exOpts false 0 0) (exTaskOpts true) exM exMp2 2
        [true, true] (fun _ => true) 0).pred.rc :=
  ⟨by decide,
    (edm_task_rc_max exStat exStat exGpu exJunk (exOpts false 0 0) (exTaskOpts true) exM exMp2 2
      [true, true] (fun _ => true) 0 rfl (by decide) (by decide)).2.2.2
      ⟨0, 1, by decide, by decide, by decide⟩⟩

/-- The store block of `edm_task` in terms of the host view of the buffer: when the task
is not cancelled and `savePrediction` is set, the stored vector has, for a sweep of more
than one theta, one entry per query row, entry `i` being `ystarView(numThetas - 1, i)`;
for a single theta it is the full buffer (all `numThetas * numPredictions` entries,
entry `i` being `ystarView(0, i)`).  With `savePrediction` off no vector is stored. -/
theorem edm_task_store_ystar (mean_absolute_error correlation : List K → List K → K)
    (gpuResult : TaskBuffers K) (junk : Prediction K) (opts : Options K) (topts : TaskOptions)
    (M Mp : Manifold K) (ySize : Nat) (predictionRows : List Bool) (keep_going : Nat → Bool)
    (numTasksFinished : Int) (hkeep : keep_going 1 = true) :
    (topts.savePrediction = true → 1 < opts.thetas.length →
      ∃ v, (edm_task mean_absolute_error correlation gpuResult junk opts topts M Mp ySize
          predictionRows keep_going numTasksFinished).pred.ystar = some v ∧
        v.length = Mp.nobs ∧
        ∀ i, i < Mp.nobs → v.getD i 0 =
          (edm_task_predict gpuResult opts Mp keep_going).ystar (opts.thetas.length - 1) i) ∧
    (topts.savePrediction = true → opts.thetas.length = 1 →
      ∃ v, (edm_task mean_absolute_error correlation gpuResult junk opts topts M Mp ySize
          predictionRows keep_going numTasksFinished).pred.ystar = some v ∧
        v.length = opts.thetas.length * Mp.nobs ∧
        (∀ idx, idx < opts.thetas.length * Mp.nobs → v.getD idx 0 =
          flatAt opts.thetas.length (edm_task_predict gpuResult opts Mp keep_going).ystar idx) ∧
        ∀ i, i < Mp.nobs → v.getD i 0 =
          (edm_task_predict gpuResult opts Mp keep_going).ystar 0 i) ∧
    (topts.savePrediction = false →
      (edm_task mean_absolute_error correlation gpuResult junk opts topts M Mp ySize
        predictionRows keep_going numTasksFinished).pred.ystar = none) := by
  rw [edm_task_pred_of_keep mean_absolute_error correlation gpuResult junk opts topts M Mp ySize
    predictionRows keep_going numTasksFinished hkeep]
  have hy : (edm_task_store mean_absolute_error correlation opts topts M Mp ySize
      predictionRows (edm_task_predict gpuResult opts Mp keep_going)
      (Prediction.defaultInit junk)).ystar =
      if topts.savePrediction = true then
        if opts.thetas.length = 1 then
          some ((List.range (opts.thetas.length * Mp.nobs)).map
            (flatAt opts.thetas.length (edm_task_predict gpuResult opts Mp keep_going).ystar))
        else
          some ((List.range Mp.nobs).map fun i =>
            (edm_task_predict gpuResult opts Mp keep_going).ystar (opts.thetas.length - 1) i)
      else none := rfl
  rw [hy]
  refine ⟨fun hs hT => ?_, fun hs hT => ?_, fun hs => ?_⟩
  · rw [if_pos hs, if_neg (by omega)]
    refine ⟨_, rfl, by simp, fun i hi => ?_⟩
    rw [List.getD_eq_getElem _ _ (by simpa using hi)]
    simp
  · rw [if_pos hs, if_pos hT]
    refine ⟨_, rfl, by simp, fun idx hidx => ?_, fun i hi => ?_⟩
    · rw [List.getD_eq_getElem _ _ (by simpa using hidx)]
      simp
    · rw [List.getD_eq_getElem _ _ (by simpa [hT] using hi)]
      simp [flatAt, hT, Nat.mod_one]
  · rw [if_neg (by simp [hs])]

omit [LinearOrderedField K] in
/-- For a sweep of `numThetas` thetas the host view of the S-map branch holds at
`(t, i)` the prediction of query row `i` for theta number `t`. -/
theorem afSMapPrediction_host_eq (numThetas : Nat) (r : Nat → Nat → K) (t i : Nat)
    (ht : t < numThetas) : afSMapPrediction_host numThetas numThetas r t i = r i t := by
  unfold afSMapPrediction_host
  have h1 : (t + i * numThetas) / numThetas = i := by
    rw [Nat.add_mul_div_right _ _ (by omega), Nat.div_eq_of_lt ht, Nat.zero_add]
  have h2 : (t + i * numThetas) % numThetas = t := by
    rw [Nat.add_mul_mod_self_right, Nat.mod_eq_of_lt ht]
  rw [h1, h2]

omit [LinearOrderedField K] in
/-- For a single theta the host view of the Simplex branch holds at `(0, i)` the
prediction of query row `i`. -/
theorem afSimplexPrediction_host_single (npreds : Nat) (r : Nat → Nat → K) (i : Nat)
    (hi : i < npreds) : afSimplexPrediction_host npreds 1 r 0 i = r i 0 := by
  unfold afSimplexPrediction_host
  rw [Nat.zero_add, Nat.mul_one, Nat.mod_eq_of_lt hi, Nat.div_eq_of_lt hi]

/-- C28 (what the code does): a Simplex task that sweeps two thetas over two query rows
with `savePrediction` set and is not cancelled; the device computes the prediction
`exPred p t = 10 t + p` for query row `p` and theta number `t`.  The predictions of the
last theta are `10` (row `0`) and `11` (row `1`).  `afSimplexPrediction` leaves them in
an array of `npreds` rows, which `edm_task` reads as a matrix of `numThetas` rows: the
stored vector is `[1, 11]`, whose entry `0` is the prediction of query row `1` for the
first theta.  With the array of the S-map branch, which is transposed before the copy,
the stored vector is `[10, 11]`. -/
theorem edm_task_saved_prediction_layout :
    (edm_task exStat exStat { exGpu with ystar := af_ystar_host exOpts2 2 exPred } exJunk
      exOpts2 (exTaskOpts true) exM exMp2 2 [true, true] (fun _ => true) 0).pred.ystar =
        some [exPred 1 0, exPred 1 1] ∧
    exPred 1 0 = 1 ∧ exPred 0 1 = 10 ∧ exPred 1 1 = 11 ∧
    (edm_task exStat exStat { exGpu with ystar := af_ystar_host exOptsSMap2 2 exPred } exJunk
      exOptsSMap2 (exTaskOpts true) exM exMp2 2 [true, true] (fun _ => true) 0).pred.ystar =
        some [exPred 0 1, exPred 1 1] := by
  refine ⟨?_, by norm_num [exPred], by norm_num [exPred], by norm_num [exPred], ?_⟩
  · simp [edm_task, edm_task_store, edm_task_predict, af_make_prediction, af_ystar_host,
      afSimplexPrediction_host, exGpu, exOpts2, exOpts, exTaskOpts, exMp2, exMp,
      List.range_succ]
  · simp [edm_task, edm_task_store, edm_task_predict, af_make_prediction, af_ystar_host,
      afSMapPrediction_host, exGpu, exOptsSMap2, exOptsSMap, exTaskOpts, exMp2, exMp,
      List.range_succ]

/-- C29 (what the code does): when the cancellation callback answers `false` at every
poll, the `Prediction` returned by `edm_task` stores no prediction vector, no coefficient
matrix, no statistics, no prediction-row mask and no `kUsed` values, and its status `rc`
is never assigned: it is the indeterminate content of the storage of `pred`, not a
status chosen by the code (the storage `exJunk` gives the status `8000`). -/
theorem edm_task_cancelled_status (mean_absolute_error correlation : List K → List K → K)
    (gpuResult : TaskBuffers K) (junk : Prediction K) (opts : Options K) (topts : TaskOptions)
    (M Mp : Manifold K) (ySize : Nat) (predictionRows : List Bool) (numTasksFinished : Int) :
    (edm_task mean_absolute_error correlation gpuResult junk opts topts M Mp ySize
      predictionRows (fun _ => false) numTasksFinished).pred.ystar = none ∧
    (edm_task mean_absolute_error correlation gpuResult junk opts topts M Mp ySize
      predictionRows (fun _ => false) numTasksFinished).pred.coeffs = none ∧
    (edm_task mean_absolute_error correlation gpuResult junk opts topts M Mp ySize
      predictionRows (fun _ => false) numTasksFinished).pred.stats = [] ∧
    (edm_task mean_absolute_error correlation gpuResult junk opts topts M Mp ySize
      predictionRows (fun _ => false) numTasksFinished).pred.predictionRows = [] ∧
    (edm_task mean_absolute_error correlation gpuResult junk opts topts M Mp ySize
      predictionRows (fun _ => false) numTasksFinished).pred.kUsed = [] ∧
    (edm_task mean_absolute_error correlation gpuResult junk opts topts M Mp ySize
      predictionRows (fun _ => false) numTasksFinished).pred.rc = junk.rc ∧
    (edm_task exStat exStat exGpu exJunk (exOpts false 0 0) (exTaskOpts true) exM exMp2 2
      [true, true] (fun _ => false) 0).pred.rc = 8000 := by
  rw [edm_task_pred_of_stop mean_absolute_error correlation gpuResult junk opts topts M Mp ySize
    predictionRows (fun _ => false) numTasksFinished rfl,
    edm_task_pred_of_stop exStat exStat exGpu exJunk (exOpts false 0 0) (exTaskOpts true) exM
      exMp2 2 [true, true] (fun _ => false) 0 rfl]
  exact ⟨rfl, rfl, rfl, rfl, rfl, rfl, rfl⟩

/-- The shared counter and the completion callback at the end of `edm_task`, for any
answers of the cancellation callback. -/
theorem edm_task_counter_eq (mean_absolute_error correlation : List K → List K → K)
    (gpuResult : TaskBuffers K) (junk : Prediction K) (opts : Options K) (topts : TaskOptions)
    (M Mp : Manifold K) (ySize : Nat) (predictionRows : List Bool) (keep_going : Nat → Bool)
    (numTasksFinished : Int) :
    (edm_task mean_absolute_error correlation gpuResult junk opts topts M Mp ySize
      predictionRows keep_going numTasksFinished).numTasksFinished =
        numTasksFinished + (opts.thetas.length : Int) ∧
    ((edm_task mean_absolute_error correlation gpuResult junk opts topts M Mp ySize
      predictionRows keep_going numTasksFinished).all_tasks_finished = true ↔
        numTasksFinished + (opts.thetas.length : Int) = topts.numTasks) := by
  unfold edm_task
  simp

/-- C30 (counterexample): the only task of a batch (`numTasks = 1`, one theta) is
cancelled before any point starts; the counter `numTasksFinished` goes from `0` to `1`
and the completion callback is invoked. -/
theorem edm_task_cancelled_counter_moves :
    (edm_task exStat exStat exGpu exJunk (exOpts false 0 0) (exTaskOpts true) exM exMp2 2
      [true, true] (fun _ => false) 0).numTasksFinished = 1 ∧
    (edm_task exStat exStat exGpu exJunk (exOpts false 0 0) (exTaskOpts true) exM exMp2 2
      [true, true] (fun _ => false) 0).all_tasks_finished = true := by
  constructor <;> decide

/-- C30 (amended): when the cancellation callback answers `false` before any point
starts, `edm_task` stores no result, yet it still adds the number of thetas of the task to the shared counter
`numTasksFinished`, as it does for a task that runs to completion, and the completion
callback is invoked exactly when the counter then equals `numTasks`; the counter is left
unchanged only by a task without thetas. -/
theorem edm_task_cancelled_counter (mean_absolute_error correlation : List K → List K → K)
    (gpuResult : TaskBuffers K) (junk : Prediction K) (opts : Options K) (topts : TaskOptions)
    (M Mp : Manifold K) (ySize : Nat) (predictionRows : List Bool) (keep_going : Nat → Bool)
    (numTasksFinished : Int) (hstop : ∀ n, keep_going n = false) :
    (edm_task mean_absolute_error correlation gpuResult junk opts topts M Mp ySize
      predictionRows keep_going numTasksFinished).pred = Prediction.defaultInit junk ∧
    (edm_task mean_absolute_error correlation gpuResult junk opts topts M Mp ySize
      predictionRows keep_going numTasksFinished).numTasksFinished =
        numTasksFinished + (opts.thetas.length : Int) ∧
    ((edm_task mean_absolute_error correlation gpuResult junk opts topts M Mp ySize
      predictionRows keep_going numTasksFinished).all_tasks_finished = true ↔
        numTasksFinished + (opts.thetas.length : Int) = topts.numTasks) ∧
    ((edm_task mean_absolute_error correlation gpuResult junk opts topts M Mp ySize
      predictionRows keep_going numTasksFinished).numTasksFinished = numTasksFinished ↔
        opts.thetas = []) ∧
    (edm_task mean_absolute_error correlation gpuResult junk opts topts M Mp ySize
      predictionRows keep_going numTasksFinished).numTasksFinished =
      (edm_task mean_absolute_error correlation gpuResult junk opts topts M Mp ySize
        predictionRows (fun _ => true) numTasksFinished).numTasksFinished := by
  have h := edm_task_counter_eq mean_absolute_error correlation gpuResult junk opts topts M Mp
    ySize predictionRows keep_going numTasksFinished
  have h2 := edm_task_counter_eq mean_absolute_error correlation gpuResult junk opts topts M Mp
    ySize predictionRows (fun _ => true) numTasksFinished
  refine ⟨edm_task_pred_of_stop mean_absolute_error correlation gpuResult junk opts topts M Mp
    ySize predictionRows keep_going numTasksFinished (hstop 1), h.1, h.2, ?_,
    h.1.trans h2.1.symm⟩
  rw [h.1]
  constructor
  · intro h3
    have h4 : opts.thetas.length = 0 := by omega
    exact List.length_eq_zero.1 h4
  · intro h3
    simp [h3]

/-- Witness for C30 (amended): a cancelled task with one theta in a batch of one. -/
theorem edm_task_cancelled_counter_witness :
    (edm_task exStat exStat exGpu exJunk (exOpts false 0 0) (exTaskOpts true) exM exMp2 2
      [true, true] (fun _ => false) 0).numTasksFinished =
        0 + (((exOpts false 0 0).thetas.length : Nat) : Int) ∧
    (edm_task exStat exStat exGpu exJunk (exOpts false 0 0) (exTaskOpts true) exM exMp2 2
      [true, true] (fun _ => false) 0).numTasksFinished =
      (edm_task exStat exStat exGpu exJunk (exOpts false 0 0) (exTaskOpts true) exM exMp2 2
        [true, true] (fun _ => true) 0).numTasksFinished :=
  ⟨(edm_task_cancelled_counter exStat exStat exGpu exJunk (exOpts false 0 0) (exTaskOpts true)
      exM exMp2 2 [true, true] (fun _ => false) 0 (fun _ => rfl)).2.1,
    (edm_task_cancelled_counter exStat exStat exGpu exJunk (exOpts false 0 0) (exTaskOpts true)
      exM exMp2 2 [true, true] (fun _ => false) 0 (fun _ => rfl)).2.2.2.2⟩

end Task

/-! ## The completed-task counter over a batch -/

section Batch

variable {K : Type} [LinearOrderedField K]

omit [LinearOrderedField K] in
theorem totalThetas_cons (x : TaskInput K) (xs : List (TaskInput K)) :
    totalThetas (x :: xs) = (x.opts.thetas.length : Int) + totalThetas xs := by
  simp [totalThetas]

omit [LinearOrderedField K] in
theorem totalThetas_pos (xs : List (TaskInput K)) (hne : xs ≠ [])
    (hth : ∀ x ∈ xs, 1 ≤ x.opts.thetas.length) : 1 ≤ totalThetas xs := by
  cases xs with
  | nil => exact absurd rfl hne
  | cons x xs =>
    rw [totalThetas_cons]
    have h1 := hth x (List.mem_cons_self _ _)
    have h2 : 0 ≤ totalThetas xs := by
      unfold totalThetas
      apply List.sum_nonneg
      intro a ha
      obtain ⟨y, _, rfl⟩ := List.mem_map.1 ha
      exact Int.natCast_nonneg _
    omega

/-- Tasks run one after another from the counter value `n`, when every task sweeps at
least one theta and declares as `numTasks` the number `T` that the counter reaches at
the end: the counter never decreases, and only the last call invokes the callback. -/
theorem run_tasks_spec (mean_absolute_error correlation : List K → List K → K) (T : Int)
    (tasks : List (TaskInput K)) : ∀ n : Int, tasks ≠ [] →
    (∀ x ∈ tasks, 1 ≤ x.opts.thetas.length) → (∀ x ∈ tasks, x.topts.numTasks = T) →
    n + totalThetas tasks = T →
    (run_tasks mean_absolute_error correlation tasks n).length = tasks.length ∧
    List.Chain (· ≤ ·) n
      ((run_tasks mean_absolute_error correlation tasks n).map fun r => r.numTasksFinished) ∧
    (run_tasks mean_absolute_error correlation tasks n).map (fun r => r.all_tasks_finished) =
      List.replicate (tasks.length - 1) false ++ [true] := by
  induction tasks with
  | nil => intro n hne; exact absurd rfl hne
  | cons x xs ih =>
    intro n _ hth hT hsum
    have hc := edm_task_counter_eq mean_absolute_error correlation x.gpuResult x.junk x.opts
      x.topts x.M x.Mp x.ySize x.predictionRows x.keep_going n
    have hx := hth x (List.mem_cons_self _ _)
    rw [totalThetas_cons] at hsum
    unfold run_tasks
    simp only [List.length_cons, List.map_cons, List.chain_cons, Nat.add_sub_cancel]
    by_cases hxs : xs = []
    · subst hxs
      simp only [run_tasks, List.length_nil, List.map_nil, List.Chain.nil, and_true,
        List.replicate_zero, List.nil_append, List.cons.injEq, true_and]
      refine ⟨by rw [hc.1]; omega, ?_⟩
      rw [hc.2, hT x (List.mem_cons_self _ _)]
      simpa [totalThetas] using hsum
    · have hpos := totalThetas_pos xs hxs (fun y hy => hth y (List.mem_cons_of_mem _ hy))
      obtain ⟨ih1, ih2, ih3⟩ := ih (n + (x.opts.thetas.length : Int)) hxs
        (fun y hy => hth y (List.mem_cons_of_mem _ hy))
        (fun y hy => hT y (List.mem_cons_of_mem _ hy)) (by omega)
      rw [hc.1]
      refine ⟨by rw [ih1], ⟨by omega, ih2⟩, ?_⟩
      rw [ih3]
      have hflag : (edm_task mean_absolute_error correlation x.gpuResult x.junk x.opts x.topts
          x.M x.Mp x.ySize x.predictionRows x.keep_going n).all_tasks_finished = false := by
        rw [Bool.eq_false_iff]
        intro h
        have := hc.2.1 h
        rw [hT x (List.mem_cons_self _ _)] at this
        omega
      rw [hflag]
      have hlen : xs.length = (xs.length - 1) + 1 := by
        have := List.length_pos.2 hxs
        omega
      conv_rhs => rw [hlen, List.replicate_succ]
      rfl

/-- C31 (counterexample): a batch of `N = 2` tasks that declare `numTasks = 2` and sweep
two thetas each.  The counter is `2` after the first task and `4` after the second: the
callback is invoked by the first task and not by the last one. -/
theorem run_batch_callback_early :
    (run_batch exStat exStat [exTask exOpts2 2, exTask exOpts2 2] 5 5).map
        (fun r => r.numTasksFinished) = [2, 4] ∧
    (run_batch exStat exStat [exTask exOpts2 2, exTask exOpts2 2] 5 5).map
        (fun r => r.all_tasks_finished) = [true, false] := by
  constructor <;> decide

/-- C31 (amended): for a batch of `N ≥ 1` tasks that starts with `taskNum 0`, whose tasks
sweep at least one theta each and declare as `numTasks` the total number of thetas of
the batch (which is `N` when every task sweeps one theta), and whose tasks run to their
end one after another: the completed-task counter starts from `0` and never decreases,
and `all_tasks_finished` is invoked exactly once, by the last task. -/
theorem run_batch_callback_once (mean_absolute_error correlation : List K → List K → K)
    (tasks : List (TaskInput K)) (numTasksStarted numTasksFinished : Int)
    (hne : tasks ≠ []) (hth : ∀ x ∈ tasks, 1 ≤ x.opts.thetas.length)
    (hN : ∀ x ∈ tasks, x.topts.numTasks = totalThetas tasks) :
    (run_batch mean_absolute_error correlation tasks numTasksStarted numTasksFinished).length
      = tasks.length ∧
    List.Chain (· ≤ ·) 0
      ((run_batch mean_absolute_error correlation tasks numTasksStarted numTasksFinished).map
        fun r => r.numTasksFinished) ∧
    (run_batch mean_absolute_error correlation tasks numTasksStarted numTasksFinished).map
        (fun r => r.all_tasks_finished) =
      List.replicate (tasks.length - 1) false ++ [true] := by
  have h := run_tasks_spec mean_absolute_error correlation (totalThetas tasks) tasks 0 hne hth
    hN (by omega)
  unfold run_batch launch_edm_task_counters
  simpa using h

/-- Witness for C31 (amended): a task with one theta followed by a task with two, both
declaring `numTasks = 3`; the counter passes `1` and `3`, the callback is invoked by the
second task only. -/
theorem run_batch_callback_once_witness :
    (run_batch exStat exStat [exTask (exOpts false 0 0) 3, exTask exOpts2 3] 5 5).map
        (fun r => r.numTasksFinished) = [1, 3] ∧
    (run_batch exStat exStat [exTask (exOpts false 0 0) 3, exTask exOpts2 3] 5 5).map
        (fun r => r.all_tasks_finished) =
      List.replicate ([exTask (exOpts false 0 0) 3, exTask exOpts2 3].length - 1) false
        ++ [true] :=
  ⟨by decide,
    (run_batch_callback_once exStat exStat [exTask (exOpts false 0 0) 3, exTask exOpts2 3] 5 5
      (by simp)
      (by
        intro x hx
        simp only [List.mem_cons, List.mem_singleton, List.not_mem_nil, or_false] at hx
        rcases hx with rfl | rfl <;> decide)
      (by
        intro x hx
        simp only [List.mem_cons, List.mem_singleton, List.not_mem_nil, or_false] at hx
        rcases hx with rfl | rfl <;> decide)).2.2⟩

end Batch

/-! ## Per-point prediction: frame and neighbour set -/

section Frame

variable {K : Type} [LinearOrderedField K]

omit [LinearOrderedField K] in
theorem agreeOutside_refl (Mp_i : Nat) (a : Buffers K) : agreeOutside Mp_i a a :=
  fun _ _ => ⟨fun _ => rfl, fun _ => rfl, fun _ => rfl⟩

omit [LinearOrderedField K] in
theorem agreeOutside_trans (Mp_i : Nat) {a b c : Buffers K} (h1 : agreeOutside Mp_i a b)
    (h2 : agreeOutside Mp_i b c) : agreeOutside Mp_i a c := by
  intro i hi
  obtain ⟨a1, a2, a3⟩ := h1 i hi
  obtain ⟨b1, b2, b3⟩ := h2 i hi
  exact ⟨fun t => (a1 t).trans (b1 t), fun t => (a2 t).trans (b2 t),
    fun j => (a3 j).trans (b3 j)⟩

theorem setCell_col_ne {β : Type} (m : Nat → Nat → β) (r c : Nat) (v : β) (r2 c2 : Nat)
    (h : c2 ≠ c) : setCell m r c v r2 c2 = m r2 c2 := by
  unfold setCell
  rw [if_neg (fun hh => h hh.2)]

theorem setCell_row_ne {β : Type} (m : Nat → Nat → β) (r c : Nat) (v : β) (r2 c2 : Nat)
    (h : r2 ≠ r) : setCell m r c v r2 c2 = m r2 c2 := by
  unfold setCell
  rw [if_neg (fun hh => h hh.1)]

/-- `simplex_prediction` writes `ystar(t, Mp_i)` and `rc(t, Mp_i)` only. -/
theorem simplex_prediction_frame (exp : K → K) (Mp_i t : Nat) (opts : Options K)
    (M : Manifold K) (dists : List K) (kNNInds : List Nat) (out : Buffers K) :
    agreeOutside Mp_i (simplex_prediction exp Mp_i t opts M dists kNNInds out) out := by
  intro i hi
  unfold simplex_prediction
  exact ⟨fun t2 => setCell_col_ne _ _ _ _ _ _ hi, fun t2 => setCell_col_ne _ _ _ _ _ _ hi,
    fun _ => rfl⟩

/-- `smap_prediction` writes `ystar(t, Mp_i)`, `rc(t, Mp_i)` and the row `Mp_i` of
`coeffs` only. -/
theorem smap_prediction_frame (exp : K → K)
    (solve : (n : Nat) → Matrix (Fin n) (Fin n) K → (Fin n → K) → (Fin n → K))
    (Mp_i t : Nat) (opts : Options K) (M Mp : Manifold K) (dists : List K)
    (kNNInds : List Nat) (out : Buffers K) :
    agreeOutside Mp_i (smap_prediction exp solve Mp_i t opts M Mp dists kNNInds out) out := by
  intro i hi
  unfold smap_prediction
  refine ⟨fun t2 => setCell_col_ne _ _ _ _ _ _ hi, fun t2 => setCell_col_ne _ _ _ _ _ _ hi,
    fun j => ?_⟩
  simp only
  split_ifs
  · unfold smap_save_coeffs
    rw [smap_save_fold, if_neg (fun hh => hi hh.1)]
  · rfl

omit [LinearOrderedField K] in
theorem foldl_agreeOutside (Mp_i : Nat) (f : Buffers K → Nat → Buffers K)
    (hf : ∀ b t, agreeOutside Mp_i (f b t) b) (l : List Nat) (out : Buffers K) :
    agreeOutside Mp_i (l.foldl f out) out := by
  induction l generalizing out with
  | nil => exact agreeOutside_refl Mp_i out
  | cons t l ih =>
    rw [List.foldl_cons]
    exact agreeOutside_trans Mp_i (ih (f out t)) (hf out t)

theorem make_prediction_predict_frame (exp : K → K)
    (solve : (n : Nat) → Matrix (Fin n) (Fin n) K → (Fin n → K) → (Fin n → K))
    (Mp_i : Nat) (opts : Options K) (M Mp : Manifold K) (kNNs : DistanceIndexPairs K)
    (out : Buffers K) :
    agreeOutside Mp_i (make_prediction_predict exp solve Mp_i opts M Mp kNNs out) out := by
  unfold make_prediction_predict
  cases opts.algorithm with
  | Simplex =>
    exact foldl_agreeOutside Mp_i _
      (fun b t => simplex_prediction_frame exp Mp_i t opts M kNNs.dists kNNs.inds b) _ out
  | SMap =>
    exact foldl_agreeOutside Mp_i _
      (fun b t => smap_prediction_frame exp solve Mp_i t opts M Mp kNNs.dists kNNs.inds b) _ out

omit [LinearOrderedField K] in
theorem agreeOutside_set_rc (Mp_i : Nat) (out : Buffers K) (kUsed : Int) (t : Nat) (v : Int) :
    agreeOutside Mp_i { out with kUsed := kUsed, rc := setCell out.rc t Mp_i v } out :=
  fun _ hi => ⟨fun _ => rfl, fun _ => setCell_col_ne _ _ _ _ _ _ hi, fun _ => rfl⟩

omit [LinearOrderedField K] in
theorem agreeOutside_set_kUsed (Mp_i : Nat) (out : Buffers K) (kUsed : Int) :
    agreeOutside Mp_i { out with kUsed := kUsed } out :=
  fun _ _ => ⟨fun _ => rfl, fun _ => rfl, fun _ => rfl⟩

theorem make_prediction_kNNs_frame (Mp_i : Nat) (k : Int) (potentialNN : DistanceIndexPairs K)
    (out : Buffers K) (keep_going : Nat → Bool) :
    agreeOutside Mp_i (make_prediction_kNNs Mp_i k potentialNN out keep_going).out out := by
  unfold make_prediction_kNNs
  split_ifs
  · exact agreeOutside_set_rc Mp_i out out.kUsed 0 SUCCESS
  · exact agreeOutside_refl Mp_i out
  · exact agreeOutside_refl Mp_i out
  · exact agreeOutside_refl Mp_i out
  · exact agreeOutside_refl Mp_i out

theorem make_prediction_select_frame (sqrt : K → K)
    (wasserstein_distances :
      Nat → Options K → Manifold K → Manifold K → List Nat → DistanceIndexPairs K)
    (Mp_i : Nat) (opts : Options K) (M Mp : Manifold K) (out : Buffers K)
    (keep_going : Nat → Bool) :
    agreeOutside Mp_i
      (make_prediction_select sqrt wasserstein_distances Mp_i opts M Mp out keep_going).out
      out := by
  unfold make_prediction_select
  simp only
  split_ifs
  · exact agreeOutside_refl Mp_i out
  · exact agreeOutside_refl Mp_i out
  · exact agreeOutside_set_kUsed Mp_i out _
  · exact agreeOutside_trans Mp_i (make_prediction_kNNs_frame Mp_i _ _ _ keep_going)
      (agreeOutside_set_kUsed Mp_i out _)
  · exact agreeOutside_set_rc Mp_i out _ 0 INSUFFICIENT_UNIQUE
  · exact agreeOutside_trans Mp_i (make_prediction_kNNs_frame Mp_i _ _ _ keep_going)
      (agreeOutside_set_kUsed Mp_i out _)

theorem make_prediction_agreeOutside (sqrt exp : K → K)
    (solve : (n : Nat) → Matrix (Fin n) (Fin n) K → (Fin n → K) → (Fin n → K))
    (wasserstein_distances :
      Nat → Options K → Manifold K → Manifold K → List Nat → DistanceIndexPairs K)
    (Mp_i : Nat) (opts : Options K) (M Mp : Manifold K) (out : Buffers K)
    (keep_going : Nat → Bool) :
    agreeOutside Mp_i
      (make_prediction sqrt exp solve wasserstein_distances Mp_i opts M Mp out keep_going)
      out := by
  have hsel := make_prediction_select_frame sqrt wasserstein_distances Mp_i opts M Mp out
    keep_going
  unfold make_prediction
  cases h : make_prediction_select sqrt wasserstein_distances Mp_i opts M Mp out keep_going with
  | stopped out2 =>
    rw [h] at hsel
    exact hsel
  | neighbours kNNs out2 =>
    rw [h] at hsel
    exact agreeOutside_trans Mp_i
      (make_prediction_predict_frame exp solve Mp_i opts M Mp kNNs out2) hsel

/-- C32: a call of `make_prediction` for the query row `Mp_i` leaves every entry of the
prediction matrix and of the status matrix in a column other than `Mp_i`, and every
entry of the coefficient matrix in a row other than `Mp_i`, as it was; besides these
it writes only the `kUsed` slot it was given (the field `kUsed` of the buffers).  So
calls for distinct rows write disjoint entries. -/
theorem make_prediction_frame (sqrt exp : K → K)
    (solve : (n : Nat) → Matrix (Fin n) (Fin n) K → (Fin n → K) → (Fin n → K))
    (wasserstein_distances :
      Nat → Options K → Manifold K → Manifold K → List Nat → DistanceIndexPairs K)
    (Mp_i : Nat) (opts : Options K) (M Mp : Manifold K) (out : Buffers K)
    (keep_going : Nat → Bool) :
    ∀ i, i ≠ Mp_i →
      (∀ t, (make_prediction sqrt exp solve wasserstein_distances Mp_i opts M Mp out
        keep_going).ystar t i = out.ystar t i) ∧
      (∀ t, (make_prediction sqrt exp solve wasserstein_distances Mp_i opts M Mp out
        keep_going).rc t i = out.rc t i) ∧
      ∀ j, (make_prediction sqrt exp solve wasserstein_distances Mp_i opts M Mp out
        keep_going).coeffs i j = out.coeffs i j :=
  make_prediction_agreeOutside sqrt exp solve wasserstein_distances Mp_i opts M Mp out
    keep_going

/-- The frame property at a concrete call: Simplex with `k = 1` for query row 0 of
`exMp` leaves column 1 of the prediction and status matrices and row 1 of the
coefficient matrix untouched. -/
theorem make_prediction_frame_witness :
    (1 : Nat) ≠ 0 ∧
    (∀ t, (make_prediction id exExp exSolve exWasserstein 0 (exOptsK false 1) exM exMp
      edm_task_buffers (fun _ => true)).ystar t 1 = (edm_task_buffers : Buffers ℚ).ystar t 1) ∧
    (∀ t, (make_prediction id exExp exSolve exWasserstein 0 (exOptsK false 1) exM exMp
      edm_task_buffers (fun _ => true)).rc t 1 = (edm_task_buffers : Buffers ℚ).rc t 1) ∧
    ∀ j, (make_prediction id exExp exSolve exWasserstein 0 (exOptsK false 1) exM exMp
      edm_task_buffers (fun _ => true)).coeffs 1 j = (edm_task_buffers : Buffers ℚ).coeffs 1 j :=
  ⟨by decide, make_prediction_frame id exExp exSolve exWasserstein 0 (exOptsK false 1) exM exMp
    edm_task_buffers (fun _ => true) 1 (by decide)⟩

/-- With `0 ≤ k ≤ n` candidates requested, the second half of the selection hands a
non-empty neighbour list to the predictors. -/
theorem make_prediction_kNNs_nonempty (Mp_i : Nat) (k : Int) (p : DistanceIndexPairs K)
    (out : Buffers K) (keep_going : Nat → Bool) (hk : 0 ≤ k)
    (kNNs : DistanceIndexPairs K) (out2 : Buffers K)
    (h : make_prediction_kNNs Mp_i k p out keep_going = Selection.neighbours kNNs out2) :
    kNNs.inds ≠ [] := by
  unfold make_prediction_kNNs at h
  split_ifs at h with h0 h1 h2 h3
  · simp only [Selection.neighbours.injEq] at h
    rw [← h.1]
    rcases h1 with h1 | h1
    · omega
    · intro hnil
      rw [hnil] at h1
      simp at h1
      exact h0 h1
  · simp only [Selection.neighbours.injEq] at h
    rw [← h.1]
    intro hnil
    have hlen : (kNearestNeighbours p k.toNat).inds.length = k.toNat := by
      simp [kNearestNeighbours]
    rw [hnil] at hlen
    simp only [List.length_nil] at hlen
    omega

/-- When the requested `k` is not negative, or the query row has a valid candidate, the
predictors are reached with a non-empty neighbour list only. -/
theorem make_prediction_select_nonempty (sqrt : K → K)
    (wasserstein_distances :
      Nat → Options K → Manifold K → Manifold K → List Nat → DistanceIndexPairs K)
    (Mp_i : Nat) (opts : Options K) (M Mp : Manifold K) (out : Buffers K)
    (keep_going : Nat → Bool)
    (hk : 0 ≤ opts.k ∨ (potentialNN sqrt wasserstein_distances Mp_i opts M Mp).inds ≠ [])
    (kNNs : DistanceIndexPairs K) (out2 : Buffers K)
    (h : make_prediction_select sqrt wasserstein_distances Mp_i opts M Mp out keep_going =
      Selection.neighbours kNNs out2) :
    kNNs.inds ≠ [] := by
  rcases hk with hk | hk
  · unfold make_prediction_select at h
    simp only at h
    split_ifs at h with h0 h1 h2 h3 h4
    · exact make_prediction_kNNs_nonempty Mp_i _ _ _ keep_going (Int.natCast_nonneg _) kNNs
        out2 h
    · exact make_prediction_kNNs_nonempty Mp_i _ _ _ keep_going hk kNNs out2 h
  · by_cases hneg : 0 ≤ opts.k
    · unfold make_prediction_select at h
      simp only at h
      split_ifs at h with h0 h1 h2 h3 h4
      · exact make_prediction_kNNs_nonempty Mp_i _ _ _ keep_going (Int.natCast_nonneg _) kNNs
          out2 h
      · exact make_prediction_kNNs_nonempty Mp_i _ _ _ keep_going hneg kNNs out2 h
    · unfold make_prediction_select make_prediction_kNNs at h
      simp only at h
      have hlt : opts.k < 0 := by omega
      have hnot : ¬ (opts.k >
          ((potentialNN sqrt wasserstein_distances Mp_i opts M Mp).inds.length : Int)) := by
        omega
      have hk0 : opts.k ≠ 0 := by omega
      simp only [hnot, hk0, hlt, true_or, if_true, if_false] at h
      split_ifs at h
      simp only [Selection.neighbours.injEq] at h
      rw [← h.1]
      exact hk

/-- C38 (what the code does): `k = -1` (use every candidate) for a query row without a
valid candidate (the only training row is at distance `0`).  `k > numValidDistances`
is false and `k == 0` is false, so `kNNs = potentialNN` and, the call not being
cancelled, the predictor is invoked with the empty neighbour list. -/
theorem make_prediction_empty_neighbours :
    (potentialNN id exWasserstein 0 (exOptsK false (-1)) exM1 exMp).inds = [] ∧
    make_prediction_select id exWasserstein 0 (exOptsK false (-1)) exM1 exMp edm_task_buffers
        (fun _ => true) =
      Selection.neighbours { inds := [], dists := [] } { edm_task_buffers with kUsed := 0 } ∧
    make_prediction id exExp exSolve exWasserstein 0 (exOptsK false (-1)) exM1 exMp
        edm_task_buffers (fun _ => true) =
      simplex_prediction exExp 0 0 (exOptsK false (-1)) exM1 [] []
        { edm_task_buffers with kUsed := 0 } := by
  have hsel : make_prediction_select id exWasserstein 0 (exOptsK false (-1)) exM1 exMp
      edm_task_buffers (fun _ => true) =
      Selection.neighbours { inds := [], dists := [] }
        { edm_task_buffers with kUsed := 0 } := by
    unfold make_prediction_select make_prediction_kNNs
    rw [exPotentialNN1]
    simp [exOptsK]
  refine ⟨by rw [exPotentialNN1], hsel, ?_⟩
  rw [make_prediction_of_neighbours _ _ _ _ _ _ _ _ _ _ _ _ hsel]
  simp [make_prediction_predict, exOptsK, exOpts, List.range_succ]

end Frame

/-! ## Status codes of the batched path -/

section BatchedStatus

variable {K : Type} [LinearOrderedField K]

/-- When it is not cancelled, `af_make_prediction` leaves `SUCCESS` in every entry of
the status buffer. -/
theorem af_make_prediction_rc (gpuResult : TaskBuffers K) (opts : Options K)
    (out : TaskBuffers K) (keep_going : Nat → Bool) (hgo : keep_going 0 = true) (t i : Nat) :
    (af_make_prediction { gpuResult with rc := af_retcodes } opts out keep_going).rc t i =
      SUCCESS := by
  unfold af_make_prediction
  simp [hgo, af_retcodes]

/-- C33 (what the code does): Simplex with `k = 2`, `forceCompute` off, on the manifold
`exM` of three rows, where the query row has a single valid candidate.  The per-point
path `make_prediction` stores `INSUFFICIENT_UNIQUE` for the row; the batched path
`af_make_prediction` stores `SUCCESS`: `afSimplexPrediction` (and `afSMapPrediction`)
set every status to `SUCCESS` without comparing the number of valid candidates
with `k`. -/
theorem af_make_prediction_status_differs :
    (potentialNN id exWasserstein 0 (exOptsK false 2) exM exMp).inds.length = 1 ∧
    (make_prediction id exExp exSolve exWasserstein 0 (exOptsK false 2) exM exMp
      edm_task_buffers (fun _ => true)).rc 0 0 = INSUFFICIENT_UNIQUE ∧
    (af_make_prediction { exGpu with rc := af_retcodes } (exOptsK false 2) (edm_task_init 1)
      (fun _ => true)).rc 0 0 = SUCCESS := by
  refine ⟨by rw [exPotentialNN]; rfl, ?_, af_make_prediction_rc exGpu _ _ _ rfl 0 0⟩
  have hsel : make_prediction_select id exWasserstein 0 (exOptsK false 2) exM exMp
      edm_task_buffers (fun _ => true) =
      Selection.stopped { (edm_task_buffers : Buffers ℚ) with
        kUsed := 1
        rc := setCell (edm_task_buffers : Buffers ℚ).rc 0 0 INSUFFICIENT_UNIQUE } := by
    unfold make_prediction_select
    rw [exPotentialNN]
    simp [exOptsK]
  rw [make_prediction_of_stopped _ _ _ _ _ _ _ _ _ _ _ hsel]
  simp [setCell]

end BatchedStatus

/-! ## Thread pool: `set_num_workers` -/

section ThreadPool

/-- A request for at least as many workers as the pool holds spawns the difference. -/
theorem set_num_workers_grow (workers : Nat) (threads : Int) (hw : (workers : Int) ≤ threads)
    (hn : threads < 2 ^ 31) :
    set_num_workers workers threads = (threads.toNat, threads.toNat - workers) := by
  have h0 : (0 : Int) ≤ threads := le_trans (Int.natCast_nonneg _) hw
  have h1 : toSizeT threads = threads.toNat := by
    unfold toSizeT SIZE_MOD
    rw [Int.emod_eq_of_lt h0 (by norm_num; omega)]
  have h2 : toSizeT ((threads.toNat : Int) - (workers : Int)) = threads.toNat - workers := by
    unfold toSizeT SIZE_MOD
    rw [Int.emod_eq_of_lt (by omega) (by norm_num; omega)]
    omega
  have h3 : toInt32 ((threads.toNat - workers : Nat) : Int) = ((threads.toNat - workers : Nat) : Int) := by
    unfold toInt32
    rw [Int.emod_eq_of_lt (by omega) (by omega)]
    omega
  have h4 : toSizeT ((threads.toNat - workers : Nat) : Int) = threads.toNat - workers := by
    unfold toSizeT SIZE_MOD
    rw [Int.emod_eq_of_lt (by omega) (by norm_num; omega)]
    omega
  unfold set_num_workers
  dsimp only
  rw [h1, h2, h3, h4]
  have h5 : workers + (threads.toNat - workers) = threads.toNat := by omega
  rw [h5]

/-- C34 (what the code does): a pool that holds `2` workers is asked for `1`.
`numNewThreads` is `-1`; the loop test `i < numNewThreads` converts it to `size_t`, that
is to `2 ^ 64 - 1`, so the loop goes on spawning threads (`2 ^ 64 - 1` of them if none
fails) instead of spawning none.  A request that does not shrink the pool behaves as
claimed: from `2` workers a request for `5` spawns `3` and leaves `5`. -/
theorem set_num_workers_shrink :
    toInt32 (toSizeT ((toSizeT 1 : Int) - 2)) = -1 ∧
    set_num_workers 2 1 = (2 + (2 ^ 64 - 1), 2 ^ 64 - 1) ∧
    set_num_workers 2 5 = (5, 3) := by
  refine ⟨by decide, by decide, by decide⟩

end ThreadPool

/-! ## Launching tasks: the metric of every manifold column -/

section Metrics

variable {K : Type} [LinearOrderedField K]

omit [LinearOrderedField K] in
/-- The vector built by `launch_edm_task` for the L1 / L2 distances, block by block. -/
theorem launch_edm_task_metrics_lp (g : ManifoldGenerator K) (opts : Options K) (E : Nat)
    (hdist : opts.distance ≠ Distance.Wasserstein) :
    launch_edm_task_metrics g opts E =
      List.replicate (E + g.E_dt E) Metric.Diff ++
        (List.range g._num_extras).flatMap fun k =>
          List.replicate (if k < g._num_extras_lagged then E else 1)
            (opts.metrics.getD k Metric.Diff) := by
  unfold launch_edm_task_metrics
  rw [if_neg hdist]
  rfl

omit [LinearOrderedField K] in
/-- Entry `j` of the block of extra `k` in the expanded metrics. -/
theorem launch_edm_task_metrics_block (g : ManifoldGenerator K) (opts : Options K) (E : Nat)
    (hdist : opts.distance ≠ Distance.Wasserstein) (k : Nat) (hk : k < g._num_extras)
    (j : Nat) (hj : j < (if k < g._num_extras_lagged then E else 1)) (d : Metric) :
    (launch_edm_task_metrics g opts E).getD
      (E + g.E_dt E + (E * min g._num_extras_lagged k + (k - g._num_extras_lagged)) + j) d =
      opts.metrics.getD k Metric.Diff := by
  rw [launch_edm_task_metrics_lp g opts E hdist,
    List.getD_append_right _ _ _ _ (by rw [List.length_replicate]; omega),
    List.length_replicate]
  have hidx : E + g.E_dt E + (E * min g._num_extras_lagged k + (k - g._num_extras_lagged)) + j
      - (E + g.E_dt E) =
      ((List.range k).flatMap (fun k =>
        List.replicate (if k < g._num_extras_lagged then E else 1)
          (opts.metrics.getD k Metric.Diff))).length + j := by
    rw [extras_prefix_length _ E g._num_extras_lagged (fun k => by simp) k]
    omega
  rw [hidx, getD_flatMap_range _ _ _ _ _ hk (by simpa using hj),
    List.getD_eq_getElem _ _ (by simpa using hj)]
  simp

/-- C35: for the L1 / L2 distances the metrics vector that `launch_edm_task` builds from
a user list with one entry per extra variable has `E + E_dt(E) + E * (lagged extras) +
(unlagged extras) = E_actual(E)` entries, the number of columns of every row that
`create_manifold` writes.  Its entries for the columns below `E + E_dt(E)` (value lags
and time lags) are `Diff`; the `E` columns of the lagged extra `k`, from
`E + E_dt + k * E`, and the column `E + E_dt + L * E + (k - L)` of the unlagged extra `k`
(`L` the number of lagged extras), which are the columns where `create_manifold` puts
that extra, carry the user's metric of that extra.  So `lp_distances`, which reads
`metrics[j]` for `j < E_actual`, stays inside the vector. -/
theorem launch_edm_task_metrics_columns (g : ManifoldGenerator K) (opts : Options K) (E : Nat)
    (hdist : opts.distance ≠ Distance.Wasserstein)
    (hL : g._num_extras_lagged ≤ g._num_extras)
    (hm : opts.metrics.length = g._num_extras) :
    (launch_edm_task_metrics g opts E).length =
      E + g.E_dt E + E * g._num_extras_lagged + (g._num_extras - g._num_extras_lagged) ∧
    (launch_edm_task_metrics g opts E).length = g.E_actual E ∧
    (∀ filter copredict prediction skipMissing,
      (create_manifold g E filter copredict prediction skipMissing).E_actual =
        (launch_edm_task_metrics g opts E).length ∧
      ∀ row ∈ (create_manifold g E filter copredict prediction skipMissing).flat,
        row.length = (launch_edm_task_metrics g opts E).length) ∧
    (∀ c, c < E + g.E_dt E → ∀ d, (launch_edm_task_metrics g opts E).getD c d = Metric.Diff) ∧
    (∀ k (hk : k < g._num_extras_lagged), ∀ j, j < E → ∀ d,
      (launch_edm_task_metrics g opts E).getD (E + g.E_dt E + k * E + j) d =
        opts.metrics.get ⟨k, by omega⟩) ∧
    (∀ k (_hk1 : g._num_extras_lagged ≤ k) (hk2 : k < g._num_extras), ∀ d,
      (launch_edm_task_metrics g opts E).getD
        (E + g.E_dt E + g._num_extras_lagged * E + (k - g._num_extras_lagged)) d =
        opts.metrics.get ⟨k, by omega⟩) := by
  have hlen : (launch_edm_task_metrics g opts E).length =
      E + g.E_dt E + E * g._num_extras_lagged + (g._num_extras - g._num_extras_lagged) := by
    rw [launch_edm_task_metrics_lp g opts E hdist, List.length_append, List.length_replicate,
      extras_prefix_length _ E g._num_extras_lagged (fun k => by simp) g._num_extras,
      Nat.min_eq_left hL]
    omega
  have hact : (launch_edm_task_metrics g opts E).length = g.E_actual E := by
    rw [hlen]
    unfold ManifoldGenerator.E_actual ManifoldGenerator.E_extras
    omega
  have huser : ∀ k (hk : k < opts.metrics.length),
      opts.metrics.getD k Metric.Diff = opts.metrics.get ⟨k, hk⟩ := by
    intro k hk
    rw [List.getD_eq_getElem _ _ hk]
    rfl
  refine ⟨hlen, hact, ?_, ?_, ?_, ?_⟩
  · intro filter copredict prediction skipMissing
    refine ⟨by rw [hact]; rfl, ?_⟩
    intro row hrow
    obtain ⟨i, startIndex, panel, rfl⟩ :=
      create_manifold_flat_rows g E filter copredict prediction skipMissing row hrow
    rw [manifold_row_length g E copredict prediction i startIndex panel hL, hact]
  · intro c hc d
    rw [launch_edm_task_metrics_lp g opts E hdist,
      List.getD_append _ _ _ _ (by rw [List.length_replicate]; exact hc),
      List.getD_eq_getElem _ _ (by rw [List.length_replicate]; exact hc)]
    simp
  · intro k hk j hj d
    have := launch_edm_task_metrics_block g opts E hdist k (by omega) j
      (by rw [if_pos hk]; exact hj) d
    rw [Nat.min_eq_right (by omega), Nat.sub_eq_zero_of_le (by omega), Nat.add_zero,
      Nat.mul_comm E k] at this
    rw [this]
    exact huser k (by omega)
  · intro k hk1 hk2 d
    have := launch_edm_task_metrics_block g opts E hdist k hk2 0
      (by rw [if_neg (by omega)]; exact Nat.one_pos) d
    rw [Nat.min_eq_left hk1, Nat.add_zero, Nat.mul_comm E _, ← Nat.add_assoc] at this
    rw [this]
    exact huser k (by omega)

/-- Witness for C35: `E = 2`, one time-lag column, a lagged extra compared with
`CheckSame` and an unlagged one compared with `Diff`: six columns. -/
theorem launch_edm_task_metrics_columns_witness :
    launch_edm_task_metrics exGx exOptsX 2 =
      [Metric.Diff, Metric.Diff, Metric.Diff, Metric.CheckSame, Metric.CheckSame,
        Metric.Diff] ∧
    (launch_edm_task_metrics exGx exOptsX 2).length = exGx.E_actual 2 ∧
    (launch_edm_task_metrics exGx exOptsX 2).length = 2 + exGx.E_dt 2 + 2 * 1 + (2 - 1) :=
  ⟨by decide,
    (launch_edm_task_metrics_columns exGx exOptsX 2 (by decide) (by decide) rfl).2.1,
    (launch_edm_task_metrics_columns exGx exOptsX 2 (by decide) (by decide) rfl).1⟩

end Metrics

/-! ## Task assembly: the accuracy statistics -/

section Stats

variable {K : Type} [LinearOrderedField K]

/-- With a single theta the statistics loop of `edm_task` reports the reference
statistics: the flat entry `ystar[i]` it tests is `ystarView(0, i)`. -/
theorem edm_task_stats_single (mean_absolute_error correlation : List K → List K → K)
    (topts : TaskOptions) (Mp : Manifold K) (ySize : Nat) (b : TaskBuffers K)
    (hcalc : topts.calcRhoMAE = true) :
    (edm_task_stats mean_absolute_error correlation topts Mp ySize 1 b).map
        (fun s => (s.mae, s.rho)) =
      [referenceStats mean_absolute_error correlation Mp ySize b.ystar 0] := by
  unfold edm_task_stats referenceStats
  have h1 : List.range (1 * (if topts.calcRhoMAE = true then 1 else 0)) = [0] := by
    rw [hcalc]; rfl
  rw [h1]
  simp only [List.map_cons, List.map_nil, flatAt, Nat.mod_one, Nat.div_one]
  generalize (List.range ySize).filter (fun i =>
      decide (Mp.y i ≠ MISSING) && decide (b.ystar 0 i ≠ MISSING)) = rows
  cases rows with
  | nil => simp
  | cons r rs => simp

/-- C36 (what the code does): two thetas and two query rows with targets `5` and `6`;
row `0` is predicted as `5` for both thetas, row `1` is not predicted (`MISSING` for both
thetas).  Over the rows whose prediction for the theta is not `MISSING` (row `0` alone)
the mean absolute error is `0` for either theta.  The loop of `edm_task` tests the flat
entry `ystar[i]`, which for `i = 1` is `ystarView(1, 0) = 5`, so it keeps row `1` and
pairs its target `6` with the prediction `MISSING`: it reports `(10 ^ 100 - 6) / 2`. -/
theorem edm_task_stats_flat_index :
    exBufGap.ystar 0 1 = MISSING ∧ exBufGap.ystar 1 1 = MISSING ∧
    (referenceStats mean_absolute_error exStat exMpY 2 exBufGap.ystar 0).1 = 0 ∧
    (referenceStats mean_absolute_error exStat exMpY 2 exBufGap.ystar 1).1 = 0 ∧
    (edm_task_stats mean_absolute_error exStat exTaskOptsStats exMpY 2 2 exBufGap).map
        (fun s => s.mae) =
      [(10 ^ 100 - 6) / 2, (10 ^ 100 - 6) / 2] := by
  refine ⟨by simp [exBufGap], by simp [exBufGap], ?_, ?_, ?_⟩
  · simp [referenceStats, mean_absolute_error, exMpY, exBufGap, MISSING, List.range_succ,
      List.filter_cons]
    norm_num
  · simp [referenceStats, mean_absolute_error, exMpY, exBufGap, MISSING, List.range_succ,
      List.filter_cons]
    norm_num
  · simp [edm_task_stats, mean_absolute_error, flatAt, exMpY, exBufGap, exTaskOptsStats,
      exTaskOpts, MISSING, List.range_succ, List.filter_cons]
    norm_num
    simp

end Stats

/-! ## Wasserstein cost matrix: the cells accessed -/

section WassersteinCells

/-- C37 (what the code does): `missingdistance = 0`, `E = 2`, one lagged variable; the
row of `M` holds the curve `MISSING, 10`, the row of `Mp` the curve `0, 13`.  The matrix
is allocated with `len_i = 1` row and `len_j = 2` columns.  The row counter `n` is
incremented for the missing time point too, so the pair of the time points `nn = 1`,
`mm = 1` is accumulated in `costMatrix(1, 0)` (and mirrored into `costMatrix(0, 1)`): the
row index `1` is not below `len_i = 1`, and the flat position `1 * len_j + 0 = 2` lies
behind the `len_i * len_j = 2` allocated entries. -/
theorem wasserstein_cells_outside :
    (wasserstein_cost_matrix exCurveGap exCurveMp 0 0 1 (exOpts false 0 0)).len_i = 1 ∧
    (wasserstein_cost_matrix exCurveGap exCurveMp 0 0 1 (exOpts false 0 0)).len_j = 2 ∧
    wasserstein_cells exCurveGap exCurveMp 0 0 (exOpts false 0 0) = [(1, 0), (0, 1)] := by
  refine ⟨?_, ?_, ?_⟩
  · simp [wasserstein_cost_matrix, LaggedManifold.numMissing, LaggedManifold.colMissing,
      exCurveGap, exOpts, MISSING, List.range_succ, List.filter_cons]
    norm_num
  · simp [wasserstein_cost_matrix, LaggedManifold.numMissing, LaggedManifold.colMissing,
      exCurveMp, exOpts, MISSING, List.range_succ, List.filter_cons]
    norm_num
  · simp [wasserstein_cells, wasserstein_middle_cells, wasserstein_inner_cells,
      LaggedManifold.colMissing, exCurveGap, exCurveMp, exOpts, MISSING, List.range_succ,
      List.range']
    norm_num

end WassersteinCells

/-! ## Launching tasks: `launch_task_group` -/

section LaunchGroup

theorem foldl_measure_add {S α : Type} (f : S → α → S) (mu : S → Nat) (c : Nat)
    (h : ∀ s x, mu (f s x) = mu s + c) (l : List α) (s : S) :
    mu (l.foldl f s) = mu s + l.length * c := by
  induction l generalizing s with
  | nil => simp
  | cons x xs ih =>
    rw [List.foldl_cons, ih, h, List.length_cons, Nat.succ_mul]
    omega

theorem foldl_preserves {S α : Type} (f : S → α → S) (G : S → Prop)
    (h : ∀ s x, G s → G (f s x)) (l : List α) (s : S) (hs : G s) : G (l.foldl f s) := by
  induction l generalizing s with
  | nil => exact hs
  | cons x xs ih => exact ih _ (h s x hs)

theorem numbered_push (st : LaunchState) (hst : st.numbered) (a : LaunchArgs) (E kAdj : Int)
    (ha : a.taskNum = st.taskNum + 1 - 1) :
    LaunchState.numbered
      { taskNum := st.taskNum + 1, E := E, kAdj := kAdj, futures := st.futures ++ [a] } := by
  obtain ⟨h1, h2⟩ := hst
  constructor
  · simp only [List.length_append, List.length_singleton]
    push_cast
    omega
  · intro j b hb
    simp only at hb
    by_cases hj : j < st.futures.length
    · rw [List.get?_eq_getElem?, List.getElem?_append_left hj, ← List.get?_eq_getElem?] at hb
      exact h2 j b hb
    · rw [List.get?_eq_getElem?, List.getElem?_append_right (by omega), ← List.get?_eq_getElem?] at hb
      have hj0 : j - st.futures.length = 0 := by
        by_contra hne
        rw [List.get?_eq_none.2 (by simp; omega)] at hb
        exact Option.noConfusion hb
      rw [hj0] at hb
      simp only [List.get?_cons_zero, Option.some.injEq] at hb
      rw [← hb, ha]
      omega

theorem launch_task_group_body_spec {K : Type} (E_actual : Int → Int) (opts : Options K)
    (topts : TaskOptions) (libraries : List Int) (k : Int) (crossfold : Int)
    (explore saveFinalPredictions saveSMAPCoeffs : Bool) (numStandardTasks trainSize E : Int)
    (st : LaunchState) (l : Nat) :
    (launch_task_group_body E_actual opts topts libraries k crossfold explore
      saveFinalPredictions saveSMAPCoeffs numStandardTasks trainSize E st l).futures.length =
      st.futures.length + 1 ∧
    (st.numbered → (launch_task_group_body E_actual opts topts libraries k crossfold explore
      saveFinalPredictions saveSMAPCoeffs numStandardTasks trainSize E st l).numbered) := by
  constructor
  · simp [launch_task_group_body]
  · intro hst
    unfold launch_task_group_body
    exact numbered_push st hst _ _ _ rfl

/-- The loops of `launch_task_group`: the number of calls of `launch_edm_task` they make
and the numbering of the calls. -/
theorem launch_task_group_loops {K : Type} (E_actual : Int → Int)
    (next_training_size : Int → Int) (opts : Options K) (topts : TaskOptions)
    (Es libraries : List Int) (k crossfold : Int)
    (explore saveFinalPredictions saveSMAPCoeffs : Bool) (numStandardTasks : Int)
    (reps : List Nat) (st : LaunchState) :
    (reps.foldl
      (fun st (iter0 : Nat) =>
        Es.foldl
          (fun st E =>
            (List.range (max 1 libraries.length)).foldl
              (launch_task_group_body E_actual opts topts libraries k crossfold explore
                saveFinalPredictions saveSMAPCoeffs numStandardTasks
                (next_training_size ((iter0 : Int) + 1)) E)
              st)
          st)
      st).futures.length =
      st.futures.length + reps.length * (Es.length * (max 1 libraries.length * 1)) ∧
    (st.numbered → (reps.foldl
      (fun st (iter0 : Nat) =>
        Es.foldl
          (fun st E =>
            (List.range (max 1 libraries.length)).foldl
              (launch_task_group_body E_actual opts topts libraries k crossfold explore
                saveFinalPredictions saveSMAPCoeffs numStandardTasks
                (next_training_size ((iter0 : Int) + 1)) E)
              st)
          st)
      st).numbered) := by
  constructor
  · apply foldl_measure_add _ (fun s : LaunchState => s.futures.length)
    intro s iter0
    apply foldl_measure_add _ (fun s : LaunchState => s.futures.length)
    intro s E
    have := foldl_measure_add
      (launch_task_group_body E_actual opts topts libraries k crossfold explore
        saveFinalPredictions saveSMAPCoeffs numStandardTasks
        (next_training_size ((iter0 : Int) + 1)) E)
      (fun s : LaunchState => s.futures.length) 1
      (fun s l => (launch_task_group_body_spec E_actual opts topts libraries k crossfold
        explore saveFinalPredictions saveSMAPCoeffs numStandardTasks _ E s l).1)
      (List.range (max 1 libraries.length)) s
    simpa using this
  · apply foldl_preserves _ LaunchState.numbered
    intro s iter0
    apply foldl_preserves _ LaunchState.numbered
    intro s E
    apply foldl_preserves _ LaunchState.numbered
    intro s l
    exact (launch_task_group_body_spec E_actual opts topts libraries k crossfold
      explore saveFinalPredictions saveSMAPCoeffs numStandardTasks _ E s l).2

/-- Every call made by `launch_task_group` carries the `numTasks` of the argument `opts`:
the value computed into `sharedOpts` is not handed on. -/
theorem launch_task_group_numTasks {K : Type} (E_actual : Int → Int)
    (next_training_size : Int → Int) (opts : Options K) (topts : TaskOptions)
    (Es libraries : List Int) (k numReps crossfold : Int)
    (explore saveFinalPredictions saveSMAPCoeffs copredictMode : Bool) (junkE junkK : Int) :
    ∀ a ∈ launch_task_group E_actual next_training_size opts topts Es libraries k numReps
        crossfold explore saveFinalPredictions saveSMAPCoeffs copredictMode junkE junkK,
      a.opts.numTasks = topts.numTasks := by
  have hloops : ∀ (reps : List Nat) (numStandardTasks : Int) (st : LaunchState),
      (∀ a ∈ st.futures, a.opts.numTasks = topts.numTasks) →
      ∀ a ∈ (reps.foldl
        (fun st (iter0 : Nat) =>
          Es.foldl
            (fun st E =>
              (List.range (max 1 libraries.length)).foldl
                (launch_task_group_body E_actual opts topts libraries k crossfold explore
                  saveFinalPredictions saveSMAPCoeffs numStandardTasks
                  (next_training_size ((iter0 : Int) + 1)) E)
                st)
            st)
        st).futures, a.opts.numTasks = topts.numTasks := by
    intro reps numStandardTasks st hst
    revert st
    intro st hst
    refine foldl_preserves _
      (fun s : LaunchState => ∀ a ∈ s.futures, a.opts.numTasks = topts.numTasks) ?_ reps st hst
    intro s iter0
    apply foldl_preserves _
      (fun s : LaunchState => ∀ a ∈ s.futures, a.opts.numTasks = topts.numTasks)
    intro s E
    apply foldl_preserves _
      (fun s : LaunchState => ∀ a ∈ s.futures, a.opts.numTasks = topts.numTasks)
    intro s l hs a ha
    unfold launch_task_group_body at ha
    simp only [List.mem_append, List.mem_singleton] at ha
    rcases ha with ha | rfl
    · exact hs a ha
    · rfl
  intro a ha
  unfold launch_task_group at ha
  simp only at ha
  have h0 := hloops (List.range numReps.toNat)
    (numReps * (Es.length : Int) * (if explore = true then 1 else (libraries.length : Int)))
    { taskNum := 0, E := junkE, kAdj := junkK, futures := [] } (by simp)
  cases copredictMode with
  | true =>
    simp only [if_true, List.mem_append, List.mem_singleton] at ha
    rcases ha with ha | rfl
    · exact h0 a ha
    · rfl
  | false =>
    simp only [Bool.false_eq_true, if_false] at ha
    exact h0 a ha

/-- C39 (counterexample): one repetition, `Es = [2]`, `libraries = [10, 20]`, no
coprediction, and options that declare `numTasks = 7`.  In xmap mode two tasks are
launched, as the formula says, but both carry `numTasks = 7`, not `2`: the calls receive
`opts`, not the local `sharedOpts` that was given the number of tasks.  In explore mode
the library loop runs once per entry of `libraries` all the same: two tasks are
launched, where the formula gives `1`. -/
theorem launch_task_group_numTasks_not_set :
    (launch_task_group (fun E => E + 1) (fun _ => 10) (exOpts false 0 0) exTaskOpts7 [2]
      [10, 20] 0 1 0 false false false false 0 0).map (fun a => a.opts.numTasks) = [7, 7] ∧
    (launch_task_group (fun E => E + 1) (fun _ => 10) (exOpts false 0 0) exTaskOpts7 [2]
      [10, 20] 0 1 0 true false false false 0 0).map (fun a => a.taskNum) = [0, 1] ∧
    (1 : Int) * (([2] : List Int).length : Int) * (if true = true then 1 else 2) + 0 = 1 := by
  refine ⟨by decide, by decide, by decide⟩

/-- C39 (amended): for `numReps ≥ 0` and a list `libraries` that has at most one entry in
explore mode and at least one entry otherwise, `launch_task_group` launches
`numReps * |Es| * (explore ? 1 : |libraries|) + (copredictMode ? 1 : 0)` tasks, and the
task launched in place `j` carries the task number `j`. -/
theorem launch_task_group_count {K : Type} (E_actual : Int → Int)
    (next_training_size : Int → Int) (opts : Options K) (topts : TaskOptions)
    (Es libraries : List Int) (k numReps crossfold : Int)
    (explore saveFinalPredictions saveSMAPCoeffs copredictMode : Bool) (junkE junkK : Int)
    (hreps : 0 ≤ numReps) (hexplore : explore = true → libraries.length ≤ 1)
    (hxmap : explore = false → 1 ≤ libraries.length) :
    ((launch_task_group E_actual next_training_size opts topts Es libraries k numReps
        crossfold explore saveFinalPredictions saveSMAPCoeffs copredictMode junkE
        junkK).length : Int) =
      numReps * (Es.length : Int) * (if explore = true then 1 else (libraries.length : Int)) +
        (if copredictMode = true then 1 else 0) ∧
    ∀ j a, (launch_task_group E_actual next_training_size opts topts Es libraries k numReps
        crossfold explore saveFinalPredictions saveSMAPCoeffs copredictMode junkE
        junkK).get? j = some a → a.taskNum = (j : Int) := by
  obtain ⟨hlen, hnum⟩ := launch_task_group_loops E_actual next_training_size opts topts Es
    libraries k crossfold explore saveFinalPredictions saveSMAPCoeffs
    (numReps * (Es.length : Int) * (if explore = true then 1 else (libraries.length : Int)))
    (List.range numReps.toNat) { taskNum := 0, E := junkE, kAdj := junkK, futures := [] }
  have hnum2 := hnum ⟨by simp, by intro j a h; simp at h⟩
  have hmax : max (1 : Int) (libraries.length : Int) =
      (if explore = true then 1 else (libraries.length : Int)) := by
    cases explore with
    | true =>
      have := hexplore rfl
      simp only [if_true]
      omega
    | false =>
      have := hxmap rfl
      simp only [Bool.false_eq_true, if_false]
      omega
  have hcount : ((List.foldl
      (fun st (iter0 : Nat) =>
        Es.foldl
          (fun st E =>
            (List.range (max 1 libraries.length)).foldl
              (launch_task_group_body E_actual opts topts libraries k crossfold explore
                saveFinalPredictions saveSMAPCoeffs
                (numReps * (Es.length : Int) *
                  (if explore = true then 1 else (libraries.length : Int)))
                (next_training_size ((iter0 : Int) + 1)) E)
              st)
          st)
      ({ taskNum := 0, E := junkE, kAdj := junkK, futures := [] } : LaunchState)
      (List.range numReps.toNat)).futures.length : Int) =
      numReps * (Es.length : Int) *
        (if explore = true then 1 else (libraries.length : Int)) := by
    rw [hlen]
    simp only [List.length_nil, List.length_range, Nat.zero_add, Nat.mul_one]
    push_cast
    rw [hmax, Int.toNat_of_nonneg hreps, mul_assoc]
  unfold launch_task_group
  simp only
  cases copredictMode with
  | true =>
    simp only [if_true]
    constructor
    · rw [List.length_append, List.length_singleton]
      push_cast
      rw [hcount]
    · exact (numbered_push _ hnum2 _ 0 0 rfl).2
  | false =>
    simp only [Bool.false_eq_true, if_false]
    exact ⟨by rw [hcount]; ring, hnum2.2⟩

/-- Witness for C39 (amended): two repetitions over `Es = [2, 3]` in xmap mode with two
libraries and a coprediction task: `2 * 2 * 2 + 1 = 9` tasks. -/
theorem launch_task_group_count_witness :
    ((launch_task_group (fun E => E + 1) (fun _ => 10) (exOpts false 0 0) exTaskOpts7 [2, 3]
        [10, 20] 0 2 0 false false false true 0 0).length : Int) = 9 ∧
    (launch_task_group (fun E => E + 1) (fun _ => 10) (exOpts false 0 0) exTaskOpts7 [2, 3]
        [10, 20] 0 2 0 false false false true 0 0).map (fun a => a.taskNum) =
      [0, 1, 2, 3, 4, 5, 6, 7, 8] ∧
    ((launch_task_group (fun E => E + 1) (fun _ => 10) (exOpts false 0 0) exTaskOpts7 [2, 3]
        [10, 20] 0 2 0 false false false true 0 0).length : Int) =
      2 * (([2, 3] : List Int).length : Int) *
        (if false = true then 1 else (([10, 20] : List Int).length : Int)) +
        (if true = true then 1 else 0) :=
  ⟨by decide, by decide,
    (launch_task_group_count (fun E => E + 1) (fun _ => 10) (exOpts false 0 0) exTaskOpts7
      [2, 3] [10, 20] 0 2 0 false false false true 0 0 (by decide) (by decide)
      (by decide)).1⟩

end LaunchGroup

/-! ## Simplex predictor: the prediction is a weighted mean -/

section SimplexConvex

variable {K : Type} [LinearOrderedField K]

/-- C40 (counterexample): two neighbours at the distances `1` and `2` with the targets
`10` and `20`, and `theta = 1000`.  Both weights `exp(-1000)` and `exp(-2000)` underflow
to `0`: they are not strictly positive, their sum is `0`, and the value stored,
`10 * (0 / 0) + 20 * (0 / 0)`, does not lie between `10` and `20` (the quotient `0 / 0` is
NaN in double arithmetic and `0` in a field). -/
theorem simplex_prediction_underflow :
    simplex_weight exExpUnderflow 1000 [1, 2] 0 = 0 ∧
    simplex_weight exExpUnderflow 1000 [1, 2] 1 = 0 ∧
    exM.y 0 = 10 ∧ exM.y 1 = 20 ∧
    ¬ (10 ≤ (simplex_prediction exExpUnderflow 0 0 (exOptsTheta 1000) exM [1, 2] [0, 1]
          exOut).ystar 0 0 ∧
        (simplex_prediction exExpUnderflow 0 0 (exOptsTheta 1000) exM [1, 2] [0, 1]
          exOut).ystar 0 0 ≤ 20) := by
  have hw0 : simplex_weight exExpUnderflow 1000 [1, 2] 0 = 0 := by
    simp [simplex_weight, min_element, exExpUnderflow]
    norm_num
  have hw1 : simplex_weight exExpUnderflow 1000 [1, 2] 1 = 0 := by
    simp [simplex_weight, min_element, exExpUnderflow]
    norm_num
  refine ⟨hw0, hw1, by simp [exM], by simp [exM], ?_⟩
  rw [simplex_prediction_ystar]
  have hth : (exOptsTheta 1000).thetas.getD 0 0 = 1000 := rfl
  have h2 : ([0, 1] : List Nat).length = 2 := rfl
  rw [hth, h2]
  simp only [Finset.sum_range_succ, Finset.sum_range_zero, hw0, hw1]
  norm_num

/-- C40 (amended): for every `theta` and every non-empty neighbour list with strictly
positive distances for which no weight `exp(-theta * d_j / minDist)` is zero (the
weights and their sum are elements of the field, so they are finite: `exp` has not
underflowed and nothing has overflowed), the prediction stored by `simplex_prediction`
is a convex combination of
the neighbours' targets: there are weights `c_j > 0` with sum `1` and the prediction is
`Σ_j c_j * y_j`.  So it lies between any lower and any upper bound of the targets, in
particular between the smallest and the largest one, and for `theta = 0` it is their
arithmetic mean (`exp` takes no negative value, and `exp 0 = 1` for the last part). -/
theorem simplex_prediction_convex (exp : K → K) (hexp : ∀ x, 0 ≤ exp x) (Mp_i t : Nat)
    (opts : Options K) (M : Manifold K) (dists : List K) (kNNInds : List Nat)
    (out : Buffers K) (hne : kNNInds ≠ []) (_hlen : dists.length = kNNInds.length)
    (_hpos : ∀ d ∈ dists, 0 < d)
    (hnz : ∀ j, j < kNNInds.length → simplex_weight exp (opts.thetas.getD t 0) dists j ≠ 0) :
    (∃ c : Nat → K, (∀ j, j < kNNInds.length → 0 < c j) ∧
      ∑ j in Finset.range kNNInds.length, c j = 1 ∧
      (simplex_prediction exp Mp_i t opts M dists kNNInds out).ystar t Mp_i =
        ∑ j in Finset.range kNNInds.length, c j * M.y (kNNInds.getD j 0)) ∧
    (∀ lo hi : K, (∀ j, j < kNNInds.length → lo ≤ M.y (kNNInds.getD j 0)) →
      (∀ j, j < kNNInds.length → M.y (kNNInds.getD j 0) ≤ hi) →
      lo ≤ (simplex_prediction exp Mp_i t opts M dists kNNInds out).ystar t Mp_i ∧
      (simplex_prediction exp Mp_i t opts M dists kNNInds out).ystar t Mp_i ≤ hi) ∧
    (exp 0 = 1 → opts.thetas.getD t 0 = 0 →
      (simplex_prediction exp Mp_i t opts M dists kNNInds out).ystar t Mp_i =
        (∑ j in Finset.range kNNInds.length, M.y (kNNInds.getD j 0)) /
          (kNNInds.length : K)) := by
  rw [simplex_prediction_ystar]
  have hk : 0 < kNNInds.length := List.length_pos.2 hne
  have hw : ∀ j, j < kNNInds.length →
      0 < simplex_weight exp (opts.thetas.getD t 0) dists j :=
    fun j hj => lt_of_le_of_ne (hexp _) (Ne.symm (hnz j hj))
  have hW : 0 < ∑ j in Finset.range kNNInds.length,
      simplex_weight exp (opts.thetas.getD t 0) dists j :=
    Finset.sum_pos (fun j hj => hw j (Finset.mem_range.1 hj)) ⟨0, Finset.mem_range.2 hk⟩
  refine ⟨⟨fun j => simplex_weight exp (opts.thetas.getD t 0) dists j /
      ∑ j in Finset.range kNNInds.length, simplex_weight exp (opts.thetas.getD t 0) dists j,
    fun j hj => div_pos (hw j hj) hW, ?_, ?_⟩, ?_, ?_⟩
  · rw [← Finset.sum_div, div_self (ne_of_gt hW)]
  · rw [Finset.sum_div]
    apply Finset.sum_congr rfl
    intro j _
    ring
  · intro lo hi hlo hhi
    constructor
    · rw [le_div_iff₀ hW, Finset.mul_sum]
      apply Finset.sum_le_sum
      intro j hj
      rw [mul_comm]
      exact mul_le_mul_of_nonneg_left (hlo j (Finset.mem_range.1 hj))
        (le_of_lt (hw j (Finset.mem_range.1 hj)))
    · rw [div_le_iff₀ hW, Finset.mul_sum]
      apply Finset.sum_le_sum
      intro j hj
      rw [mul_comm hi]
      exact mul_le_mul_of_nonneg_left (hhi j (Finset.mem_range.1 hj))
        (le_of_lt (hw j (Finset.mem_range.1 hj)))
  · intro h0 htheta
    have hw1 : ∀ j, simplex_weight exp (opts.thetas.getD t 0) dists j = 1 := by
      intro j
      unfold simplex_weight
      rw [htheta, neg_zero, zero_mul, h0]
    simp only [hw1, one_mul, Finset.sum_const, Finset.card_range, nsmul_eq_mul, mul_one]

theorem exExpUnderflow_nonneg (x : ℚ) : 0 ≤ exExpUnderflow x := by
  unfold exExpUnderflow
  split_ifs with h1 h2
  · exact le_refl 0
  · have : (0 : ℚ) < 1 - x := by linarith
    positivity
  · push_neg at h2
    linarith

/-- Witness for C40: two neighbours at distances `2` and `3` with targets `10` and `20`,
`theta = 1`; the weights are `1 / 2` and `2 / 5` and the prediction lies between `10`
and `20`. -/
theorem simplex_prediction_convex_witness :
    simplex_weight exExpUnderflow 1 [2, 3] 0 = 1 / 2 ∧
    simplex_weight exExpUnderflow 1 [2, 3] 1 = 2 / 5 ∧
    (10 : ℚ) ≤ (simplex_prediction exExpUnderflow 0 0 (exOptsTheta 1) exM [2, 3] [0, 1]
      exOut).ystar 0 0 ∧
    (simplex_prediction exExpUnderflow 0 0 (exOptsTheta 1) exM [2, 3] [0, 1] exOut).ystar 0 0
      ≤ 20 :=
  ⟨by simp [simplex_weight, min_element, exExpUnderflow]; norm_num,
    by simp [simplex_weight, min_element, exExpUnderflow]; norm_num,
    (simplex_prediction_convex exExpUnderflow exExpUnderflow_nonneg 0 0
      (exOptsTheta 1) exM [2, 3] [0, 1] exOut (by decide) rfl
      (by intro d hd; simp at hd; rcases hd with rfl | rfl <;> norm_num)
      (by
        intro j hj
        have hj2 : j < 2 := hj
        have hth : (exOptsTheta 1).thetas.getD 0 0 = 1 := rfl
        rw [hth]
        interval_cases j <;> simp [simplex_weight, min_element, exExpUnderflow] <;>
          norm_num)).2.1 10 20
      (by
        intro j hj
        have hj2 : j < 2 := hj
        interval_cases j <;> norm_num [exM])
      (by
        intro j hj
        have hj2 : j < 2 := hj
        interval_cases j <;> norm_num [exM])⟩

end SimplexConvex

end EDM
